import Mathlib

/-! # qm: a shallow embedding of the operator table, lexer, parser and evaluator

The definitions follow `src/qm/main.c` and `src/qm/tex.c` function by function and keep the
names of the C functions.

Conventions of the embedding:

* a byte is a `Nat`; a `u8 *` string is a `List Nat`, and reading at or past the end of the
  list yields the terminating NUL byte `0`;
* a `u8 *` that the C code tests against `NULL` is an `Option (List Nat)`;
* `u32` arithmetic that can wrap is written with an explicit `% 4294967296`;
* arrays of the two hash tables are functions from the slot index;
* arena allocation is not modelled: every arena block comes zero-filled from `calloc`, so a
  freshly allocated object is the all-zero object.
-/

namespace Qm

/-! ## Strings and hashing (`main.c`, lines 79-122) -/

/-- A nullable pointer to a NUL-terminated byte string. -/
abbrev cstring := Option (List Nat)

/-- The loop `while (*string++) length++` of `string_length`, on a non-null string. -/
def string_length_loop : List Nat → Nat
  | [] => 0
  | c :: cs => if c = 0 then 0 else string_length_loop cs + 1

/-- `string_length`: the number of bytes before the first NUL; `0` for the null pointer. -/
def string_length : cstring → Nat
  | none => 0
  | some s => string_length_loop s

/-- The loop of `string_equals` followed by its `return *a == *b`. -/
def string_equals_loop : List Nat → List Nat → Bool
  | [], [] => true
  | [], b :: _ => decide (0 = b)
  | a :: _, [] => decide (a = 0)
  | a :: as, b :: bs =>
    if a ≠ 0 ∧ b ≠ 0 ∧ a = b then string_equals_loop as bs else decide (a = b)

/-- `string_equals`: false when either pointer is null, else equality up to the first NUL. -/
def string_equals : cstring → cstring → Bool
  | none, _ => false
  | some _, none => false
  | some a, some b => string_equals_loop a b

/-- The loop `h = (h << 5) + h + *op++` of `hash`, in `u32` arithmetic. -/
def hash_loop : Nat → List Nat → Nat
  | h, [] => h
  | h, c :: cs => if c = 0 then h else hash_loop ((h * 32 + h + c) % 4294967296) cs

/-- `hash`: seed 5381, multiply by 33 and add the byte; the seed itself for the null pointer. -/
def hash : cstring → Nat
  | none => 5381
  | some s => hash_loop 5381 s

/-! ## Operator table (`main.c`, lines 163-259) -/

/-- `struct qm_operator_table`; `keys = none` is the null `keys` pointer of the zeroed table. -/
structure qm_operator_table where
  keys : Option (Nat → cstring)
  lbp : Nat → Int
  rbp : Nat → Int
  used : Nat
  size : Nat

/-- The zero-initialised table of `struct qm_parser parser = {0}`. -/
def qm_operator_table.zero : qm_operator_table :=
  { keys := none, lbp := fun _ => 0, rbp := fun _ => 0, used := 0, size := 0 }

/-- The key array seen through the `keys` pointer (all slots null while unallocated; the loops
never read it then, because `size` is zero). -/
def qm_operator_table.key (t : qm_operator_table) (i : Nat) : cstring :=
  match t.keys with
  | none => none
  | some k => k i

/-- The `u32` value `size - 1` used as the probe mask. -/
def probe_mask (size : Nat) : Nat := (size + 4294967295) % 4294967296

/-- The probe loop `while (size-- > 0)` of `operator_define`: `n` iterations remain and `i`
is the current slot. -/
def operator_define_loop (t : qm_operator_table) (op : List Nat) (lbp rbp : Int) (mask : Nat) :
    Nat → Nat → Bool × qm_operator_table
  | 0, _ => (false, t)
  | n + 1, i =>
    match t.key i with
    | none =>
      (true, { t with keys := some (Function.update t.key i (some op)),
                      lbp := Function.update t.lbp i lbp,
                      rbp := Function.update t.rbp i rbp })
    | some k =>
      if string_equals (some k) (some op) then (false, t)
      else operator_define_loop t op lbp rbp mask n ((i + 1) &&& mask)

/-- The lazy allocation at the head of `operator_define`. -/
def operator_table_init (t : qm_operator_table) : qm_operator_table :=
  match t.keys with
  | none => { keys := some (fun _ => none), lbp := fun _ => 0, rbp := fun _ => 0,
              used := 0, size := 1024 }
  | some _ => t

/-- `operator_define`; the result is `none` when `assert(op)` fails. -/
def operator_define (t : qm_operator_table) (op : cstring) (lbp rbp : Int) :
    Option (Bool × qm_operator_table) :=
  match op with
  | none => none
  | some s =>
    let t1 := operator_table_init t
    let mask := probe_mask t1.size
    some (operator_define_loop t1 s lbp rbp mask t1.size (hash (some s) &&& mask))

/-- The probe loop of `operator_find`. -/
def operator_find_loop (t : qm_operator_table) (op : List Nat) (mask : Nat) :
    Nat → Nat → Option (Int × Int)
  | 0, _ => none
  | n + 1, i =>
    if string_equals (t.key i) (some op) then some (t.lbp i, t.rbp i)
    else operator_find_loop t op mask n ((i + 1) &&& mask)

/-- `operator_find`: `some (lbp, rbp)` when it returns true (the two out-parameters), `none`
when it returns false and leaves them untouched. The argument is never null at a call site
(each passes a string just produced by `peek_identifier`), so `assert(op)` holds. -/
def operator_find (t : qm_operator_table) (op : List Nat) : Option (Int × Int) :=
  let mask := probe_mask t.size
  operator_find_loop t op mask t.size (hash (some op) &&& mask)

/-- `operator_find_prefix`: returns `(result, *rbp)` for an out-parameter holding `rbp0`. -/
def operator_find_prefix (t : qm_operator_table) (op : List Nat) (rbp0 : Int) : Bool × Int :=
  match operator_find t op with
  | some (l, r) => (decide (l = 0), r)
  | none => (false, rbp0)

/-- `operator_find_infix`: returns `(result, *lbp, *rbp)`. -/
def operator_find_infix (t : qm_operator_table) (op : List Nat) (lbp0 rbp0 : Int) :
    Bool × Int × Int :=
  match operator_find t op with
  | some (l, r) => (decide (l ≠ 0) && decide (r ≠ 0), l, r)
  | none => (false, lbp0, rbp0)

/-- `operator_find_postfix`: returns `(result, *lbp)`. -/
def operator_find_postfix (t : qm_operator_table) (op : List Nat) (lbp0 : Int) : Bool × Int :=
  match operator_find t op with
  | some (l, r) => (decide (r = 0), l)
  | none => (false, lbp0)

/-! ## Lexer (`main.c`, lines 261-408) -/

/-- `enum qm_token_type`, in declaration order (`QM_TOKEN_COUNT` is not a token). -/
inductive qm_token_type
  | INVALID | EOF | LPAREN | RPAREN | LBRACKET | RBRACKET | LBRACE | RBRACE | COMMA | NEWLINE
  | IDENTIFIER | NUMBER | STRING | RAW_STRING | VAR | FN | OP | OPR | OPP
  deriving DecidableEq, Repr

/-- The integer value of a token kind in `enum qm_token_type`. -/
def qm_token_type.code : qm_token_type → Nat
  | .INVALID => 0 | .EOF => 1 | .LPAREN => 2 | .RPAREN => 3 | .LBRACKET => 4 | .RBRACKET => 5
  | .LBRACE => 6 | .RBRACE => 7 | .COMMA => 8 | .NEWLINE => 9 | .IDENTIFIER => 10
  | .NUMBER => 11 | .STRING => 12 | .RAW_STRING => 13 | .VAR => 14 | .FN => 15 | .OP => 16
  | .OPR => 17 | .OPP => 18

/-- `struct qm_token`. -/
structure qm_token where
  type : qm_token_type
  start : Nat
  deriving DecidableEq, Repr

/-- `struct qm_buffer`: `data` holds the `size` bytes of the source; the byte at index `size`
(and any byte past the end of the list) reads as NUL. -/
structure qm_buffer where
  data : List Nat
  size : Nat
  start : Nat
  deriving DecidableEq, Repr

/-- The byte `buffer->data[i]`. -/
def qm_buffer.byte (b : qm_buffer) (i : Nat) : Nat := b.data.getD i 0

/-- The `n` bytes `buffer->data[i .. i+n)`. -/
def qm_buffer.bytes (b : qm_buffer) (i n : Nat) : List Nat :=
  (List.range n).map (fun k => b.byte (i + k))

/-- `is_digit`. -/
def is_digit (c : Nat) : Bool := decide (48 ≤ c) && decide (c ≤ 57)

/-- `is_alpha`. -/
def is_alpha (c : Nat) : Bool :=
  (decide (97 ≤ c) && decide (c ≤ 122)) || (decide (65 ≤ c) && decide (c ≤ 90))

/-- `is_whitespace`: space or tab. -/
def is_whitespace (c : Nat) : Bool := decide (c = 32) || decide (c = 9)

/-- `is_separator`: the bytes `( [ { ) ] } , \n " backtick space tab`. -/
def is_separator (c : Nat) : Bool :=
  decide (c = 40) || decide (c = 91) || decide (c = 123) || decide (c = 41) || decide (c = 93)
    || decide (c = 125) || decide (c = 44) || decide (c = 10) || decide (c = 34)
    || decide (c = 96) || decide (c = 32) || decide (c = 9)

/-- The number of leading bytes that are not NUL and satisfy `p`: the iteration count of a
loop `while (*at && p(*at)) at++` over the bytes from `at`. -/
def run_length (p : Nat → Bool) : List Nat → Nat
  | [] => 0
  | c :: cs => if c ≠ 0 ∧ p c = true then run_length p cs + 1 else 0

/-- `token_length`. Each `do { length++; at++; } while (*at && ...)` loop runs once and then
for as long as the following bytes satisfy the condition. The two `assert`s on the first byte
hold at every call, since `tokenize` chose the kind from that byte. -/
def token_length (token : qm_token) (buffer : qm_buffer) : Nat :=
  let rest := buffer.data.drop (token.start + 1)
  match token.type with
  | .STRING => 1 + run_length (fun c => decide (c ≠ 34)) rest + 1
  | .RAW_STRING => 1 + run_length (fun c => decide (c ≠ 96)) rest + 1
  | .IDENTIFIER =>
    if is_alpha (buffer.byte token.start) || decide (buffer.byte token.start = 95) then
      1 + run_length (fun c => is_digit c || is_alpha c || decide (c = 95)) rest
    else
      1 + run_length (fun c => !is_digit c && !is_alpha c && !is_separator c) rest
  | .NUMBER => 1 + run_length is_digit rest
  | .LPAREN | .RPAREN | .LBRACKET | .RBRACKET | .LBRACE | .RBRACE | .COMMA | .NEWLINE => 1
  | _ => 0

/-- The `switch (*at)` of `tokenize`. -/
def token_kind (c : Nat) : qm_token_type :=
  if c = 40 then .LPAREN else if c = 91 then .LBRACKET else if c = 123 then .LBRACE
  else if c = 41 then .RPAREN else if c = 93 then .RBRACKET else if c = 125 then .RBRACE
  else if c = 44 then .COMMA else if c = 10 then .NEWLINE else if c = 0 then .EOF
  else if c = 34 then .STRING else if c = 96 then .RAW_STRING
  else if is_digit c then .NUMBER else .IDENTIFIER

/-- The keyword reclassification at the end of `tokenize` (the `memcmp` chain). -/
def keyword_kind (type : qm_token_type) (length : Nat) (text : List Nat) : qm_token_type :=
  if length = 2 then
    if text = [111, 112] then .OP else if text = [102, 110] then .FN else type
  else if length = 3 then
    if text = [118, 97, 114] then .VAR else if text = [111, 112, 114] then .OPR
    else if text = [111, 112, 112] then .OPP else type
  else type

/-- `tokenize`: returns its result, the advanced buffer and the token. -/
def tokenize (buffer : qm_buffer) : Bool × qm_buffer × qm_token :=
  let start := buffer.start + run_length is_whitespace (buffer.data.drop buffer.start)
  let buffer := { buffer with start := start }
  if start = buffer.size then (false, buffer, { type := .EOF, start := start })
  else
    let type := token_kind (buffer.byte start)
    let length := token_length { type := type, start := start } buffer
    let type := keyword_kind type length (buffer.bytes start length)
    (true, { buffer with start := start + length }, { type := type, start := start })

/-! ## Parser state and token helpers (`main.c`, lines 410-521) -/

/-- `struct qm_parser` (named `qm_parser_state` here), together with the number of diagnostics `parser_error` has printed to
standard error. -/
structure qm_parser_state where
  buffer : qm_buffer
  token : qm_token
  operators : qm_operator_table
  is_initialized : Bool
  result : Nat
  bp : Int
  diagnostics : Nat

/-- `parser_error`: sets `QM_ERR_INVALID_TOKEN` and prints one diagnostic. -/
def parser_error (p : qm_parser_state) : qm_parser_state :=
  { p with result := 1, diagnostics := p.diagnostics + 1 }

/-- The call `tokenize(&parser->buffer, &parser->token)`. -/
def qm_parser_state.advance (p : qm_parser_state) : qm_parser_state :=
  { p with buffer := (tokenize p.buffer).2.1, token := (tokenize p.buffer).2.2 }

/-- `accept`. -/
def accept (p : qm_parser_state) (type : qm_token_type) : Bool × qm_parser_state :=
  let p := if p.is_initialized then p else { p.advance with is_initialized := true }
  if p.result ≠ 0 ∨ p.token.type = type then (true, p.advance) else (false, p)

/-- `accept_identifier`. -/
def accept_identifier (p : qm_parser_state) (expected : cstring) : Bool × qm_parser_state :=
  if p.token.type = .IDENTIFIER then
    let found_length := token_length p.token p.buffer
    if string_length expected = found_length ∧
        (expected.getD []).take found_length = p.buffer.bytes p.token.start found_length then
      (true, (accept p .IDENTIFIER).2)
    else (false, p)
  else (false, p)

/-- `expect`. -/
def expect (p : qm_parser_state) (type : qm_token_type) : qm_parser_state :=
  match accept p type with
  | (true, p1) => p1
  | (false, p1) => parser_error p1

/-- `expect_identifier`. -/
def expect_identifier (p : qm_parser_state) (expected : cstring) : qm_parser_state :=
  match accept_identifier p expected with
  | (true, p1) => p1
  | (false, p1) => parser_error p1

/-- `peek_identifier`: `some` copy of the token text when the current token is an identifier
(the function returns true), `none` otherwise (it returns false, `*identifier` untouched). -/
def peek_identifier (p : qm_parser_state) : Option (List Nat) :=
  if p.token.type = .IDENTIFIER then
    some (p.buffer.bytes p.token.start (token_length p.token p.buffer))
  else none

/-! ## Syntax trees (`types.h`) -/

/-- `struct qm_expression` with its `type` tag; `NONE` is the zeroed expression
(`QM_EXPR_NONE`); the constructors are named after `enum qm_expression_type`. A matrix carries `width`, `height`, `delimiter` and its cells in row-major
order. Strings stored in an expression are never null: they come from a successful
`parse_identifier`, `parse_string` or `parse_raw_string`. -/
inductive qm_expression
  | NONE
  | MATRIX (width height delimiter : Nat) (expressions : List qm_expression)
  | CALL (callee arg : qm_expression)
  | VARIABLE (name : List Nat)
  | NUMBER (n : Int)
  | STRING (s : List Nat)
  | RAW_STRING (s : List Nat)

/-- `struct qm_definition`; `name` is its field `variable` and `parameter_count` is the
length of `parameters`. -/
structure qm_definition where
  name : cstring
  parameters : List cstring
  expression : qm_expression

/-- `struct qm_statement` with its `type` tag, named after `enum qm_statement_type`. -/
inductive qm_statement
  | NONE
  | EXPRESSION (e : qm_expression)
  | DEFINITION (d : qm_definition)

/-- The result of running a function that may stop the process: `abort` is a failed `assert`,
`fuel` is the model running out of its step budget. -/
inductive Outcome (α : Type)
  | ok (a : α)
  | abort
  | fuel

/-! ## Expression parser (`main.c`, lines 523-822) -/

/-- `parse_identifier`. -/
def parse_identifier (p : qm_parser_state) : Option (List Nat) × qm_parser_state :=
  match peek_identifier p with
  | some s => (some s, (accept p .IDENTIFIER).2)
  | none => (none, p)

/-- Signed 32-bit wrap-around of an integer (the value a two's complement machine leaves in
an `i32`; in C the overflow itself is undefined). -/
def wrap_i32 (n : Int) : Int := (n + 2147483648) % 4294967296 - 2147483648

/-- The loop `while (is_digit(*at)) { number *= 10; number += *at++ - '0'; }` of
`parse_number`. -/
def parse_number_loop : Int → List Nat → Int
  | number, [] => number
  | number, c :: cs =>
    if is_digit c then parse_number_loop (wrap_i32 (wrap_i32 (number * 10) + (c - 48))) cs
    else number

/-- `parse_number`. -/
def parse_number (p : qm_parser_state) : Option Int × qm_parser_state :=
  if p.token.type = .NUMBER then
    (some (parse_number_loop 0 (p.buffer.data.drop p.token.start)), (accept p .NUMBER).2)
  else (none, p)

/-- `parse_string`: the copy holds the `token_length` bytes of the token. -/
def parse_string (p : qm_parser_state) : Option (List Nat) × qm_parser_state :=
  if p.token.type = .STRING then
    (some (p.buffer.bytes p.token.start (token_length p.token p.buffer)), (accept p .STRING).2)
  else (none, p)

/-- `parse_raw_string`. -/
def parse_raw_string (p : qm_parser_state) : Option (List Nat) × qm_parser_state :=
  if p.token.type = .RAW_STRING then
    (some (p.buffer.bytes p.token.start (token_length p.token p.buffer)),
      (accept p .RAW_STRING).2)
  else (none, p)

/-- The three `accept` calls at the head of `parse_matrix`: the parser afterwards and, when
one of them succeeded, the recorded delimiter and the closing token. An opening brace records
`QM_TOKEN_LBRACKET`, as the source does. -/
def parse_matrix_open (p : qm_parser_state) : qm_parser_state × Option (Nat × qm_token_type) :=
  match accept p .LPAREN with
  | (true, p1) => (p1, some (qm_token_type.LPAREN.code, .RPAREN))
  | (false, p1) =>
    match accept p1 .LBRACKET with
    | (true, p2) => (p2, some (qm_token_type.LBRACKET.code, .RBRACKET))
    | (false, p2) =>
      match accept p2 .LBRACE with
      | (true, p3) => (p3, some (qm_token_type.LBRACKET.code, .RBRACE))
      | (false, p3) => (p3, none)

mutual

/-- The loop `while (parser->result == 0)` of `parse_matrix`; `cells` are the `width`
expressions parsed so far. -/
def parse_matrix_loop : Nat → qm_parser_state → List qm_expression →
    Option (qm_parser_state × List qm_expression)
  | 0, _, _ => none
  | k + 1, p, cells =>
    if p.result ≠ 0 then some (p, cells)
    else
      match parse_expression_ k p .NONE 0 with
      | none => none
      | some (false, p1, _) => some (parser_error p1, cells)
      | some (true, p1, e) =>
        match accept p1 .COMMA with
        | (true, p2) => parse_matrix_loop k p2 (cells ++ [e])
        | (false, p2) => some (p2, cells ++ [e])

/-- `parse_matrix`: on success the fields written to `*matrix`. -/
def parse_matrix : Nat → qm_parser_state →
    Option (qm_parser_state × Option (Nat × Nat × Nat × List qm_expression))
  | 0, _ => none
  | k + 1, p =>
    match parse_matrix_open p with
    | (p1, none) => some (p1, none)
    | (p1, some (delimiter, closing_delimiter)) =>
      match parse_matrix_loop k p1 [] with
      | none => none
      | some (p2, cells) =>
        some (expect p2 closing_delimiter, some (cells.length, 1, delimiter, cells))

/-- `parse_unary_expression`; `expression` is the content of the out-parameter before the
call, which a failing call can leave partly overwritten. -/
def parse_unary_expression : Nat → qm_parser_state → qm_expression →
    Option (Bool × qm_parser_state × qm_expression)
  | 0, _, _ => none
  | k + 1, p, expression =>
    match parse_matrix k p with
    | none => none
    | some (p1, some (width, height, delimiter, cells)) =>
      some (true, p1, .MATRIX width height delimiter cells)
    | some (p1, none) =>
      match parse_identifier p1 with
      | (some name, p2) =>
        let found := operator_find p2.operators name
        let lbp : Int := (found.getD (0, 0)).1
        let rbp : Int := (found.getD (0, 0)).2
        let is_operator := found.isSome
        let is_prefix_operator := decide (lbp = 0) && decide (rbp ≠ 0)
        if is_operator && is_prefix_operator then
          match parse_expression_ k p2 .NONE rbp with
          | none => none
          | some (true, p3, arg) => some (true, p3, .CALL (.VARIABLE name) arg)
          | some (false, p3, arg) =>
            some (true, parser_error p3, .CALL (.VARIABLE name) arg)
        else if is_operator then some (false, p2, .VARIABLE name)
        else some (true, p2, .VARIABLE name)
      | (none, p2) =>
        match parse_number p2 with
        | (some n, p3) => some (true, p3, .NUMBER n)
        | (none, p3) =>
          match parse_string p3 with
          | (some s, p4) => some (true, p4, .STRING s)
          | (none, p4) =>
            match parse_raw_string p4 with
            | (some s, p5) => some (true, p5, .RAW_STRING s)
            | (none, p5) => some (false, p5, expression)

/-- The loop `while (parser->result == 0)` of `parse_expression_`. -/
def parse_expression_loop : Nat → qm_parser_state → qm_expression → Int →
    Option (qm_parser_state × qm_expression)
  | 0, _, _, _ => none
  | k + 1, p, lhs, bp =>
    if p.result ≠ 0 then some (p, lhs)
    else
      let op := peek_identifier p
      let post := op.map (fun s => operator_find_postfix p.operators s 0)
      let inf := op.map (fun s => operator_find_infix p.operators s 0 0)
      match op, post, inf with
      | some s, some (true, lbp), _ =>
        if lbp < bp then some (p, lhs)
        else
          parse_expression_loop k (accept p .IDENTIFIER).2 (.CALL (.VARIABLE s) lhs) bp
      | some s, _, some (true, lbp, rbp) =>
        if lbp < bp then some (p, lhs)
        else
          match parse_expression_ k (accept p .IDENTIFIER).2 .NONE rbp with
          | none => none
          | some (ok, p2, rhs) =>
            parse_expression_loop k (if ok then p2 else parser_error p2)
              (.CALL (.VARIABLE s) (.MATRIX 2 1 0 [lhs, rhs])) bp
      | _, _, _ =>
        match parse_unary_expression k p .NONE with
        | none => none
        | some (true, p1, rhs) => parse_expression_loop k p1 (.CALL lhs rhs) bp
        | some (false, p1, _) => some (p1, lhs)

/-- `parse_expression_`; `lhs` is the content of the out-parameter before the call. -/
def parse_expression_ : Nat → qm_parser_state → qm_expression → Int →
    Option (Bool × qm_parser_state × qm_expression)
  | 0, _, _, _ => none
  | k + 1, p, lhs, bp =>
    match parse_unary_expression k p lhs with
    | none => none
    | some (false, p1, lhs1) => some (false, p1, lhs1)
    | some (true, p1, lhs1) =>
      match parse_expression_loop k p1 lhs1 bp with
      | none => none
      | some (p2, lhs2) => some (true, p2, lhs2)

end

/-- `parse_expression`: `parse_expression_` at minimum binding power 0. -/
def parse_expression (fuel : Nat) (p : qm_parser_state) (expression : qm_expression) :
    Option (Bool × qm_parser_state × qm_expression) :=
  parse_expression_ fuel p expression 0

/-! ## Statement parser (`main.c`, lines 824-994) -/

/-- The loop `while (parser->result == 0 && !accept(parser, QM_TOKEN_RPAREN))` of the `fn`
branch of `parse_definition`; a parameter that fails to parse leaves its zeroed slot null. -/
def parse_parameters_loop : Nat → qm_parser_state → List cstring →
    Option (qm_parser_state × List cstring)
  | 0, _, _ => none
  | k + 1, p, parameters =>
    if p.result ≠ 0 then some (p, parameters)
    else
      match accept p .RPAREN with
      | (true, p1) => some (p1, parameters)
      | (false, p1) =>
        let p3 :=
          match parse_identifier p1 with
          | (some s, p2) => (some s, p2)
          | (none, p2) => (none, parser_error p2)
        match accept p3.2 .COMMA with
        | (true, p4) => parse_parameters_loop k p4 (parameters ++ [p3.1])
        | (false, p4) => some (expect p4 .RPAREN, parameters ++ [p3.1])

/-- The shared tail of the `var` and `fn` branches: `expect_identifier("=")`, the body
expression and `expect(QM_TOKEN_NEWLINE)`. -/
def parse_definition_body (fuel : Nat) (p : qm_parser_state) (expression : qm_expression) :
    Option (qm_parser_state × qm_expression) :=
  match parse_expression fuel (expect_identifier p (some [61])) expression with
  | none => none
  | some (true, p1, e) => some (expect p1 .NEWLINE, e)
  | some (false, p1, e) => some (expect (parser_error p1) .NEWLINE, e)

/-- The bracketed precedence override of the generic operator form, entered after
`accept(parser, QM_TOKEN_LBRACKET)` succeeded: the parser afterwards and the pair
`(lbp, rbp)`, which keeps the keyword's default where nothing overwrites it. -/
def parse_override (p : qm_parser_state) (lbp rbp : Int) : qm_parser_state × Int × Int :=
  match parse_identifier p with
  | (some target_operator, p1) =>
    match operator_find p1.operators target_operator with
    | some (l, r) => (expect p1 .RBRACKET, l, r)
    | none => (expect (parser_error p1) .RBRACKET, lbp, rbp)
  | (none, p1) =>
    match parse_number p1 with
    | (some l, p2) =>
      match parse_number (expect p2 .COMMA) with
      | (some r, p3) => (expect p3 .RBRACKET, l, r)
      | (none, p3) => (expect (parser_error p3) .RBRACKET, l, rbp)
    | (none, p2) => (expect (parser_error p2) .RBRACKET, lbp, rbp)

/-- One `if (!parse_identifier(...)) parser_error(...)` step. -/
def parse_identifier_or_error (p : qm_parser_state) : Option (List Nat) × qm_parser_state :=
  match parse_identifier p with
  | (some s, p1) => (some s, p1)
  | (none, p1) => (none, parser_error p1)

/-- `parse_definition`; `definition` is the content of the out-parameter before the call.
The result is `abort` when `operator_define` is reached with a null operator name. -/
def parse_definition (fuel : Nat) (p : qm_parser_state) (definition : qm_definition) :
    Outcome (Bool × qm_parser_state × qm_definition) :=
  match accept p .VAR with
  | (true, p1) =>
    let id := parse_identifier_or_error p1
    match parse_definition_body fuel id.2 definition.expression with
    | none => .fuel
    | some (p2, e) =>
      .ok (true, p2, { name := id.1.orElse (fun _ => definition.name), parameters := [],
                       expression := e })
  | (false, p1) =>
    match accept p1 .FN with
    | (true, p2) =>
      let id := parse_identifier_or_error p2
      match parse_parameters_loop fuel (expect id.2 .LPAREN) [] with
      | none => .fuel
      | some (p3, parameters) =>
        match parse_definition_body fuel p3 definition.expression with
        | none => .fuel
        | some (p4, e) =>
          .ok (true, p4, { name := id.1.orElse (fun _ => definition.name),
                           parameters := parameters, expression := e })
    | (false, p2) =>
      match accept p2 .OPP with
      | (true, p3) =>
        let rbp := p3.bp + 1
        let id := parse_identifier_or_error { p3 with bp := p3.bp + 1 }
        let name := id.1.orElse (fun _ => definition.name)
        let parameter := parse_identifier_or_error id.2
        match parse_expression fuel (expect_identifier parameter.2 (some [61]))
            definition.expression with
        | none => .fuel
        | some (ok, p4, e) =>
          let p5 := if ok then p4 else parser_error p4
          match operator_define p5.operators name 0 rbp with
          | none => .abort
          | some (_, operators) =>
            .ok (true, expect { p5 with operators := operators } .NEWLINE,
              { name := name, parameters := [parameter.1], expression := e })
      | (false, p3) =>
        let bp := p3.bp + 1
        let p4 := { p3 with bp := p3.bp + 1 }
        let keyword : qm_parser_state × Option (Int × Int) :=
          match accept p4 .OP with
          | (true, p5) => (p5, some (bp, bp + 1))
          | (false, p5) =>
            match accept p5 .OPR with
            | (true, p6) => (p6, some (bp + 1, bp))
            | (false, p6) => (p6, none)
        match keyword with
        | (p5, none) => .ok (false, p5, definition)
        | (p5, some (lbp0, rbp0)) =>
          let override : qm_parser_state × Int × Int :=
            match accept p5 .LBRACKET with
            | (true, p6) => parse_override p6 lbp0 rbp0
            | (false, p6) => (p6, lbp0, rbp0)
          let parameter0 := parse_identifier_or_error override.1
          let operator := parse_identifier_or_error parameter0.2
          let parameter1 := parse_identifier_or_error operator.2
          match parse_expression fuel (expect_identifier parameter1.2 (some [61]))
              definition.expression with
          | none => .fuel
          | some (ok, p7, e) =>
            let p8 := expect (if ok then p7 else parser_error p7) .NEWLINE
            match operator_define p8.operators operator.1 override.2.1 override.2.2 with
            | none => .abort
            | some (_, operators) =>
              .ok (true, { p8 with operators := operators },
                { name := operator.1, parameters := [parameter0.1, parameter1.1],
                  expression := e })

/-- `parse_statement`; `stmt` is the statement object before the call. The members of its
union overlap in memory; the model hands the expression parser the previous expression and
the definition parser the previous definition (zeroed when the previous statement was of
another kind). These are only read back after a parse error. -/
def parse_statement (fuel : Nat) (p : qm_parser_state) (stmt : qm_statement) :
    Outcome (Bool × qm_parser_state × qm_statement) :=
  match accept p .NEWLINE with
  | (true, p1) => .ok (true, p1, .NONE)
  | (false, p1) =>
    let expression :=
      match stmt with
      | .EXPRESSION e => e
      | _ => .NONE
    match parse_expression fuel p1 expression with
    | none => .fuel
    | some (true, p2, e) => .ok (true, (accept p2 .NEWLINE).2, .EXPRESSION e)
    | some (false, p2, _) =>
      let definition :=
        match stmt with
        | .DEFINITION d => d
        | _ => { name := none, parameters := [], expression := .NONE }
      match parse_definition fuel p2 definition with
      | .fuel => .fuel
      | .abort => .abort
      | .ok (true, p3, d) => .ok (true, p3, .DEFINITION d)
      | .ok (false, p3, _) => .ok (false, p3, .NONE)

/-- The state in which `main` starts parsing a source text: the buffer is replaced and
`tokenize(&parser.buffer, &parser.token)` reads the first token (lines 1030-1035). -/
def qm_parser_state.load (p : qm_parser_state) (source : List Nat) : qm_parser_state :=
  qm_parser_state.advance { p with buffer := { data := source, size := source.length,
                                                start := 0 } }

/-! ## Values and environments (`tex.h`, `tex.c` lines 69-135) -/

/-- `struct tex_value` with its `type` tag, named after `enum tex_value_type`; `NONE` is the
zeroed value. A string value is the `size` bytes at `data`. -/
inductive tex_value
  | NONE
  | NUMBER (number : Int)
  | FUNCTION (parameters : List cstring) (expression : qm_expression)
  | MATRIX (width height delimiter : Nat) (values : List tex_value)
  | STRING (data : List Nat)
  | RAW_STRING (data : List Nat)

/-- The hash map of one `struct tex_environment`: its fields other than `parent`. -/
structure tex_table where
  keys : Nat → cstring
  values : Nat → tex_value
  used : Nat
  size : Nat

/-- The zeroed map of `struct tex_environment env = {0}`. -/
def tex_table.zero : tex_table :=
  { keys := fun _ => none, values := fun _ => .NONE, used := 0, size := 0 }

/-- `struct tex_environment`: `root` has a null `parent`. -/
inductive tex_environment
  | root (table : tex_table)
  | child (table : tex_table) (parent : tex_environment)

/-- The map of an environment. -/
def tex_environment.table : tex_environment → tex_table
  | .root t => t
  | .child t _ => t

/-- The environment with its map replaced. -/
def tex_environment.with_table : tex_environment → tex_table → tex_environment
  | .root _, t => .root t
  | .child _ parent, t => .child t parent

/-- The probe loop of `tex_env_find` over one map. -/
def tex_env_find_loop (t : tex_table) (name : cstring) (mask : Nat) :
    Nat → Nat → Option tex_value
  | 0, _ => none
  | n + 1, i =>
    if string_equals name (t.keys i) then some (t.values i)
    else tex_env_find_loop t name mask n ((i + 1) &&& mask)

/-- The lookup of `tex_env_find` in one map, before the parent is consulted. -/
def tex_table.find (t : tex_table) (name : cstring) : Option tex_value :=
  tex_env_find_loop t name (probe_mask t.size) t.size (hash name &&& probe_mask t.size)

/-- `tex_env_find`: `some` value when it returns true. -/
def tex_env_find : tex_environment → cstring → Option tex_value
  | _, none => none
  | .root t, some name => t.find (some name)
  | .child t parent, some name =>
    match t.find (some name) with
    | some v => some v
    | none => tex_env_find parent (some name)

/-- The probe loop of `tex_env_define`. -/
def tex_env_define_loop (t : tex_table) (name : cstring) (value : tex_value) (mask : Nat) :
    Nat → Nat → Bool × tex_table
  | 0, _ => (false, t)
  | n + 1, i =>
    if (t.keys i).isNone || string_equals name (t.keys i) then
      (true, { t with keys := Function.update t.keys i name,
                      values := Function.update t.values i value,
                      used := t.used + 1 })
    else tex_env_define_loop t name value mask n ((i + 1) &&& mask)

/-- `tex_env_define` on the map of the environment. -/
def tex_table.define (t : tex_table) (name : cstring) (value : tex_value) : Bool × tex_table :=
  let t1 : tex_table :=
    if t.size = 0 then { keys := fun _ => none, values := fun _ => .NONE, used := t.used,
                         size := 1024 }
    else t
  if t1.used = t1.size then (false, t1)
  else
    tex_env_define_loop t1 name value (probe_mask t1.size) t1.size
      (hash name &&& probe_mask t1.size)

/-- `tex_env_define`. -/
def tex_env_define (env : tex_environment) (name : cstring) (value : tex_value) :
    Bool × tex_environment :=
  ((env.table.define name value).1, env.with_table (env.table.define name value).2)

/-- `tex_builtin_unwrap`: strips 1x1 matrix wrappers. A 1x1 matrix always has its one cell;
for a cell list that is empty the model returns the matrix itself. -/
def tex_builtin_unwrap : tex_value → tex_value
  | .MATRIX width height delimiter values =>
    if width = 1 ∧ height = 1 then
      match values with
      | v :: _ => tex_builtin_unwrap v
      | [] => .MATRIX width height delimiter values
    else .MATRIX width height delimiter values
  | v => v

/-! ## Serializer (`tex.c`, lines 1-198)

The byte counters of the serializer (`total`, `count`, `buffer->start`, `buffer->size`) are
`u32` in the code and natural numbers here: the definitions describe the runs in which the
markup written stays below `2^32` bytes, where none of those counters wraps. -/

/-- `open_delimiters[is_matrix][delimiter]`; `none` is a null table entry. -/
def open_delimiters (is_matrix : Bool) (delimiter : Nat) : cstring :=
  if is_matrix then
    if delimiter = 2 then some [92, 98, 101, 103, 105, 110, 123, 112, 109, 97, 116, 114, 105,
      120, 125]
    else if delimiter = 4 then some [92, 98, 101, 103, 105, 110, 123, 98, 109, 97, 116, 114,
      105, 120, 125]
    else if delimiter = 6 then some [92, 98, 101, 103, 105, 110, 123, 109, 97, 116, 114, 105,
      120, 125]
    else none
  else
    if delimiter = 2 then some [40]
    else if delimiter = 4 then some [95, 123]
    else if delimiter = 6 then some [92, 123]
    else none

/-- `closing_delimiters[is_matrix][delimiter]`. -/
def closing_delimiters (is_matrix : Bool) (delimiter : Nat) : cstring :=
  if is_matrix then
    if delimiter = 2 then some [92, 101, 110, 100, 123, 112, 109, 97, 116, 114, 105, 120, 125]
    else if delimiter = 4 then some [92, 101, 110, 100, 123, 98, 109, 97, 116, 114, 105, 120,
      125]
    else if delimiter = 6 then some [92, 101, 110, 100, 123, 109, 97, 116, 114, 105, 120, 125]
    else none
  else
    if delimiter = 2 then some [41]
    else if delimiter = 4 then some [125]
    else if delimiter = 6 then some [92, 125]
    else none

/-- The store of `bytes` into `data` from index `start` on. -/
def store_bytes (data : List Nat) (start : Nat) (bytes : List Nat) : List Nat :=
  data.take start ++ bytes ++ data.drop (start + bytes.length)

/-- `buffer_writen`: the count returned and the buffer afterwards; a null buffer is `none`.
The loop copies `length` bytes or as many as fit below `size`. -/
def buffer_writen (buffer : Option qm_buffer) (string : List Nat) (length : Nat) :
    Nat × Option qm_buffer :=
  match buffer with
  | some b =>
    let count := min length (b.size - b.start)
    let bytes := (List.range count).map (fun k => string.getD k 0)
    (count, some { b with data := store_bytes b.data b.start bytes, start := b.start + count })
  | none => (length, none)

/-- `buffer_write`: `none` when `assert(string)` fails. The loop copies the bytes before the
NUL or as many as fit below `size`. -/
def buffer_write (buffer : Option qm_buffer) (string : cstring) :
    Option (Nat × Option qm_buffer) :=
  match string with
  | none => none
  | some s =>
    match buffer with
    | some _ => some (buffer_writen buffer s (string_length (some s)))
    | none => some (string_length (some s), none)

/-- The text `snprintf(number_str, 64, "%d", n)` produces. -/
def number_str (n : Int) : List Nat :=
  if n < 0 then 45 :: (Nat.repr n.natAbs).toList.map Char.toNat
  else (Nat.repr n.natAbs).toList.map Char.toNat

/-- One `total += buffer_write(output, string)` step on the running `(total, output)`. -/
def write_step (state : Nat × Option qm_buffer) (string : cstring) :
    Outcome (Nat × Option qm_buffer) :=
  match buffer_write state.2 string with
  | none => .abort
  | some (count, output) => .ok (state.1 + count, output)

mutual

/-- `tex_value_write`: the byte count returned and the output buffer afterwards; `abort` is a
failed `assert`. -/
def tex_value_write : tex_value → Option qm_buffer → Outcome (Nat × Option qm_buffer)
  | .FUNCTION _ _, output => write_step (0, output) (some [60, 102, 110, 62])
  | .STRING data, output =>
    match write_step (0, output) (some [92, 116, 101, 120, 116, 123]) with
    | .ok s1 =>
      write_step (s1.1 + (buffer_writen s1.2 data data.length).1,
        (buffer_writen s1.2 data data.length).2) (some [125])
    | r => r
  | .RAW_STRING data, output =>
    .ok ((buffer_writen output data data.length).1, (buffer_writen output data data.length).2)
  | .NUMBER n, output => write_step (0, output) (some (number_str n))
  | .MATRIX width height delimiter values, output =>
    if delimiter < 19 then
      match write_step (0, output) (open_delimiters (decide (height > 1)) delimiter) with
      | .ok s1 =>
        if width = 0 then
          match tex_value_write_breaks (height - 1) s1 with
          | .ok s2 => write_step s2 (closing_delimiters (decide (height > 1)) delimiter)
          | r => r
        else
          match tex_value_write_cells width height 0 values s1 with
          | .ok s2 => write_step s2 (closing_delimiters (decide (height > 1)) delimiter)
          | r => r
      | r => r
    else .abort
  | .NONE, _ => .abort

/-- The two nested `for` loops of the matrix case for `width > 0`, as one loop over the cell
index `k = i * width + j`: before the first cell of every row but the first comes the row
break, before every other cell of a row the cell delimiter when `height == 1`. A cell missing
from `values` reads as zeroed memory, on which `tex_value_write` aborts. -/
def tex_value_write_cells (width height : Nat) :
    Nat → List tex_value → Nat × Option qm_buffer → Outcome (Nat × Option qm_buffer)
  | k, [], state => if k < width * height then .abort else .ok state
  | k, v :: vs, state =>
    if k < width * height then
      let before : Outcome (Nat × Option qm_buffer) :=
        if k % width = 0 then
          if k / width ≠ 0 then write_step state (some [92, 10]) else .ok state
        else if height = 1 then write_step state (some [44, 32])
        else .ok state
      match before with
      | .ok s1 =>
        match tex_value_write v s1.2 with
        | .ok (count, output) => tex_value_write_cells width height (k + 1) vs (s1.1 + count, output)
        | r => r
      | r => r
    else .ok state

/-- The rows loop of the matrix case for `width == 0`: `n` row breaks and no cell. -/
def tex_value_write_breaks : Nat → Nat × Option qm_buffer → Outcome (Nat × Option qm_buffer)
  | 0, state => .ok state
  | n + 1, state =>
    match write_step state (some [92, 10]) with
    | .ok s1 => tex_value_write_breaks n s1
    | r => r

end

/-! ## Evaluator (`tex.c`, lines 200-347) -/

/-- The evaluator a recursive call goes through: expression, previous content of the
out-parameter `*value` (`none` for an uninitialised local), environment. -/
abbrev evaluator := qm_expression → Option tex_value → tex_environment → Outcome tex_value

/-- The loop `for (i = 0; i < parameter_count; i++) tex_env_define(&subenv, arena,
*parameters++, values++)` of `tex_eval_call`; a value missing from `values` reads as zeroed
memory. -/
def bind_parameters : tex_environment → List cstring → List tex_value → tex_environment
  | env, [], _ => env
  | env, name :: names, values =>
    bind_parameters (tex_env_define env name (values.headD .NONE)).2 names values.tail

/-- The `else` branch of `tex_eval_call` for a callee that is not a function: both values
are measured, then written into a buffer of that size. -/
def concat_values (callee arg : tex_value) : Outcome tex_value :=
  match tex_value_write callee none with
  | .ok (n1, _) =>
    match tex_value_write arg none with
    | .ok (n2, _) =>
      match tex_value_write callee
          (some { data := List.replicate (n1 + n2) 0, size := n1 + n2, start := 0 }) with
      | .ok (_, buffer1) =>
        match tex_value_write arg buffer1 with
        | .ok (_, buffer2) =>
          .ok (.RAW_STRING (((buffer2.map (fun b => b.data)).getD []).take (n1 + n2)))
        | .abort => .abort
        | .fuel => .fuel
      | .abort => .abort
      | .fuel => .fuel
    | .abort => .abort
    | .fuel => .fuel
  | .abort => .abort
  | .fuel => .fuel

/-- The function-call branch of `tex_eval_call`: the `assert` on the argument shape, the
child environment whose parent is the environment of the call, the parameter bindings and
the evaluation of the body into `*value`. -/
def apply_function (eval : evaluator) (parameters : List cstring) (expression : qm_expression)
    (arg : tex_value) (value : Option tex_value) (env : tex_environment) : Outcome tex_value :=
  let parameter_count := parameters.length
  let shape_ok : Bool :=
    match arg with
    | .MATRIX width height _ _ =>
      decide (parameter_count = 1) || (decide (width = parameter_count) && decide (height = 1))
    | _ => decide (parameter_count = 1)
  if shape_ok then
    let values : List tex_value :=
      if parameter_count ≠ 1 then
        match arg with
        | .MATRIX _ _ _ values => values
        | _ => []
      else [arg]
    eval expression value (bind_parameters (.child tex_table.zero env) parameters values)
  else .abort

/-- `tex_eval_call`, with the recursive calls of `tex_eval_expression` going through `eval`.
The locals `callee` and `arg` are uninitialised before they are evaluated into. -/
def tex_eval_call (eval : evaluator) (callee arg : qm_expression) (value : Option tex_value)
    (env : tex_environment) : Outcome tex_value :=
  let is_unwrap : Bool :=
    match callee with
    | .VARIABLE name =>
      string_equals (some name) (some [95, 95, 117, 110, 119, 114, 97, 112, 95, 95])
    | _ => false
  if is_unwrap then
    match eval arg none env with
    | .ok a => .ok (tex_builtin_unwrap a)
    | r => r
  else
    match eval callee none env with
    | .ok c =>
      match eval arg none env with
      | .ok a =>
        match c with
        | .FUNCTION parameters expression => apply_function eval parameters expression a value env
        | _ => concat_values c a
      | r => r
    | r => r

/-- The double loop of the matrix case of `tex_eval_expression`: the next `n` cells, each
evaluated into a zeroed slot; an expression missing from the list reads as zeroed memory. -/
def tex_eval_cells (eval : evaluator) (env : tex_environment) :
    Nat → List qm_expression → Outcome (List tex_value)
  | 0, _ => .ok []
  | n + 1, expressions =>
    match eval (expressions.headD .NONE) (some .NONE) env with
    | .ok v =>
      match tex_eval_cells eval env n expressions.tail with
      | .ok vs => .ok (v :: vs)
      | r => r
    | .abort => .abort
    | .fuel => .fuel

/-- `tex_eval_expression`; `value` is the content of `*value` before the call. An expression
of type `QM_EXPR_NONE` leaves `*value` as it was, and the closing `assert` then reads its
type: the model aborts when that content is uninitialised. A string shorter than its two
quotes makes `size` wrap; the model then takes what the string holds. -/
def tex_eval_expression : Nat → evaluator
  | 0, _, _, _ => .fuel
  | k + 1, expression, value, env =>
    match expression with
    | .MATRIX width height delimiter expressions =>
      match tex_eval_cells (tex_eval_expression k) env (width * height) expressions with
      | .ok values => .ok (.MATRIX width height delimiter values)
      | .abort => .abort
      | .fuel => .fuel
    | .CALL callee arg => tex_eval_call (tex_eval_expression k) callee arg value env
    | .STRING s =>
      .ok (.STRING ((s.drop 1).take ((string_length (some s) + 4294967294) % 4294967296)))
    | .RAW_STRING s =>
      .ok (.RAW_STRING ((s.drop 1).take ((string_length (some s) + 4294967294) % 4294967296)))
    | .VARIABLE name =>
      match tex_env_find env (some name) with
      | some v => .ok v
      | none => .ok (.RAW_STRING (name.take (string_length (some name))))
    | .NUMBER n => .ok (.NUMBER n)
    | .NONE =>
      match value with
      | some v => .ok v
      | none => .abort

/-- `tex_eval`: the size returned, the output buffer and the environment afterwards. -/
def tex_eval (fuel : Nat) (stmt : qm_statement) (output : Option qm_buffer)
    (env : tex_environment) : Outcome (Nat × Option qm_buffer × tex_environment) :=
  match stmt with
  | .EXPRESSION e =>
    match tex_eval_expression fuel e none env with
    | .ok v =>
      match tex_value_write v output with
      | .ok (size, output1) => .ok (size, output1, env)
      | .abort => .abort
      | .fuel => .fuel
    | .abort => .abort
    | .fuel => .fuel
  | .DEFINITION d =>
    if d.parameters.length ≠ 0 then
      .ok (0, output, (tex_env_define env d.name (.FUNCTION d.parameters d.expression)).2)
    else
      match tex_eval_expression fuel d.expression none env with
      | .ok v => .ok (0, output, (tex_env_define env d.name v).2)
      | .abort => .abort
      | .fuel => .fuel
  | .NONE => .ok (0, output, env)

/-- The body of the statement loop of `main` for a math block (lines 1040-1045): `tex_eval`
measures the output, a zeroed buffer of `size + 1` bytes is allocated, `tex_eval` runs again
to fill it, and the `size` bytes are handed to `pandoc_print_string`. Returns these bytes and
the environment afterwards. -/
def main_statement_output (fuel : Nat) (stmt : qm_statement) (env : tex_environment) :
    Outcome (List Nat × tex_environment) :=
  match tex_eval fuel stmt none env with
  | .ok (size, _, env1) =>
    match tex_eval fuel stmt
        (some { data := List.replicate (size + 1) 0, size := size, start := 0 }) env1 with
    | .ok (_, output, env2) => .ok (((output.map (fun b => b.data)).getD []).take size, env2)
    | .abort => .abort
    | .fuel => .fuel
  | .abort => .abort
  | .fuel => .fuel

/-! ## Specification vocabulary for the two hash tables -/

/-- The slot reached after `d` steps of the probe sequence `i, (i + 1) & mask, ...`. -/
def probe_slot (mask : Nat) : Nat → Nat → Nat
  | i, 0 => i
  | i, d + 1 => probe_slot mask ((i + 1) &&& mask) d

/-- The operator tables a program can reach: the zeroed table and every table produced from
a reachable one by an `operator_define` call. -/
inductive operator_table_built : qm_operator_table → Prop
  | zero : operator_table_built qm_operator_table.zero
  | define (t : qm_operator_table) (op : List Nat) (lbp rbp : Int) (b : Bool)
      (t1 : qm_operator_table) :
      operator_table_built t → operator_define t (some op) lbp rbp = some (b, t1) →
      operator_table_built t1

/-- The number of spellings a table holds: its occupied slots. -/
def operator_count (t : qm_operator_table) : Nat :=
  ((List.range t.size).filter (fun i => (t.key i).isSome)).length

/-- The bytes of a string before its first NUL. -/
def cstr (s : List Nat) : List Nat := s.takeWhile (fun c => decide (c ≠ 0))

/-- The shape every reachable operator table has: unallocated with `size` zero, or allocated
with 1024 slots in which no slot of the probe sequence from a key's hash to the key's slot is
empty. -/
def operator_table_inv (t : qm_operator_table) : Prop :=
  (t.keys = none ∧ t.size = 0) ∨
  (t.keys ≠ none ∧ t.size = 1024 ∧
    ∀ i k, t.key i = some k →
      ∃ d, d < 1024 ∧ probe_slot 1023 (hash (some k) &&& 1023) d = i ∧
        ∀ e, e < d → t.key (probe_slot 1023 (hash (some k) &&& 1023) e) ≠ none)

/-- The table with the triple `(op, lbp, rbp)` stored in slot `i`. -/
def qm_operator_table.store (t : qm_operator_table) (i : Nat) (op : List Nat) (lbp rbp : Int) :
    qm_operator_table :=
  { t with keys := some (Function.update t.key i (some op)),
           lbp := Function.update t.lbp i lbp,
           rbp := Function.update t.rbp i rbp }

/-- The table after `operator_define(t, op, lbp, rbp)` for a non-null `op`. -/
def qm_operator_table.define (t : qm_operator_table) (op : List Nat) (lbp rbp : Int) :
    qm_operator_table :=
  ((operator_define t (some op) lbp rbp).getD (false, t)).2

/-- The table `main` starts from: `operator_define(&parser.operators, &arena, "__unwrap__",
0, 100)` on the zeroed table (line 1019). -/
def main_operators : qm_operator_table :=
  qm_operator_table.zero.define [95, 95, 117, 110, 119, 114, 97, 112, 95, 95] 0 100

/-- The table of `main` after `+` and then `*` were given the pairs `(1, 2)` and `(2, 3)`. -/
def plus_times_operators : qm_operator_table :=
  (main_operators.define [43] 1 2).define [42] 2 3

/-! ## Specification vocabulary for source texts -/

/-- The text `s` is read by the lexer as exactly one token of kind `type`: `tokenize` on a
buffer holding `s` alone returns that token at offset 0 and consumes all of `s`. -/
def lexes_as (type : qm_token_type) (s : List Nat) : Bool :=
  decide (tokenize { data := s, size := s.length, start := 0 }
    = (true, { data := s, size := s.length, start := s.length }, { type := type, start := 0 }))

/-- What may follow a token in a source text without changing how the token lexes: the end
of the text or a separator byte. -/
def ends_token (post : List Nat) : Bool :=
  match post with
  | [] => true
  | c :: _ => is_separator c

/-- The parser state whose buffer holds `data`, with the current token of kind `type` at
offset `tstart` and the buffer position `tend` just past it. -/
def qm_parser_state.at_token (p : qm_parser_state) (data : List Nat) (type : qm_token_type)
    (tstart tend : Nat) : qm_parser_state :=
  { p with buffer := { data := data, size := data.length, start := tend },
           token := { type := type, start := tstart } }

/-- The source text `x o1 y o2 z`: five tokens separated by single spaces. -/
def infix_source (x o1 y o2 z : List Nat) : List Nat :=
  x ++ [32] ++ o1 ++ [32] ++ y ++ [32] ++ o2 ++ [32] ++ z

/-- The parts of the parser state that expression parsing never writes: the operator table,
the priority counter and the initialisation flag (once set). -/
def same_tables (p q : qm_parser_state) : Prop :=
  q.operators = p.operators ∧ q.bp = p.bp ∧ (p.is_initialized = true → q.is_initialized = true)

/-- The parser after `++parser->bp`. -/
def qm_parser_state.bump (p : qm_parser_state) : qm_parser_state :=
  { p with bp := p.bp + 1 }

/-- The parser `main` starts with (lines 1000-1019): zeroed, reading `source`, with
`__unwrap__` in the operator table. -/
def main_parser_state (source : List Nat) : qm_parser_state :=
  { buffer := { data := source, size := source.length, start := 0 },
    token := { type := .INVALID, start := 0 },
    operators := main_operators, is_initialized := false, result := 0, bp := 0,
    diagnostics := 0 }

/-- The parser after `n` rounds of the statement loop of `main`, stopping early when
`parse_statement` does not return true. -/
def parse_statements (fuel : Nat) : Nat → qm_parser_state → qm_parser_state
  | 0, p => p
  | n + 1, p =>
    match parse_statement fuel p .NONE with
    | .ok (true, p1, _) => parse_statements fuel n p1
    | _ => p

/-- The parser after the two-statement prelude `op a + b = a`, `op a * b = b`. -/
def plus_times_state : qm_parser_state :=
  parse_statements 16 2 (main_parser_state [111, 112, 32, 97, 32, 43, 32, 98, 32, 61, 32, 97, 10,
    111, 112, 32, 97, 32, 42, 32, 98, 32, 61, 32, 98, 10])

/-- The parser after the one-statement prelude `opr a ^ b = a`. -/
def power_state : qm_parser_state :=
  parse_statements 16 1 (main_parser_state [111, 112, 114, 32, 97, 32, 94, 32, 98, 32, 61, 32, 97,
    10])

/-- The parser about to read the statement `op a + b = a` of a prelude: initialised by the
first `accept` of `parse_statement`. -/
def plus_definition_state : qm_parser_state :=
  (accept (main_parser_state [111, 112, 32, 97, 32, 43, 32, 98, 32, 61, 32, 97, 10]) .NEWLINE).2

/-- The spelling `__unwrap__` of the builtin. -/
def unwrap_name : List Nat := [95, 95, 117, 110, 119, 114, 97, 112, 95, 95]

/-- The value of a digit string read as a decimal numeral. -/
def digits_value (d : List Nat) : Nat := d.foldl (fun acc c => acc * 10 + (c - 48)) 0

/-- The bytes of the canonical decimal representation of a natural number. -/
def decimal (n : Nat) : List Nat := (Nat.repr n).toList.map Char.toNat

/-- The evaluator `ev2` agrees with `ev1` wherever `ev1` does not run out of fuel. -/
def evaluator_extends (ev1 ev2 : evaluator) : Prop :=
  ∀ e v env, ev1 e v env ≠ .fuel → ev2 e v env = ev1 e v env

/-- The chain of maps of an environment, the local map first, the root last. -/
def tex_environment.chain : tex_environment → List tex_table
  | .root t => [t]
  | .child t parent => t :: parent.chain

/-- The map holds a key equal to `name` in one of its slots. -/
def tex_table.binds (t : tex_table) (name : List Nat) : Prop :=
  ∃ i, i < t.size ∧ string_equals (some name) (t.keys i) = true

/-- The two sizes a map can have: unallocated, or the 1024 slots `tex_env_define` allocates. -/
def tex_table.well_sized (t : tex_table) : Prop := t.size = 0 ∨ t.size = 1024

/-- The source text `f a`: two tokens separated by a single space. -/
def application_source (f a : List Nat) : List Nat := f ++ [32] ++ a

/-- The statement `fn f(x) = x` as `parse_statement` produces it. -/
def identity_definition (f x : List Nat) : qm_statement :=
  .DEFINITION { name := some f, parameters := [some x], expression := .VARIABLE x }

/-- The environment in which `x` is bound to 7 at the root and `y` to 1 in a child scope. -/
def nested_environment : tex_environment :=
  .child (tex_table.zero.define (some [121]) (.NUMBER 1)).2
    (.root (tex_table.zero.define (some [120]) (.NUMBER 7)).2)

/-- The root environment after `fn g(y) = x` and `fn f(x) = g 0`. -/
def scoping_environment : tex_environment :=
  (tex_env_define
    (tex_env_define (.root tex_table.zero) (some [103])
      (.FUNCTION [some [121]] (.VARIABLE [120]))).2
    (some [102]) (.FUNCTION [some [120]] (.CALL (.VARIABLE [103]) (.NUMBER 0)))).2

/-- The number of occupied slots of a map. -/
def tex_table.count (t : tex_table) : Nat :=
  ((List.range t.size).filter (fun i => (t.keys i).isSome)).length

/-- The allocated, empty map `tex_env_define` works on when it finds `size == 0`. -/
def tex_table.fresh : tex_table :=
  { keys := fun _ => none, values := fun _ => .NONE, used := 0, size := 1024 }

/-- The root environment after `fn f(a, b) = b`. -/
def pair_environment : tex_environment :=
  (tex_env_define (.root tex_table.zero) (some [102])
    (.FUNCTION [some [97], some [98]] (.VARIABLE [98]))).2

/-! ## Termination measure of the parser -/

/-- The bytes the lexer can still consume, plus one. -/
def qm_buffer.remaining (b : qm_buffer) : Nat := b.data.length + 1 - b.start

/-- The weight of a parser whose current token has been read: twice what the lexer can still
consume, plus one while the current token is not the end of the input. -/
def qm_parser_state.weight (p : qm_parser_state) : Nat :=
  2 * p.buffer.remaining + (if p.token.type = .EOF then 0 else 1)

/-- The termination measure of the expression parser: the weight once the first token has
been read, with one more unit for the lazy first `tokenize` of `accept`. -/
def qm_parser_state.measure (p : qm_parser_state) : Nat :=
  if p.is_initialized then p.weight else p.advance.weight + 1

/-- On every parser of measure at most `n`, `parse_matrix_loop` returns with `5 n + 6` units
of fuel, at a parser of no larger measure. -/
def parse_matrix_loop_returns (n : Nat) : Prop :=
  ∀ (p : qm_parser_state) (cells : List qm_expression) (fuel : Nat),
    p.measure ≤ n → 5 * n + 6 ≤ fuel →
    ∃ r, parse_matrix_loop fuel p cells = some r ∧ r.1.measure ≤ p.measure

/-- On every parser of measure at most `n`, `parse_matrix` returns with `5 n + 2` units of
fuel; a matrix parsed outside error mode has consumed its opening delimiter. -/
def parse_matrix_returns (n : Nat) : Prop :=
  ∀ (p : qm_parser_state) (fuel : Nat), p.measure ≤ n → 5 * n + 2 ≤ fuel →
    ∃ r, parse_matrix fuel p = some r ∧ r.1.measure ≤ p.measure ∧
      (r.2 ≠ none → p.result = 0 → r.1.measure < p.measure)

/-- On every parser of measure at most `n`, `parse_unary_expression` returns with `5 n + 3`
units of fuel; a success outside error mode has consumed a token. -/
def parse_unary_expression_returns (n : Nat) : Prop :=
  ∀ (p : qm_parser_state) (e : qm_expression) (fuel : Nat), p.measure ≤ n → 5 * n + 3 ≤ fuel →
    ∃ r, parse_unary_expression fuel p e = some r ∧ r.2.1.measure ≤ p.measure ∧
      (r.1 = true → p.result = 0 → r.2.1.measure < p.measure)

/-- On every parser of measure at most `n`, `parse_expression_loop` returns with `5 n + 4`
units of fuel. -/
def parse_expression_loop_returns (n : Nat) : Prop :=
  ∀ (p : qm_parser_state) (lhs : qm_expression) (bp : Int) (fuel : Nat),
    p.measure ≤ n → 5 * n + 4 ≤ fuel →
    ∃ r, parse_expression_loop fuel p lhs bp = some r ∧ r.1.measure ≤ p.measure

/-- On every parser of measure at most `n`, `parse_expression_` returns with `5 n + 5` units
of fuel; a success outside error mode has consumed a token. -/
def parse_expression_returns (n : Nat) : Prop :=
  ∀ (p : qm_parser_state) (lhs : qm_expression) (bp : Int) (fuel : Nat),
    p.measure ≤ n → 5 * n + 5 ≤ fuel →
    ∃ r, parse_expression_ fuel p lhs bp = some r ∧ r.2.1.measure ≤ p.measure ∧
      (r.1 = true → p.result = 0 → r.2.1.measure < p.measure)

/-! ## Specification vocabulary for the serializer -/

/-- The buffer after `s` was written at its write position. -/
def qm_buffer.append (b : qm_buffer) (s : List Nat) : qm_buffer :=
  { b with data := store_bytes b.data b.start s, start := b.start + s.length }

/-- The buffer holds `size` bytes of storage, of which `n` more are free. -/
def qm_buffer.has_room (b : qm_buffer) (n : Nat) : Prop :=
  b.start + n ≤ b.size ∧ b.size ≤ b.data.length

/-- The function `tex_value_write` serialises `v` as the bytes `s`: with no buffer it returns
their number, and into every buffer with room for them it appends exactly these bytes and
returns their number. -/
def emits (v : tex_value) (s : List Nat) : Prop :=
  ∀ output : Option qm_buffer, (∀ b, output = some b → b.has_room s.length) →
    tex_value_write v output = .ok (s.length, output.map (fun b => b.append s))

/-- What the matrix loops of `tex_value_write` write before the cell of index `k` (row
`k / width`, column `k % width`): the row break `\` newline before every row but the first,
and `, ` between the cells of a row when the matrix has one row. -/
def cell_separator (width height k : Nat) : List Nat :=
  if k % width = 0 then (if k / width ≠ 0 then [92, 10] else [])
  else if height = 1 then [44, 32]
  else []

mutual

/-- The markup of a value: what `tex_value_write` emits for it when no `assert` fails
(theorem `tex_value_write_bytes`). -/
def tex_value.bytes : tex_value → List Nat
  | .FUNCTION _ _ => [60, 102, 110, 62]
  | .STRING data => [92, 116, 101, 120, 116, 123] ++ data ++ [125]
  | .RAW_STRING data => data
  | .NUMBER n => number_str n
  | .MATRIX width height delimiter values =>
    (open_delimiters (decide (height > 1)) delimiter).getD []
      ++ (if width = 0 then (List.replicate (height - 1) [92, 10]).flatten
          else cells_bytes width height 0 values)
      ++ (closing_delimiters (decide (height > 1)) delimiter).getD []
  | .NONE => []

/-- The markup of the cells from index `k` on, each after its separator. -/
def cells_bytes (width height : Nat) : Nat → List tex_value → List Nat
  | _, [] => []
  | k, v :: vs =>
    if k < width * height then
      cell_separator width height k ++ v.bytes ++ cells_bytes width height (k + 1) vs
    else []

end

mutual

/-- A well-formed value: it is not the zeroed value, and each matrix in it has a paren,
bracket or brace delimiter kind and `width * height` well-formed cells. -/
def tex_value.well_formed : tex_value → Bool
  | .NONE => false
  | .MATRIX width height delimiter values =>
    (decide (delimiter = 2) || decide (delimiter = 4) || decide (delimiter = 6))
      && decide (values.length = width * height) && well_formed_cells values
  | _ => true

/-- Every value of the list is well-formed. -/
def well_formed_cells : List tex_value → Bool
  | [] => true
  | v :: vs => v.well_formed && well_formed_cells vs

end

mutual

/-- Every matrix of the value, at every depth, has its `width * height` cells. -/
def tex_value.complete : tex_value → Bool
  | .MATRIX width height _ values =>
    decide (values.length = width * height) && complete_cells values
  | _ => true

/-- Every value of the list is complete. -/
def complete_cells : List tex_value → Bool
  | [] => true
  | v :: vs => v.complete && complete_cells vs

end

/-- The value `v` inside nested 1x1 matrices, one for each delimiter of `delimiters`. -/
def nest_1x1 (delimiters : List Nat) (v : tex_value) : tex_value :=
  delimiters.foldr (fun d x => .MATRIX 1 1 d [x]) v

/-- The maps an environment can hold: the zeroed map and every map `tex_env_define` leaves
behind when called on a reachable one. -/
inductive tex_table_built : tex_table → Prop
  | zero : tex_table_built tex_table.zero
  | define (t : tex_table) (name : cstring) (value : tex_value) :
      tex_table_built t → tex_table_built (t.define name value).2

/-! ## Specification vocabulary for bracketed rows and statements -/

/-- The token kinds of the single-byte tokens `( ) [ ] { } ,` and newline. -/
def is_punctuation (type : qm_token_type) : Bool :=
  match type with
  | .LPAREN | .RPAREN | .LBRACKET | .RBRACKET | .LBRACE | .RBRACE | .COMMA | .NEWLINE => true
  | _ => false

/-- The token kinds at which no unary expression starts. -/
def starts_no_expression (type : qm_token_type) : Bool :=
  match type with
  | .LPAREN | .LBRACKET | .LBRACE | .IDENTIFIER | .NUMBER | .STRING | .RAW_STRING => false
  | _ => true

/-- The source text `[d1, ..., dN]`: the literals joined by a comma and a space, between
square brackets. -/
def row_source (literals : List (List Nat)) : List Nat :=
  [91] ++ [44, 32].intercalate literals ++ [93]

/-- The default pair `(lbp, rbp)` of a generic operator definition whose bumped counter is
`bp`: `(bp, bp + 1)` for `op` and `(bp + 1, bp)` for `opr` (`main.c`, lines 910-918). -/
def keyword_pair (right : Bool) (bp : Int) : Int × Int :=
  if right then (bp + 1, bp) else (bp, bp + 1)

/-- The parser about to read the statement `opp - x = x`. -/
def negate_definition_state : qm_parser_state :=
  (accept (main_parser_state [111, 112, 112, 32, 45, 32, 120, 32, 61, 32, 120, 10]) .NEWLINE).2

/-- The parser about to read the statement `opp neg = x`, which names no parameter. -/
def implicit_parameter_state : qm_parser_state :=
  (accept (main_parser_state [111, 112, 112, 32, 110, 101, 103, 32, 61, 32, 120, 10])
    .NEWLINE).2

/-- The parser about to read `opr [__unwrap__] a % b = a`. -/
def operator_override_state : qm_parser_state :=
  (accept (main_parser_state [111, 112, 114, 32, 91, 95, 95, 117, 110, 119, 114, 97, 112, 95,
    95, 93, 32, 97, 32, 37, 32, 98, 32, 61, 32, 97, 10]) .NEWLINE).2

/-- The parser about to read `op [5, 6] a % b = a`. -/
def number_override_state : qm_parser_state :=
  (accept (main_parser_state [111, 112, 32, 91, 53, 44, 32, 54, 93, 32, 97, 32, 37, 32, 98, 32,
    61, 32, 97, 10]) .NEWLINE).2

/-- The parser after the prelude `opr a ^ b = a`, `op a + b = a`. -/
def power_plus_state : qm_parser_state :=
  parse_statements 100 2 (main_parser_state [111, 112, 114, 32, 97, 32, 94, 32, 98, 32, 61, 32,
    97, 10, 111, 112, 32, 97, 32, 43, 32, 98, 32, 61, 32, 97, 10])
/-- The parser that `parse_definition` leaves behind; the parser it was given when the model
runs out of fuel or the code aborts. -/
def definition_state (fuel : Nat) (p : qm_parser_state) (definition : qm_definition) :
    qm_parser_state :=
  match parse_definition fuel p definition with
  | .ok r => r.2.1
  | _ => p

/-- The parser about to read `opr a ^ b = a`, with `op a + b = a` on the next line. -/
def power_plus_definition_state : qm_parser_state :=
  (accept (main_parser_state [111, 112, 114, 32, 97, 32, 94, 32, 98, 32, 61, 32,
    97, 10, 111, 112, 32, 97, 32, 43, 32, 98, 32, 61, 32, 97, 10]) .NEWLINE).2


/-! ## Specification vocabulary for the claims on roles, capacity and the lexer -/

/-- The parser after the one-statement prelude `op [0, 0] a % b = a`. -/
def zero_override_state : qm_parser_state :=
  parse_statements 100 1 (main_parser_state [111, 112, 32, 91, 48, 44, 32, 48, 93, 32, 97, 32,
    37, 32, 98, 32, 61, 32, 97, 10])

/-- The map after `n` calls of `tex_env_define` with the same name and value. -/
def tex_table.define_times (t : tex_table) (name : cstring) (value : tex_value) :
    Nat → tex_table
  | 0 => t
  | n + 1 => ((tex_table.define_times t name value n).define name value).2

/-- The map of an environment in which `x` has been defined 1024 times and no other name. -/
def rebound_table : tex_table :=
  tex_table.zero.define_times (some [120]) (.NUMBER 1) 1024

mutual

/-- A structural equality test on expressions, to compare the result of a parse with an
expected tree. -/
def qm_expression.same : qm_expression → qm_expression → Bool
  | .NONE, .NONE => true
  | .MATRIX w1 h1 d1 es1, .MATRIX w2 h2 d2 es2 =>
    decide (w1 = w2) && decide (h1 = h2) && decide (d1 = d2) && same_cells es1 es2
  | .CALL c1 a1, .CALL c2 a2 => qm_expression.same c1 c2 && qm_expression.same a1 a2
  | .VARIABLE n1, .VARIABLE n2 => decide (n1 = n2)
  | .NUMBER n1, .NUMBER n2 => decide (n1 = n2)
  | .STRING s1, .STRING s2 => decide (s1 = s2)
  | .RAW_STRING s1, .RAW_STRING s2 => decide (s1 = s2)
  | _, _ => false

/-- The test `qm_expression.same` on two lists of cells. -/
def same_cells : List qm_expression → List qm_expression → Bool
  | [], [] => true
  | e1 :: es1, e2 :: es2 => qm_expression.same e1 e2 && same_cells es1 es2
  | _, _ => false

end

/-- The parser about to read the expression `{1, 2}`. -/
def brace_literal_state : qm_parser_state :=
  (accept (main_parser_state [123, 49, 44, 32, 50, 125]) .NEWLINE).2

/-- The kind the specification gives a word: one of the five keywords, or an identifier. -/
def word_kind (word : List Nat) : qm_token_type :=
  if word = [118, 97, 114] then .VAR
  else if word = [102, 110] then .FN
  else if word = [111, 112] then .OP
  else if word = [111, 112, 114] then .OPR
  else if word = [111, 112, 112] then .OPP
  else .IDENTIFIER

/-- The ten separator bytes `( ) [ ] { } ,` newline, double quote and backtick, without the
space and the tab that `is_separator` also accepts. -/
def is_listed_separator (c : Nat) : Bool :=
  decide (c = 40) || decide (c = 41) || decide (c = 91) || decide (c = 93) || decide (c = 123)
    || decide (c = 125) || decide (c = 44) || decide (c = 10) || decide (c = 34)
    || decide (c = 96)

/-- The length of the longest run of leading bytes that are no digit, no letter and none of
the ten listed separator bytes. -/
def listed_symbol_run (data : List Nat) : Nat :=
  (data.takeWhile (fun c => !is_digit c && !is_alpha c && !is_listed_separator c)).length

/-- The error flag survives from the parser `p` to the parser `q`. -/
def keeps_error (p q : qm_parser_state) : Prop := p.result ≠ 0 → q.result ≠ 0

/-- The parser inside the statement `var 1 = 2`, after `var` has been accepted and the
missing name has been reported: the error flag is set and the current token is `1`. -/
def sticky_state : qm_parser_state :=
  (parse_identifier_or_error
    (accept (accept (main_parser_state [118, 97, 114, 32, 49, 32, 61, 32, 50, 10])
      .NEWLINE).2 .VAR).2).2

/-- The parser after the first round of the statement loop on the source of the two bytes
`(` and newline, a malformed statement. -/
def malformed_statement_state : qm_parser_state :=
  parse_statements 100 1 (main_parser_state [40, 10])

/-! ## Specification vocabulary for the claim on failed unary parsing -/

/-- What a call returned, when it returned. -/
def Outcome.result {α : Type} : Outcome α → Option α
  | .ok a => some a
  | _ => none

/-- The definition of a definition statement. -/
def qm_statement.as_definition : qm_statement → Option qm_definition
  | .DEFINITION d => some d
  | _ => none

/-- The parser after the first statement of the prelude `op a + b = a`, `+ var x = 1`: the
current token is the `+` that starts the second line. -/
def leading_operator_state : qm_parser_state :=
  parse_statements 100 1 (main_parser_state [111, 112, 32, 97, 32, 43, 32, 98, 32, 61, 32, 97,
    10, 43, 32, 118, 97, 114, 32, 120, 32, 61, 32, 49, 10])

/-! # Theorems -/

/-! ## Strings -/

theorem string_equals_loop_iff (a b : List Nat) :
    string_equals_loop a b = true ↔ cstr a = cstr b := by
  induction a generalizing b with
  | nil =>
    cases b with
    | nil => simp [string_equals_loop, cstr]
    | cons y ys =>
      by_cases hy : y = 0
      · simp [string_equals_loop, cstr, hy]
      · simp [string_equals_loop, cstr, hy, List.takeWhile_cons, Ne.symm hy]
  | cons x xs ih =>
    cases b with
    | nil =>
      by_cases hx : x = 0
      · simp [string_equals_loop, cstr, hx]
      · simp [string_equals_loop, cstr, hx, List.takeWhile_cons]
    | cons y ys =>
      by_cases hx : x = 0
      · by_cases hy : y = 0
        · simp [string_equals_loop, cstr, hx, hy]
        · simp [string_equals_loop, cstr, hx, hy, List.takeWhile_cons, Ne.symm hy]
      · by_cases hy : y = 0
        · simp [string_equals_loop, cstr, hx, hy, List.takeWhile_cons]
        · by_cases hxy : x = y
          · subst hxy
            have := ih ys
            simp [string_equals_loop, hx, List.takeWhile_cons, cstr] at this ⊢
            exact this
          · simp [string_equals_loop, cstr, hx, hy, hxy, List.takeWhile_cons]

theorem hash_loop_cstr (h : Nat) (s : List Nat) : hash_loop h s = hash_loop h (cstr s) := by
  induction s generalizing h with
  | nil => simp [cstr]
  | cons c cs ih =>
    by_cases hc : c = 0
    · simp [hash_loop, cstr, hc]
    · have := ih ((h * 32 + h + c) % 4294967296)
      simp only [cstr] at this
      simpa [hash_loop, cstr, hc, List.takeWhile_cons] using this

theorem hash_eq_of_cstr_eq {a b : List Nat} (h : cstr a = cstr b) :
    hash (some a) = hash (some b) := by
  simp only [hash]
  rw [hash_loop_cstr _ a, hash_loop_cstr _ b, h]

theorem string_equals_some_iff (a b : List Nat) :
    string_equals (some a) (some b) = true ↔ cstr a = cstr b := by
  simp [string_equals, string_equals_loop_iff]

theorem string_equals_refl (a : List Nat) : string_equals (some a) (some a) = true := by
  simp [string_equals_some_iff]

theorem string_equals_none_left (b : cstring) : string_equals none b = false := by
  simp [string_equals]

theorem string_equals_none_right (a : cstring) : string_equals a none = false := by
  cases a <;> simp [string_equals]

theorem string_equals_true_cases {a b : cstring} (h : string_equals a b = true) :
    ∃ x y, a = some x ∧ b = some y ∧ cstr x = cstr y := by
  cases a with
  | none => simp [string_equals] at h
  | some x =>
    cases b with
    | none => simp [string_equals] at h
    | some y => exact ⟨x, y, rfl, rfl, (string_equals_some_iff x y).1 h⟩

/-! ## Probe sequences -/

theorem land_1023 (x : Nat) : x &&& 1023 = x % 1024 := by
  have h := Nat.and_pow_two_sub_one_eq_mod x 10
  norm_num at h
  exact h

theorem probe_mask_1024 : probe_mask 1024 = 1023 := by decide

theorem probe_slot_eq (i d : Nat) (hi : i < 1024) : probe_slot 1023 i d = (i + d) % 1024 := by
  induction d generalizing i with
  | zero => simp [probe_slot]; omega
  | succ d ih =>
    simp only [probe_slot, land_1023]
    rw [ih _ (Nat.mod_lt _ (by decide))]
    omega

theorem probe_slot_cover (i j : Nat) (hi : i < 1024) (hj : j < 1024) :
    ∃ d, d < 1024 ∧ probe_slot 1023 i d = j := by
  refine ⟨(j + 1024 - i) % 1024, Nat.mod_lt _ (by decide), ?_⟩
  rw [probe_slot_eq _ _ hi]
  omega

theorem probe_slot_lt (i d : Nat) (hi : i < 1024) : probe_slot 1023 i d < 1024 := by
  rw [probe_slot_eq _ _ hi]
  exact Nat.mod_lt _ (by decide)

/-! ## The probe loops of the operator table -/

theorem operator_find_loop_none (t : qm_operator_table) (s : List Nat) (mask : Nat) :
    ∀ n i, (∀ d, d < n → string_equals (t.key (probe_slot mask i d)) (some s) = false) →
      operator_find_loop t s mask n i = none := by
  intro n
  induction n with
  | zero => intro i _; rfl
  | succ n ih =>
    intro i h
    have h0 := h 0 (Nat.succ_pos n)
    simp only [probe_slot] at h0
    simp only [operator_find_loop, h0]
    exact ih _ (fun d hd => by simpa [probe_slot] using h (d + 1) (Nat.succ_lt_succ hd))

theorem operator_find_loop_hit (t : qm_operator_table) (s : List Nat) (mask : Nat) :
    ∀ n i d, d < n → string_equals (t.key (probe_slot mask i d)) (some s) = true →
      (∀ e, e < d → string_equals (t.key (probe_slot mask i e)) (some s) = false) →
      operator_find_loop t s mask n i
        = some (t.lbp (probe_slot mask i d), t.rbp (probe_slot mask i d)) := by
  intro n
  induction n with
  | zero => intro i d hd; omega
  | succ n ih =>
    intro i d hd hm hb
    cases d with
    | zero =>
      simp only [probe_slot] at hm
      simp [operator_find_loop, hm, probe_slot]
    | succ d =>
      have h0 := hb 0 (Nat.succ_pos d)
      simp only [probe_slot] at h0
      simp only [operator_find_loop, h0, probe_slot]
      exact ih _ d (by omega) (by simpa [probe_slot] using hm)
        (fun e he => by simpa [probe_slot] using hb (e + 1) (Nat.succ_lt_succ he))

theorem operator_find_loop_some (t : qm_operator_table) (s : List Nat) (mask : Nat) :
    ∀ n i pr, operator_find_loop t s mask n i = some pr →
      ∃ d, d < n ∧ string_equals (t.key (probe_slot mask i d)) (some s) = true ∧
        pr = (t.lbp (probe_slot mask i d), t.rbp (probe_slot mask i d)) := by
  intro n
  induction n with
  | zero => intro i pr h; simp [operator_find_loop] at h
  | succ n ih =>
    intro i pr h
    by_cases hm : string_equals (t.key i) (some s) = true
    · simp only [operator_find_loop, hm, if_true] at h
      exact ⟨0, Nat.succ_pos n, by simpa [probe_slot] using hm, by simpa [probe_slot] using h.symm⟩
    · simp only [operator_find_loop, hm] at h
      obtain ⟨d, hd, h1, h2⟩ := ih _ pr h
      exact ⟨d + 1, Nat.succ_lt_succ hd, by simpa [probe_slot] using h1,
        by simpa [probe_slot] using h2⟩

theorem operator_find_loop_none_elim (t : qm_operator_table) (s : List Nat) (mask : Nat) :
    ∀ n i, operator_find_loop t s mask n i = none →
      ∀ d, d < n → string_equals (t.key (probe_slot mask i d)) (some s) = false := by
  intro n
  induction n with
  | zero => intro i _ d hd; omega
  | succ n ih =>
    intro i h d hd
    by_cases hm : string_equals (t.key i) (some s) = true
    · simp [operator_find_loop, hm] at h
    · simp only [operator_find_loop, hm] at h
      cases d with
      | zero => simpa [probe_slot] using hm
      | succ d => simpa [probe_slot] using ih _ h d (by omega)

/-- The table after a successful insertion at slot `i`. -/
theorem operator_define_loop_false (t : qm_operator_table) (s : List Nat) (l r : Int)
    (mask : Nat) :
    ∀ n i d, d < n → string_equals (t.key (probe_slot mask i d)) (some s) = true →
      (∀ e, e < d → t.key (probe_slot mask i e) ≠ none) →
      operator_define_loop t s l r mask n i = (false, t) := by
  intro n
  induction n with
  | zero => intro i d hd; omega
  | succ n ih =>
    intro i d hd hm hb
    cases d with
    | zero =>
      simp only [probe_slot] at hm
      obtain ⟨x, y, hx, _, _⟩ := string_equals_true_cases hm
      simp only [operator_define_loop, hx]
      rw [hx] at hm
      simp [hm]
    | succ d =>
      have h0 := hb 0 (Nat.succ_pos d)
      simp only [probe_slot] at h0
      obtain ⟨k, hk⟩ := Option.ne_none_iff_exists'.1 h0
      simp only [operator_define_loop, hk]
      by_cases hm0 : string_equals (some k) (some s) = true
      · simp [hm0]
      · simp only [hm0]
        exact ih _ d (by omega) (by simpa [probe_slot] using hm)
          (fun e he => by simpa [probe_slot] using hb (e + 1) (Nat.succ_lt_succ he))

theorem operator_define_loop_true (t : qm_operator_table) (s : List Nat) (l r : Int)
    (mask : Nat) :
    ∀ n i d, d < n → t.key (probe_slot mask i d) = none →
      (∀ e, e < d → t.key (probe_slot mask i e) ≠ none ∧
        string_equals (t.key (probe_slot mask i e)) (some s) = false) →
      operator_define_loop t s l r mask n i
        = (true, { t with keys := some (Function.update t.key (probe_slot mask i d) (some s)),
                          lbp := Function.update t.lbp (probe_slot mask i d) l,
                          rbp := Function.update t.rbp (probe_slot mask i d) r }) := by
  intro n
  induction n with
  | zero => intro i d hd; omega
  | succ n ih =>
    intro i d hd hm hb
    cases d with
    | zero =>
      simp only [probe_slot] at hm
      simp [operator_define_loop, hm, probe_slot]
    | succ d =>
      have h0 := hb 0 (Nat.succ_pos d)
      simp only [probe_slot] at h0
      obtain ⟨k, hk⟩ := Option.ne_none_iff_exists'.1 h0.1
      have h1 := h0.2
      rw [hk] at h1
      simp only [operator_define_loop, hk, h1, probe_slot]
      exact ih _ d (by omega) (by simpa [probe_slot] using hm)
        (fun e he => by simpa [probe_slot] using hb (e + 1) (Nat.succ_lt_succ he))

/-- Every run of the define loop either leaves the table alone or fills the first empty slot
of the probe sequence. -/
theorem operator_define_loop_cases (t : qm_operator_table) (s : List Nat) (l r : Int)
    (mask : Nat) :
    ∀ n i, operator_define_loop t s l r mask n i = (false, t) ∨
      ∃ d, d < n ∧ t.key (probe_slot mask i d) = none ∧
        (∀ e, e < d → t.key (probe_slot mask i e) ≠ none) ∧
        operator_define_loop t s l r mask n i
          = (true, { t with keys := some (Function.update t.key (probe_slot mask i d) (some s)),
                            lbp := Function.update t.lbp (probe_slot mask i d) l,
                            rbp := Function.update t.rbp (probe_slot mask i d) r }) := by
  intro n
  induction n with
  | zero => intro i; left; rfl
  | succ n ih =>
    intro i
    cases hk : t.key i with
    | none =>
      right
      exact ⟨0, Nat.succ_pos n, by simpa [probe_slot] using hk, by intro e he; omega,
        by simp [operator_define_loop, hk, probe_slot]⟩
    | some k =>
      by_cases hm0 : string_equals (some k) (some s) = true
      · left; simp [operator_define_loop, hk, hm0]
      · rcases ih ((i + 1) &&& mask) with h | ⟨d, hd, h1, h2, h3⟩
        · left; simp [operator_define_loop, hk, hm0, h]
        · right
          refine ⟨d + 1, Nat.succ_lt_succ hd, by simpa [probe_slot] using h1, ?_, ?_⟩
          · intro e he
            cases e with
            | zero => simp [probe_slot, hk]
            | succ e => simpa [probe_slot] using h2 e (by omega)
          · simp only [operator_define_loop, hk, hm0, probe_slot]
            exact h3

/-! ## Reachable operator tables -/

theorem store_key (t : qm_operator_table) (j : Nat) (s : List Nat) (l r : Int) (x : Nat) :
    (t.store j s l r).key x = if x = j then some s else t.key x := by
  simp [qm_operator_table.store, qm_operator_table.key, Function.update_apply]

theorem hash_slot_lt (s : cstring) : hash s &&& 1023 < 1024 := by
  rw [land_1023]
  exact Nat.mod_lt _ (by decide)

theorem operator_find_congr (t : qm_operator_table) {a b : List Nat} (h : cstr a = cstr b) :
    operator_find t a = operator_find t b := by
  have hk : ∀ k : cstring, string_equals k (some a) = string_equals k (some b) := by
    intro k
    cases k with
    | none => simp [string_equals]
    | some x =>
      rw [Bool.eq_iff_iff, string_equals_some_iff, string_equals_some_iff, h]
  have hl : ∀ n i mask, operator_find_loop t a mask n i = operator_find_loop t b mask n i := by
    intro n
    induction n with
    | zero => intro i mask; rfl
    | succ n ih => intro i mask; simp only [operator_find_loop, hk, ih]
  simp only [operator_find, hash_eq_of_cstr_eq h, hl]

theorem operator_find_loop_store (t : qm_operator_table) (j : Nat) (s : List Nat) (l r : Int)
    (s1 : List Nat) (hj : t.key j = none) (hne : string_equals (some s) (some s1) = false)
    (mask : Nat) :
    ∀ n i, operator_find_loop (t.store j s l r) s1 mask n i
      = operator_find_loop t s1 mask n i := by
  intro n
  induction n with
  | zero => intro i; rfl
  | succ n ih =>
    intro i
    simp only [operator_find_loop, store_key]
    by_cases hij : i = j
    · subst hij
      simp [hne, hj, string_equals_none_left, ih]
    · have h1 : (t.store j s l r).lbp i = t.lbp i := by
        simp [qm_operator_table.store, Function.update_apply, hij]
      have h2 : (t.store j s l r).rbp i = t.rbp i := by
        simp [qm_operator_table.store, Function.update_apply, hij]
      rw [h1, h2, ih]
      simp [hij]

theorem operator_count_room (t : qm_operator_table) (hs : t.size = 1024)
    (hc : operator_count t < 1024) : ∃ i, i < 1024 ∧ t.key i = none := by
  by_contra hcon
  have hall : ∀ i ∈ List.range 1024, (fun i => (t.key i).isSome) i = true := by
    intro i hi
    have hi1 : i < 1024 := List.mem_range.1 hi
    cases hk : t.key i with
    | none => exact absurd ⟨i, hi1, hk⟩ hcon
    | some k => simp [hk]
  have : operator_count t = 1024 := by
    unfold operator_count
    rw [hs, List.filter_eq_self.2 hall, List.length_range]
  omega

theorem operator_table_init_inv (t : qm_operator_table) (h : operator_table_inv t) :
    (operator_table_init t).keys ≠ none ∧ (operator_table_init t).size = 1024 ∧
    (∀ i k, (operator_table_init t).key i = some k →
      ∃ d, d < 1024 ∧ probe_slot 1023 (hash (some k) &&& 1023) d = i ∧
        ∀ e, e < d →
          (operator_table_init t).key (probe_slot 1023 (hash (some k) &&& 1023) e) ≠ none) ∧
    (∀ s, operator_find (operator_table_init t) s = operator_find t s) ∧
    (t.keys ≠ none → operator_table_init t = t) := by
  rcases h with ⟨hk, hs⟩ | ⟨hk, hs, hc⟩
  · refine ⟨by simp [operator_table_init, hk], by simp [operator_table_init, hk], ?_, ?_,
      fun h => absurd hk h⟩
    · intro i k h
      simp [operator_table_init, hk, qm_operator_table.key] at h
    · intro s
      have : operator_find t s = none := by simp [operator_find, hs, operator_find_loop]
      rw [this]
      apply operator_find_loop_none
      intro d _
      simp [operator_table_init, hk, qm_operator_table.key, string_equals]
  · have : operator_table_init t = t := by
      cases hk1 : t.keys with
      | none => exact absurd hk1 hk
      | some f => simp [operator_table_init, hk1]
    rw [this]
    exact ⟨hk, hs, hc, fun _ => rfl, fun _ => rfl⟩

theorem operator_define_inv (t : qm_operator_table) (h : operator_table_inv t) (s : List Nat)
    (l r : Int) (b : Bool) (t1 : qm_operator_table)
    (hd : operator_define t (some s) l r = some (b, t1)) : operator_table_inv t1 := by
  obtain ⟨hk, hs, hc, _, _⟩ := operator_table_init_inv t h
  simp only [operator_define, hs, probe_mask_1024, Option.some.injEq] at hd
  rcases operator_define_loop_cases (operator_table_init t) s l r 1023 1024
      (hash (some s) &&& 1023) with hf | ⟨d, hd1, hn, hb, ht⟩
  · rw [hf] at hd
    have : t1 = operator_table_init t := (Prod.mk.inj hd).2.symm
    rw [this]
    exact Or.inr ⟨hk, hs, hc⟩
  · rw [ht] at hd
    have : t1 = (operator_table_init t).store (probe_slot 1023 (hash (some s) &&& 1023) d) s l r :=
      (Prod.mk.inj hd).2.symm
    rw [this]
    refine Or.inr ⟨by simp [qm_operator_table.store], by simpa [qm_operator_table.store] using hs, ?_⟩
    intro i k hik
    rw [store_key] at hik
    by_cases hij : i = probe_slot 1023 (hash (some s) &&& 1023) d
    · rw [if_pos hij] at hik
      have hks : s = k := Option.some.inj hik
      subst hks
      refine ⟨d, hd1, hij.symm, ?_⟩
      intro e he
      rw [store_key]
      split
      · simp
      · exact hb e he
    · rw [if_neg hij] at hik
      obtain ⟨d2, hd2, h1, h2⟩ := hc i k hik
      refine ⟨d2, hd2, h1, ?_⟩
      intro e he
      rw [store_key]
      split
      · simp
      · exact h2 e he

theorem operator_table_built_inv (t : qm_operator_table) (h : operator_table_built t) :
    operator_table_inv t := by
  induction h with
  | zero => exact Or.inl ⟨rfl, rfl⟩
  | define t op lbp rbp b t1 _ hd ih => exact operator_define_inv t ih op lbp rbp b t1 hd

theorem operator_table_built_define (t : qm_operator_table) (h : operator_table_built t)
    (op : List Nat) (lbp rbp : Int) : operator_table_built (t.define op lbp rbp) :=
  operator_table_built.define t op lbp rbp
    ((operator_define t (some op) lbp rbp).getD (false, t)).1 (t.define op lbp rbp) h rfl

theorem main_operators_built : operator_table_built main_operators :=
  operator_table_built_define _ operator_table_built.zero _ _ _

theorem plus_times_operators_built : operator_table_built plus_times_operators :=
  operator_table_built_define _ (operator_table_built_define _ main_operators_built _ _ _) _ _ _

/-- In a reachable table, defining a spelling that `operator_find` finds returns false and
the table unchanged. -/
theorem operator_define_bound (t : qm_operator_table) (hb : operator_table_built t)
    (s : List Nat) (pr : Int × Int) (hs : operator_find t s = some pr) (l r : Int) :
    operator_define t (some s) l r = some (false, t) ∧
    ∀ b t1, operator_define t (some s) l r = some (b, t1) →
      b = false ∧ operator_find t1 s = some pr ∧
      ∀ s1, operator_find t1 s1 = operator_find t s1 := by
  have hinv := operator_table_built_inv t hb
  have key : operator_define t (some s) l r = some (false, t) := by
    rcases hinv with ⟨hk, hz⟩ | ⟨hk, hz, hc⟩
    · simp [operator_find, hz, operator_find_loop] at hs
    · have hinit : operator_table_init t = t := by
        cases hk1 : t.keys with
        | none => exact absurd hk1 hk
        | some f => simp [operator_table_init, hk1]
      simp only [operator_find, hz, probe_mask_1024] at hs
      obtain ⟨d, hd, hm, _⟩ := operator_find_loop_some t s 1023 1024 _ pr hs
      obtain ⟨x, y, hx, hy, hxy⟩ := string_equals_true_cases hm
      have hys : y = s := (Option.some.inj hy).symm
      subst hys
      obtain ⟨d2, hd2, hslot, hfull⟩ := hc _ x hx
      rw [hash_eq_of_cstr_eq hxy] at hslot hfull
      simp only [operator_define, hinit, hz, probe_mask_1024]
      rw [operator_define_loop_false t y l r 1023 1024 _ d2 hd2 (by rw [hslot]; exact hm) hfull]
  refine ⟨key, ?_⟩
  intro b t1 h
  rw [key] at h
  have h1 := Prod.mk.inj (Option.some.inj h)
  rw [← h1.1, ← h1.2]
  exact ⟨rfl, hs, fun _ => rfl⟩

/-- In a reachable table with a free slot, defining a spelling that `operator_find` does
not find returns true; the spelling is then found with its pair and every other lookup
answers as before. -/
theorem operator_define_fresh (t : qm_operator_table) (hb : operator_table_built t)
    (hc : operator_count t < 1024) (s : List Nat) (hs : operator_find t s = none) (l r : Int) :
    ∃ t1, operator_define t (some s) l r = some (true, t1) ∧
      operator_find t1 s = some (l, r) ∧
      (∀ s1 pr, operator_find t s1 = some pr → operator_find t1 s1 = some pr) ∧
      (∀ s1, string_equals (some s) (some s1) = false →
        operator_find t1 s1 = operator_find t s1) := by
  obtain ⟨hk, hz, _, hfind, hsame⟩ := operator_table_init_inv t (operator_table_built_inv t hb)
  -- an empty slot exists in the table the loop runs on
  have hroom : ∃ i, i < 1024 ∧ (operator_table_init t).key i = none := by
    cases hk1 : t.keys with
    | none => exact ⟨0, by decide, by simp [operator_table_init, hk1, qm_operator_table.key]⟩
    | some f =>
      have h1 : operator_table_init t = t := hsame (by simp [hk1])
      rw [h1]
      rw [h1] at hz
      exact operator_count_room t hz hc
  obtain ⟨i, hi, hempty⟩ := hroom
  obtain ⟨d, hd, hslot⟩ := probe_slot_cover (hash (some s) &&& 1023) i (hash_slot_lt _) hi
  have hex : ∃ d, d < 1024 ∧
      (operator_table_init t).key (probe_slot 1023 (hash (some s) &&& 1023) d) = none :=
    ⟨d, hd, by rw [hslot]; exact hempty⟩
  classical
  have hd0 := Nat.find_spec hex
  have hmin : ∀ e, e < Nat.find hex →
      (operator_table_init t).key (probe_slot 1023 (hash (some s) &&& 1023) e) ≠ none := by
    intro e he hnone
    exact Nat.find_min hex he ⟨lt_trans he hd0.1, hnone⟩
  have hs1 : operator_find (operator_table_init t) s = none := by rw [hfind]; exact hs
  simp only [operator_find, hz, probe_mask_1024] at hs1
  have hnomatch := operator_find_loop_none_elim _ s 1023 1024 _ hs1
  have hloop := operator_define_loop_true (operator_table_init t) s l r 1023 1024
    (hash (some s) &&& 1023) (Nat.find hex) hd0.1 hd0.2
    (fun e he => ⟨hmin e he, hnomatch e (lt_trans he hd0.1)⟩)
  refine ⟨(operator_table_init t).store
    (probe_slot 1023 (hash (some s) &&& 1023) (Nat.find hex)) s l r, ?_, ?_, ?_, ?_⟩
  · simp only [operator_define, hz, probe_mask_1024]
    rw [hloop]
    rfl
  · have hz1 : ((operator_table_init t).store
        (probe_slot 1023 (hash (some s) &&& 1023) (Nat.find hex)) s l r).size = 1024 := hz
    simp only [operator_find, hz1, probe_mask_1024]
    rw [operator_find_loop_hit _ s 1023 1024 _ (Nat.find hex) hd0.1]
    · simp [qm_operator_table.store]
    · rw [store_key]; simp [string_equals_refl]
    · intro e he
      rw [store_key]
      split
      · rename_i heq
        exact absurd (heq ▸ hd0.2) (hmin e he)
      · exact hnomatch e (lt_trans he hd0.1)
  · intro s1 pr h1
    have hne : string_equals (some s) (some s1) = false := by
      cases hcase : string_equals (some s) (some s1) with
      | false => rfl
      | true =>
        have := operator_find_congr t ((string_equals_some_iff s s1).1 hcase)
        rw [hs, h1] at this
        exact absurd this (by simp)
    have hz1 : ((operator_table_init t).store
        (probe_slot 1023 (hash (some s) &&& 1023) (Nat.find hex)) s l r).size = 1024 := hz
    rw [← hfind] at h1
    simp only [operator_find, hz1, hz] at h1 ⊢
    rw [operator_find_loop_store _ _ s l r s1 hd0.2 hne]
    exact h1
  · intro s1 hne
    have hz1 : ((operator_table_init t).store
        (probe_slot 1023 (hash (some s) &&& 1023) (Nat.find hex)) s l r).size = 1024 := hz
    rw [← hfind]
    simp only [operator_find, hz1, hz]
    rw [operator_find_loop_store _ _ s l r s1 hd0.2 hne]

/-! ## Lexer -/

theorem run_length_le (p : Nat → Bool) (l : List Nat) : run_length p l ≤ l.length := by
  induction l with
  | nil => simp [run_length]
  | cons c cs ih =>
    simp only [run_length]
    split
    · simp; omega
    · simp

theorem run_length_full (p : Nat → Bool) (l : List Nat) (h : run_length p l = l.length) :
    ∀ x ∈ l, x ≠ 0 ∧ p x = true := by
  induction l with
  | nil => simp
  | cons c cs ih =>
    simp only [run_length] at h
    split at h
    · rename_i hc
      intro x hx
      rcases List.mem_cons.1 hx with rfl | hx
      · exact hc
      · exact ih (by simpa using h) x hx
    · simp at h

theorem run_length_append (p : Nat → Bool) (l post : List Nat)
    (h : ∀ x ∈ l, x ≠ 0 ∧ p x = true) :
    run_length p (l ++ post) = l.length + run_length p post := by
  induction l with
  | nil => simp
  | cons c cs ih =>
    have hc := h c (List.mem_cons_self _ _)
    have ih1 := ih (fun x hx => h x (List.mem_cons_of_mem _ hx))
    rw [List.cons_append]
    simp only [run_length, List.length_cons, if_pos hc, ih1]
    omega

theorem run_length_stop (p : Nat → Bool) (post : List Nat)
    (h : ∀ c rest, post = c :: rest → p c = false) : run_length p post = 0 := by
  cases post with
  | nil => rfl
  | cons c rest => simp [run_length, h c rest rfl]

theorem getD_append_mid (pre s : List Nat) (k : Nat) :
    (pre ++ s).getD (pre.length + k) 0 = s.getD k 0 := by
  simp [List.getD_eq_getElem?_getD, List.getElem?_append_right]

theorem bytes_eq_of_getD (b1 b2 : qm_buffer) (i1 i2 n : Nat)
    (h : ∀ k, k < n → b1.data.getD (i1 + k) 0 = b2.data.getD (i2 + k) 0) :
    b1.bytes i1 n = b2.bytes i2 n := by
  simp only [qm_buffer.bytes, qm_buffer.byte]
  apply List.map_congr_left
  intro k hk
  exact h k (List.mem_range.1 hk)

theorem is_separator_facts (c : Nat) (h : is_separator c = true) :
    is_digit c = false ∧ is_alpha c = false ∧ c ≠ 95 := by
  simp only [is_separator, Bool.or_eq_true, decide_eq_true_eq] at h
  rcases h with ((((((((((h | h) | h) | h) | h) | h) | h) | h) | h) | h) | h) | h <;>
    subst h <;> decide

theorem keyword_kind_identifier (k : qm_token_type) (n : Nat) (text : List Nat)
    (h : keyword_kind k n text = .IDENTIFIER) : k = .IDENTIFIER := by
  unfold keyword_kind at h
  split at h
  · split at h
    · exact absurd h (by decide)
    · split at h
      · exact absurd h (by decide)
      · exact h
  · split at h
    · split at h
      · exact absurd h (by decide)
      · split at h
        · exact absurd h (by decide)
        · split at h
          · exact absurd h (by decide)
          · exact h
    · exact h

theorem keyword_kind_number (k : qm_token_type) (n : Nat) (text : List Nat)
    (h : keyword_kind k n text = .NUMBER) : k = .NUMBER := by
  unfold keyword_kind at h
  split at h
  · split at h
    · exact absurd h (by decide)
    · split at h
      · exact absurd h (by decide)
      · exact h
  · split at h
    · split at h
      · exact absurd h (by decide)
      · split at h
        · exact absurd h (by decide)
        · split at h
          · exact absurd h (by decide)
          · exact h
    · exact h

/-- The run predicate `token_length` uses for a token of kind `k` whose first byte is `c`
(identifiers and numbers). -/
theorem token_length_run (k : qm_token_type) (hk : k = .IDENTIFIER ∨ k = .NUMBER)
    (b : qm_buffer) (i : Nat) :
    ∃ p : Nat → Bool, (∀ y, is_separator y = true → p y = false) ∧
      ∀ b1 : qm_buffer, ∀ j, b1.byte j = b.byte i →
        token_length { type := k, start := j } b1 = 1 + run_length p (b1.data.drop (j + 1)) := by
  rcases hk with rfl | rfl
  · by_cases hc : (is_alpha (b.byte i) || decide (b.byte i = 95)) = true
    · refine ⟨fun c => is_digit c || is_alpha c || decide (c = 95), ?_, ?_⟩
      · intro y hy
        obtain ⟨h1, h2, h3⟩ := is_separator_facts y hy
        simp [h1, h2, h3]
      · intro b1 j hj
        simp only [token_length, hj, hc, if_true]
    · refine ⟨fun c => !is_digit c && !is_alpha c && !is_separator c, ?_, ?_⟩
      · intro y hy
        simp [hy]
      · intro b1 j hj
        simp only [token_length, hj, hc]
        simp
  · refine ⟨is_digit, fun y hy => (is_separator_facts y hy).1, ?_⟩
    intro b1 j _
    simp only [token_length]

theorem ends_token_stop (p : Nat → Bool) (hp : ∀ y, is_separator y = true → p y = false)
    (post : List Nat) (h : ends_token post = true) : run_length p post = 0 := by
  apply run_length_stop
  intro c rest hc
  subst hc
  exact hp c h

theorem run_length_whitespace_prefix (ws : List Nat) (c : Nat) (rest : List Nat)
    (hws : ∀ x ∈ ws, is_whitespace x = true) (hc : is_whitespace c = false) :
    run_length is_whitespace (ws ++ c :: rest) = ws.length := by
  rw [run_length_append]
  · simp [run_length, hc]
  · intro x hx
    have := hws x hx
    refine ⟨?_, this⟩
    rintro rfl
    simp [is_whitespace] at this

theorem bytes_in_context (pre s post : List Nat) (n st : Nat) :
    (⟨pre ++ s ++ post, n, st⟩ : qm_buffer).bytes pre.length s.length = s := by
  apply List.ext_getElem
  · simp [qm_buffer.bytes]
  · intro k h1 h2
    simp only [qm_buffer.bytes, qm_buffer.byte, List.getElem_map, List.getElem_range]
    have e1 : pre ++ s ++ post = pre ++ (s ++ post) := by simp
    rw [e1, getD_append_mid, List.getD_eq_getElem?_getD, List.getElem?_append_left h2,
      List.getElem?_eq_getElem h2]
    rfl

/-- What `lexes_as` says about an identifier or number text: its first byte `c` is not
blank and selects the kind, and every later byte continues the run `token_length` counts. -/
theorem lexes_as_elim (ty : qm_token_type) (hty : ty = .IDENTIFIER ∨ ty = .NUMBER)
    (s : List Nat) (hs : lexes_as ty s = true) :
    ∃ c cs, ∃ p : Nat → Bool, s = c :: cs ∧ is_whitespace c = false ∧ token_kind c = ty ∧
      (∀ y, is_separator y = true → p y = false) ∧
      (∀ b : qm_buffer, ∀ j, b.byte j = c →
        token_length { type := ty, start := j } b = 1 + run_length p (b.data.drop (j + 1))) ∧
      (∀ x ∈ cs, x ≠ 0 ∧ p x = true) ∧
      keyword_kind ty s.length s = ty := by
  simp only [lexes_as, decide_eq_true_eq] at hs
  cases s with
  | nil => simp [tokenize, run_length] at hs
  | cons c cs =>
    have hrun0 : run_length is_whitespace (c :: cs) = 0 := by
      by_contra hne
      simp only [tokenize, Nat.zero_add, List.drop_zero] at hs
      split at hs
      · simp at hs
      · simp only [Prod.mk.injEq, qm_token.mk.injEq] at hs
        exact hne hs.2.2.2
    have hcws : is_whitespace c = false := by
      simp only [run_length] at hrun0
      split at hrun0
      · simp at hrun0
      · rename_i h
        by_cases h0 : c = 0
        · subst h0; decide
        · simpa [h0] using h
    simp only [tokenize, Nat.zero_add, List.drop_zero, hrun0] at hs
    rw [if_neg (by simp)] at hs
    simp only [Prod.mk.injEq, qm_token.mk.injEq, qm_buffer.mk.injEq, true_and, and_true] at hs
    obtain ⟨hlen, hkind⟩ := hs
    have hbyte0 : (⟨c :: cs, (c :: cs).length, 0⟩ : qm_buffer).byte 0 = c := by
      simp [qm_buffer.byte]
    rw [hbyte0] at hlen hkind
    have hk : token_kind c = .IDENTIFIER ∨ token_kind c = .NUMBER := by
      rcases hty with rfl | rfl
      · exact Or.inl (keyword_kind_identifier _ _ _ hkind)
      · exact Or.inr (keyword_kind_number _ _ _ hkind)
    have hkty : token_kind c = ty := by
      rcases hty with rfl | rfl
      · exact keyword_kind_identifier _ _ _ hkind
      · exact keyword_kind_number _ _ _ hkind
    obtain ⟨p, hp, hlenp⟩ := token_length_run (token_kind c) hk ⟨c :: cs, (c :: cs).length, 0⟩ 0
    rw [hbyte0] at hlenp
    have hl0 := hlenp ⟨c :: cs, (c :: cs).length, 0⟩ 0 hbyte0
    rw [hl0] at hlen hkind
    simp only [Nat.zero_add, List.drop_one, List.tail_cons, List.length_cons] at hlen hkind
    have hfull : run_length p cs = cs.length := by omega
    rw [hfull] at hkind
    have hb := bytes_in_context [] (c :: cs) [] (cs.length + 1) 0
    simp only [List.nil_append, List.append_nil, List.length_nil, List.length_cons] at hb
    rw [Nat.add_comm 1 cs.length, hb, hkty] at hkind
    rw [hkty] at hlenp
    exact ⟨c, cs, p, rfl, hcws, hkty, hp, hlenp, run_length_full p cs hfull, hkind⟩

/-- The length `token_length` computes for an identifier or number token inside a longer
text, where the end of the text or a separator byte follows the token. -/
theorem token_length_in_context (ty : qm_token_type) (hty : ty = .IDENTIFIER ∨ ty = .NUMBER)
    (s : List Nat) (hs : lexes_as ty s = true) (pre post : List Nat)
    (hpost : ends_token post = true) (n st : Nat) :
    token_length { type := ty, start := pre.length } ⟨pre ++ s ++ post, n, st⟩ = s.length := by
  obtain ⟨c, cs, p, rfl, _, _, hp, hlen, hall, _⟩ := lexes_as_elim ty hty s hs
  have hbyte : (⟨pre ++ (c :: cs) ++ post, n, st⟩ : qm_buffer).byte pre.length = c := by
    have e1 : pre ++ (c :: cs) ++ post = pre ++ (c :: (cs ++ post)) := by simp
    simp only [qm_buffer.byte, e1]
    simpa using getD_append_mid pre (c :: (cs ++ post)) 0
  have hdrop : (pre ++ (c :: cs) ++ post).drop (pre.length + 1) = cs ++ post := by
    have : pre ++ (c :: cs) ++ post = (pre ++ [c]) ++ (cs ++ post) := by simp
    rw [this]
    apply List.drop_left'
    simp
  rw [hlen _ _ hbyte]
  simp only [hdrop, run_length_append p cs post hall, ends_token_stop p hp post hpost,
    List.length_cons]
  omega

/-- A token that lexes on its own as an identifier or a number lexes the same way inside a
longer text, after any run of spaces and tabs, when the end of the text or a separator byte
follows it. -/
theorem tokenize_in_context (ty : qm_token_type) (hty : ty = .IDENTIFIER ∨ ty = .NUMBER)
    (s : List Nat) (hs : lexes_as ty s = true) (pre ws post : List Nat)
    (hws : ∀ x ∈ ws, is_whitespace x = true) (hpost : ends_token post = true) (n : Nat)
    (hsize : n = (pre ++ ws ++ s ++ post).length) :
    tokenize ⟨pre ++ ws ++ s ++ post, n, pre.length⟩
      = (true, ⟨pre ++ ws ++ s ++ post, n, pre.length + ws.length + s.length⟩,
          { type := ty, start := pre.length + ws.length }) := by
  have hlen := token_length_in_context ty hty s hs (pre ++ ws) post hpost n
    (pre.length + ws.length)
  have hbytes := bytes_in_context (pre ++ ws) s post n (pre.length + ws.length)
  obtain ⟨c, cs, p, rfl, hcws, hkind, _, _, _, hkw⟩ := lexes_as_elim ty hty s hs
  have hdrop : (pre ++ ws ++ (c :: cs) ++ post).drop pre.length = ws ++ c :: (cs ++ post) := by
    simp [List.append_assoc]
  have hbyte : (⟨pre ++ ws ++ (c :: cs) ++ post, n, pre.length + ws.length⟩ : qm_buffer).byte
      (pre.length + ws.length) = c := by
    have e1 : pre ++ ws ++ (c :: cs) ++ post = (pre ++ ws) ++ (c :: (cs ++ post)) := by simp
    simp only [qm_buffer.byte, e1]
    simpa using getD_append_mid (pre ++ ws) (c :: (cs ++ post)) 0
  simp only [List.length_append] at hlen hbytes
  simp only [tokenize, hdrop, run_length_whitespace_prefix ws c (cs ++ post) hws hcws]
  rw [if_neg (by rw [hsize]; simp)]
  simp only [hbyte, hkind, hlen, hbytes, hkw]

/-! ## Parser steps -/

@[simp] theorem advance_operators (p : qm_parser_state) : p.advance.operators = p.operators := rfl
@[simp] theorem advance_result (p : qm_parser_state) : p.advance.result = p.result := rfl
@[simp] theorem advance_is_initialized (p : qm_parser_state) :
    p.advance.is_initialized = p.is_initialized := rfl
@[simp] theorem advance_bp (p : qm_parser_state) : p.advance.bp = p.bp := rfl
@[simp] theorem advance_diagnostics (p : qm_parser_state) :
    p.advance.diagnostics = p.diagnostics := rfl

theorem accept_hit (p : qm_parser_state) (ty : qm_token_type) (hi : p.is_initialized = true)
    (ht : p.token.type = ty) : accept p ty = (true, p.advance) := by
  simp [accept, hi, ht]

theorem accept_miss (p : qm_parser_state) (ty : qm_token_type) (hi : p.is_initialized = true)
    (hr : p.result = 0) (ht : p.token.type ≠ ty) : accept p ty = (false, p) := by
  simp [accept, hi, hr, ht]

theorem parse_matrix_open_miss (p : qm_parser_state) (hi : p.is_initialized = true)
    (hr : p.result = 0) (h1 : p.token.type ≠ .LPAREN) (h2 : p.token.type ≠ .LBRACKET)
    (h3 : p.token.type ≠ .LBRACE) : parse_matrix_open p = (p, none) := by
  simp [parse_matrix_open, accept_miss p _ hi hr h1, accept_miss p _ hi hr h2,
    accept_miss p _ hi hr h3]

theorem parse_matrix_miss (k : Nat) (p : qm_parser_state) (hi : p.is_initialized = true)
    (hr : p.result = 0) (h1 : p.token.type ≠ .LPAREN) (h2 : p.token.type ≠ .LBRACKET)
    (h3 : p.token.type ≠ .LBRACE) : parse_matrix (k + 1) p = some (p, none) := by
  simp [parse_matrix, parse_matrix_open_miss p hi hr h1 h2 h3]

/-- A number token parses as a unary expression: the `NUMBER` node of its value. -/
theorem parse_unary_number (k : Nat) (p : qm_parser_state) (e : qm_expression)
    (hi : p.is_initialized = true) (hr : p.result = 0) (ht : p.token.type = .NUMBER) :
    parse_unary_expression (k + 2) p e
      = some (true, p.advance,
          .NUMBER (parse_number_loop 0 (p.buffer.data.drop p.token.start))) := by
  have hm := parse_matrix_miss k p hi hr (by rw [ht]; decide) (by rw [ht]; decide)
    (by rw [ht]; decide)
  simp [parse_unary_expression, hm, parse_identifier, peek_identifier, ht, parse_number,
    accept_hit p .NUMBER hi ht]

/-- At the end of input no unary expression parses and nothing is consumed. -/
theorem parse_unary_eof (k : Nat) (p : qm_parser_state) (e : qm_expression)
    (hi : p.is_initialized = true) (hr : p.result = 0) (ht : p.token.type = .EOF) :
    parse_unary_expression (k + 2) p e = some (false, p, e) := by
  have hm := parse_matrix_miss k p hi hr (by rw [ht]; decide) (by rw [ht]; decide)
    (by rw [ht]; decide)
  simp [parse_unary_expression, hm, parse_identifier, peek_identifier, ht, parse_number,
    parse_string, parse_raw_string]

/-- An identifier without an operator-table entry parses as a plain variable. -/
theorem parse_unary_variable (k : Nat) (p : qm_parser_state) (e : qm_expression)
    (name : List Nat) (hi : p.is_initialized = true) (hr : p.result = 0)
    (ht : p.token.type = .IDENTIFIER) (hn : peek_identifier p = some name)
    (hf : operator_find p.operators name = none) :
    parse_unary_expression (k + 2) p e = some (true, p.advance, .VARIABLE name) := by
  have hm := parse_matrix_miss k p hi hr (by rw [ht]; decide) (by rw [ht]; decide)
    (by rw [ht]; decide)
  simp [parse_unary_expression, hm, parse_identifier, hn, accept_hit p .IDENTIFIER hi ht, hf]

/-- The expression loop stops at the end of input. -/
theorem parse_expression_loop_eof (k : Nat) (p : qm_parser_state) (lhs : qm_expression)
    (bp : Int) (hi : p.is_initialized = true) (hr : p.result = 0) (ht : p.token.type = .EOF) :
    parse_expression_loop (k + 3) p lhs bp = some (p, lhs) := by
  simp [parse_expression_loop, hr, peek_identifier, ht, parse_unary_eof k p .NONE hi hr ht]

/-- The expression loop at an infix operator that binds too loosely: it stops. -/
theorem parse_expression_loop_binary_stop (k : Nat) (p : qm_parser_state)
    (lhs : qm_expression) (bp : Int) (s : List Nat) (l r : Int) (hr : p.result = 0)
    (hn : peek_identifier p = some s) (hf : operator_find p.operators s = some (l, r))
    (hl : l ≠ 0) (hr0 : r ≠ 0) (hlt : l < bp) :
    parse_expression_loop (k + 1) p lhs bp = some (p, lhs) := by
  simp [parse_expression_loop, hr, hn, operator_find_postfix, operator_find_infix, hf, hl, hr0,
    hlt]

/-- The expression loop at an infix operator that binds tightly enough: the operator is
consumed, the right operand is parsed at the operator's right binding power, and the loop
continues with the call of the operator on the two-element row. -/
theorem parse_expression_loop_binary (k : Nat) (p : qm_parser_state) (lhs : qm_expression)
    (bp : Int) (s : List Nat) (l r : Int) (hi : p.is_initialized = true) (hr : p.result = 0)
    (ht : p.token.type = .IDENTIFIER)
    (hn : peek_identifier p = some s) (hf : operator_find p.operators s = some (l, r))
    (hl : l ≠ 0) (hr0 : r ≠ 0) (hge : bp ≤ l) (p2 : qm_parser_state) (rhs : qm_expression)
    (hrhs : parse_expression_ k p.advance .NONE r = some (true, p2, rhs)) :
    parse_expression_loop (k + 1) p lhs bp
      = parse_expression_loop k p2 (.CALL (.VARIABLE s) (.MATRIX 2 1 0 [lhs, rhs])) bp := by
  simp [parse_expression_loop, hr, hn, operator_find_postfix, operator_find_infix, hf, hl, hr0,
    not_lt.2 hge, accept_hit p .IDENTIFIER hi ht, hrhs]

/-- An expression that is a single number followed by the end of input or by an operator
that binds too loosely. -/
theorem parse_expression_number (k : Nat) (p : qm_parser_state) (e : qm_expression) (bp : Int)
    (hi : p.is_initialized = true) (hr : p.result = 0) (ht : p.token.type = .NUMBER)
    (hstop : parse_expression_loop (k + 2) p.advance
      (.NUMBER (parse_number_loop 0 (p.buffer.data.drop p.token.start))) bp
      = some (p.advance, .NUMBER (parse_number_loop 0 (p.buffer.data.drop p.token.start)))) :
    parse_expression_ (k + 3) p e bp
      = some (true, p.advance,
          .NUMBER (parse_number_loop 0 (p.buffer.data.drop p.token.start))) := by
  simp [parse_expression_, parse_unary_number k p e hi hr ht, hstop]

/-- The token sequence `x o1 y o2 z` where `o2` binds at least as tightly on its left as `o1`
does on its right: the parse nests to the right, `o1(x, o2(y, z))`. -/
theorem parse_infix_nest_right (k : Nat) (q : qm_parser_state) (e : qm_expression)
    (o1 o2 : List Nat) (l1 r1 l2 r2 : Int)
    (hi : q.is_initialized = true) (hr : q.result = 0)
    (t1 : q.token.type = .NUMBER)
    (t2 : q.advance.token.type = .IDENTIFIER) (n2 : peek_identifier q.advance = some o1)
    (t3 : q.advance.advance.token.type = .NUMBER)
    (t4 : q.advance.advance.advance.token.type = .IDENTIFIER)
    (n4 : peek_identifier q.advance.advance.advance = some o2)
    (t5 : q.advance.advance.advance.advance.token.type = .NUMBER)
    (t6 : q.advance.advance.advance.advance.advance.token.type = .EOF)
    (f1 : operator_find q.operators o1 = some (l1, r1)) (hl1 : l1 ≠ 0) (hr1 : r1 ≠ 0)
    (f2 : operator_find q.operators o2 = some (l2, r2)) (hl2 : l2 ≠ 0) (hr2 : r2 ≠ 0)
    (h01 : 0 ≤ l1) (h12 : r1 ≤ l2) :
    parse_expression (k + 9) q e
      = some (true, q.advance.advance.advance.advance.advance,
          .CALL (.VARIABLE o1) (.MATRIX 2 1 0
            [.NUMBER (parse_number_loop 0 (q.buffer.data.drop q.token.start)),
             .CALL (.VARIABLE o2) (.MATRIX 2 1 0
              [.NUMBER (parse_number_loop 0
                  (q.advance.advance.buffer.data.drop q.advance.advance.token.start)),
               .NUMBER (parse_number_loop 0
                  (q.advance.advance.advance.advance.buffer.data.drop
                    q.advance.advance.advance.advance.token.start))])])) := by
  -- the operand `z`, then the end of input
  have hz := parse_expression_number (k + 2) q.advance.advance.advance.advance .NONE r2
    (by simpa using hi) (by simpa using hr) t5
    (parse_expression_loop_eof (k + 1) _ _ r2 (by simpa using hi) (by simpa using hr) t6)
  -- the operand `y o2 z` at the right binding power of `o1`
  have hy : parse_expression_ (k + 7) q.advance.advance .NONE r1
      = some (true, q.advance.advance.advance.advance.advance,
          .CALL (.VARIABLE o2) (.MATRIX 2 1 0
            [.NUMBER (parse_number_loop 0
                (q.advance.advance.buffer.data.drop q.advance.advance.token.start)),
             .NUMBER (parse_number_loop 0
                (q.advance.advance.advance.advance.buffer.data.drop
                  q.advance.advance.advance.advance.token.start))])) := by
    simp only [parse_expression_]
    rw [parse_unary_number (k + 4) _ _ (by simpa using hi) (by simpa using hr) t3]
    simp only []
    rw [parse_expression_loop_binary (k + 5) _ _ r1 o2 l2 r2 (by simpa using hi)
      (by simpa using hr) t4 n4 (by simpa using f2) hl2 hr2 h12 _ _ hz]
    rw [parse_expression_loop_eof (k + 2) _ _ r1 (by simpa using hi) (by simpa using hr) t6]
  simp only [parse_expression, parse_expression_]
  rw [parse_unary_number (k + 6) _ _ hi hr t1]
  simp only []
  rw [parse_expression_loop_binary (k + 7) _ _ 0 o1 l1 r1 (by simpa using hi)
    (by simpa using hr) t2 n2 (by simpa using f1) hl1 hr1 h01 _ _ hy]
  rw [parse_expression_loop_eof (k + 4) _ _ 0 (by simpa using hi) (by simpa using hr) t6]

/-- The token sequence `x o1 y o2 z` where `o2` binds less tightly on its left than `o1`
does on its right: the parse nests to the left, `o2(o1(x, y), z)`. -/
theorem parse_infix_nest_left (k : Nat) (q : qm_parser_state) (e : qm_expression)
    (o1 o2 : List Nat) (l1 r1 l2 r2 : Int)
    (hi : q.is_initialized = true) (hr : q.result = 0)
    (t1 : q.token.type = .NUMBER)
    (t2 : q.advance.token.type = .IDENTIFIER) (n2 : peek_identifier q.advance = some o1)
    (t3 : q.advance.advance.token.type = .NUMBER)
    (t4 : q.advance.advance.advance.token.type = .IDENTIFIER)
    (n4 : peek_identifier q.advance.advance.advance = some o2)
    (t5 : q.advance.advance.advance.advance.token.type = .NUMBER)
    (t6 : q.advance.advance.advance.advance.advance.token.type = .EOF)
    (f1 : operator_find q.operators o1 = some (l1, r1)) (hl1 : l1 ≠ 0) (hr1 : r1 ≠ 0)
    (f2 : operator_find q.operators o2 = some (l2, r2)) (hl2 : l2 ≠ 0) (hr2 : r2 ≠ 0)
    (h01 : 0 ≤ l1) (h02 : 0 ≤ l2) (h21 : l2 < r1) :
    parse_expression (k + 9) q e
      = some (true, q.advance.advance.advance.advance.advance,
          .CALL (.VARIABLE o2) (.MATRIX 2 1 0
            [.CALL (.VARIABLE o1) (.MATRIX 2 1 0
              [.NUMBER (parse_number_loop 0 (q.buffer.data.drop q.token.start)),
               .NUMBER (parse_number_loop 0
                  (q.advance.advance.buffer.data.drop q.advance.advance.token.start))]),
             .NUMBER (parse_number_loop 0
                (q.advance.advance.advance.advance.buffer.data.drop
                  q.advance.advance.advance.advance.token.start))])) := by
  have hz := parse_expression_number (k + 3) q.advance.advance.advance.advance .NONE r2
    (by simpa using hi) (by simpa using hr) t5
    (parse_expression_loop_eof (k + 2) _ _ r2 (by simpa using hi) (by simpa using hr) t6)
  have hy := parse_expression_number (k + 4) q.advance.advance .NONE r1
    (by simpa using hi) (by simpa using hr) t3
    (parse_expression_loop_binary_stop (k + 5) _ _ r1 o2 l2 r2 (by simpa using hr) n4
      (by simpa using f2) hl2 hr2 h21)
  simp only [parse_expression, parse_expression_]
  rw [parse_unary_number (k + 6) _ _ hi hr t1]
  simp only []
  rw [parse_expression_loop_binary (k + 7) _ _ 0 o1 l1 r1 (by simpa using hi)
    (by simpa using hr) t2 n2 (by simpa using f1) hl1 hr1 h01 _ _ hy]
  rw [parse_expression_loop_binary (k + 6) _ _ 0 o2 l2 r2 (by simpa using hi)
    (by simpa using hr) t4 n4 (by simpa using f2) hl2 hr2 h02 _ _ hz]
  rw [parse_expression_loop_eof (k + 3) _ _ 0 (by simpa using hi) (by simpa using hr) t6]

/-! ## Token chains of a source text -/

theorem ite_ne_of {α : Type} (P : Prop) [Decidable P] (a b n : α) (ha : a ≠ n) (hb : b ≠ n) :
    (if P then a else b) ≠ n := by
  split <;> assumption

theorem token_kind_number (c : Nat) (h : token_kind c = .NUMBER) : is_digit c = true := by
  cases hd : is_digit c with
  | true => rfl
  | false =>
    exfalso
    revert h
    unfold token_kind
    rw [hd]
    refine ite_ne_of _ _ _ _ (by decide) ?_
    refine ite_ne_of _ _ _ _ (by decide) ?_
    refine ite_ne_of _ _ _ _ (by decide) ?_
    refine ite_ne_of _ _ _ _ (by decide) ?_
    refine ite_ne_of _ _ _ _ (by decide) ?_
    refine ite_ne_of _ _ _ _ (by decide) ?_
    refine ite_ne_of _ _ _ _ (by decide) ?_
    refine ite_ne_of _ _ _ _ (by decide) ?_
    refine ite_ne_of _ _ _ _ (by decide) ?_
    refine ite_ne_of _ _ _ _ (by decide) ?_
    refine ite_ne_of _ _ _ _ (by decide) ?_
    simp
theorem lexes_as_number_digits (s : List Nat) (hs : lexes_as .NUMBER s = true) :
    ∀ x ∈ s, is_digit x = true := by
  obtain ⟨c, cs, p, rfl, _, hkind, _, hlen, hall, _⟩ := lexes_as_elim .NUMBER (Or.inr rfl) s hs
  have hc : is_digit c = true := token_kind_number c hkind
  have hrun : run_length p cs = run_length is_digit cs := by
    have h1 := hlen ⟨c :: cs, 0, 0⟩ 0 (by simp [qm_buffer.byte])
    simp only [token_length] at h1
    simp only [Nat.zero_add, List.drop_one, List.tail_cons] at h1
    omega
  have hfull : run_length p cs = cs.length := by
    have := run_length_append p cs [] hall
    simpa [run_length] using this
  intro x hx
  rcases List.mem_cons.1 hx with rfl | hx
  · exact hc
  · exact (run_length_full is_digit cs (by omega) x hx).2

theorem parse_number_loop_context (s post : List Nat) (hs : ∀ x ∈ s, is_digit x = true)
    (hpost : ends_token post = true) (acc : Int) :
    parse_number_loop acc (s ++ post) = parse_number_loop acc s := by
  induction s generalizing acc with
  | nil =>
    cases post with
    | nil => rfl
    | cons c rest =>
      have := (is_separator_facts c hpost).1
      simp [parse_number_loop, this]
  | cons c cs ih =>
    have hc := hs c (List.mem_cons_self _ _)
    simp only [List.cons_append, parse_number_loop, hc, if_true]
    exact ih (fun x hx => hs x (List.mem_cons_of_mem _ hx)) _

theorem load_eq (p : qm_parser_state) (data : List Nat) :
    p.load data = (p.at_token data .INVALID 0 0).advance := by
  simp [qm_parser_state.load, qm_parser_state.at_token, qm_parser_state.advance]

/-- Advancing over the next identifier or number of the text, after blanks `ws`. -/
theorem advance_at_token (p : qm_parser_state) (ty0 : qm_token_type) (ts0 : Nat)
    (ty : qm_token_type) (hty : ty = .IDENTIFIER ∨ ty = .NUMBER) (pre ws s post : List Nat)
    (hs : lexes_as ty s = true) (hws : ∀ x ∈ ws, is_whitespace x = true)
    (hpost : ends_token post = true) :
    (p.at_token (pre ++ ws ++ s ++ post) ty0 ts0 pre.length).advance
      = p.at_token (pre ++ ws ++ s ++ post) ty (pre.length + ws.length)
          (pre.length + ws.length + s.length) := by
  simp only [qm_parser_state.advance, qm_parser_state.at_token]
  rw [tokenize_in_context ty hty s hs pre ws post hws hpost _ rfl]

/-- Advancing at the end of the text yields the end-of-input token. -/
theorem advance_at_end (p : qm_parser_state) (ty0 : qm_token_type) (ts0 : Nat)
    (data : List Nat) :
    (p.at_token data ty0 ts0 data.length).advance
      = p.at_token data .EOF data.length data.length := by
  simp [qm_parser_state.advance, qm_parser_state.at_token, tokenize, run_length]

theorem peek_at_token (p : qm_parser_state) (pre s post : List Nat) (tend : Nat)
    (hs : lexes_as .IDENTIFIER s = true) (hpost : ends_token post = true) :
    peek_identifier (p.at_token (pre ++ s ++ post) .IDENTIFIER pre.length tend) = some s := by
  simp only [peek_identifier, qm_parser_state.at_token, if_true]
  rw [token_length_in_context .IDENTIFIER (Or.inl rfl) s hs pre post hpost, bytes_in_context]

theorem number_at_token (pre s post : List Nat) (hs : lexes_as .NUMBER s = true)
    (hpost : ends_token post = true) :
    parse_number_loop 0 ((pre ++ s ++ post).drop pre.length) = parse_number_loop 0 s := by
  have : (pre ++ s ++ post).drop pre.length = s ++ post := by simp [List.append_assoc]
  rw [this, parse_number_loop_context s post (lexes_as_number_digits s hs) hpost]

/-- The six parser states met while reading `x o1 y o2 z`. -/
theorem infix_source_chain (p : qm_parser_state) (x o1 y o2 z : List Nat)
    (hx : lexes_as .NUMBER x = true) (h1 : lexes_as .IDENTIFIER o1 = true)
    (hy : lexes_as .NUMBER y = true) (h2 : lexes_as .IDENTIFIER o2 = true)
    (hz : lexes_as .NUMBER z = true) :
    let T := infix_source x o1 y o2 z
    let q := p.load T
    q = p.at_token T .NUMBER 0 x.length ∧
    q.advance = p.at_token T .IDENTIFIER (x.length + 1) (x.length + 1 + o1.length) ∧
    q.advance.advance = p.at_token T .NUMBER (x.length + 1 + o1.length + 1)
      (x.length + 1 + o1.length + 1 + y.length) ∧
    q.advance.advance.advance = p.at_token T .IDENTIFIER
      (x.length + 1 + o1.length + 1 + y.length + 1)
      (x.length + 1 + o1.length + 1 + y.length + 1 + o2.length) ∧
    q.advance.advance.advance.advance = p.at_token T .NUMBER
      (x.length + 1 + o1.length + 1 + y.length + 1 + o2.length + 1)
      (x.length + 1 + o1.length + 1 + y.length + 1 + o2.length + 1 + z.length) ∧
    q.advance.advance.advance.advance.advance = p.at_token T .EOF T.length T.length := by
  intro T q
  have hsp : ∀ v ∈ [32], is_whitespace v = true := by simp [is_whitespace]
  have hnil : ∀ v ∈ ([] : List Nat), is_whitespace v = true := by simp
  have e1 : q = p.at_token T .NUMBER 0 x.length := by
    have := advance_at_token p .INVALID 0 .NUMBER (Or.inr rfl) [] [] x
      ([32] ++ o1 ++ [32] ++ y ++ [32] ++ o2 ++ [32] ++ z) hx hnil (by simp [ends_token, is_separator])
    simp only [List.nil_append, List.length_nil, Nat.zero_add] at this
    have hT : T = x ++ ([32] ++ o1 ++ [32] ++ y ++ [32] ++ o2 ++ [32] ++ z) := by
      simp [T, infix_source]
    show p.load T = _
    rw [load_eq, hT]
    exact this
  have e2 : q.advance = p.at_token T .IDENTIFIER (x.length + 1) (x.length + 1 + o1.length) := by
    have := advance_at_token p .NUMBER 0 .IDENTIFIER (Or.inl rfl) x [32] o1
      ([32] ++ y ++ [32] ++ o2 ++ [32] ++ z) h1 hsp (by simp [ends_token, is_separator])
    have hT : T = x ++ [32] ++ o1 ++ ([32] ++ y ++ [32] ++ o2 ++ [32] ++ z) := by
      simp [T, infix_source]
    simp only [List.length_append, List.length_singleton] at this
    rw [e1, hT]
    exact this
  have e3 : q.advance.advance = p.at_token T .NUMBER (x.length + 1 + o1.length + 1)
      (x.length + 1 + o1.length + 1 + y.length) := by
    have := advance_at_token p .IDENTIFIER (x.length + 1) .NUMBER (Or.inr rfl)
      (x ++ [32] ++ o1) [32] y ([32] ++ o2 ++ [32] ++ z) hy hsp (by simp [ends_token, is_separator])
    have hT : T = (x ++ [32] ++ o1) ++ [32] ++ y ++ ([32] ++ o2 ++ [32] ++ z) := by
      simp [T, infix_source]
    simp only [List.length_append, List.length_singleton] at this
    rw [e2, hT]
    exact this
  have e4 : q.advance.advance.advance = p.at_token T .IDENTIFIER
      (x.length + 1 + o1.length + 1 + y.length + 1)
      (x.length + 1 + o1.length + 1 + y.length + 1 + o2.length) := by
    have := advance_at_token p .NUMBER (x.length + 1 + o1.length + 1) .IDENTIFIER (Or.inl rfl)
      (x ++ [32] ++ o1 ++ [32] ++ y) [32] o2 ([32] ++ z) h2 hsp (by simp [ends_token, is_separator])
    have hT : T = (x ++ [32] ++ o1 ++ [32] ++ y) ++ [32] ++ o2 ++ ([32] ++ z) := by
      simp [T, infix_source]
    simp only [List.length_append, List.length_singleton] at this
    rw [e3, hT]
    exact this
  have e5 : q.advance.advance.advance.advance = p.at_token T .NUMBER
      (x.length + 1 + o1.length + 1 + y.length + 1 + o2.length + 1)
      (x.length + 1 + o1.length + 1 + y.length + 1 + o2.length + 1 + z.length) := by
    have := advance_at_token p .IDENTIFIER (x.length + 1 + o1.length + 1 + y.length + 1)
      .NUMBER (Or.inr rfl) (x ++ [32] ++ o1 ++ [32] ++ y ++ [32] ++ o2) [32] z [] hz hsp rfl
    have hT : T = (x ++ [32] ++ o1 ++ [32] ++ y ++ [32] ++ o2) ++ [32] ++ z ++ [] := by
      simp [T, infix_source]
    simp only [List.length_append, List.length_singleton] at this
    rw [e4, hT]
    exact this
  have e6 : q.advance.advance.advance.advance.advance = p.at_token T .EOF T.length T.length := by
    have hlen : x.length + 1 + o1.length + 1 + y.length + 1 + o2.length + 1 + z.length
        = T.length := by
      simp only [T, infix_source, List.length_append, List.length_singleton]
    rw [e5, hlen]
    exact advance_at_end p _ _ T
  exact ⟨e1, e2, e3, e4, e5, e6⟩

theorem at_token_fields (p : qm_parser_state) (data : List Nat) (ty : qm_token_type)
    (ts te : Nat) :
    (p.at_token data ty ts te).operators = p.operators ∧
    (p.at_token data ty ts te).result = p.result ∧
    (p.at_token data ty ts te).is_initialized = p.is_initialized ∧
    (p.at_token data ty ts te).token.type = ty ∧
    (p.at_token data ty ts te).token.start = ts ∧
    (p.at_token data ty ts te).buffer.data = data := ⟨rfl, rfl, rfl, rfl, rfl, rfl⟩

/-- The facts about the token chain of `x o1 y o2 z` that the nesting lemmas consume. -/
theorem infix_source_facts (p : qm_parser_state) (x o1 y o2 z : List Nat)
    (hx : lexes_as .NUMBER x = true) (h1 : lexes_as .IDENTIFIER o1 = true)
    (hy : lexes_as .NUMBER y = true) (h2 : lexes_as .IDENTIFIER o2 = true)
    (hz : lexes_as .NUMBER z = true) (q : qm_parser_state)
    (hq : q = p.load (infix_source x o1 y o2 z)) :
    q.operators = p.operators ∧ q.result = p.result ∧ q.is_initialized = p.is_initialized ∧
    q.token.type = .NUMBER ∧
    q.advance.token.type = .IDENTIFIER ∧ peek_identifier q.advance = some o1 ∧
    q.advance.advance.token.type = .NUMBER ∧
    q.advance.advance.advance.token.type = .IDENTIFIER ∧
    peek_identifier q.advance.advance.advance = some o2 ∧
    q.advance.advance.advance.advance.token.type = .NUMBER ∧
    q.advance.advance.advance.advance.advance.token.type = .EOF ∧
    parse_number_loop 0 (q.buffer.data.drop q.token.start) = parse_number_loop 0 x ∧
    parse_number_loop 0 (q.advance.advance.buffer.data.drop q.advance.advance.token.start)
      = parse_number_loop 0 y ∧
    parse_number_loop 0 (q.advance.advance.advance.advance.buffer.data.drop
      q.advance.advance.advance.advance.token.start) = parse_number_loop 0 z ∧
    q.advance.advance.advance.advance.advance
      = p.at_token (infix_source x o1 y o2 z) .EOF (infix_source x o1 y o2 z).length
          (infix_source x o1 y o2 z).length := by
  subst hq
  obtain ⟨e1, e2, e3, e4, e5, e6⟩ := infix_source_chain p x o1 y o2 z hx h1 hy h2 hz
  have hsep : ∀ l : List Nat, ends_token ([32] ++ l) = true := by
    intro l; simp [ends_token, is_separator]
  refine ⟨by rw [e1]; rfl, by rw [e1]; rfl, by rw [e1]; rfl, by rw [e1]; rfl, by rw [e2]; rfl,
    ?_, by rw [e3]; rfl, by rw [e4]; rfl, ?_, by rw [e5]; rfl, by rw [e6]; rfl, ?_, ?_, ?_, e6⟩
  · rw [e2]
    have hT : infix_source x o1 y o2 z
        = (x ++ [32]) ++ o1 ++ ([32] ++ (y ++ [32] ++ o2 ++ [32] ++ z)) := by
      simp [infix_source]
    have := peek_at_token p (x ++ [32]) o1 ([32] ++ (y ++ [32] ++ o2 ++ [32] ++ z))
      (x.length + 1 + o1.length) h1 (hsep _)
    simp only [List.length_append, List.length_singleton] at this
    rw [hT]
    exact this
  · rw [e4]
    have hT : infix_source x o1 y o2 z
        = (x ++ [32] ++ o1 ++ [32] ++ y ++ [32]) ++ o2 ++ ([32] ++ z) := by
      simp [infix_source]
    have := peek_at_token p (x ++ [32] ++ o1 ++ [32] ++ y ++ [32]) o2 ([32] ++ z)
      (x.length + 1 + o1.length + 1 + y.length + 1 + o2.length) h2 (hsep _)
    simp only [List.length_append, List.length_singleton] at this
    rw [hT]
    exact this
  · rw [e1]
    have hT : infix_source x o1 y o2 z
        = [] ++ x ++ ([32] ++ (o1 ++ [32] ++ y ++ [32] ++ o2 ++ [32] ++ z)) := by
      simp [infix_source]
    have := number_at_token [] x ([32] ++ (o1 ++ [32] ++ y ++ [32] ++ o2 ++ [32] ++ z)) hx
      (hsep _)
    simp only [(at_token_fields _ _ _ _ _).2.2.2.2.2, (at_token_fields _ _ _ _ _).2.2.2.2.1]
    rw [hT]
    exact this
  · rw [e3]
    have hT : infix_source x o1 y o2 z
        = (x ++ [32] ++ o1 ++ [32]) ++ y ++ ([32] ++ (o2 ++ [32] ++ z)) := by
      simp [infix_source]
    have := number_at_token (x ++ [32] ++ o1 ++ [32]) y ([32] ++ (o2 ++ [32] ++ z)) hy (hsep _)
    simp only [List.length_append, List.length_singleton] at this
    simp only [(at_token_fields _ _ _ _ _).2.2.2.2.2, (at_token_fields _ _ _ _ _).2.2.2.2.1]
    rw [hT]
    exact this
  · rw [e5]
    have hT : infix_source x o1 y o2 z
        = (x ++ [32] ++ o1 ++ [32] ++ y ++ [32] ++ o2 ++ [32]) ++ z ++ [] := by
      simp [infix_source]
    have := number_at_token (x ++ [32] ++ o1 ++ [32] ++ y ++ [32] ++ o2 ++ [32]) z [] hz rfl
    simp only [List.length_append, List.length_singleton] at this
    simp only [(at_token_fields _ _ _ _ _).2.2.2.2.2, (at_token_fields _ _ _ _ _).2.2.2.2.1]
    rw [hT]
    exact this

/-- The source text `x o1 y o2 z` parses to `o1(x, o2(y, z))` when `o2` binds at least as
tightly on its left as `o1` does on its right. -/
theorem parse_infix_source_right (p : qm_parser_state) (x o1 y o2 z : List Nat)
    (l1 r1 l2 r2 : Int) (hi : p.is_initialized = true) (hr : p.result = 0)
    (hx : lexes_as .NUMBER x = true) (h1 : lexes_as .IDENTIFIER o1 = true)
    (hy : lexes_as .NUMBER y = true) (h2 : lexes_as .IDENTIFIER o2 = true)
    (hz : lexes_as .NUMBER z = true)
    (f1 : operator_find p.operators o1 = some (l1, r1)) (hl1 : l1 ≠ 0) (hr1 : r1 ≠ 0)
    (f2 : operator_find p.operators o2 = some (l2, r2)) (hl2 : l2 ≠ 0) (hr2 : r2 ≠ 0)
    (h01 : 0 ≤ l1) (h12 : r1 ≤ l2) (fuel : Nat) (hfuel : 9 ≤ fuel) (e : qm_expression) :
    parse_expression fuel (p.load (infix_source x o1 y o2 z)) e
      = some (true,
          p.at_token (infix_source x o1 y o2 z) .EOF (infix_source x o1 y o2 z).length
            (infix_source x o1 y o2 z).length,
          .CALL (.VARIABLE o1) (.MATRIX 2 1 0
            [.NUMBER (parse_number_loop 0 x),
             .CALL (.VARIABLE o2) (.MATRIX 2 1 0
              [.NUMBER (parse_number_loop 0 y), .NUMBER (parse_number_loop 0 z)])])) := by
  obtain ⟨g1, g2, g3, t1, t2, n2, t3, t4, n4, t5, t6, vx, vy, vz, hend⟩ :=
    infix_source_facts p x o1 y o2 z hx h1 hy h2 hz _ rfl
  have := parse_infix_nest_right (fuel - 9) (p.load (infix_source x o1 y o2 z)) e o1 o2
    l1 r1 l2 r2 (by rw [g3]; exact hi) (by rw [g2]; exact hr) t1 t2 n2 t3 t4 n4 t5 t6
    (by rw [g1]; exact f1) hl1 hr1 (by rw [g1]; exact f2) hl2 hr2 h01 h12
  rw [Nat.sub_add_cancel hfuel, vx, vy, vz, hend] at this
  exact this

/-- The source text `x o1 y o2 z` parses to `o2(o1(x, y), z)` when `o2` binds less tightly on
its left than `o1` does on its right. -/
theorem parse_infix_source_left (p : qm_parser_state) (x o1 y o2 z : List Nat)
    (l1 r1 l2 r2 : Int) (hi : p.is_initialized = true) (hr : p.result = 0)
    (hx : lexes_as .NUMBER x = true) (h1 : lexes_as .IDENTIFIER o1 = true)
    (hy : lexes_as .NUMBER y = true) (h2 : lexes_as .IDENTIFIER o2 = true)
    (hz : lexes_as .NUMBER z = true)
    (f1 : operator_find p.operators o1 = some (l1, r1)) (hl1 : l1 ≠ 0) (hr1 : r1 ≠ 0)
    (f2 : operator_find p.operators o2 = some (l2, r2)) (hl2 : l2 ≠ 0) (hr2 : r2 ≠ 0)
    (h01 : 0 ≤ l1) (h02 : 0 ≤ l2) (h21 : l2 < r1) (fuel : Nat) (hfuel : 9 ≤ fuel)
    (e : qm_expression) :
    parse_expression fuel (p.load (infix_source x o1 y o2 z)) e
      = some (true,
          p.at_token (infix_source x o1 y o2 z) .EOF (infix_source x o1 y o2 z).length
            (infix_source x o1 y o2 z).length,
          .CALL (.VARIABLE o2) (.MATRIX 2 1 0
            [.CALL (.VARIABLE o1) (.MATRIX 2 1 0
              [.NUMBER (parse_number_loop 0 x), .NUMBER (parse_number_loop 0 y)]),
             .NUMBER (parse_number_loop 0 z)])) := by
  obtain ⟨g1, g2, g3, t1, t2, n2, t3, t4, n4, t5, t6, vx, vy, vz, hend⟩ :=
    infix_source_facts p x o1 y o2 z hx h1 hy h2 hz _ rfl
  have := parse_infix_nest_left (fuel - 9) (p.load (infix_source x o1 y o2 z)) e o1 o2
    l1 r1 l2 r2 (by rw [g3]; exact hi) (by rw [g2]; exact hr) t1 t2 n2 t3 t4 n4 t5 t6
    (by rw [g1]; exact f1) hl1 hr1 (by rw [g1]; exact f2) hl2 hr2 h01 h02 h21
  rw [Nat.sub_add_cancel hfuel, vx, vy, vz, hend] at this
  exact this

/-! ## Expression parsing leaves the operator table and the priority counter alone -/

theorem same_tables_refl (p : qm_parser_state) : same_tables p p := ⟨rfl, rfl, id⟩

theorem same_tables_trans {p q r : qm_parser_state} (h1 : same_tables p q)
    (h2 : same_tables q r) : same_tables p r :=
  ⟨h2.1.trans h1.1, h2.2.1.trans h1.2.1, fun h => h2.2.2 (h1.2.2 h)⟩

theorem same_tables_advance (p : qm_parser_state) : same_tables p p.advance := ⟨rfl, rfl, id⟩

theorem same_tables_error (p : qm_parser_state) : same_tables p (parser_error p) :=
  ⟨rfl, rfl, id⟩

theorem same_tables_accept (p : qm_parser_state) (ty : qm_token_type) :
    same_tables p (accept p ty).2 := by
  unfold accept same_tables
  cases hi : p.is_initialized with
  | true =>
    by_cases hc : p.result ≠ 0 ∨ p.token.type = ty
    · simp [hc, hi]
    · simp [hc, hi]
  | false =>
    simp only [Bool.false_eq_true, if_false]
    split
    · exact ⟨rfl, rfl, fun _ => rfl⟩
    · exact ⟨rfl, rfl, fun _ => rfl⟩

theorem same_tables_expect (p : qm_parser_state) (ty : qm_token_type) :
    same_tables p (expect p ty) := by
  unfold expect
  have h := same_tables_accept p ty
  split
  · rename_i p1 heq
    rw [heq] at h
    exact h
  · rename_i p1 heq
    rw [heq] at h
    exact same_tables_trans h (same_tables_error _)

theorem same_tables_accept_identifier (p : qm_parser_state) (s : cstring) :
    same_tables p (accept_identifier p s).2 := by
  unfold accept_identifier
  split
  · simp only []
    split
    · exact same_tables_accept p _
    · exact same_tables_refl p
  · exact same_tables_refl p

theorem same_tables_expect_identifier (p : qm_parser_state) (s : cstring) :
    same_tables p (expect_identifier p s) := by
  unfold expect_identifier
  have h := same_tables_accept_identifier p s
  split
  · rename_i p1 heq
    rw [heq] at h
    exact h
  · rename_i p1 heq
    rw [heq] at h
    exact same_tables_trans h (same_tables_error _)

theorem same_tables_parse_identifier (p : qm_parser_state) :
    same_tables p (parse_identifier p).2 := by
  unfold parse_identifier
  split
  · exact same_tables_accept p _
  · exact same_tables_refl p

theorem same_tables_parse_number (p : qm_parser_state) : same_tables p (parse_number p).2 := by
  unfold parse_number
  split
  · exact same_tables_accept p _
  · exact same_tables_refl p

theorem same_tables_parse_string (p : qm_parser_state) : same_tables p (parse_string p).2 := by
  unfold parse_string
  split
  · exact same_tables_accept p _
  · exact same_tables_refl p

theorem same_tables_parse_raw_string (p : qm_parser_state) :
    same_tables p (parse_raw_string p).2 := by
  unfold parse_raw_string
  split
  · exact same_tables_accept p _
  · exact same_tables_refl p

theorem same_tables_matrix_open (p : qm_parser_state) :
    same_tables p (parse_matrix_open p).1 := by
  unfold parse_matrix_open
  have h1 := same_tables_accept p .LPAREN
  split
  · rename_i p1 heq; rw [heq] at h1; exact h1
  · rename_i p1 heq
    rw [heq] at h1
    have h2 := same_tables_accept p1 .LBRACKET
    split
    · rename_i p2 heq2; rw [heq2] at h2; exact same_tables_trans h1 h2
    · rename_i p2 heq2
      rw [heq2] at h2
      have h3 := same_tables_accept p2 .LBRACE
      split
      · rename_i p3 heq3; rw [heq3] at h3
        exact same_tables_trans h1 (same_tables_trans h2 h3)
      · rename_i p3 heq3; rw [heq3] at h3
        exact same_tables_trans h1 (same_tables_trans h2 h3)

theorem same_tables_matrix_loop_step (k : Nat)
    (ih1 : ∀ p cells r, parse_matrix_loop k p cells = some r → same_tables p r.1)
    (ih5 : ∀ p lhs bp r, parse_expression_ k p lhs bp = some r → same_tables p r.2.1) :
    ∀ p cells r, parse_matrix_loop (k + 1) p cells = some r → same_tables p r.1 := by
  intro p cells r h
  simp only [parse_matrix_loop] at h
  split at h
  · cases h; exact same_tables_refl p
  · cases hres : parse_expression_ k p .NONE 0 with
    | none => simp [hres] at h
    | some v =>
      obtain ⟨b, p1, e⟩ := v
      have h5 := ih5 _ _ _ _ hres
      cases b with
      | false =>
        simp only [hres] at h
        cases h
        exact same_tables_trans h5 (same_tables_error _)
      | true =>
        simp only [hres] at h
        have ha := same_tables_accept p1 .COMMA
        cases hacc : accept p1 .COMMA with
        | mk b2 p2 =>
          rw [hacc] at h ha
          cases b2 with
          | true => exact same_tables_trans h5 (same_tables_trans ha (ih1 _ _ _ h))
          | false =>
            simp only [Option.some.injEq] at h
            cases h
            exact same_tables_trans h5 ha

theorem same_tables_matrix_step (k : Nat)
    (ih1 : ∀ p cells r, parse_matrix_loop k p cells = some r → same_tables p r.1) :
    ∀ p r, parse_matrix (k + 1) p = some r → same_tables p r.1 := by
  intro p r h
  simp only [parse_matrix] at h
  have ho := same_tables_matrix_open p
  cases hopen : parse_matrix_open p with
  | mk p1 o =>
    rw [hopen] at h ho
    cases o with
    | none =>
      simp only [Option.some.injEq] at h
      cases h
      exact ho
    | some dc =>
      obtain ⟨d, c⟩ := dc
      simp only at h
      cases hloop : parse_matrix_loop k p1 [] with
      | none => simp [hloop] at h
      | some v =>
        obtain ⟨p2, cells⟩ := v
        simp only [hloop, Option.some.injEq] at h
        cases h
        exact same_tables_trans ho
          (same_tables_trans (ih1 _ _ _ hloop) (same_tables_expect _ _))

theorem same_tables_unary_step (k : Nat)
    (ih2 : ∀ p r, parse_matrix k p = some r → same_tables p r.1)
    (ih5 : ∀ p lhs bp r, parse_expression_ k p lhs bp = some r → same_tables p r.2.1) :
    ∀ p e r, parse_unary_expression (k + 1) p e = some r → same_tables p r.2.1 := by
  intro p e r h
  simp only [parse_unary_expression] at h
  cases hm : parse_matrix k p with
  | none => simp [hm] at h
  | some v =>
    obtain ⟨p1, m⟩ := v
    have h2 := ih2 _ _ hm
    cases m with
    | some w =>
      obtain ⟨a, b, c, d⟩ := w
      simp only [hm, Option.some.injEq] at h
      cases h
      exact h2
    | none =>
      simp only [hm] at h
      have hid := same_tables_parse_identifier p1
      cases hpi : parse_identifier p1 with
      | mk name p2 =>
        rw [hpi] at h hid
        cases name with
        | some name =>
          simp only at h
          split at h
          · split at h
            · simp at h
            · rename_i p3 arg heq
              have h5 := ih5 _ _ _ _ heq
              simp only [Option.some.injEq] at h
              cases h
              exact same_tables_trans h2 (same_tables_trans hid h5)
            · rename_i p3 arg heq
              have h5 := ih5 _ _ _ _ heq
              simp only [Option.some.injEq] at h
              cases h
              exact same_tables_trans h2
                (same_tables_trans hid (same_tables_trans h5 (same_tables_error _)))
          · split at h
            · simp only [Option.some.injEq] at h
              cases h
              exact same_tables_trans h2 hid
            · simp only [Option.some.injEq] at h
              cases h
              exact same_tables_trans h2 hid
        | none =>
          simp only at h
          have hn := same_tables_parse_number p2
          cases hpn : parse_number p2 with
          | mk n p3 =>
            rw [hpn] at h hn
            cases n with
            | some n =>
              simp only [Option.some.injEq] at h
              cases h
              exact same_tables_trans h2 (same_tables_trans hid hn)
            | none =>
              simp only at h
              have hs := same_tables_parse_string p3
              cases hps : parse_string p3 with
              | mk s p4 =>
                rw [hps] at h hs
                cases s with
                | some s =>
                  simp only [Option.some.injEq] at h
                  cases h
                  exact same_tables_trans h2 (same_tables_trans hid (same_tables_trans hn hs))
                | none =>
                  simp only at h
                  have hr := same_tables_parse_raw_string p4
                  cases hpr : parse_raw_string p4 with
                  | mk s p5 =>
                    rw [hpr] at h hr
                    cases s with
                    | some s =>
                      simp only [Option.some.injEq] at h
                      cases h
                      exact same_tables_trans h2 (same_tables_trans hid
                        (same_tables_trans hn (same_tables_trans hs hr)))
                    | none =>
                      simp only [Option.some.injEq] at h
                      cases h
                      exact same_tables_trans h2 (same_tables_trans hid
                        (same_tables_trans hn (same_tables_trans hs hr)))

theorem same_tables_expression_loop_step (k : Nat)
    (ih3 : ∀ p e r, parse_unary_expression k p e = some r → same_tables p r.2.1)
    (ih4 : ∀ p lhs bp r, parse_expression_loop k p lhs bp = some r → same_tables p r.1)
    (ih5 : ∀ p lhs bp r, parse_expression_ k p lhs bp = some r → same_tables p r.2.1) :
    ∀ p lhs bp r, parse_expression_loop (k + 1) p lhs bp = some r → same_tables p r.1 := by
  intro p lhs bp r h
  simp only [parse_expression_loop] at h
  split at h
  · cases h; exact same_tables_refl p
  · split at h
    · split at h
      · cases h; exact same_tables_refl p
      · exact same_tables_trans (same_tables_accept p _) (ih4 _ _ _ _ h)
    · split at h
      · cases h; exact same_tables_refl p
      · split at h
        · simp at h
        · rename_i ok p2 rhs heq
          have h5 := ih5 _ _ _ _ heq
          have h4 := ih4 _ _ _ _ h
          refine same_tables_trans (same_tables_accept p _) (same_tables_trans h5 ?_)
          cases ok with
          | true => exact h4
          | false => exact same_tables_trans (same_tables_error _) h4
    · split at h
      · simp at h
      · rename_i p1 rhs heq
        exact same_tables_trans (ih3 _ _ _ heq) (ih4 _ _ _ _ h)
      · rename_i p1 rhs heq
        simp only [Option.some.injEq] at h
        cases h
        exact ih3 _ _ _ heq

theorem same_tables_expression_step (k : Nat)
    (ih3 : ∀ p e r, parse_unary_expression k p e = some r → same_tables p r.2.1)
    (ih4 : ∀ p lhs bp r, parse_expression_loop k p lhs bp = some r → same_tables p r.1) :
    ∀ p lhs bp r, parse_expression_ (k + 1) p lhs bp = some r → same_tables p r.2.1 := by
  intro p lhs bp r h
  simp only [parse_expression_] at h
  split at h
  · simp at h
  · rename_i p1 lhs1 heq
    simp only [Option.some.injEq] at h
    cases h
    exact ih3 _ _ _ heq
  · rename_i p1 lhs1 heq
    split at h
    · simp at h
    · rename_i p2 lhs2 heq2
      simp only [Option.some.injEq] at h
      cases h
      exact same_tables_trans (ih3 _ _ _ heq) (ih4 _ _ _ _ heq2)

/-- Expression parsing, at every fuel, leaves the operator table and the priority counter as
they were and never clears the initialisation flag. -/
theorem same_tables_parse (k : Nat) :
    (∀ p cells r, parse_matrix_loop k p cells = some r → same_tables p r.1) ∧
    (∀ p r, parse_matrix k p = some r → same_tables p r.1) ∧
    (∀ p e r, parse_unary_expression k p e = some r → same_tables p r.2.1) ∧
    (∀ p lhs bp r, parse_expression_loop k p lhs bp = some r → same_tables p r.1) ∧
    (∀ p lhs bp r, parse_expression_ k p lhs bp = some r → same_tables p r.2.1) := by
  induction k with
  | zero =>
    refine ⟨?_, ?_, ?_, ?_, ?_⟩
    · intro p cells r h; simp [parse_matrix_loop] at h
    · intro p r h; simp [parse_matrix] at h
    · intro p e r h; simp [parse_unary_expression] at h
    · intro p lhs bp r h; simp [parse_expression_loop] at h
    · intro p lhs bp r h; simp [parse_expression_] at h
  | succ k ih =>
    obtain ⟨ih1, ih2, ih3, ih4, ih5⟩ := ih
    exact ⟨same_tables_matrix_loop_step k ih1 ih5, same_tables_matrix_step k ih1,
      same_tables_unary_step k ih2 ih5, same_tables_expression_loop_step k ih3 ih4 ih5,
      same_tables_expression_step k ih3 ih4⟩

theorem same_tables_parse_expression (fuel : Nat) (p : qm_parser_state) (e : qm_expression)
    (r : Bool × qm_parser_state × qm_expression) (h : parse_expression fuel p e = some r) :
    same_tables p r.2.1 :=
  (same_tables_parse fuel).2.2.2.2 p e 0 r h

/-! ## Operator definitions -/

theorem operator_define_some (t : qm_operator_table) (s : List Nat) (l r : Int) :
    operator_define t (some s) l r
      = some (((operator_define t (some s) l r).getD (false, t)).1, t.define s l r) := by
  simp [operator_define, qm_operator_table.define]

theorem parse_identifier_hit (p : qm_parser_state) (s : List Nat)
    (hi : p.is_initialized = true) (ht : p.token.type = .IDENTIFIER)
    (hn : peek_identifier p = some s) : parse_identifier_or_error p = (some s, p.advance) := by
  simp [parse_identifier_or_error, parse_identifier, hn, accept_hit p .IDENTIFIER hi ht]

theorem peek_identifier_some (p : qm_parser_state) (ht : p.token.type = .IDENTIFIER) :
    ∃ s, peek_identifier p = some s := by
  simp [peek_identifier, ht]

/-- The generic operator form without override, on the tokens `op`/`opr`, parameter,
operator spelling `s`, parameter: `parse_definition` returns as soon as the parse of the body
does; it has advanced the counter by one and called `operator_define` for `s` with the pair
of the keyword. -/
theorem parse_definition_operator (fuel : Nat) (p : qm_parser_state) (definition : qm_definition)
    (s : List Nat) (right : Bool) (hi : p.is_initialized = true) (hr : p.result = 0)
    (t0 : p.token.type = cond right .OPR .OP)
    (t1 : p.bump.advance.token.type = .IDENTIFIER)
    (t2 : p.bump.advance.advance.token.type = .IDENTIFIER)
    (n2 : peek_identifier p.bump.advance.advance = some s)
    (t3 : p.bump.advance.advance.advance.token.type = .IDENTIFIER)
    (r : Bool × qm_parser_state × qm_expression)
    (hbody : parse_expression fuel
      (expect_identifier p.bump.advance.advance.advance.advance (some [61]))
        definition.expression = some r) :
    ∃ p1 d, parse_definition fuel p definition = .ok (true, p1, d) ∧ p1.bp = p.bp + 1 ∧
      d.name = some s ∧ d.parameters.length = 2 ∧ d.expression = r.2.2 ∧
      p1.operators = p.operators.define s (cond right (p.bp + 1 + 1) (p.bp + 1))
        (cond right (p.bp + 1) (p.bp + 1 + 1)) := by
  obtain ⟨a, ha⟩ := peek_identifier_some _ t1
  obtain ⟨b, hb⟩ := peek_identifier_some _ t3
  have hvar : accept p .VAR = (false, p) :=
    accept_miss p _ hi hr (by rw [t0]; cases right <;> decide)
  have hfn : accept p .FN = (false, p) :=
    accept_miss p _ hi hr (by rw [t0]; cases right <;> decide)
  have hopp : accept p .OPP = (false, p) :=
    accept_miss p _ hi hr (by rw [t0]; cases right <;> decide)
  obtain ⟨ok, p7, e⟩ := r
  have hframe := same_tables_parse_expression _ _ _ _ hbody
  have hframe2 : same_tables p.bump p7 := by
    refine same_tables_trans ?_ (same_tables_trans (same_tables_expect_identifier _ _) hframe)
    exact same_tables_trans (same_tables_advance _) (same_tables_trans (same_tables_advance _)
      (same_tables_trans (same_tables_advance _) (same_tables_advance _)))
  have hq1 : accept p.bump.advance .LBRACKET
      = (false, p.bump.advance) :=
    accept_miss _ _ (by simpa [qm_parser_state.bump] using hi)
      (by simpa [qm_parser_state.bump] using hr) (by rw [t1]; decide)
  have hp0 := parse_identifier_hit p.bump.advance a (by simpa [qm_parser_state.bump] using hi) t1 ha
  have hp1 := parse_identifier_hit
    p.bump.advance.advance s (by simpa [qm_parser_state.bump] using hi) t2 n2
  have hp2 := parse_identifier_hit
    p.bump.advance.advance.advance b (by simpa [qm_parser_state.bump] using hi) t3 hb
  have hdef : p.bump = { p with bp := p.bp + 1 } := rfl
  have hops : (expect (if ok = true then p7 else parser_error p7) .NEWLINE).operators
      = p.operators := by
    have h1 : same_tables p7 (expect (if ok = true then p7 else parser_error p7) .NEWLINE) := by
      cases ok with
      | true => exact same_tables_expect _ _
      | false => exact same_tables_trans (same_tables_error _) (same_tables_expect _ _)
    exact (same_tables_trans hframe2 h1).1
  have hbp : (expect (if ok = true then p7 else parser_error p7) .NEWLINE).bp = p.bp + 1 := by
    have h1 : same_tables p7 (expect (if ok = true then p7 else parser_error p7) .NEWLINE) := by
      cases ok with
      | true => exact same_tables_expect _ _
      | false => exact same_tables_trans (same_tables_error _) (same_tables_expect _ _)
    exact (same_tables_trans hframe2 h1).2.1
  have hbi : p.bump.is_initialized = true := hi
  have hbr : p.bump.result = 0 := hr
  have hbt : p.bump.token.type = cond right .OPR .OP := t0
  cases right with
  | false =>
    have hop : accept p.bump .OP = (true, p.bump.advance) := accept_hit _ _ hbi hbt
    simp only [parse_definition, hvar, hfn, hopp, ← hdef, hop, hq1, hp0, hp1, hp2, hbody]
    rw [hops, operator_define_some]
    exact ⟨_, _, rfl, hbp, rfl, rfl, rfl, rfl⟩
  | true =>
    have hop : accept p.bump .OP = (false, p.bump) :=
      accept_miss _ _ hbi hbr (by rw [hbt]; decide)
    have hopr : accept p.bump .OPR = (true, p.bump.advance) := accept_hit _ _ hbi hbt
    simp only [parse_definition, hvar, hfn, hopp, ← hdef, hop, hopr, hq1, hp0, hp1, hp2, hbody]
    rw [hops, operator_define_some]
    exact ⟨_, _, rfl, hbp, rfl, rfl, rfl, rfl⟩

/-! ## Progress of the lexer -/

theorem ite_mem_of {α : Type} (P : Prop) [Decidable P] (a b : α) (l : List α) (ha : a ∈ l)
    (hb : b ∈ l) : (if P then a else b) ∈ l := by
  split <;> assumption

theorem token_kind_range (c : Nat) :
    token_kind c ∈ [qm_token_type.LPAREN, .LBRACKET, .LBRACE, .RPAREN, .RBRACKET, .RBRACE,
      .COMMA, .NEWLINE, .EOF, .STRING, .RAW_STRING, .NUMBER, .IDENTIFIER] := by
  unfold token_kind
  refine ite_mem_of _ _ _ _ (by decide) ?_
  refine ite_mem_of _ _ _ _ (by decide) ?_
  refine ite_mem_of _ _ _ _ (by decide) ?_
  refine ite_mem_of _ _ _ _ (by decide) ?_
  refine ite_mem_of _ _ _ _ (by decide) ?_
  refine ite_mem_of _ _ _ _ (by decide) ?_
  refine ite_mem_of _ _ _ _ (by decide) ?_
  refine ite_mem_of _ _ _ _ (by decide) ?_
  refine ite_mem_of _ _ _ _ (by decide) ?_
  refine ite_mem_of _ _ _ _ (by decide) ?_
  refine ite_mem_of _ _ _ _ (by decide) ?_
  exact ite_mem_of _ _ _ _ (by decide) (by decide)

theorem token_kind_eof (c : Nat) (h : token_kind c = .EOF) : c = 0 := by
  by_contra hc
  revert h
  unfold token_kind
  simp only [hc, if_false]
  refine ite_ne_of _ _ _ _ (by decide) ?_
  refine ite_ne_of _ _ _ _ (by decide) ?_
  refine ite_ne_of _ _ _ _ (by decide) ?_
  refine ite_ne_of _ _ _ _ (by decide) ?_
  refine ite_ne_of _ _ _ _ (by decide) ?_
  refine ite_ne_of _ _ _ _ (by decide) ?_
  refine ite_ne_of _ _ _ _ (by decide) ?_
  refine ite_ne_of _ _ _ _ (by decide) ?_
  refine ite_ne_of _ _ _ _ (by decide) ?_
  refine ite_ne_of _ _ _ _ (by decide) ?_
  exact ite_ne_of _ _ _ _ (by decide) (by decide)

theorem token_length_pos (c start : Nat) (b : qm_buffer) (h : token_kind c ≠ .EOF) :
    1 ≤ token_length { type := token_kind c, start := start } b := by
  have hr := token_kind_range c
  generalize token_kind c = t at h hr
  simp only [List.mem_cons, List.mem_singleton, List.not_mem_nil, or_false] at hr
  unfold token_length
  rcases hr with rfl | rfl | rfl | rfl | rfl | rfl | rfl | rfl | rfl | rfl | rfl | rfl | rfl
  all_goals first
    | exact absurd rfl h
    | (simp only []; split <;> omega)
    | (simp only []; omega)

theorem keyword_kind_eof (t : qm_token_type) (n : Nat) (s : List Nat)
    (h : keyword_kind t n s = .EOF) : t = .EOF := by
  unfold keyword_kind at h
  split_ifs at h <;> exact h

/-- `tokenize` never moves the read position backwards, and a token other than the end of
input moves it forwards over at least one byte of the text. -/
theorem tokenize_progress (b : qm_buffer) :
    (tokenize b).2.1.data = b.data ∧
    (tokenize b).2.1.remaining ≤ b.remaining ∧
    ((tokenize b).2.2.type ≠ .EOF → (tokenize b).2.1.remaining < b.remaining) := by
  unfold tokenize
  simp only []
  split
  · refine ⟨rfl, ?_, fun h => absurd rfl h⟩
    simp only [qm_buffer.remaining]
    omega
  · refine ⟨rfl, ?_, ?_⟩
    · simp only [qm_buffer.remaining]
      omega
    · intro h
      have hk : token_kind (qm_buffer.byte
          { b with start := b.start + run_length is_whitespace (b.data.drop b.start) }
          (b.start + run_length is_whitespace (b.data.drop b.start))) ≠ .EOF :=
        fun hk => h (by rw [hk]; rfl)
      have hlen := token_length_pos _ (b.start + run_length is_whitespace (b.data.drop b.start))
        { b with start := b.start + run_length is_whitespace (b.data.drop b.start) } hk
      have hbyte : qm_buffer.byte
          { b with start := b.start + run_length is_whitespace (b.data.drop b.start) }
          (b.start + run_length is_whitespace (b.data.drop b.start)) ≠ 0 :=
        fun h0 => hk (by rw [h0]; decide)
      have hlt : b.start + run_length is_whitespace (b.data.drop b.start) < b.data.length := by
        by_contra hge
        apply hbyte
        simp only [qm_buffer.byte]
        exact List.getD_eq_default _ _ (by omega)
      simp only [qm_buffer.remaining]
      omega

/-! ## The measure along the token helpers -/

theorem advance_weight (p : qm_parser_state) :
    p.advance.weight ≤ p.weight ∧ (p.token.type ≠ .EOF → p.advance.weight < p.weight) := by
  obtain ⟨_, h1, h2⟩ := tokenize_progress p.buffer
  simp only [qm_parser_state.weight, qm_parser_state.advance]
  by_cases hn : (tokenize p.buffer).2.2.type = .EOF
  · simp only [hn, if_true]
    constructor
    · split <;> omega
    · intro hp
      simp only [hp, if_false]
      omega
  · have := h2 hn
    simp only [hn, if_false]
    constructor
    · split <;> omega
    · intro hp
      simp only [hp, if_false]
      omega

theorem measure_of_initialized (p : qm_parser_state) (h : p.is_initialized = true) :
    p.measure = p.weight := by
  simp [qm_parser_state.measure, h]

theorem parser_error_measure (p : qm_parser_state) : (parser_error p).measure = p.measure := rfl

theorem parser_error_result (p : qm_parser_state) : (parser_error p).result ≠ 0 := by
  simp [parser_error]

theorem accept_of_initialized (p : qm_parser_state) (t : qm_token_type)
    (h : p.is_initialized = true) :
    accept p t = if p.result ≠ 0 ∨ p.token.type = t then (true, p.advance) else (false, p) := by
  simp [accept, h]

theorem accept_of_uninitialized (p : qm_parser_state) (t : qm_token_type)
    (h : p.is_initialized = false) :
    accept p t = accept { p.advance with is_initialized := true } t := by
  simp [accept, h]

theorem accept_initialized (p : qm_parser_state) (t : qm_token_type) :
    (accept p t).2.is_initialized = true := by
  have key : ∀ q : qm_parser_state, q.is_initialized = true →
      (accept q t).2.is_initialized = true := by
    intro q hq
    rw [accept_of_initialized q t hq]
    split
    · exact hq
    · exact hq
  cases hi : p.is_initialized
  · rw [accept_of_uninitialized p t hi]
    exact key _ rfl
  · exact key p hi

theorem accept_result (p : qm_parser_state) (t : qm_token_type) :
    (accept p t).2.result = p.result := by
  have key : ∀ q : qm_parser_state, q.is_initialized = true →
      (accept q t).2.result = q.result := by
    intro q hq
    rw [accept_of_initialized q t hq]
    split <;> rfl
  cases hi : p.is_initialized
  · rw [accept_of_uninitialized p t hi]
    exact key _ rfl
  · exact key p hi

theorem accept_measure_le (p : qm_parser_state) (t : qm_token_type) :
    (accept p t).2.measure ≤ p.measure := by
  have key : ∀ q : qm_parser_state, q.is_initialized = true →
      (accept q t).2.measure ≤ q.weight := by
    intro q hq
    rw [measure_of_initialized _ (accept_initialized q t), accept_of_initialized q t hq]
    split
    · exact (advance_weight q).1
    · exact le_refl _
  cases hi : p.is_initialized
  · rw [accept_of_uninitialized p t hi]
    have h := key { p.advance with is_initialized := true } rfl
    have e : qm_parser_state.weight { p.advance with is_initialized := true }
        = p.advance.weight := rfl
    have h2 : p.measure = p.advance.weight + 1 := by simp [qm_parser_state.measure, hi]
    omega
  · rw [measure_of_initialized p hi]
    exact key p hi

/-- A successful `accept` of a proper token outside error mode consumes that token. -/
theorem accept_measure_lt (p : qm_parser_state) (t : qm_token_type) (ht : t ≠ .EOF)
    (hr : p.result = 0) (h : (accept p t).1 = true) : (accept p t).2.measure < p.measure := by
  have key : ∀ q : qm_parser_state, q.is_initialized = true → q.result = 0 →
      (accept q t).1 = true → (accept q t).2.measure < q.weight := by
    intro q hq hqr
    rw [measure_of_initialized _ (accept_initialized q t), accept_of_initialized q t hq]
    split
    · rename_i hc
      intro _
      have hc1 : q.token.type = t := by
        rcases hc with hc | hc
        · exact absurd hqr hc
        · exact hc
      exact (advance_weight q).2 (by rw [hc1]; exact ht)
    · intro h
      simp at h
  cases hi : p.is_initialized
  · rw [accept_of_uninitialized p t hi] at h ⊢
    have h1 := key { p.advance with is_initialized := true } rfl hr h
    have e : qm_parser_state.weight { p.advance with is_initialized := true }
        = p.advance.weight := rfl
    have h2 : p.measure = p.advance.weight + 1 := by simp [qm_parser_state.measure, hi]
    omega
  · rw [measure_of_initialized p hi]
    exact key p hi hr h

/-- An `accept` that is tried on the kind of the current token makes progress, also when the
token had not been read yet. -/
theorem accept_measure_lt_of_token (p : qm_parser_state) (t : qm_token_type) (ht : t ≠ .EOF)
    (hp : p.token.type = t) : (accept p t).2.measure < p.measure := by
  cases hi : p.is_initialized
  · have h := accept_measure_le { p.advance with is_initialized := true } t
    have e : accept p t = accept { p.advance with is_initialized := true } t := by
      simp [accept, hi]
    rw [e]
    have h1 : qm_parser_state.measure { p.advance with is_initialized := true }
        = p.advance.weight := rfl
    have h2 : p.measure = p.advance.weight + 1 := by simp [qm_parser_state.measure, hi]
    omega
  · rw [measure_of_initialized _ (accept_initialized p t), measure_of_initialized _ hi]
    have e : accept p t = (true, p.advance) := by
      simp [accept, hi, hp]
    rw [e]
    exact (advance_weight p).2 (by rw [hp]; exact ht)

theorem expect_measure_le (p : qm_parser_state) (t : qm_token_type) :
    (expect p t).measure ≤ p.measure := by
  have h := accept_measure_le p t
  unfold expect
  split
  · rename_i p1 he
    rw [he] at h
    exact h
  · rename_i p1 he
    rw [he] at h
    exact h

theorem parse_identifier_measure (p : qm_parser_state) :
    (parse_identifier p).2.measure ≤ p.measure ∧
    ((parse_identifier p).1 ≠ none → (parse_identifier p).2.measure < p.measure) ∧
    (parse_identifier p).2.result = p.result := by
  unfold parse_identifier
  cases hpk : peek_identifier p with
  | none => simp
  | some s =>
    have ht : p.token.type = .IDENTIFIER := by
      unfold peek_identifier at hpk
      by_contra hne
      simp [hne] at hpk
    simp only []
    exact ⟨accept_measure_le _ _,
      fun _ => accept_measure_lt_of_token p .IDENTIFIER (by decide) ht, accept_result _ _⟩

theorem parse_number_measure (p : qm_parser_state) :
    (parse_number p).2.measure ≤ p.measure ∧
    ((parse_number p).1 ≠ none → (parse_number p).2.measure < p.measure) := by
  unfold parse_number
  split
  · rename_i ht
    exact ⟨accept_measure_le _ _, fun _ => accept_measure_lt_of_token p .NUMBER (by decide) ht⟩
  · simp

theorem parse_string_measure (p : qm_parser_state) :
    (parse_string p).2.measure ≤ p.measure ∧
    ((parse_string p).1 ≠ none → (parse_string p).2.measure < p.measure) := by
  unfold parse_string
  split
  · rename_i ht
    exact ⟨accept_measure_le _ _, fun _ => accept_measure_lt_of_token p .STRING (by decide) ht⟩
  · simp

theorem parse_raw_string_measure (p : qm_parser_state) :
    (parse_raw_string p).2.measure ≤ p.measure ∧
    ((parse_raw_string p).1 ≠ none → (parse_raw_string p).2.measure < p.measure) := by
  unfold parse_raw_string
  split
  · rename_i ht
    exact ⟨accept_measure_le _ _,
      fun _ => accept_measure_lt_of_token p .RAW_STRING (by decide) ht⟩
  · simp

theorem parse_matrix_open_measure (p : qm_parser_state) :
    (parse_matrix_open p).1.measure ≤ p.measure ∧
    (parse_matrix_open p).1.result = p.result ∧
    ((parse_matrix_open p).2 ≠ none → p.result = 0 →
      (parse_matrix_open p).1.measure < p.measure) := by
  unfold parse_matrix_open
  have a1 := accept_measure_le p .LPAREN
  have r1 := accept_result p .LPAREN
  have s1 := accept_measure_lt p .LPAREN (by decide)
  cases h1 : accept p .LPAREN with
  | mk b1 p1 =>
    rw [h1] at a1 r1 s1
    cases b1 with
    | true => exact ⟨a1, r1, fun _ hr => s1 hr rfl⟩
    | false =>
      simp only []
      have a2 := accept_measure_le p1 .LBRACKET
      have r2 := accept_result p1 .LBRACKET
      have s2 := accept_measure_lt p1 .LBRACKET (by decide)
      cases h2 : accept p1 .LBRACKET with
      | mk b2 p2 =>
        rw [h2] at a2 r2 s2
        simp only [] at a1 r1 a2 r2 s2
        cases b2 with
        | true =>
          exact ⟨by simp only []; omega, by simp only []; rw [r2, r1],
            fun _ hr => by
              have := s2 (by rw [r1]; exact hr) rfl
              simp only [] at this ⊢
              omega⟩
        | false =>
          simp only []
          have a3 := accept_measure_le p2 .LBRACE
          have r3 := accept_result p2 .LBRACE
          have s3 := accept_measure_lt p2 .LBRACE (by decide)
          cases h3 : accept p2 .LBRACE with
          | mk b3 p3 =>
            rw [h3] at a3 r3 s3
            simp only [] at a3 r3 s3
            cases b3 with
            | true =>
              exact ⟨by simp only []; omega, by simp only []; rw [r3, r2, r1],
                fun _ hr => by
                  have := s3 (by rw [r2, r1]; exact hr) rfl
                  simp only [] at this ⊢
                  omega⟩
            | false =>
              exact ⟨by simp only []; omega, by simp only []; rw [r3, r2, r1],
                fun h => absurd rfl h⟩

/-! ## The parser returns on every input -/

theorem parse_matrix_step (n : Nat) (hML : ∀ m, m < n → parse_matrix_loop_returns m) :
    parse_matrix_returns n := by
  intro p fuel hp hfuel
  obtain ⟨k, rfl⟩ : ∃ k, fuel = k + 1 := ⟨fuel - 1, by omega⟩
  obtain ⟨h1, h2, h3⟩ := parse_matrix_open_measure p
  unfold parse_matrix
  cases ho : parse_matrix_open p with
  | mk p1 o =>
    rw [ho] at h1 h2 h3
    simp only [] at h1 h2 h3
    cases o with
    | none => exact ⟨_, rfl, h1, fun h => absurd rfl h⟩
    | some dc =>
      obtain ⟨d, c⟩ := dc
      simp only []
      by_cases hr : p.result = 0
      · have hlt := h3 (by simp) hr
        obtain ⟨r, hr1, hr2⟩ := hML p1.measure (by omega) p1 [] k (le_refl _) (by omega)
        rw [hr1]
        have := expect_measure_le r.1 c
        exact ⟨_, rfl, by simp only []; omega, fun _ _ => by simp only []; omega⟩
      · obtain ⟨j, rfl⟩ : ∃ j, k = j + 1 := ⟨k - 1, by omega⟩
        have hloop : parse_matrix_loop (j + 1) p1 [] = some (p1, []) := by
          simp [parse_matrix_loop, h2, hr]
        rw [hloop]
        have := expect_measure_le p1 c
        exact ⟨_, rfl, by simp only []; omega, fun _ h0 => absurd h0 hr⟩

theorem parse_unary_expression_step (n : Nat) (hM : parse_matrix_returns n)
    (hE : ∀ m, m < n → parse_expression_returns m) : parse_unary_expression_returns n := by
  intro p e fuel hp hfuel
  obtain ⟨k, rfl⟩ : ∃ k, fuel = k + 1 := ⟨fuel - 1, by omega⟩
  obtain ⟨⟨p1, o⟩, hm1, hm2, hm3⟩ := hM p k hp (by omega)
  simp only [] at hm2 hm3
  unfold parse_unary_expression
  rw [hm1]
  cases o with
  | some m =>
    obtain ⟨w, h, d, cells⟩ := m
    exact ⟨_, rfl, hm2, fun _ hr => hm3 (by simp) hr⟩
  | none =>
    simp only []
    obtain ⟨i1, i2, _⟩ := parse_identifier_measure p1
    cases hid : parse_identifier p1 with
    | mk oname p2 =>
      rw [hid] at i1 i2
      simp only [] at i1 i2
      cases oname with
      | some name =>
        have hlt := i2 (by simp)
        simp only []
        split
        · obtain ⟨⟨b, p3, arg⟩, he1, he2, _⟩ := hE p2.measure (by omega) p2 .NONE
            ((operator_find p2.operators name).getD (0, 0)).2 k (le_refl _) (by omega)
          simp only [] at he2
          rw [he1]
          cases b with
          | true => exact ⟨_, rfl, by simp only []; omega, fun _ _ => by simp only []; omega⟩
          | false =>
            exact ⟨_, rfl, by simp only [parser_error_measure]; omega,
              fun _ _ => by simp only [parser_error_measure]; omega⟩
        · split
          · exact ⟨_, rfl, by simp only []; omega, fun _ _ => by simp only []; omega⟩
          · exact ⟨_, rfl, by simp only []; omega, fun _ _ => by simp only []; omega⟩
      | none =>
        simp only []
        obtain ⟨n1, n2⟩ := parse_number_measure p2
        cases hnum : parse_number p2 with
        | mk onum p3 =>
          rw [hnum] at n1 n2
          simp only [] at n1 n2
          cases onum with
          | some v =>
            have := n2 (by simp)
            exact ⟨_, rfl, by simp only []; omega, fun _ _ => by simp only []; omega⟩
          | none =>
            simp only []
            obtain ⟨s1, s2⟩ := parse_string_measure p3
            cases hstr : parse_string p3 with
            | mk ostr p4 =>
              rw [hstr] at s1 s2
              simp only [] at s1 s2
              cases ostr with
              | some v =>
                have := s2 (by simp)
                exact ⟨_, rfl, by simp only []; omega, fun _ _ => by simp only []; omega⟩
              | none =>
                simp only []
                obtain ⟨q1, q2⟩ := parse_raw_string_measure p4
                cases hraw : parse_raw_string p4 with
                | mk oraw p5 =>
                  rw [hraw] at q1 q2
                  simp only [] at q1 q2
                  cases oraw with
                  | some v =>
                    have := q2 (by simp)
                    exact ⟨_, rfl, by simp only []; omega,
                      fun _ _ => by simp only []; omega⟩
                  | none =>
                    exact ⟨_, rfl, by simp only []; omega, fun h => by simp at h⟩

theorem parse_expression_loop_step (n : Nat) (hU : parse_unary_expression_returns n)
    (hL : ∀ m, m < n → parse_expression_loop_returns m)
    (hE : ∀ m, m < n → parse_expression_returns m) : parse_expression_loop_returns n := by
  intro p lhs bp fuel hp hfuel
  obtain ⟨k, rfl⟩ : ∃ k, fuel = k + 1 := ⟨fuel - 1, by omega⟩
  by_cases hr : p.result = 0
  · -- the implicit application, shared by the cases that find no operator
    have happly : ∃ r, (match parse_unary_expression k p .NONE with
        | none => none
        | some (true, p1, rhs) => parse_expression_loop k p1 (.CALL lhs rhs) bp
        | some (false, p1, _) => some (p1, lhs)) = some r ∧ r.1.measure ≤ p.measure := by
      obtain ⟨⟨b, p1, rhs⟩, hu1, hu2, hu3⟩ := hU p .NONE k hp (by omega)
      simp only [] at hu2 hu3
      rw [hu1]
      cases b with
      | false => exact ⟨_, rfl, hu2⟩
      | true =>
        have hlt := hu3 rfl hr
        obtain ⟨r, hr1, hr2⟩ := hL p1.measure (by omega) p1 (.CALL lhs rhs) bp k (le_refl _)
          (by omega)
        exact ⟨r, hr1, by omega⟩
    unfold parse_expression_loop
    simp only [hr, ne_eq, not_true_eq_false, if_false]
    cases hpk : peek_identifier p with
    | none => simpa using happly
    | some s =>
      have ht : p.token.type = .IDENTIFIER := by
        unfold peek_identifier at hpk
        by_contra hne
        simp [hne] at hpk
      have hacc := accept_measure_lt_of_token p .IDENTIFIER (by decide) ht
      simp only [Option.map_some']
      cases hpost : operator_find_postfix p.operators s 0 with
      | mk b1 lbp1 =>
        cases hinf : operator_find_infix p.operators s 0 0 with
        | mk b2 lr =>
          obtain ⟨lbp2, rbp2⟩ := lr
          cases b1 with
          | true =>
            simp only []
            split
            · exact ⟨_, rfl, le_refl _⟩
            · obtain ⟨r, hr1, hr2⟩ := hL (accept p .IDENTIFIER).2.measure (by omega)
                (accept p .IDENTIFIER).2 (.CALL (.VARIABLE s) lhs) bp k (le_refl _) (by omega)
              exact ⟨r, hr1, by omega⟩
          | false =>
            cases b2 with
            | true =>
              simp only []
              split
              · exact ⟨_, rfl, le_refl _⟩
              · obtain ⟨⟨ok, p2, rhs⟩, he1, he2, _⟩ :=
                  hE (accept p .IDENTIFIER).2.measure (by omega) (accept p .IDENTIFIER).2
                    .NONE rbp2 k (le_refl _) (by omega)
                simp only [] at he2
                rw [he1]
                simp only []
                have hm : (if ok = true then p2 else parser_error p2).measure = p2.measure := by
                  cases ok <;> rfl
                obtain ⟨r, hr1, hr2⟩ := hL p2.measure (by omega)
                  (if ok = true then p2 else parser_error p2)
                  (.CALL (.VARIABLE s) (.MATRIX 2 1 0 [lhs, rhs])) bp k (by omega) (by omega)
                exact ⟨r, hr1, by omega⟩
            | false => simpa using happly
  · exact ⟨(p, lhs), by simp [parse_expression_loop, hr], le_refl _⟩

theorem parse_expression_step (n : Nat) (hU : parse_unary_expression_returns n)
    (hL : parse_expression_loop_returns n) : parse_expression_returns n := by
  intro p lhs bp fuel hp hfuel
  obtain ⟨k, rfl⟩ : ∃ k, fuel = k + 1 := ⟨fuel - 1, by omega⟩
  obtain ⟨⟨b, p1, lhs1⟩, hu1, hu2, hu3⟩ := hU p lhs k hp (by omega)
  simp only [] at hu2 hu3
  unfold parse_expression_
  rw [hu1]
  cases b with
  | false => exact ⟨_, rfl, hu2, fun h => by simp at h⟩
  | true =>
    obtain ⟨⟨p2, lhs2⟩, hl1, hl2⟩ := hL p1 lhs1 bp k (by omega) (by omega)
    simp only [] at hl2
    simp only []
    rw [hl1]
    exact ⟨_, rfl, by simp only []; omega, fun _ hr => by
      have := hu3 rfl hr
      simp only []
      omega⟩

theorem parse_matrix_loop_step (n : Nat) (hE : parse_expression_returns n)
    (hML : ∀ m, m < n → parse_matrix_loop_returns m) : parse_matrix_loop_returns n := by
  intro p cells fuel hp hfuel
  obtain ⟨k, rfl⟩ : ∃ k, fuel = k + 1 := ⟨fuel - 1, by omega⟩
  by_cases hr : p.result = 0
  · obtain ⟨⟨b, p1, e⟩, he1, he2, he3⟩ := hE p .NONE 0 k hp (by omega)
    simp only [] at he2 he3
    unfold parse_matrix_loop
    simp only [hr, ne_eq, not_true_eq_false, if_false]
    rw [he1]
    cases b with
    | false => exact ⟨_, rfl, by simp only [parser_error_measure]; exact he2⟩
    | true =>
      have hlt := he3 rfl hr
      have hacc := accept_measure_le p1 .COMMA
      simp only []
      cases hc : accept p1 .COMMA with
      | mk b2 p2 =>
        rw [hc] at hacc
        simp only [] at hacc
        cases b2 with
        | false => exact ⟨_, rfl, by simp only []; omega⟩
        | true =>
          obtain ⟨r, hr1, hr2⟩ := hML p2.measure (by omega) p2 (cells ++ [e]) k (le_refl _)
            (by omega)
          exact ⟨r, hr1, by omega⟩
  · exact ⟨(p, cells), by simp [parse_matrix_loop, hr], le_refl _⟩

/-- The five functions of the expression parser return on every parser state, with fuel
linear in the measure of the state. -/
theorem parser_returns (n : Nat) :
    parse_matrix_loop_returns n ∧ parse_matrix_returns n ∧ parse_unary_expression_returns n ∧
      parse_expression_loop_returns n ∧ parse_expression_returns n := by
  induction n using Nat.strong_induction_on with
  | _ n ih =>
    have hM := parse_matrix_step n (fun m hm => (ih m hm).1)
    have hU := parse_unary_expression_step n hM (fun m hm => (ih m hm).2.2.2.2)
    have hL := parse_expression_loop_step n hU (fun m hm => (ih m hm).2.2.2.1)
      (fun m hm => (ih m hm).2.2.2.2)
    have hE := parse_expression_step n hU hL
    exact ⟨parse_matrix_loop_step n hE (fun m hm => (ih m hm).1), hM, hU, hL, hE⟩

/-- `parse_expression` returns on every parser state and every prior content of the
out-parameter, whenever the fuel is at least five times the measure of the state plus five. -/
theorem parse_expression_total (p : qm_parser_state) (e : qm_expression) (fuel : Nat)
    (hfuel : 5 * p.measure + 5 ≤ fuel) :
    ∃ r, parse_expression fuel p e = some r ∧ r.2.1.measure ≤ p.measure := by
  obtain ⟨r, h1, h2, _⟩ := (parser_returns p.measure).2.2.2.2 p e 0 fuel (le_refl _) hfuel
  exact ⟨r, h1, h2⟩

theorem advance_measure_le (p : qm_parser_state) (hi : p.is_initialized = true) :
    p.advance.measure ≤ p.measure := by
  rw [measure_of_initialized p hi, measure_of_initialized p.advance hi]
  exact (advance_weight p).1

theorem accept_identifier_measure_le (p : qm_parser_state) (expected : cstring) :
    (accept_identifier p expected).2.measure ≤ p.measure := by
  unfold accept_identifier
  split
  · simp only []
    split
    · exact accept_measure_le _ _
    · exact le_refl _
  · exact le_refl _

theorem expect_identifier_measure_le (p : qm_parser_state) (expected : cstring) :
    (expect_identifier p expected).measure ≤ p.measure := by
  have h := accept_identifier_measure_le p expected
  unfold expect_identifier
  split
  · rename_i p1 he
    rw [he] at h
    exact h
  · rename_i p1 he
    rw [he] at h
    exact h

/-- The body of a generic operator definition is parsed from a state of no larger measure
than the state at the keyword. -/
theorem operator_body_measure (p : qm_parser_state) (hi : p.is_initialized = true) :
    (expect_identifier p.bump.advance.advance.advance.advance (some [61])).measure
      ≤ p.measure := by
  have h0 : p.bump.measure = p.measure := rfl
  have hb : p.bump.is_initialized = true := hi
  have h1 := advance_measure_le p.bump hb
  have h2 := advance_measure_le p.bump.advance hb
  have h3 := advance_measure_le p.bump.advance.advance hb
  have h4 := advance_measure_le p.bump.advance.advance.advance hb
  have h5 := expect_identifier_measure_le p.bump.advance.advance.advance.advance (some [61])
  omega

/-! ## Claims C1 to C6 -/

/-- C1. Precedence by definition order. `A` and `B` are operator spellings registered by
`op` statements without override, `A` first: `A` holds the pair `(a, a + 1)` and `B` the pair
`(b, b + 1)` of their fresh counter values `0 < a < b`. For number literals `x`, `y`, `z`,
`parse_expression` on the text `x A y B z` yields `Call(A, [x, Call(B, [y, z])])` and on
`x B y A z` yields `Call(A, [Call(B, [x, y]), z])`, for every fuel of at least 9, consuming
the whole text without error. -/
theorem precedence_by_definition_order (p : qm_parser_state) (A B x y z : List Nat)
    (a b : Int) (hi : p.is_initialized = true) (hr : p.result = 0)
    (hA : lexes_as .IDENTIFIER A = true) (hB : lexes_as .IDENTIFIER B = true)
    (hx : lexes_as .NUMBER x = true) (hy : lexes_as .NUMBER y = true)
    (hz : lexes_as .NUMBER z = true)
    (fA : operator_find p.operators A = some (a, a + 1))
    (fB : operator_find p.operators B = some (b, b + 1))
    (ha : 0 < a) (hab : a < b) (fuel : Nat) (hfuel : 9 ≤ fuel) (e : qm_expression) :
    parse_expression fuel (p.load (infix_source x A y B z)) e
      = some (true,
          p.at_token (infix_source x A y B z) .EOF (infix_source x A y B z).length
            (infix_source x A y B z).length,
          .CALL (.VARIABLE A) (.MATRIX 2 1 0
            [.NUMBER (parse_number_loop 0 x),
             .CALL (.VARIABLE B) (.MATRIX 2 1 0
              [.NUMBER (parse_number_loop 0 y), .NUMBER (parse_number_loop 0 z)])])) ∧
    parse_expression fuel (p.load (infix_source x B y A z)) e
      = some (true,
          p.at_token (infix_source x B y A z) .EOF (infix_source x B y A z).length
            (infix_source x B y A z).length,
          .CALL (.VARIABLE A) (.MATRIX 2 1 0
            [.CALL (.VARIABLE B) (.MATRIX 2 1 0
              [.NUMBER (parse_number_loop 0 x), .NUMBER (parse_number_loop 0 y)]),
             .NUMBER (parse_number_loop 0 z)])) :=
  ⟨parse_infix_source_right p x A y B z a (a + 1) b (b + 1) hi hr hx hA hy hB hz fA
      (by omega) (by omega) fB (by omega) (by omega) (by omega) (by omega) fuel hfuel e,
    parse_infix_source_left p x B y A z b (b + 1) a (a + 1) hi hr hx hB hy hA hz fB
      (by omega) (by omega) fA (by omega) (by omega) (by omega) (by omega) (by omega) fuel
      hfuel e⟩

theorem precedence_by_definition_order_witness :
    parse_expression 9 (plus_times_state.load [49, 32, 43, 32, 50, 32, 42, 32, 51]) .NONE
      = some (true,
          plus_times_state.at_token [49, 32, 43, 32, 50, 32, 42, 32, 51] .EOF 9 9,
          .CALL (.VARIABLE [43]) (.MATRIX 2 1 0
            [.NUMBER 1, .CALL (.VARIABLE [42]) (.MATRIX 2 1 0 [.NUMBER 2, .NUMBER 3])])) ∧
    parse_expression 9 (plus_times_state.load [49, 32, 42, 32, 50, 32, 43, 32, 51]) .NONE
      = some (true,
          plus_times_state.at_token [49, 32, 42, 32, 50, 32, 43, 32, 51] .EOF 9 9,
          .CALL (.VARIABLE [43]) (.MATRIX 2 1 0
            [.CALL (.VARIABLE [42]) (.MATRIX 2 1 0 [.NUMBER 1, .NUMBER 2]), .NUMBER 3])) :=
  precedence_by_definition_order plus_times_state [43] [42] [49] [50] [51] 1 2
    (by decide!) (by decide!) (by decide!) (by decide!) (by decide!) (by decide!) (by decide!)
    (by decide!) (by decide!) (by decide) (by decide) 9 (le_refl 9) .NONE

/-- C2. Right associativity. `R` is an operator spelling registered by an `opr` statement
without override, so it holds the pair `(c + 1, c)` of its fresh counter value `c > 0`. For
number literals `x`, `y`, `z`, `parse_expression` on the text `x R y R z` yields
`Call(R, [x, Call(R, [y, z])])`, for every fuel of at least 9. -/
theorem right_associativity (p : qm_parser_state) (R x y z : List Nat) (c : Int)
    (hi : p.is_initialized = true) (hr : p.result = 0)
    (hR : lexes_as .IDENTIFIER R = true)
    (hx : lexes_as .NUMBER x = true) (hy : lexes_as .NUMBER y = true)
    (hz : lexes_as .NUMBER z = true)
    (fR : operator_find p.operators R = some (c + 1, c)) (hc : 0 < c)
    (fuel : Nat) (hfuel : 9 ≤ fuel) (e : qm_expression) :
    parse_expression fuel (p.load (infix_source x R y R z)) e
      = some (true,
          p.at_token (infix_source x R y R z) .EOF (infix_source x R y R z).length
            (infix_source x R y R z).length,
          .CALL (.VARIABLE R) (.MATRIX 2 1 0
            [.NUMBER (parse_number_loop 0 x),
             .CALL (.VARIABLE R) (.MATRIX 2 1 0
              [.NUMBER (parse_number_loop 0 y), .NUMBER (parse_number_loop 0 z)])])) :=
  parse_infix_source_right p x R y R z (c + 1) c (c + 1) c hi hr hx hR hy hR hz fR
    (by omega) (by omega) fR (by omega) (by omega) (by omega) (by omega) fuel hfuel e

theorem right_associativity_witness :
    parse_expression 9 (power_state.load [50, 32, 94, 32, 50, 32, 94, 32, 51]) .NONE
      = some (true, power_state.at_token [50, 32, 94, 32, 50, 32, 94, 32, 51] .EOF 9 9,
          .CALL (.VARIABLE [94]) (.MATRIX 2 1 0
            [.NUMBER 2, .CALL (.VARIABLE [94]) (.MATRIX 2 1 0 [.NUMBER 2, .NUMBER 3])])) :=
  right_associativity power_state [94] [50] [50] [51] 1 (by decide!) (by decide!)
    (by decide!) (by decide!) (by decide!) (by decide!) (by decide!) (by decide) 9 (le_refl 9)
    .NONE

/-- C3. Left associativity. `L` is an operator spelling registered by an `op` statement
without override, so it holds the pair `(c, c + 1)` of its fresh counter value `c > 0`. For
number literals `x`, `y`, `z`, `parse_expression` on the text `x L y L z` yields
`Call(L, [Call(L, [x, y]), z])`, for every fuel of at least 9. -/
theorem left_associativity (p : qm_parser_state) (L x y z : List Nat) (c : Int)
    (hi : p.is_initialized = true) (hr : p.result = 0)
    (hL : lexes_as .IDENTIFIER L = true)
    (hx : lexes_as .NUMBER x = true) (hy : lexes_as .NUMBER y = true)
    (hz : lexes_as .NUMBER z = true)
    (fL : operator_find p.operators L = some (c, c + 1)) (hc : 0 < c)
    (fuel : Nat) (hfuel : 9 ≤ fuel) (e : qm_expression) :
    parse_expression fuel (p.load (infix_source x L y L z)) e
      = some (true,
          p.at_token (infix_source x L y L z) .EOF (infix_source x L y L z).length
            (infix_source x L y L z).length,
          .CALL (.VARIABLE L) (.MATRIX 2 1 0
            [.CALL (.VARIABLE L) (.MATRIX 2 1 0
              [.NUMBER (parse_number_loop 0 x), .NUMBER (parse_number_loop 0 y)]),
             .NUMBER (parse_number_loop 0 z)])) :=
  parse_infix_source_left p x L y L z c (c + 1) c (c + 1) hi hr hx hL hy hL hz fL
    (by omega) (by omega) fL (by omega) (by omega) (by omega) (by omega) (by omega) fuel
    hfuel e

theorem left_associativity_witness :
    parse_expression 9 (plus_times_state.load [56, 32, 43, 32, 52, 32, 43, 32, 50]) .NONE
      = some (true, plus_times_state.at_token [56, 32, 43, 32, 52, 32, 43, 32, 50] .EOF 9 9,
          .CALL (.VARIABLE [43]) (.MATRIX 2 1 0
            [.CALL (.VARIABLE [43]) (.MATRIX 2 1 0 [.NUMBER 8, .NUMBER 4]), .NUMBER 2])) :=
  left_associativity plus_times_state [43] [56] [52] [50] 1 (by decide!) (by decide!)
    (by decide!) (by decide!) (by decide!) (by decide!) (by decide!) (by decide) 9 (le_refl 9)
    .NONE

/-- C4. Binding-power allocation. The parser, with its priority counter at `c`, reads a
generic operator definition without override: the keyword `op` (`right = false`) or `opr`
(`right = true`), a parameter, the operator spelling `s`, a parameter. Then, for every fuel
of at least five times the measure of the parser plus five, `parse_definition` returns true,
leaves the counter at `c + 1` and has called `operator_define` for `s` with `(c + 1, c + 2)`
for `op` and `(c + 2, c + 1)` for `opr`. In a reachable table with a free slot in which `s`
was not yet found, `s` is afterwards found with exactly that pair; when `s` was already found
with a pair, the table is unchanged and `s` is still found with the first pair, while the
counter has advanced all the same. -/
theorem binding_power_allocation (fuel : Nat) (p : qm_parser_state)
    (definition : qm_definition) (s : List Nat) (right : Bool) (c : Int)
    (hi : p.is_initialized = true) (hr : p.result = 0) (hc : p.bp = c)
    (t0 : p.token.type = cond right .OPR .OP)
    (t1 : p.bump.advance.token.type = .IDENTIFIER)
    (t2 : p.bump.advance.advance.token.type = .IDENTIFIER)
    (n2 : peek_identifier p.bump.advance.advance = some s)
    (t3 : p.bump.advance.advance.advance.token.type = .IDENTIFIER)
    (hfuel : 5 * p.measure + 5 ≤ fuel) :
    ∃ p1 d, parse_definition fuel p definition = .ok (true, p1, d) ∧ p1.bp = c + 1 ∧
      d.name = some s ∧
      p1.operators = p.operators.define s (cond right (c + 2) (c + 1))
        (cond right (c + 1) (c + 2)) ∧
      (operator_table_built p.operators → operator_count p.operators < 1024 →
        operator_find p.operators s = none →
        operator_find p1.operators s
          = some (cond right (c + 2) (c + 1), cond right (c + 1) (c + 2))) ∧
      (operator_table_built p.operators → ∀ pr, operator_find p.operators s = some pr →
        p1.operators = p.operators ∧ operator_find p1.operators s = some pr) := by
  obtain ⟨r, hbody, _⟩ := parse_expression_total
    (expect_identifier p.bump.advance.advance.advance.advance (some [61]))
    definition.expression fuel (by have := operator_body_measure p hi; omega)
  obtain ⟨p1, d, h1, h2, h3, _, _, h6⟩ :=
    parse_definition_operator fuel p definition s right hi hr t0 t1 t2 n2 t3 r hbody
  subst hc
  have e1 : p.bp + 1 + 1 = p.bp + 2 := by omega
  rw [e1] at h6
  refine ⟨p1, d, h1, h2, h3, h6, ?_, ?_⟩
  · intro hb hcount hnone
    obtain ⟨t1, hd, hf, _⟩ := operator_define_fresh p.operators hb hcount s hnone
      (cond right (p.bp + 2) (p.bp + 1)) (cond right (p.bp + 1) (p.bp + 2))
    rw [h6]
    simp only [qm_operator_table.define, hd, Option.getD_some]
    exact hf
  · intro hb pr hfound
    have hd := (operator_define_bound p.operators hb s pr hfound
      (cond right (p.bp + 2) (p.bp + 1)) (cond right (p.bp + 1) (p.bp + 2))).1
    have : p1.operators = p.operators := by
      rw [h6]
      simp only [qm_operator_table.define, hd, Option.getD_some]
    exact ⟨this, by rw [this]; exact hfound⟩

set_option maxRecDepth 100000 in
theorem binding_power_allocation_witness :
    ∃ p1 d, parse_definition (5 * plus_definition_state.measure + 5) plus_definition_state
        { name := none, parameters := [], expression := .NONE } = .ok (true, p1, d) ∧
      p1.bp = 1 ∧ d.name = some [43] ∧
      p1.operators = plus_definition_state.operators.define [43] 1 2 ∧
      (operator_table_built plus_definition_state.operators →
        operator_count plus_definition_state.operators < 1024 →
        operator_find plus_definition_state.operators [43] = none →
        operator_find p1.operators [43] = some (1, 2)) ∧
      (operator_table_built plus_definition_state.operators →
        ∀ pr, operator_find plus_definition_state.operators [43] = some pr →
        p1.operators = plus_definition_state.operators ∧
          operator_find p1.operators [43] = some pr) :=
  binding_power_allocation (5 * plus_definition_state.measure + 5) plus_definition_state
    { name := none, parameters := [], expression := .NONE } [43] false 0
    (by decide!) (by decide!) (by decide!) (by decide!) (by decide!) (by decide!) (by decide!)
    (by decide!) (le_refl _)

/-- C5. Redefinition is rejected: in a reachable operator table in which `operator_find`
finds the spelling `s`, `operator_define(s, l, r)` returns false and returns the table
unchanged; hence `operator_find(s)` still returns the pair of the first definition and the
lookup of every other spelling answers as before. -/
theorem redefinition_rejected (t : qm_operator_table) (hb : operator_table_built t)
    (s : List Nat) (pr : Int × Int) (hs : operator_find t s = some pr) (l r : Int) :
    operator_define t (some s) l r = some (false, t) ∧
    ∀ b t1, operator_define t (some s) l r = some (b, t1) →
      b = false ∧ operator_find t1 s = some pr ∧
      ∀ s1, operator_find t1 s1 = operator_find t s1 :=
  operator_define_bound t hb s pr hs l r

theorem redefinition_rejected_witness :
    operator_define plus_times_operators (some [43]) 7 8 = some (false, plus_times_operators) ∧
    ∀ b t1, operator_define plus_times_operators (some [43]) 7 8 = some (b, t1) →
      b = false ∧ operator_find t1 [43] = some (1, 2) ∧
      ∀ s1, operator_find t1 s1 = operator_find plus_times_operators s1 :=
  redefinition_rejected plus_times_operators plus_times_operators_built [43] (1, 2)
    (by decide!) 7 8

/-- C6. Define-then-find round trip: for a reachable operator table holding fewer than 1024
spellings and a spelling `s` that `operator_find` does not find, `operator_define(s, l, r)`
returns true, afterwards `operator_find(s)` returns exactly `(l, r)`, every spelling found
before is found with the same pair, and the lookup of every spelling other than `s` answers
as before, whatever the collisions and the wrap-around of the probe sequence. -/
theorem define_find_round_trip (t : qm_operator_table) (hb : operator_table_built t)
    (hc : operator_count t < 1024) (s : List Nat) (hs : operator_find t s = none) (l r : Int) :
    ∃ t1, operator_define t (some s) l r = some (true, t1) ∧
      operator_find t1 s = some (l, r) ∧
      (∀ s1 pr, operator_find t s1 = some pr → operator_find t1 s1 = some pr) ∧
      (∀ s1, string_equals (some s) (some s1) = false →
        operator_find t1 s1 = operator_find t s1) :=
  operator_define_fresh t hb hc s hs l r

theorem define_find_round_trip_witness :
    ∃ t1, operator_define plus_times_operators (some [94]) 4 3 = some (true, t1) ∧
      operator_find t1 [94] = some (4, 3) ∧
      (∀ s1 pr, operator_find plus_times_operators s1 = some pr →
        operator_find t1 s1 = some pr) ∧
      (∀ s1, string_equals (some [94]) (some s1) = false →
        operator_find t1 s1 = operator_find plus_times_operators s1) :=
  define_find_round_trip plus_times_operators plus_times_operators_built (by decide!) [94]
    (by decide!) 4 3

/-! ## The probe loops of an environment map -/

theorem tex_env_find_loop_hit (t : tex_table) (name : cstring) (mask : Nat) :
    ∀ n i d, d < n → string_equals name (t.keys (probe_slot mask i d)) = true →
      (∀ e, e < d → string_equals name (t.keys (probe_slot mask i e)) = false) →
      tex_env_find_loop t name mask n i = some (t.values (probe_slot mask i d)) := by
  intro n
  induction n with
  | zero => intro i d hd; omega
  | succ n ih =>
    intro i d hd hm hb
    cases d with
    | zero =>
      simp only [probe_slot] at hm
      simp [tex_env_find_loop, hm, probe_slot]
    | succ d =>
      have h0 := hb 0 (Nat.succ_pos d)
      simp only [probe_slot] at h0
      simp only [tex_env_find_loop, h0, probe_slot]
      exact ih _ d (by omega) (by simpa [probe_slot] using hm)
        (fun e he => by simpa [probe_slot] using hb (e + 1) (Nat.succ_lt_succ he))

theorem tex_env_find_loop_none (t : tex_table) (name : cstring) (mask : Nat) :
    ∀ n i, (∀ d, d < n → string_equals name (t.keys (probe_slot mask i d)) = false) →
      tex_env_find_loop t name mask n i = none := by
  intro n
  induction n with
  | zero => intro i _; rfl
  | succ n ih =>
    intro i h
    have h0 := h 0 (Nat.succ_pos n)
    simp only [probe_slot] at h0
    simp only [tex_env_find_loop, h0]
    exact ih _ (fun d hd => by simpa [probe_slot] using h (d + 1) (Nat.succ_lt_succ hd))

theorem tex_env_find_loop_some (t : tex_table) (name : cstring) (mask : Nat) :
    ∀ n i v, tex_env_find_loop t name mask n i = some v →
      ∃ d, d < n ∧ string_equals name (t.keys (probe_slot mask i d)) = true ∧
        v = t.values (probe_slot mask i d) := by
  intro n
  induction n with
  | zero => intro i v h; simp [tex_env_find_loop] at h
  | succ n ih =>
    intro i v h
    by_cases hm : string_equals name (t.keys i) = true
    · simp only [tex_env_find_loop, hm, if_true] at h
      exact ⟨0, Nat.succ_pos n, by simpa [probe_slot] using hm,
        by simpa [probe_slot] using (Option.some.inj h).symm⟩
    · simp only [tex_env_find_loop, hm] at h
      obtain ⟨d, hd, h1, h2⟩ := ih _ v h
      exact ⟨d + 1, Nat.succ_lt_succ hd, by simpa [probe_slot] using h1,
        by simpa [probe_slot] using h2⟩

theorem tex_env_find_loop_none_elim (t : tex_table) (name : cstring) (mask : Nat) :
    ∀ n i, tex_env_find_loop t name mask n i = none →
      ∀ d, d < n → string_equals name (t.keys (probe_slot mask i d)) = false := by
  intro n
  induction n with
  | zero => intro i _ d hd; omega
  | succ n ih =>
    intro i h d hd
    by_cases hm : string_equals name (t.keys i) = true
    · simp [tex_env_find_loop, hm] at h
    · simp only [tex_env_find_loop, hm] at h
      cases d with
      | zero => simpa [probe_slot] using hm
      | succ d => simpa [probe_slot] using ih _ h d (by omega)

/-- Every run of the define loop either fails, leaving the map alone, or stores the binding
in the first slot of the probe sequence that is empty or holds the name. -/
theorem tex_env_define_loop_cases (t : tex_table) (name : cstring) (value : tex_value)
    (mask : Nat) :
    ∀ n i, tex_env_define_loop t name value mask n i = (false, t) ∨
      ∃ d, d < n ∧
        (t.keys (probe_slot mask i d) = none ∨
          string_equals name (t.keys (probe_slot mask i d)) = true) ∧
        (∀ e, e < d → t.keys (probe_slot mask i e) ≠ none ∧
          string_equals name (t.keys (probe_slot mask i e)) = false) ∧
        tex_env_define_loop t name value mask n i
          = (true, { t with keys := Function.update t.keys (probe_slot mask i d) name,
                            values := Function.update t.values (probe_slot mask i d) value,
                            used := t.used + 1 }) := by
  intro n
  induction n with
  | zero => intro i; left; rfl
  | succ n ih =>
    intro i
    by_cases hc : ((t.keys i).isNone || string_equals name (t.keys i)) = true
    · right
      refine ⟨0, Nat.succ_pos n, ?_, by intro e he; omega, ?_⟩
      · simpa [probe_slot] using hc
      · simp only [tex_env_define_loop, hc, if_true, probe_slot]
    · rcases ih ((i + 1) &&& mask) with h | ⟨d, hd, h1, h2, h3⟩
      · left; simp only [tex_env_define_loop, hc, h]; rfl
      · right
        refine ⟨d + 1, Nat.succ_lt_succ hd, by simpa [probe_slot] using h1, ?_, ?_⟩
        · intro e he
          cases e with
          | zero =>
            simp only [probe_slot]
            simpa using hc
          | succ e => simpa [probe_slot] using h2 e (by omega)
        · simp only [tex_env_define_loop, hc, probe_slot]
          exact h3

theorem tex_env_define_loop_first (t : tex_table) (name : cstring) (value : tex_value)
    (mask : Nat) (n i : Nat) (hn : 0 < n) (h : t.keys i = none) :
    tex_env_define_loop t name value mask n i
      = (true, { t with keys := Function.update t.keys i name,
                        values := Function.update t.values i value,
                        used := t.used + 1 }) := by
  cases n with
  | zero => omega
  | succ n => simp [tex_env_define_loop, h]

/-! ## Defining and finding in an environment map -/

/-- The map `tex_env_define` probes: allocated on first use. -/
theorem tex_table_define_eq (t : tex_table) (name : cstring) (value : tex_value) :
    ∃ t1 : tex_table, t1.size ≠ 0 ∧ (t.size = 0 → t1.keys = fun _ => none) ∧
      (t.size ≠ 0 → t1 = t) ∧
      t.define name value
        = if t1.used = t1.size then (false, t1)
          else tex_env_define_loop t1 name value (probe_mask t1.size) t1.size
            (hash name &&& probe_mask t1.size) := by
  by_cases hz : t.size = 0
  · exact ⟨{ keys := fun _ => none, values := fun _ => .NONE, used := t.used, size := 1024 },
      by simp, fun _ => rfl, fun h => absurd hz h, by simp [tex_table.define, hz]⟩
  · exact ⟨t, hz, fun h => absurd h hz, fun _ => rfl, by simp [tex_table.define, hz]⟩

theorem tex_table_find_empty (t : tex_table) (name : cstring) (h : t.keys = fun _ => none) :
    t.find name = none := by
  unfold tex_table.find
  apply tex_env_find_loop_none
  intro d _
  rw [h]
  exact string_equals_none_right _

theorem tex_table_find_size_zero (t : tex_table) (name : cstring) (h : t.size = 0) :
    t.find name = none := by
  simp [tex_table.find, h, tex_env_find_loop]

/-- A successful `tex_env_define` of a non-null name makes the map find that name with the
value just stored. -/
theorem tex_table_define_find (t : tex_table) (s : List Nat) (value : tex_value)
    (h : (t.define (some s) value).1 = true) :
    (t.define (some s) value).2.find (some s) = some value := by
  obtain ⟨t1, _, _, _, hdef⟩ := tex_table_define_eq t (some s) value
  rw [hdef] at h ⊢
  split at h
  · simp at h
  · rename_i hused
    rw [if_neg hused]
    rcases tex_env_define_loop_cases t1 (some s) value (probe_mask t1.size) t1.size
        (hash (some s) &&& probe_mask t1.size) with hf | ⟨d, hd, hstop, hbefore, hloop⟩
    · rw [hf] at h; simp at h
    · rw [hloop]
      simp only [tex_table.find]
      rw [tex_env_find_loop_hit _ (some s) _ _ _ d hd]
      · simp
      · simp [string_equals_refl]
      · intro e he
        have hb := hbefore e he
        have hne : probe_slot (probe_mask t1.size) (hash (some s) &&& probe_mask t1.size) e
            ≠ probe_slot (probe_mask t1.size) (hash (some s) &&& probe_mask t1.size) d := by
          intro heq
          rw [heq] at hb
          rcases hstop with h1 | h1
          · exact hb.1 h1
          · rw [h1] at hb; simp at hb
        simp only [Function.update_noteq hne]
        exact hb.2

/-- Defining a name leaves the lookup of every other name as it was. -/
theorem tex_table_define_find_other (t : tex_table) (s n1 : List Nat) (value : tex_value)
    (hne : string_equals (some n1) (some s) = false) :
    (t.define (some s) value).2.find (some n1) = t.find (some n1) := by
  obtain ⟨t1, hsz, hfresh, hsame, hdef⟩ := tex_table_define_eq t (some s) value
  have ht1 : t1.find (some n1) = t.find (some n1) := by
    by_cases hz : t.size = 0
    · rw [tex_table_find_empty t1 _ (hfresh hz), tex_table_find_size_zero t _ hz]
    · rw [hsame hz]
  rw [hdef, ← ht1]
  split
  · rfl
  · rcases tex_env_define_loop_cases t1 (some s) value (probe_mask t1.size) t1.size
        (hash (some s) &&& probe_mask t1.size) with hf | ⟨d, _, hstop, _, hloop⟩
    · rw [hf]
    · rw [hloop]
      simp only [tex_table.find]
      generalize probe_slot (probe_mask t1.size) (hash (some s) &&& probe_mask t1.size) d = j
        at hstop
      have hold : string_equals (some n1) (t1.keys j) = false := by
        rcases hstop with h1 | h1
        · rw [h1]; exact string_equals_none_right _
        · obtain ⟨x, y, hx, hy, hxy⟩ := string_equals_true_cases h1
          rw [hy]
          cases hcase : string_equals (some n1) (some y) with
          | false => rfl
          | true =>
            have e1 := (string_equals_some_iff n1 y).1 hcase
            have hx1 : s = x := Option.some.inj hx
            rw [← hx1] at hxy
            have : string_equals (some n1) (some s) = true :=
              (string_equals_some_iff n1 s).2 (e1.trans hxy.symm)
            rw [hne] at this
            exact absurd this (by simp)
      have hloop2 : ∀ n i, tex_env_find_loop
          { t1 with keys := Function.update t1.keys j (some s),
                    values := Function.update t1.values j value, used := t1.used + 1 }
          (some n1) (probe_mask t1.size) n i
          = tex_env_find_loop t1 (some n1) (probe_mask t1.size) n i := by
        intro n
        induction n with
        | zero => intro i; rfl
        | succ n ih =>
          intro i
          simp only [tex_env_find_loop]
          by_cases hij : i = j
          · subst hij
            simp [hne, hold, ih]
          · simp [Function.update_noteq hij, ih]
      exact hloop2 _ _

theorem tex_table_zero_define (name : cstring) (value : tex_value) :
    (tex_table.zero.define name value).1 = true := by
  have h := tex_env_define_loop_first
    { keys := fun _ => none, values := fun _ => .NONE, used := 0, size := 1024 } name value
    (probe_mask 1024) 1024 (hash name &&& probe_mask 1024) (by decide) rfl
  simp only [tex_table.define, tex_table.zero, if_true]
  rw [if_neg (by decide), h]

/-! ## Environments -/

theorem tex_env_find_child_miss (t : tex_table) (parent : tex_environment) (s : List Nat)
    (h : t.find (some s) = none) :
    tex_env_find (.child t parent) (some s) = tex_env_find parent (some s) := by
  simp [tex_env_find, h]

theorem tex_env_find_root (t : tex_table) (s : List Nat) :
    tex_env_find (.root t) (some s) = t.find (some s) := by
  simp [tex_env_find]

theorem tex_env_find_local (env : tex_environment) (s : List Nat) (v : tex_value)
    (h : env.table.find (some s) = some v) : tex_env_find env (some s) = some v := by
  cases env with
  | root t => simpa [tex_env_find, tex_environment.table] using h
  | child t parent =>
    simp only [tex_environment.table] at h
    simp [tex_env_find, h]

/-- A successful `tex_env_define` makes `tex_env_find` return the value just bound. -/
theorem tex_env_define_find (env : tex_environment) (s : List Nat) (value : tex_value)
    (h : (tex_env_define env (some s) value).1 = true) :
    tex_env_find (tex_env_define env (some s) value).2 (some s) = some value := by
  apply tex_env_find_local
  have : (tex_env_define env (some s) value).2.table = (env.table.define (some s) value).2 := by
    cases env <;> rfl
  rw [this]
  exact tex_table_define_find _ _ _ h

/-- The fresh child scope of a call with one parameter bound. -/
theorem tex_env_define_child_zero (env : tex_environment) (name : cstring)
    (value : tex_value) :
    (tex_env_define (.child tex_table.zero env) name value).2
      = .child (tex_table.zero.define name value).2 env := rfl

/-! ## Evaluator: unfolding and fuel -/

theorem tex_eval_variable_found (k : Nat) (name : List Nat) (v : Option tex_value)
    (env : tex_environment) (x : tex_value) (h : tex_env_find env (some name) = some x) :
    tex_eval_expression (k + 1) (.VARIABLE name) v env = .ok x := by
  simp [tex_eval_expression, h]

theorem tex_eval_variable_unbound (k : Nat) (name : List Nat) (v : Option tex_value)
    (env : tex_environment) (h : tex_env_find env (some name) = none) :
    tex_eval_expression (k + 1) (.VARIABLE name) v env
      = .ok (.RAW_STRING (name.take (string_length (some name)))) := by
  simp [tex_eval_expression, h]

theorem tex_eval_number (k : Nat) (n : Int) (v : Option tex_value) (env : tex_environment) :
    tex_eval_expression (k + 1) (.NUMBER n) v env = .ok (.NUMBER n) := by
  simp [tex_eval_expression]

theorem tex_eval_call_eq (k : Nat) (callee arg : qm_expression) (v : Option tex_value)
    (env : tex_environment) :
    tex_eval_expression (k + 1) (.CALL callee arg) v env
      = tex_eval_call (tex_eval_expression k) callee arg v env := by
  simp [tex_eval_expression]

theorem tex_eval_matrix_ok (k : Nat) (w h d : Nat) (es : List qm_expression)
    (v : Option tex_value) (env : tex_environment) (xs : List tex_value)
    (h1 : tex_eval_cells (tex_eval_expression k) env (w * h) es = .ok xs) :
    tex_eval_expression (k + 1) (.MATRIX w h d es) v env = .ok (.MATRIX w h d xs) := by
  simp only [tex_eval_expression, h1]

theorem tex_eval_matrix_abort (k : Nat) (w h d : Nat) (es : List qm_expression)
    (v : Option tex_value) (env : tex_environment)
    (h1 : tex_eval_cells (tex_eval_expression k) env (w * h) es = .abort) :
    tex_eval_expression (k + 1) (.MATRIX w h d es) v env = .abort := by
  simp only [tex_eval_expression, h1]

theorem tex_eval_matrix_fuel (k : Nat) (w h d : Nat) (es : List qm_expression)
    (v : Option tex_value) (env : tex_environment)
    (h1 : tex_eval_cells (tex_eval_expression k) env (w * h) es = .fuel) :
    tex_eval_expression (k + 1) (.MATRIX w h d es) v env = .fuel := by
  simp only [tex_eval_expression, h1]

/-- A call whose callee is not the variable `__unwrap__` and evaluates to a function. -/
theorem tex_eval_call_function (ev : evaluator) (callee arg : qm_expression)
    (v : Option tex_value) (env : tex_environment) (parameters : List cstring)
    (body : qm_expression) (a : tex_value)
    (hu : ∀ name, callee = .VARIABLE name → string_equals (some name) (some unwrap_name) = false)
    (hc : ev callee none env = .ok (.FUNCTION parameters body))
    (ha : ev arg none env = .ok a) :
    tex_eval_call ev callee arg v env = apply_function ev parameters body a v env := by
  unfold tex_eval_call
  cases callee with
  | VARIABLE name =>
    have h1 := hu name rfl
    simp only [unwrap_name] at h1
    simp [h1, hc, ha]
  | NONE => simp [hc, ha]
  | MATRIX w h d es => simp [hc, ha]
  | CALL c a => simp [hc, ha]
  | NUMBER n => simp [hc, ha]
  | STRING s => simp [hc, ha]
  | RAW_STRING s => simp [hc, ha]

theorem tex_eval_cells_extends (ev1 ev2 : evaluator) (h : evaluator_extends ev1 ev2)
    (env : tex_environment) :
    ∀ n es, tex_eval_cells ev1 env n es ≠ .fuel →
      tex_eval_cells ev2 env n es = tex_eval_cells ev1 env n es := by
  intro n
  induction n with
  | zero => intro es _; rfl
  | succ n ih =>
    intro es hne
    simp only [tex_eval_cells, List.headD_eq_head?_getD] at hne ⊢
    cases h1 : ev1 (es.head?.getD .NONE) (some .NONE) env with
    | fuel => simp [h1] at hne
    | abort => rw [h _ _ _ (by rw [h1]; simp)]; simp [h1]
    | ok x =>
      rw [h _ _ _ (by rw [h1]; simp), h1]
      simp only [h1] at hne
      cases h2 : tex_eval_cells ev1 env n es.tail with
      | fuel => simp [h2] at hne
      | abort => rw [ih _ (by rw [h2]; simp), h2]
      | ok xs => rw [ih _ (by rw [h2]; simp), h2]

theorem apply_function_extends (ev1 ev2 : evaluator) (h : evaluator_extends ev1 ev2)
    (parameters : List cstring) (body : qm_expression) (a : tex_value) (v : Option tex_value)
    (env : tex_environment) (hne : apply_function ev1 parameters body a v env ≠ .fuel) :
    apply_function ev2 parameters body a v env = apply_function ev1 parameters body a v env := by
  unfold apply_function at hne ⊢
  simp only at hne ⊢
  split
  · rename_i hs
    rw [if_pos hs] at hne
    exact h _ _ _ hne
  · rfl

theorem tex_eval_call_extends (ev1 ev2 : evaluator) (h : evaluator_extends ev1 ev2)
    (callee arg : qm_expression) (v : Option tex_value) (env : tex_environment)
    (hne : tex_eval_call ev1 callee arg v env ≠ .fuel) :
    tex_eval_call ev2 callee arg v env = tex_eval_call ev1 callee arg v env := by
  unfold tex_eval_call at hne ⊢
  simp only at hne ⊢
  split
  · rename_i hu
    rw [if_pos hu] at hne
    cases h1 : ev1 arg none env with
    | fuel => simp [h1] at hne
    | abort => rw [h _ _ _ (by rw [h1]; simp)]; simp [h1]
    | ok x => rw [h _ _ _ (by rw [h1]; simp)]; simp [h1]
  · rename_i hu
    rw [if_neg hu] at hne
    cases h1 : ev1 callee none env with
    | fuel => simp [h1] at hne
    | abort => rw [h _ _ _ (by rw [h1]; simp)]; simp [h1]
    | ok c =>
      rw [h _ _ _ (by rw [h1]; simp), h1]
      simp only [h1] at hne
      cases h2 : ev1 arg none env with
      | fuel => simp [h2] at hne
      | abort => rw [h _ _ _ (by rw [h2]; simp)]; simp [h2]
      | ok x =>
        rw [h _ _ _ (by rw [h2]; simp), h2]
        simp only [h2] at hne
        cases c with
        | FUNCTION ps b => exact apply_function_extends ev1 ev2 h ps b x v env hne
        | _ => rfl

/-- One more unit of fuel does not change a result that was reached. -/
theorem tex_eval_expression_succ (k : Nat) :
    evaluator_extends (tex_eval_expression k) (tex_eval_expression (k + 1)) := by
  induction k with
  | zero => intro e v env hne; simp [tex_eval_expression] at hne
  | succ k ih =>
    intro e v env hne
    cases e with
    | MATRIX w h d es =>
      cases h1 : tex_eval_cells (tex_eval_expression k) env (w * h) es with
      | fuel => exact absurd (tex_eval_matrix_fuel k w h d es v env h1) hne
      | abort =>
        have h2 := tex_eval_cells_extends _ _ ih env _ _ (by rw [h1]; simp)
        rw [h1] at h2
        rw [tex_eval_matrix_abort k w h d es v env h1, tex_eval_matrix_abort _ w h d es v env h2]
      | ok xs =>
        have h2 := tex_eval_cells_extends _ _ ih env _ _ (by rw [h1]; simp)
        rw [h1] at h2
        rw [tex_eval_matrix_ok k w h d es v env xs h1, tex_eval_matrix_ok _ w h d es v env xs h2]
    | CALL c a =>
      rw [tex_eval_call_eq] at hne ⊢
      exact tex_eval_call_extends _ _ ih c a v env hne
    | NONE => simp [tex_eval_expression]
    | VARIABLE n => simp [tex_eval_expression]
    | NUMBER n => simp [tex_eval_expression]
    | STRING s => simp [tex_eval_expression]
    | RAW_STRING s => simp [tex_eval_expression]

/-- More fuel does not change a result that was reached. -/
theorem tex_eval_expression_mono (k m : Nat) (hkm : k ≤ m) (e : qm_expression)
    (v : Option tex_value) (env : tex_environment) (x : tex_value)
    (h : tex_eval_expression k e v env = .ok x) : tex_eval_expression m e v env = .ok x := by
  induction m with
  | zero =>
    have : k = 0 := by omega
    subst this
    exact h
  | succ m ih =>
    by_cases hk : k = m + 1
    · subst hk; exact h
    · have h1 := ih (by omega)
      rw [tex_eval_expression_succ m e v env (by rw [h1]; simp), h1]

/-! ## Variable lookup along the parent chain -/

theorem tex_table_find_none_iff (t : tex_table) (hw : t.well_sized) (n : List Nat) :
    t.find (some n) = none ↔ ¬ t.binds n := by
  rcases hw with hz | hz
  · constructor
    · intro _ hb
      obtain ⟨i, hi, _⟩ := hb
      omega
    · intro _
      exact tex_table_find_size_zero t _ hz
  · simp only [tex_table.find, hz, probe_mask_1024]
    constructor
    · intro h hb
      obtain ⟨i, hi, hm⟩ := hb
      rw [hz] at hi
      obtain ⟨d, hd, hslot⟩ := probe_slot_cover (hash (some n) &&& 1023) i (hash_slot_lt _) hi
      have := tex_env_find_loop_none_elim t (some n) 1023 1024 _ h d hd
      rw [hslot, hm] at this
      exact absurd this (by simp)
    · intro hb
      apply tex_env_find_loop_none
      intro d _
      cases hcase : string_equals (some n)
          (t.keys (probe_slot 1023 (hash (some n) &&& 1023) d)) with
      | false => rfl
      | true =>
        exact absurd ⟨_, by rw [hz]; exact probe_slot_lt _ d (hash_slot_lt _), hcase⟩ hb

theorem tex_table_find_some (t : tex_table) (hw : t.well_sized) (n : List Nat) (v : tex_value)
    (h : t.find (some n) = some v) :
    ∃ i, i < t.size ∧ string_equals (some n) (t.keys i) = true ∧ v = t.values i := by
  rcases hw with hz | hz
  · rw [tex_table_find_size_zero t _ hz] at h
    exact absurd h (by simp)
  · simp only [tex_table.find, hz, probe_mask_1024] at h
    obtain ⟨d, _, hm, hv⟩ := tex_env_find_loop_some t (some n) 1023 1024 _ v h
    exact ⟨_, by rw [hz]; exact probe_slot_lt _ d (hash_slot_lt _), hm, hv⟩

theorem tex_table_find_of_binds (t : tex_table) (hw : t.well_sized) (n : List Nat)
    (hb : t.binds n) :
    ∃ i, i < t.size ∧ string_equals (some n) (t.keys i) = true ∧
      t.find (some n) = some (t.values i) := by
  cases hf : t.find (some n) with
  | none => exact absurd hb ((tex_table_find_none_iff t hw n).1 hf)
  | some v =>
    obtain ⟨i, hi, hm, hv⟩ := tex_table_find_some t hw n v hf
    exact ⟨i, hi, hm, by rw [hv]⟩

/-- `tex_env_find` returns the binding of the nearest map of the chain that binds the name,
and nothing when no map of the chain binds it. -/
theorem tex_env_find_chain (n : List Nat) :
    ∀ env : tex_environment, (∀ t ∈ env.chain, t.well_sized) →
      (∀ pre t post, env.chain = pre ++ t :: post → (∀ u ∈ pre, ¬ u.binds n) → t.binds n →
        ∃ i, i < t.size ∧ string_equals (some n) (t.keys i) = true ∧
          tex_env_find env (some n) = some (t.values i)) ∧
      ((∀ u ∈ env.chain, ¬ u.binds n) → tex_env_find env (some n) = none) := by
  intro env
  induction env with
  | root t0 =>
    intro hw
    have hw0 := hw t0 (by simp [tex_environment.chain])
    constructor
    · intro pre t post hc hpre hb
      cases pre with
      | nil =>
        simp only [tex_environment.chain, List.nil_append, List.cons.injEq] at hc
        rw [← hc.1] at hb ⊢
        obtain ⟨i, hi, hm, hf⟩ := tex_table_find_of_binds t0 hw0 n hb
        exact ⟨i, hi, hm, by rw [tex_env_find_root, hf]⟩
      | cons u pre1 =>
        simp only [tex_environment.chain, List.cons_append, List.cons.injEq] at hc
        have := hc.2
        simp at this
    · intro hnone
      rw [tex_env_find_root]
      exact (tex_table_find_none_iff t0 hw0 n).2 (hnone t0 (by simp [tex_environment.chain]))
  | child t0 parent ih =>
    intro hw
    have hw0 := hw t0 (by simp [tex_environment.chain])
    have ihp := ih (fun t ht => hw t (by simp [tex_environment.chain, ht]))
    constructor
    · intro pre t post hc hpre hb
      cases pre with
      | nil =>
        simp only [tex_environment.chain, List.nil_append, List.cons.injEq] at hc
        rw [← hc.1] at hb ⊢
        obtain ⟨i, hi, hm, hf⟩ := tex_table_find_of_binds t0 hw0 n hb
        exact ⟨i, hi, hm, tex_env_find_local (.child t0 parent) n _ hf⟩
      | cons u pre1 =>
        simp only [tex_environment.chain, List.cons_append, List.cons.injEq] at hc
        have hu : ¬ t0.binds n := by
          rw [hc.1]; exact hpre u (List.mem_cons_self _ _)
        have hmiss := (tex_table_find_none_iff t0 hw0 n).2 hu
        obtain ⟨i, hi, hm, hf⟩ := ihp.1 pre1 t post hc.2
          (fun x hx => hpre x (List.mem_cons_of_mem _ hx)) hb
        exact ⟨i, hi, hm, by rw [tex_env_find_child_miss t0 parent n hmiss, hf]⟩
    · intro hnone
      have hmiss := (tex_table_find_none_iff t0 hw0 n).2
        (hnone t0 (by simp [tex_environment.chain]))
      rw [tex_env_find_child_miss t0 parent n hmiss]
      exact ihp.2 (fun u hu => hnone u (by simp [tex_environment.chain, hu]))

/-! ## Serialising strings and numbers -/

theorem string_length_loop_of_nonzero (s : List Nat) (h : 0 ∉ s) :
    string_length_loop s = s.length := by
  induction s with
  | nil => rfl
  | cons c cs ih =>
    have hc : c ≠ 0 := fun hc => h (by simp [hc])
    have hcs : 0 ∉ cs := fun hm => h (List.mem_cons_of_mem _ hm)
    simp [string_length_loop, hc, ih hcs]

theorem range_map_getD (s : List Nat) :
    (List.range s.length).map (fun k => s.getD k 0) = s := by
  apply List.ext_getElem
  · simp
  · intro k h1 h2
    simp [List.getD_eq_getElem?_getD, List.getElem?_eq_getElem h2]

/-- Writing a whole string into a zeroed buffer of exactly its length fills the buffer with
the string. -/
theorem buffer_writen_exact (s : List Nat) (extra : Nat) :
    buffer_writen (some ⟨List.replicate (s.length + extra) 0, s.length, 0⟩) s s.length
      = (s.length, some ⟨s ++ List.replicate extra 0, s.length, s.length⟩) := by
  simp only [buffer_writen, Nat.sub_zero, Nat.min_self, range_map_getD, store_bytes,
    List.take_zero, List.nil_append, Nat.zero_add]
  simp [List.drop_replicate]

theorem tex_value_write_raw_measure (s : List Nat) :
    tex_value_write (.RAW_STRING s) none = .ok (s.length, none) := by
  simp [tex_value_write, buffer_writen]

theorem tex_value_write_raw_fill (s : List Nat) (extra : Nat) :
    tex_value_write (.RAW_STRING s)
      (some ⟨List.replicate (s.length + extra) 0, s.length, 0⟩)
      = .ok (s.length, some ⟨s ++ List.replicate extra 0, s.length, s.length⟩) := by
  simp only [tex_value_write, buffer_writen_exact]

theorem tex_value_write_number_measure (n : Int) (h : 0 ∉ number_str n) :
    tex_value_write (.NUMBER n) none = .ok ((number_str n).length, none) := by
  simp [tex_value_write, write_step, buffer_write, string_length,
    string_length_loop_of_nonzero _ h]

theorem tex_value_write_number_fill (n : Int) (h : 0 ∉ number_str n) (extra : Nat) :
    tex_value_write (.NUMBER n)
      (some ⟨List.replicate ((number_str n).length + extra) 0, (number_str n).length, 0⟩)
      = .ok ((number_str n).length,
          some ⟨number_str n ++ List.replicate extra 0, (number_str n).length,
            (number_str n).length⟩) := by
  simp only [tex_value_write, write_step, buffer_write, string_length,
    string_length_loop_of_nonzero _ h, buffer_writen_exact, Nat.zero_add]

/-- The output `main` prints for an expression statement whose value serialises to `s`. -/
theorem main_statement_output_of (fuel : Nat) (e : qm_expression) (env : tex_environment)
    (x : tex_value) (s : List Nat) (he : tex_eval_expression fuel e none env = .ok x)
    (hm : tex_value_write x none = .ok (s.length, none))
    (hf : tex_value_write x (some ⟨List.replicate (s.length + 1) 0, s.length, 0⟩)
      = .ok (s.length, some ⟨s ++ List.replicate 1 0, s.length, s.length⟩)) :
    main_statement_output fuel (.EXPRESSION e) env = .ok (s, env) := by
  simp [main_statement_output, tex_eval, he, hm, hf]

/-! ## Decimal numerals -/

theorem digitChar_ne_zero (n : Nat) : (Nat.digitChar (n % 10)).toNat ≠ 0 := by
  have h : n % 10 < 10 := Nat.mod_lt n (by decide)
  interval_cases n % 10 <;> decide

theorem toDigitsCore_ne_zero :
    ∀ fuel n ds, (∀ c ∈ ds, Char.toNat c ≠ 0) →
      ∀ c ∈ Nat.toDigitsCore 10 fuel n ds, Char.toNat c ≠ 0 := by
  intro fuel
  induction fuel with
  | zero => intro n ds h c hc; exact h c (by simpa [Nat.toDigitsCore] using hc)
  | succ fuel ih =>
    intro n ds h c hc
    simp only [Nat.toDigitsCore] at hc
    split at hc
    · rcases List.mem_cons.1 hc with rfl | hc
      · exact digitChar_ne_zero n
      · exact h c hc
    · refine ih _ _ ?_ c hc
      intro x hx
      rcases List.mem_cons.1 hx with rfl | hx
      · exact digitChar_ne_zero n
      · exact h x hx

theorem decimal_ne_zero (n : Nat) : 0 ∉ decimal n := by
  intro h
  simp only [decimal, Nat.repr, List.mem_map] at h
  obtain ⟨c, hc, hc0⟩ := h
  exact toDigitsCore_ne_zero _ _ [] (by simp) c hc hc0

theorem number_str_of_nat (n : Nat) : number_str (n : Int) = decimal n := by
  simp [number_str, decimal]

theorem digits_foldl_ge (d : List Nat) (acc : Nat) :
    acc ≤ d.foldl (fun a c => a * 10 + (c - 48)) acc := by
  induction d generalizing acc with
  | nil => simp
  | cons c cs ih =>
    simp only [List.foldl_cons]
    exact le_trans (by omega) (ih _)

theorem wrap_i32_of_range (x : Int) (h0 : 0 ≤ x) (h1 : x < 2147483648) : wrap_i32 x = x := by
  unfold wrap_i32
  omega

theorem parse_number_loop_foldl (d : List Nat) (hd : ∀ c ∈ d, is_digit c = true) :
    ∀ acc : Nat, d.foldl (fun a c => a * 10 + (c - 48)) acc < 2147483648 →
      parse_number_loop (acc : Int) d = ((d.foldl (fun a c => a * 10 + (c - 48)) acc : Nat) : Int) := by
  induction d with
  | nil => intro acc _; rfl
  | cons c cs ih =>
    intro acc hlt
    have hc := hd c (List.mem_cons_self _ _)
    have hc48 : 48 ≤ c := by
      simp only [is_digit, Bool.and_eq_true, decide_eq_true_eq] at hc
      exact hc.1
    simp only [List.foldl_cons] at hlt ⊢
    have hge := digits_foldl_ge cs (acc * 10 + (c - 48))
    simp only [parse_number_loop, hc, if_true]
    have e1 : wrap_i32 ((acc : Int) * 10) = (acc : Int) * 10 :=
      wrap_i32_of_range _ (by omega) (by omega)
    have e2 : wrap_i32 ((acc : Int) * 10 + ((c : Int) - 48)) = ((acc * 10 + (c - 48) : Nat) : Int) := by
      rw [wrap_i32_of_range _ (by omega) (by omega)]
      omega
    rw [e1, e2]
    exact ih (fun x hx => hd x (List.mem_cons_of_mem _ hx)) _ hlt

/-- A number literal within the 32-bit range is read as its decimal value. -/
theorem parse_number_loop_value (d : List Nat) (hd : lexes_as .NUMBER d = true)
    (hv : digits_value d < 2147483648) : parse_number_loop 0 d = (digits_value d : Int) := by
  have := parse_number_loop_foldl d (lexes_as_number_digits d hd) 0 hv
  simpa [digits_value] using this

/-! ## Implicit application -/

/-- The expression loop at a token that is not an identifier but starts a unary expression:
the left side becomes the callee of an implicit application. -/
theorem parse_expression_loop_apply (k : Nat) (p : qm_parser_state) (lhs : qm_expression)
    (bp : Int) (hr : p.result = 0) (hn : peek_identifier p = none) (p1 : qm_parser_state)
    (rhs : qm_expression) (hu : parse_unary_expression k p .NONE = some (true, p1, rhs)) :
    parse_expression_loop (k + 1) p lhs bp = parse_expression_loop k p1 (.CALL lhs rhs) bp := by
  simp [parse_expression_loop, hr, hn, hu]

/-- The three parser states met while reading `f a` for an identifier `f` and a number `a`. -/
theorem application_source_chain (p : qm_parser_state) (f a : List Nat)
    (hf : lexes_as .IDENTIFIER f = true) (ha : lexes_as .NUMBER a = true) :
    p.load (application_source f a)
      = p.at_token (application_source f a) .IDENTIFIER 0 f.length ∧
    (p.load (application_source f a)).advance
      = p.at_token (application_source f a) .NUMBER (f.length + 1) (f.length + 1 + a.length) ∧
    (p.load (application_source f a)).advance.advance
      = p.at_token (application_source f a) .EOF (application_source f a).length
          (application_source f a).length := by
  have hsp : ∀ v ∈ [32], is_whitespace v = true := by simp [is_whitespace]
  have hnil : ∀ v ∈ ([] : List Nat), is_whitespace v = true := by simp
  have e1 : p.load (application_source f a)
      = p.at_token (application_source f a) .IDENTIFIER 0 f.length := by
    have := advance_at_token p .INVALID 0 .IDENTIFIER (Or.inl rfl) [] [] f ([32] ++ a) hf hnil
      (by simp [ends_token, is_separator])
    simp only [List.nil_append, List.length_nil, Nat.zero_add] at this
    have hT : application_source f a = f ++ ([32] ++ a) := by simp [application_source]
    rw [load_eq, hT]
    exact this
  have e2 : (p.load (application_source f a)).advance
      = p.at_token (application_source f a) .NUMBER (f.length + 1) (f.length + 1 + a.length) := by
    have := advance_at_token p .IDENTIFIER 0 .NUMBER (Or.inr rfl) f [32] a [] ha hsp rfl
    simp only [List.length_singleton] at this
    have hT : application_source f a = f ++ [32] ++ a ++ [] := by simp [application_source]
    rw [e1, hT]
    exact this
  refine ⟨e1, e2, ?_⟩
  have hlen : f.length + 1 + a.length = (application_source f a).length := by
    simp only [application_source, List.length_append, List.length_singleton]
  rw [e2, hlen]
  exact advance_at_end p _ _ _

/-- The text `f a`, for an identifier `f` without operator-table entry and a number literal
`a`, parses as the implicit application `Call(Variable f, Number a)`. -/
theorem parse_application_source (p : qm_parser_state) (f a : List Nat)
    (hi : p.is_initialized = true) (hr : p.result = 0)
    (hf : lexes_as .IDENTIFIER f = true) (ha : lexes_as .NUMBER a = true)
    (hop : operator_find p.operators f = none) (fuel : Nat) (hfuel : 6 ≤ fuel)
    (e : qm_expression) :
    parse_expression fuel (p.load (application_source f a)) e
      = some (true,
          p.at_token (application_source f a) .EOF (application_source f a).length
            (application_source f a).length,
          .CALL (.VARIABLE f) (.NUMBER (parse_number_loop 0 a))) := by
  obtain ⟨e1, e2, e3⟩ := application_source_chain p f a hf ha
  have hk : fuel = (fuel - 6) + 6 := by omega
  generalize fuel - 6 = k at hk
  subst hk
  have hpeek : peek_identifier (p.load (application_source f a)) = some f := by
    rw [e1]
    have := peek_at_token p [] f ([32] ++ a) f.length hf (by simp [ends_token, is_separator])
    simpa [application_source] using this
  have hnum : parse_number_loop 0
      ((p.load (application_source f a)).advance.buffer.data.drop
        (p.load (application_source f a)).advance.token.start) = parse_number_loop 0 a := by
    rw [e2]
    have := number_at_token (f ++ [32]) a [] ha rfl
    simp only [List.length_append, List.length_singleton, List.append_nil] at this
    rw [(at_token_fields _ _ _ _ _).2.2.2.2.2, (at_token_fields _ _ _ _ _).2.2.2.2.1]
    exact this
  have hi1 : (p.load (application_source f a)).is_initialized = true := by rw [e1]; exact hi
  have hr1 : (p.load (application_source f a)).result = 0 := by rw [e1]; exact hr
  have ho1 : (p.load (application_source f a)).operators = p.operators := by rw [e1]; rfl
  have t1 : (p.load (application_source f a)).token.type = .IDENTIFIER := by rw [e1]; rfl
  have t2 : (p.load (application_source f a)).advance.token.type = .NUMBER := by rw [e2]; rfl
  have t3 : (p.load (application_source f a)).advance.advance.token.type = .EOF := by
    rw [e3]; rfl
  have hn2 : peek_identifier (p.load (application_source f a)).advance = none := by
    simp [peek_identifier, t2]
  simp only [parse_expression, parse_expression_]
  rw [parse_unary_variable (k + 3) _ e f hi1 hr1 t1 hpeek (by rw [ho1]; exact hop)]
  simp only []
  rw [parse_expression_loop_apply (k + 4) _ _ 0 (by simpa using hr1) hn2 _ _
    (parse_unary_number (k + 2) _ .NONE (by simpa using hi1) (by simpa using hr1) t2)]
  rw [parse_expression_loop_eof (k + 1) _ _ 0 (by simpa using hi1) (by simpa using hr1) t3,
    hnum, e3]

/-- Calling the identity function bound to `f` on a number: the parameter is bound to the
argument in the child scope and the body finds it there. -/
theorem tex_eval_identity_call (env : tex_environment) (f x : List Nat) (n : Int)
    (hu : string_equals (some f) (some unwrap_name) = false)
    (hdef : (tex_env_define env (some f) (.FUNCTION [some x] (.VARIABLE x))).1 = true)
    (fuel : Nat) (hfuel : 3 ≤ fuel) (v : Option tex_value) :
    tex_eval_expression fuel (.CALL (.VARIABLE f) (.NUMBER n)) v
      (tex_env_define env (some f) (.FUNCTION [some x] (.VARIABLE x))).2 = .ok (.NUMBER n) := by
  have hk : fuel = (fuel - 3) + 3 := by omega
  generalize fuel - 3 = k at hk
  subst hk
  rw [tex_eval_call_eq, tex_eval_call_function _ _ _ _ _ [some x] (.VARIABLE x) (.NUMBER n)
    (fun name hname => by cases hname; exact hu)
    (tex_eval_variable_found (k + 1) f none _ _ (tex_env_define_find env f _ hdef))
    (tex_eval_number (k + 1) n none _)]
  simp only [apply_function, List.length_singleton, decide_True, if_true, bind_parameters,
    List.headD_cons, ne_eq, not_true_eq_false, if_false]
  rw [tex_env_define_child_zero]
  apply tex_eval_variable_found
  apply tex_env_find_local
  exact tex_table_define_find _ _ _ (tex_table_zero_define _ _)

/-! ## Applying a function value -/

theorem apply_function_one (ev : evaluator) (p : cstring) (body : qm_expression)
    (a : tex_value) (v : Option tex_value) (env : tex_environment) :
    apply_function ev [p] body a v env
      = ev body v (tex_env_define (.child tex_table.zero env) p a).2 := by
  cases a <;> simp [apply_function, bind_parameters]

theorem apply_function_matrix (ev : evaluator) (parameters : List cstring)
    (body : qm_expression) (d : Nat) (cells : List tex_value) (v : Option tex_value)
    (env : tex_environment) (hn : parameters.length ≠ 1) :
    apply_function ev parameters body (.MATRIX parameters.length 1 d cells) v env
      = ev body v (bind_parameters (.child tex_table.zero env) parameters cells) := by
  simp [apply_function, hn]

theorem apply_function_abort (ev : evaluator) (parameters : List cstring)
    (body : qm_expression) (a : tex_value) (v : Option tex_value) (env : tex_environment)
    (hn : parameters.length ≠ 1)
    (ha : ∀ d cells, a ≠ .MATRIX parameters.length 1 d cells) :
    apply_function ev parameters body a v env = .abort := by
  cases a with
  | MATRIX w h d cells =>
    have : ¬ (w = parameters.length ∧ h = 1) := by
      rintro ⟨rfl, rfl⟩
      exact ha d cells rfl
    simp [apply_function, hn, this]
  | NONE => simp [apply_function, hn]
  | NUMBER n => simp [apply_function, hn]
  | FUNCTION ps b => simp [apply_function, hn]
  | STRING s => simp [apply_function, hn]
  | RAW_STRING s => simp [apply_function, hn]


/-! ## Binding the parameters of a call -/

theorem filter_update_length (f g : Nat → Bool) (j : Nat) (h : ∀ i, i ≠ j → g i = f i) :
    ∀ n, ((List.range n).filter g).length ≤ ((List.range n).filter f).length + 1 ∧
      (n ≤ j → ((List.range n).filter g).length = ((List.range n).filter f).length) := by
  intro n
  induction n with
  | zero => simp
  | succ n ih =>
    obtain ⟨ih1, ih2⟩ := ih
    rw [List.range_succ, List.filter_append, List.filter_append, List.length_append,
      List.length_append]
    by_cases hn : n = j
    · subst hn
      have := ih2 (le_refl n)
      constructor
      · have h1 : ([n].filter g).length ≤ 1 := by
          simp only [List.filter_cons, List.filter_nil]
          split <;> simp
        omega
      · intro hh; omega
    · have hg : g n = f n := h n hn
      have h1 : [n].filter g = [n].filter f := by
        simp only [List.filter_cons, List.filter_nil, hg]
      rw [h1]
      constructor
      · omega
      · intro hh
        have := ih2 (by omega)
        omega

theorem tex_table_count_room (t : tex_table) (hs : t.size = 1024) (hc : t.count < 1024) :
    ∃ i, i < 1024 ∧ t.keys i = none := by
  by_contra hcon
  have hall : ∀ i ∈ List.range 1024, (fun i => (t.keys i).isSome) i = true := by
    intro i hi
    have hi1 : i < 1024 := List.mem_range.1 hi
    cases hk : t.keys i with
    | none => exact absurd ⟨i, hi1, hk⟩ hcon
    | some k => simp [hk]
  have : t.count = 1024 := by
    unfold tex_table.count
    rw [hs, List.filter_eq_self.2 hall, List.length_range]
  omega

theorem tex_env_define_loop_room (t : tex_table) (name : cstring) (value : tex_value)
    (mask : Nat) :
    ∀ n i d, d < n → t.keys (probe_slot mask i d) = none →
      ∃ j, tex_env_define_loop t name value mask n i
        = (true, { t with keys := Function.update t.keys j name,
                          values := Function.update t.values j value,
                          used := t.used + 1 }) := by
  intro n
  induction n with
  | zero => intro i d hd; omega
  | succ n ih =>
    intro i d hd hk
    by_cases hc : ((t.keys i).isNone || string_equals name (t.keys i)) = true
    · exact ⟨i, by simp only [tex_env_define_loop, hc, if_true]⟩
    · cases d with
      | zero =>
        simp only [probe_slot] at hk
        simp [hk] at hc
      | succ d =>
        obtain ⟨j, hj⟩ := ih ((i + 1) &&& mask) d (by omega) (by simpa [probe_slot] using hk)
        exact ⟨j, by simp only [tex_env_define_loop, hc, hj]; rfl⟩

/-- In a map of 1024 slots that holds fewer than 1024 bindings, `tex_env_define` succeeds. -/
theorem tex_table_define_room (t : tex_table) (hs : t.size = 1024) (hc : t.count ≤ t.used)
    (hu : t.used < 1024) (name : cstring) (value : tex_value) :
    (t.define name value).1 = true ∧ (t.define name value).2.size = 1024 ∧
      (t.define name value).2.used = t.used + 1 ∧
      (t.define name value).2.count ≤ (t.define name value).2.used := by
  obtain ⟨i, hi, hk⟩ := tex_table_count_room t hs (by omega)
  obtain ⟨d, hd, hp⟩ := probe_slot_cover (hash name &&& 1023) i (hash_slot_lt name) hi
  obtain ⟨j, hj⟩ := tex_env_define_loop_room t name value 1023 1024 (hash name &&& 1023) d hd
    (by rw [hp]; exact hk)
  have hdef : t.define name value
      = (true, { t with keys := Function.update t.keys j name,
                        values := Function.update t.values j value,
                        used := t.used + 1 }) := by
    unfold tex_table.define
    simp only [hs, if_neg (show (1024 : Nat) ≠ 0 by decide), probe_mask_1024]
    rw [if_neg (by omega), hj, hs]
  rw [hdef]
  refine ⟨rfl, hs, rfl, ?_⟩
  have h := (filter_update_length (fun i => (t.keys i).isSome)
    (fun i => (Function.update t.keys j name i).isSome) j
    (fun i hij => by simp [Function.update_apply, hij]) t.size).1
  simp only [tex_table.count] at hc ⊢
  omega

theorem tex_table_zero_define_fresh (name : cstring) (value : tex_value) :
    tex_table.zero.define name value = tex_table.fresh.define name value := rfl

theorem bind_parameters_child (names : List (List Nat)) :
    ∀ (values : List tex_value) (t : tex_table) (parent : tex_environment),
      t.size = 1024 → t.count ≤ t.used → t.used + names.length ≤ 1024 →
      names.Pairwise (fun a b => string_equals (some a) (some b) = false) →
      ∃ t1, bind_parameters (.child t parent) (names.map some) values = .child t1 parent ∧
        (∀ i, i < names.length →
          t1.find (some (names.getD i [])) = some (values.getD i .NONE)) ∧
        (∀ n, (∀ a ∈ names, string_equals (some n) (some a) = false) →
          t1.find (some n) = t.find (some n)) := by
  induction names with
  | nil =>
    intro values t parent _ _ _ _
    exact ⟨t, rfl, by intro i hi; simp at hi, fun n _ => rfl⟩
  | cons a rest ih =>
    intro values t parent hs hc hu hp
    obtain ⟨hok, hs1, hu1, hc1⟩ := tex_table_define_room t hs hc
      (by simp only [List.length_cons] at hu; omega) (some a) (values.headD .NONE)
    rw [List.pairwise_cons] at hp
    obtain ⟨t1, hb, hfind, hother⟩ := ih values.tail (t.define (some a) (values.headD .NONE)).2
      parent hs1 hc1 (by simp only [List.length_cons] at hu; omega) hp.2
    refine ⟨t1, ?_, ?_, ?_⟩
    · simp only [List.map_cons, bind_parameters]
      exact hb
    · intro i hi
      cases i with
      | zero =>
        have h0 : values.getD 0 .NONE = values.headD .NONE := by cases values <;> rfl
        rw [List.getD_cons_zero, h0, hother a hp.1]
        exact tex_table_define_find t a _ hok
      | succ i =>
        have h1 : values.getD (i + 1) .NONE = values.tail.getD i .NONE := by
          cases values <;> simp
        rw [List.getD_cons_succ, h1]
        exact hfind i (by simpa using hi)
    · intro n hn
      rw [hother n (fun b hb => hn b (List.mem_cons_of_mem _ hb))]
      exact tex_table_define_find_other t a n _ (hn a (List.mem_cons_self _ _))

/-- The scope of a call: each of at most 1024 pairwise different parameters is found with
the value at its position, and every other name is looked up in the environment of the
call. -/
theorem bind_parameters_find (names : List (List Nat)) (values : List tex_value)
    (env : tex_environment) (hlen : names.length ≤ 1024)
    (hp : names.Pairwise (fun a b => string_equals (some a) (some b) = false)) :
    (∀ i, i < names.length →
      tex_env_find (bind_parameters (.child tex_table.zero env) (names.map some) values)
        (some (names.getD i [])) = some (values.getD i .NONE)) ∧
    (∀ n, (∀ a ∈ names, string_equals (some n) (some a) = false) →
      tex_env_find (bind_parameters (.child tex_table.zero env) (names.map some) values)
        (some n) = tex_env_find env (some n)) := by
  cases names with
  | nil =>
    refine ⟨by intro i hi; simp at hi, ?_⟩
    intro n _
    simp only [List.map_nil, bind_parameters]
    exact tex_env_find_child_miss _ _ _ (tex_table_find_size_zero _ _ rfl)
  | cons a rest =>
    have hz : bind_parameters (.child tex_table.zero env) ((a :: rest).map some) values
        = bind_parameters (.child tex_table.fresh env) ((a :: rest).map some) values := by
      simp only [List.map_cons, bind_parameters, tex_env_define_child_zero,
        tex_table_zero_define_fresh]
      rfl
    obtain ⟨t1, hb, hfind, hother⟩ := bind_parameters_child (a :: rest) values tex_table.fresh
      env rfl (by simp [tex_table.count, tex_table.fresh])
      (by simpa [tex_table.fresh] using hlen) hp
    rw [hz, hb]
    constructor
    · intro i hi
      exact tex_env_find_local _ _ _ (hfind i hi)
    · intro n hn
      rw [tex_env_find_child_miss _ _ _ (by
        rw [hother n hn]
        exact tex_table_find_empty _ _ rfl)]

/-! ## Claims C7 to C10 -/

/-- C7. Implicit application. With no operator named `f`, after the definition
`fn f(x) = x` has been evaluated into the environment (the binding was installed), for every
number literal `d` of value `n` below `2^31` the input `f d` parses as
`Call(Variable f, Number n)` by juxtaposition, evaluates to `Number n`, and the output of the
statement is the decimal representation of `n`; for every fuel of at least 6. -/
theorem implicit_application (p : qm_parser_state) (env : tex_environment) (f x d : List Nat)
    (hi : p.is_initialized = true) (hr : p.result = 0)
    (hf : lexes_as .IDENTIFIER f = true) (hd : lexes_as .NUMBER d = true)
    (hop : operator_find p.operators f = none)
    (hu : string_equals (some f) (some unwrap_name) = false)
    (hv : digits_value d < 2147483648)
    (hdef : (tex_env_define env (some f) (.FUNCTION [some x] (.VARIABLE x))).1 = true)
    (fuel : Nat) (hfuel : 6 ≤ fuel) (e : qm_expression) :
    ∃ env1, tex_eval fuel (identity_definition f x) none env = .ok (0, none, env1) ∧
      tex_env_find env1 (some f) = some (.FUNCTION [some x] (.VARIABLE x)) ∧
      parse_expression fuel (p.load (application_source f d)) e
        = some (true,
            p.at_token (application_source f d) .EOF (application_source f d).length
              (application_source f d).length,
            .CALL (.VARIABLE f) (.NUMBER (digits_value d))) ∧
      tex_eval_expression fuel (.CALL (.VARIABLE f) (.NUMBER (digits_value d))) none env1
        = .ok (.NUMBER (digits_value d)) ∧
      main_statement_output fuel
          (.EXPRESSION (.CALL (.VARIABLE f) (.NUMBER (digits_value d)))) env1
        = .ok (decimal (digits_value d), env1) := by
  have hparse := parse_application_source p f d hi hr hf hd hop fuel hfuel e
  rw [parse_number_loop_value d hd hv] at hparse
  have heval := tex_eval_identity_call env f x (digits_value d) hu hdef fuel (by omega) none
  have h0 : 0 ∉ number_str ((digits_value d : Nat) : Int) := by
    rw [number_str_of_nat]; exact decimal_ne_zero _
  have hout := main_statement_output_of fuel _ _ _ (decimal (digits_value d)) heval
    (by rw [← number_str_of_nat]; exact tex_value_write_number_measure _ h0)
    (by rw [← number_str_of_nat]; exact tex_value_write_number_fill _ h0 1)
  exact ⟨_, by simp [tex_eval, identity_definition], tex_env_define_find env f _ hdef, hparse,
    heval, hout⟩

theorem implicit_application_witness :
    ∃ env1, tex_eval 6 (identity_definition [102] [120]) none (.root tex_table.zero)
        = .ok (0, none, env1) ∧
      tex_env_find env1 (some [102]) = some (.FUNCTION [some [120]] (.VARIABLE [120])) ∧
      parse_expression 6 (plus_times_state.load [102, 32, 53]) .NONE
        = some (true,
            plus_times_state.at_token [102, 32, 53] .EOF
              3 3,
            .CALL (.VARIABLE [102]) (.NUMBER 5)) ∧
      tex_eval_expression 6 (.CALL (.VARIABLE [102]) (.NUMBER 5)) none env1
        = .ok (.NUMBER 5) ∧
      main_statement_output 6
          (.EXPRESSION (.CALL (.VARIABLE [102]) (.NUMBER 5))) env1
        = .ok ([53], env1) :=
  implicit_application plus_times_state (.root tex_table.zero) [102] [120] [53] (by decide!)
    (by decide!) (by decide!) (by decide!) (by decide!) (by decide!) (by decide!)
    (tex_table_zero_define (some [102]) (.FUNCTION [some [120]] (.VARIABLE [120]))) 6
    (le_refl 6) .NONE

/-- C8. Variable resolution. In an environment whose maps are unallocated or hold 1024
slots, evaluating `Variable(n)` yields the value stored with a key equal to `n` in the
nearest map of the parent chain that binds `n` (the local map first, then each parent in
turn); if no map of the chain binds `n`, it yields `RawString(n)`, and the output of the
statement is exactly the bytes of `n` (a name has no NUL byte). -/
theorem variable_resolution (env : tex_environment) (n : List Nat) (v : Option tex_value)
    (hw : ∀ t ∈ env.chain, t.well_sized) :
    (∀ pre t post, env.chain = pre ++ t :: post → (∀ u ∈ pre, ¬ u.binds n) → t.binds n →
      ∃ i, i < t.size ∧ string_equals (some n) (t.keys i) = true ∧
        ∀ k, tex_eval_expression (k + 1) (.VARIABLE n) v env = .ok (t.values i)) ∧
    ((∀ u ∈ env.chain, ¬ u.binds n) → 0 ∉ n →
      ∀ k, tex_eval_expression (k + 1) (.VARIABLE n) v env = .ok (.RAW_STRING n) ∧
        main_statement_output (k + 1) (.EXPRESSION (.VARIABLE n)) env = .ok (n, env)) := by
  obtain ⟨h1, h2⟩ := tex_env_find_chain n env hw
  constructor
  · intro pre t post hc hpre hb
    obtain ⟨i, hi, hm, hf⟩ := h1 pre t post hc hpre hb
    exact ⟨i, hi, hm, fun k => tex_eval_variable_found k n v env _ hf⟩
  · intro hnone h0 k
    have hlen : string_length (some n) = n.length := string_length_loop_of_nonzero n h0
    have hraw : ∀ v1, tex_eval_expression (k + 1) (.VARIABLE n) v1 env = .ok (.RAW_STRING n) := by
      intro v1
      rw [tex_eval_variable_unbound k n v1 env (h2 hnone), hlen, List.take_length]
    exact ⟨hraw v, main_statement_output_of (k + 1) _ env _ n (hraw none)
      (tex_value_write_raw_measure n) (tex_value_write_raw_fill n 1)⟩

theorem variable_resolution_witness :
    (∀ pre t post, nested_environment.chain = pre ++ t :: post →
      (∀ u ∈ pre, ¬ u.binds [120]) → t.binds [120] →
      ∃ i, i < t.size ∧ string_equals (some [120]) (t.keys i) = true ∧
        ∀ k, tex_eval_expression (k + 1) (.VARIABLE [120]) none nested_environment
          = .ok (t.values i)) ∧
    ((∀ u ∈ nested_environment.chain, ¬ u.binds [120]) → 0 ∉ [120] →
      ∀ k, tex_eval_expression (k + 1) (.VARIABLE [120]) none nested_environment
          = .ok (.RAW_STRING [120]) ∧
        main_statement_output (k + 1) (.EXPRESSION (.VARIABLE [120])) nested_environment
          = .ok ([120], nested_environment)) :=
  variable_resolution nested_environment [120] none (by
    intro t ht
    simp only [nested_environment, tex_environment.chain, List.mem_cons, List.mem_singleton,
      List.not_mem_nil, or_false] at ht
    rcases ht with rfl | rfl
    · exact Or.inr (by decide!)
    · exact Or.inr (by decide!))

/-- C9. Dynamic scoping. A call whose callee evaluates to a one-parameter function evaluates
the body in a fresh child scope whose parent is the environment of the call, whatever the
environment of the definition was: every name other than the parameter is looked up in the
environment of the call. Concretely, if
`g` is bound to `Function([y], Variable x)` and `f` to
`Function([x], Call(Variable g, Number 0))`, then for every argument expression that
evaluates to a value `v`, `f` applied to it yields `v`: the body of `g` finds the `x` of its
caller. Where `x` is unbound, as it was when `g` was defined, the body of `g` yields
`RawString "x"` instead. -/
theorem dynamic_scoping (env : tex_environment) (a : qm_expression) (x : tex_value) (k : Nat)
    (v : Option tex_value)
    (hg : tex_env_find env (some [103]) = some (.FUNCTION [some [121]] (.VARIABLE [120])))
    (hf : tex_env_find env (some [102])
      = some (.FUNCTION [some [120]] (.CALL (.VARIABLE [103]) (.NUMBER 0))))
    (ha : tex_eval_expression k a none env = .ok x) :
    (∀ c p body,
      (∀ name, c = .VARIABLE name → string_equals (some name) (some unwrap_name) = false) →
      tex_eval_expression k c none env = .ok (.FUNCTION [some p] body) →
      tex_eval_expression (k + 1) (.CALL c a) v env
        = tex_eval_expression k body v (.child (tex_table.zero.define (some p) x).2 env) ∧
      ∀ n, string_equals (some n) (some p) = false →
        tex_env_find (.child (tex_table.zero.define (some p) x).2 env) (some n)
          = tex_env_find env (some n)) ∧
    (∀ fuel, k + 3 ≤ fuel →
      tex_eval_expression fuel (.CALL (.VARIABLE [102]) a) v env = .ok x) ∧
    (tex_env_find env (some [120]) = none →
      ∀ fuel, tex_eval_expression (fuel + 1) (.VARIABLE [120]) v env
        = .ok (.RAW_STRING [120])) := by
  refine ⟨?_, ?_, ?_⟩
  · intro c p body hu hc
    constructor
    · rw [tex_eval_call_eq, tex_eval_call_function _ _ _ _ _ _ _ x hu hc ha,
        apply_function_one, tex_env_define_child_zero]
    · intro n hn
      apply tex_env_find_child_miss
      rw [tex_table_define_find_other _ _ _ _ hn]
      exact tex_table_find_size_zero _ _ rfl
  · intro fuel hfuel
    have hk : fuel = (fuel - 3) + 3 := by omega
    generalize fuel - 3 = m at hk
    subst hk
    have ha1 := tex_eval_expression_mono k (m + 2) (by omega) a none env x ha
    -- the call of `f`: `x` is bound to the argument in a child of `env`
    rw [tex_eval_call_eq, tex_eval_call_function _ _ _ _ _ _ _ x
      (fun name hname => by cases hname; decide)
      (tex_eval_variable_found (m + 1) [102] none env _ hf) ha1]
    rw [apply_function_one, tex_env_define_child_zero]
    -- the call of `g` inside: `g` is found in `env`, through the child scope
    have hg1 : tex_env_find (.child (tex_table.zero.define (some [120]) x).2 env) (some [103])
        = some (.FUNCTION [some [121]] (.VARIABLE [120])) := by
      rw [tex_env_find_child_miss _ _ _ (by
        rw [tex_table_define_find_other _ _ _ _ (by decide)]
        exact tex_table_find_size_zero _ _ rfl)]
      exact hg
    rw [tex_eval_call_eq, tex_eval_call_function _ _ _ _ _ _ _ (.NUMBER 0)
      (fun name hname => by cases hname; decide)
      (tex_eval_variable_found m [103] none _ _ hg1) (tex_eval_number m 0 none _)]
    rw [apply_function_one, tex_env_define_child_zero]
    -- the body of `g`: `x` is not in the scope of `g`, but in the scope of its caller
    apply tex_eval_variable_found
    rw [tex_env_find_child_miss _ _ _ (by
      rw [tex_table_define_find_other _ _ _ _ (by decide)]
      exact tex_table_find_size_zero _ _ rfl)]
    apply tex_env_find_local
    exact tex_table_define_find _ _ _ (tex_table_zero_define _ _)
  · intro hx fuel
    exact tex_eval_variable_unbound fuel [120] v env hx

set_option maxRecDepth 100000 in
theorem dynamic_scoping_witness :
    (∀ c p body,
      (∀ name, c = .VARIABLE name → string_equals (some name) (some unwrap_name) = false) →
      tex_eval_expression 1 c none scoping_environment = .ok (.FUNCTION [some p] body) →
      tex_eval_expression (1 + 1) (.CALL c (.NUMBER 7)) none scoping_environment
        = tex_eval_expression 1 body none
            (.child (tex_table.zero.define (some p) (.NUMBER 7)).2 scoping_environment) ∧
      ∀ n, string_equals (some n) (some p) = false →
        tex_env_find (.child (tex_table.zero.define (some p) (.NUMBER 7)).2
            scoping_environment) (some n)
          = tex_env_find scoping_environment (some n)) ∧
    (∀ fuel, 1 + 3 ≤ fuel →
      tex_eval_expression fuel (.CALL (.VARIABLE [102]) (.NUMBER 7)) none scoping_environment
        = .ok (.NUMBER 7)) ∧
    (tex_env_find scoping_environment (some [120]) = none →
      ∀ fuel, tex_eval_expression (fuel + 1) (.VARIABLE [120]) none scoping_environment
        = .ok (.RAW_STRING [120])) :=
  dynamic_scoping scoping_environment (.NUMBER 7) (.NUMBER 7) 1 none
    (by
      unfold scoping_environment
      rw [tex_env_find_local _ _ _ (by
        have : ∀ e n v, (tex_env_define e n v).2.table = (e.table.define n v).2 := by
          intro e n v; cases e <;> rfl
        rw [this, tex_table_define_find_other _ _ _ _ (by decide)]
        exact tex_table_define_find _ _ _ (tex_table_zero_define _ _))])
    (tex_env_define_find _ _ _ (by decide!))
    (tex_eval_number 0 7 none _)

/-- C10. Parameter binding and fatal mismatch. Let the callee of a call (not the builtin
`__unwrap__`) evaluate to a function with `n` parameters and the argument to a value `a`.
If `n = 1`, the call is the body evaluated in a fresh child of the calling environment in
which the parameter is bound to `a` as a whole, whatever `a` is. If `n ≠ 1` and `a` is a
matrix of height 1 and width `n`, the call is the body evaluated in the child in which the
parameters are bound in order to the cells of `a`: each of at most 1024 pairwise different
parameters is found there with the cell at its position. In every other case the call
aborts. -/
theorem parameter_binding (env : tex_environment) (callee arg : qm_expression)
    (parameters : List cstring) (body : qm_expression) (a : tex_value) (k : Nat)
    (v : Option tex_value)
    (hu : ∀ name, callee = .VARIABLE name → string_equals (some name) (some unwrap_name) = false)
    (hc : tex_eval_expression k callee none env = .ok (.FUNCTION parameters body))
    (ha : tex_eval_expression k arg none env = .ok a) :
    (∀ p, parameters = [some p] →
      tex_eval_expression (k + 1) (.CALL callee arg) v env
        = tex_eval_expression k body v (.child (tex_table.zero.define (some p) a).2 env) ∧
      tex_env_find (.child (tex_table.zero.define (some p) a).2 env) (some p) = some a) ∧
    (parameters.length ≠ 1 → ∀ d cells, a = .MATRIX parameters.length 1 d cells →
      tex_eval_expression (k + 1) (.CALL callee arg) v env
        = tex_eval_expression k body v
            (bind_parameters (.child tex_table.zero env) parameters cells) ∧
      ∀ names : List (List Nat), parameters = names.map some → names.length ≤ 1024 →
        names.Pairwise (fun x y => string_equals (some x) (some y) = false) →
        ∀ i, i < names.length →
          tex_env_find (bind_parameters (.child tex_table.zero env) parameters cells)
            (some (names.getD i [])) = some (cells.getD i .NONE)) ∧
    (parameters.length ≠ 1 → (∀ d cells, a ≠ .MATRIX parameters.length 1 d cells) →
      tex_eval_expression (k + 1) (.CALL callee arg) v env = .abort) := by
  have hcall : tex_eval_expression (k + 1) (.CALL callee arg) v env
      = apply_function (tex_eval_expression k) parameters body a v env := by
    rw [tex_eval_call_eq]
    exact tex_eval_call_function _ _ _ _ _ _ _ a hu hc ha
  refine ⟨?_, ?_, ?_⟩
  · intro p hp
    subst hp
    rw [hcall, apply_function_one, tex_env_define_child_zero]
    exact ⟨rfl, tex_env_find_local _ _ _
      (tex_table_define_find _ _ _ (tex_table_zero_define _ _))⟩
  · intro hn d cells hm
    subst hm
    rw [hcall, apply_function_matrix _ _ _ _ _ _ _ hn]
    refine ⟨rfl, ?_⟩
    intro names hnames hlen hp i hi
    subst hnames
    exact (bind_parameters_find names cells env hlen hp).1 i hi
  · intro hn hm
    rw [hcall]
    exact apply_function_abort _ _ _ _ _ _ hn hm

theorem parameter_binding_witness :
    (∀ p, [some [97], some [98]] = [some p] →
      tex_eval_expression (2 + 1)
          (.CALL (.VARIABLE [102]) (.MATRIX 2 1 5 [.NUMBER 1, .NUMBER 2])) none
          pair_environment
        = tex_eval_expression 2 (.VARIABLE [98]) none
            (.child (tex_table.zero.define (some p)
              (.MATRIX 2 1 5 [.NUMBER 1, .NUMBER 2])).2 pair_environment) ∧
      tex_env_find (.child (tex_table.zero.define (some p)
          (.MATRIX 2 1 5 [.NUMBER 1, .NUMBER 2])).2 pair_environment) (some p)
        = some (.MATRIX 2 1 5 [.NUMBER 1, .NUMBER 2])) ∧
    ([some [97], some [98]].length ≠ 1 → ∀ d cells,
      tex_value.MATRIX 2 1 5 [.NUMBER 1, .NUMBER 2]
        = .MATRIX [some [97], some [98]].length 1 d cells →
      tex_eval_expression (2 + 1)
          (.CALL (.VARIABLE [102]) (.MATRIX 2 1 5 [.NUMBER 1, .NUMBER 2])) none
          pair_environment
        = tex_eval_expression 2 (.VARIABLE [98]) none
            (bind_parameters (.child tex_table.zero pair_environment)
              [some [97], some [98]] cells) ∧
      ∀ names : List (List Nat), [some [97], some [98]] = names.map some →
        names.length ≤ 1024 →
        names.Pairwise (fun x y => string_equals (some x) (some y) = false) →
        ∀ i, i < names.length →
          tex_env_find (bind_parameters (.child tex_table.zero pair_environment)
              [some [97], some [98]] cells)
            (some (names.getD i [])) = some (cells.getD i .NONE)) ∧
    ([some [97], some [98]].length ≠ 1 →
      (∀ d cells, tex_value.MATRIX 2 1 5 [.NUMBER 1, .NUMBER 2]
        ≠ .MATRIX [some [97], some [98]].length 1 d cells) →
      tex_eval_expression (2 + 1)
          (.CALL (.VARIABLE [102]) (.MATRIX 2 1 5 [.NUMBER 1, .NUMBER 2])) none
          pair_environment = .abort) :=
  parameter_binding pair_environment (.VARIABLE [102]) (.MATRIX 2 1 5 [.NUMBER 1, .NUMBER 2])
    [some [97], some [98]] (.VARIABLE [98]) (.MATRIX 2 1 5 [.NUMBER 1, .NUMBER 2]) 2 none
    (fun name hname => by cases hname; decide)
    (tex_eval_variable_found 1 [102] none pair_environment _
      (tex_env_define_find _ _ _ (tex_table_zero_define (some [102])
        (.FUNCTION [some [97], some [98]] (.VARIABLE [98])))))
    (tex_eval_matrix_ok 1 2 1 5 _ none pair_environment _
      (by simp [tex_eval_cells, tex_eval_expression]))

/-! ## The serializer emits the markup of a value -/

theorem store_bytes_length (data s : List Nat) (start : Nat)
    (h : start + s.length ≤ data.length) : (store_bytes data start s).length = data.length := by
  simp only [store_bytes, List.length_append, List.length_take, List.length_drop]
  omega

theorem store_bytes_append (data s t : List Nat) (start : Nat) (h : start ≤ data.length) :
    store_bytes (store_bytes data start s) (start + s.length) t
      = store_bytes data start (s ++ t) := by
  have h1 : (data.take start).length = start := by simp [h]
  have e : store_bytes data start s = (data.take start ++ s) ++ data.drop (start + s.length) := rfl
  have hl : (data.take start ++ s).length = start + s.length := by
    simp [h1]
  rw [e]
  simp only [store_bytes]
  rw [List.take_left' hl, List.drop_append_eq_append_drop, List.drop_of_length_le (by omega),
    List.drop_drop, hl]
  simp only [List.length_append, List.append_assoc, List.nil_append]
  congr 3
  congr 1
  omega

theorem has_room_append (b : qm_buffer) (s : List Nat) (n : Nat)
    (h : b.has_room (s.length + n)) : (b.append s).has_room n := by
  obtain ⟨h1, h2⟩ := h
  refine ⟨?_, ?_⟩
  · simp only [qm_buffer.append]
    omega
  · simp only [qm_buffer.append]
    rw [store_bytes_length _ _ _ (by omega)]
    exact h2

theorem append_append (b : qm_buffer) (s t : List Nat) (h : b.start ≤ b.data.length) :
    (b.append s).append t = b.append (s ++ t) := by
  simp only [qm_buffer.append, store_bytes_append _ _ _ _ h, List.length_append, Nat.add_assoc]

theorem append_nil (b : qm_buffer) : b.append [] = b := by
  simp [qm_buffer.append, store_bytes]

/-- The room and the buffer after one more write, for an optional buffer. -/
theorem output_room_append (output : Option qm_buffer) (s : List Nat) (n : Nat)
    (h : ∀ b, output = some b → b.has_room (s.length + n)) :
    (∀ b, output = some b → b.has_room s.length) ∧
    (∀ b, output.map (fun b => b.append s) = some b → b.has_room n) ∧
    ∀ t : List Nat, (output.map (fun b => b.append s)).map (fun b => b.append t)
      = output.map (fun b => b.append (s ++ t)) := by
  cases output with
  | none => simp
  | some b =>
    have hb := h b rfl
    refine ⟨?_, ?_, ?_⟩
    · intro b1 e
      cases e
      exact ⟨by have := hb.1; omega, hb.2⟩
    · intro b1 e
      simp only [Option.map_some', Option.some.injEq] at e
      rw [← e]
      exact has_room_append b s n hb
    · intro t
      simp only [Option.map_some']
      rw [append_append b s t (by have := hb.1; have := hb.2; omega)]

theorem buffer_writen_emit (output : Option qm_buffer) (s : List Nat)
    (h : ∀ b, output = some b → b.has_room s.length) :
    buffer_writen output s s.length = (s.length, output.map (fun b => b.append s)) := by
  cases output with
  | none => rfl
  | some b =>
    have hb := (h b rfl).1
    simp only [buffer_writen, Option.map_some', qm_buffer.append]
    rw [Nat.min_eq_left (by omega), range_map_getD]

theorem write_step_emit (total : Nat) (output : Option qm_buffer) (s : List Nat) (h0 : 0 ∉ s)
    (h : ∀ b, output = some b → b.has_room s.length) :
    write_step (total, output) (some s)
      = .ok (total + s.length, output.map (fun b => b.append s)) := by
  have hlen : string_length (some s) = s.length := string_length_loop_of_nonzero s h0
  cases output with
  | none => simp [write_step, buffer_write, hlen]
  | some b =>
    have := buffer_writen_emit (some b) s h
    simp only [write_step, buffer_write, hlen, this]

theorem number_str_ne_zero (n : Int) : 0 ∉ number_str n := by
  unfold number_str
  have h := decimal_ne_zero n.natAbs
  unfold decimal at h
  split
  · intro hm
    rcases List.mem_cons.1 hm with h1 | h1
    · exact absurd h1 (by decide)
    · exact h h1
  · exact h

theorem delimiters_of_kind (is_matrix : Bool) (d : Nat) (hd : d = 2 ∨ d = 4 ∨ d = 6) :
    ∃ o c, open_delimiters is_matrix d = some o ∧ closing_delimiters is_matrix d = some c ∧
      0 ∉ o ∧ 0 ∉ c := by
  rcases hd with rfl | rfl | rfl <;> cases is_matrix <;>
    exact ⟨_, _, rfl, rfl, by decide, by decide⟩

theorem tex_value_write_breaks_emit (n total : Nat) (output : Option qm_buffer)
    (h : ∀ b, output = some b → b.has_room (List.replicate n [92, 10]).flatten.length) :
    tex_value_write_breaks n (total, output)
      = .ok (total + (List.replicate n [92, 10]).flatten.length,
          output.map (fun b => b.append (List.replicate n [92, 10]).flatten)) := by
  induction n generalizing total output with
  | zero =>
    cases output with
    | none => rfl
    | some b => simp [tex_value_write_breaks, append_nil]
  | succ n ih =>
    have e : (List.replicate (n + 1) [92, 10]).flatten
        = [92, 10] ++ (List.replicate n [92, 10]).flatten := by
      simp [List.replicate_succ]
    rw [e] at h ⊢
    simp only [List.length_append] at h
    obtain ⟨r1, r2, r3⟩ := output_room_append output [92, 10] _ h
    simp only [tex_value_write_breaks]
    rw [write_step_emit total output [92, 10] (by decide) r1]
    simp only []
    rw [ih _ _ r2, r3]
    simp only [List.length_append, List.length_cons, List.length_nil]
    congr 2
    omega

theorem tex_value_write_cells_emit (width height : Nat) (vs : List tex_value)
    (hvs : ∀ v ∈ vs, emits v v.bytes) :
    ∀ (k total : Nat) (output : Option qm_buffer), k + vs.length = width * height →
      (∀ b, output = some b → b.has_room (cells_bytes width height k vs).length) →
      tex_value_write_cells width height k vs (total, output)
        = .ok (total + (cells_bytes width height k vs).length,
            output.map (fun b => b.append (cells_bytes width height k vs))) := by
  induction vs with
  | nil =>
    intro k total output hk _
    have : ¬ k < width * height := by simp at hk; omega
    cases output with
    | none => simp [tex_value_write_cells, cells_bytes, this]
    | some b => simp [tex_value_write_cells, cells_bytes, this, append_nil]
  | cons v vs ih =>
    intro k total output hk hroom
    have hlt : k < width * height := by simp only [List.length_cons] at hk; omega
    have hv := hvs v (List.mem_cons_self _ _)
    have e : cells_bytes width height k (v :: vs)
        = cell_separator width height k ++ (v.bytes ++ cells_bytes width height (k + 1) vs) := by
      simp [cells_bytes, hlt]
    rw [e] at hroom ⊢
    simp only [List.length_append] at hroom
    obtain ⟨r1, r2, r3⟩ := output_room_append output (cell_separator width height k) _ hroom
    obtain ⟨q1, q2, q3⟩ := output_room_append
      (output.map (fun b => b.append (cell_separator width height k))) v.bytes _ r2
    -- what is written before the cell
    have hbefore : (if k % width = 0 then
          if k / width ≠ 0 then write_step (total, output) (some [92, 10])
          else .ok (total, output)
        else if height = 1 then write_step (total, output) (some [44, 32])
        else .ok (total, output))
        = .ok (total + (cell_separator width height k).length,
            output.map (fun b => b.append (cell_separator width height k))) := by
      have hnil : (Outcome.ok (total, output) : Outcome (Nat × Option qm_buffer))
          = .ok (total + ([] : List Nat).length, output.map (fun b => b.append [])) := by
        cases output with
        | none => rfl
        | some b => simp [append_nil]
      by_cases h1 : k % width = 0
      · by_cases h2 : k / width = 0
        · have hs : cell_separator width height k = [] := by simp [cell_separator, h1, h2]
          rw [hs]
          simp only [h1, h2, if_true, ne_eq, not_true_eq_false, if_false]
          exact hnil
        · have hs : cell_separator width height k = [92, 10] := by
            simp [cell_separator, h1, h2]
          rw [hs] at r1 ⊢
          simp only [h1, h2, if_true, ne_eq, not_false_eq_true]
          exact write_step_emit total output [92, 10] (by decide) r1
      · by_cases h2 : height = 1
        · have hs : cell_separator width height k = [44, 32] := by
            simp [cell_separator, h1, h2]
          rw [hs] at r1 ⊢
          simp only [h1, h2, if_true, if_false]
          exact write_step_emit total output [44, 32] (by decide) r1
        · have hs : cell_separator width height k = [] := by simp [cell_separator, h1, h2]
          rw [hs]
          simp only [h1, h2, if_false]
          exact hnil
    simp only [tex_value_write_cells, hlt, if_true]
    rw [hbefore]
    simp only []
    rw [hv _ q1]
    simp only []
    rw [ih (fun x hx => hvs x (List.mem_cons_of_mem _ hx)) (k + 1) _ _
      (by simp only [List.length_cons] at hk; omega) q2, q3, r3]
    simp only [List.length_append]
    congr 2
    omega

theorem well_formed_cells_mem (vs : List tex_value) (h : well_formed_cells vs = true) :
    ∀ v ∈ vs, v.well_formed = true := by
  induction vs with
  | nil => intro v hv; simp at hv
  | cons x xs ih =>
    simp only [well_formed_cells, Bool.and_eq_true] at h
    intro v hv
    rcases List.mem_cons.1 hv with rfl | hv
    · exact h.1
    · exact ih h.2 v hv

theorem well_formed_matrix (width height delimiter : Nat) (values : List tex_value)
    (h : (tex_value.MATRIX width height delimiter values).well_formed = true) :
    (delimiter = 2 ∨ delimiter = 4 ∨ delimiter = 6) ∧ values.length = width * height ∧
      ∀ v ∈ values, v.well_formed = true := by
  simp only [tex_value.well_formed, Bool.and_eq_true, Bool.or_eq_true, decide_eq_true_eq] at h
  exact ⟨by tauto, h.1.2, well_formed_cells_mem values h.2⟩

/-- The matrix case of `tex_value_write`, given that each cell is emitted as its markup. -/
theorem tex_value_write_matrix_emit (width height delimiter : Nat) (values : List tex_value)
    (hd : delimiter = 2 ∨ delimiter = 4 ∨ delimiter = 6)
    (hlen : values.length = width * height) (hvs : ∀ v ∈ values, emits v v.bytes) :
    emits (.MATRIX width height delimiter values)
      (tex_value.MATRIX width height delimiter values).bytes := by
  obtain ⟨o, c, ho, hc, ho0, hc0⟩ := delimiters_of_kind (decide (height > 1)) delimiter hd
  have hlt : delimiter < 19 := by omega
  intro output hroom
  by_cases hw : width = 0
  · have hb : (tex_value.MATRIX width height delimiter values).bytes
        = o ++ ((List.replicate (height - 1) [92, 10]).flatten ++ c) := by
      simp [tex_value.bytes, ho, hc, hw]
    rw [hb] at hroom ⊢
    simp only [List.length_append] at hroom
    obtain ⟨r1, r2, r3⟩ := output_room_append output o _ hroom
    obtain ⟨q1, q2, q3⟩ := output_room_append (output.map (fun b => b.append o))
      (List.replicate (height - 1) [92, 10]).flatten _ r2
    simp only [tex_value_write, hlt, if_true, ho, hc, hw]
    rw [write_step_emit 0 output o ho0 r1]
    simp only []
    rw [tex_value_write_breaks_emit _ _ _ q1]
    simp only []
    rw [write_step_emit _ _ c hc0 q2, q3, r3]
    simp only [List.length_append]
    congr 2
    omega
  · have hb : (tex_value.MATRIX width height delimiter values).bytes
        = o ++ (cells_bytes width height 0 values ++ c) := by
      simp [tex_value.bytes, ho, hc, hw]
    rw [hb] at hroom ⊢
    simp only [List.length_append] at hroom
    obtain ⟨r1, r2, r3⟩ := output_room_append output o _ hroom
    obtain ⟨q1, q2, q3⟩ := output_room_append (output.map (fun b => b.append o))
      (cells_bytes width height 0 values) _ r2
    simp only [tex_value_write, hlt, if_true, ho, hc, hw, if_false]
    rw [write_step_emit 0 output o ho0 r1]
    simp only []
    rw [tex_value_write_cells_emit width height values hvs 0 _ _ (by omega) q1]
    simp only []
    rw [write_step_emit _ _ c hc0 q2, q3, r3]
    simp only [List.length_append]
    congr 2
    omega

theorem tex_value_write_bytes_sized (n : Nat) :
    ∀ v : tex_value, sizeOf v ≤ n → v.well_formed = true → emits v v.bytes := by
  induction n with
  | zero =>
    intro v hv
    cases v <;> simp at hv
  | succ n ih =>
    intro v hv hwf
    cases v with
    | NONE => simp [tex_value.well_formed] at hwf
    | NUMBER x =>
      intro output hroom
      simp only [tex_value.bytes] at hroom ⊢
      simp only [tex_value_write]
      rw [write_step_emit 0 output _ (number_str_ne_zero x) hroom, Nat.zero_add]
    | FUNCTION ps body =>
      intro output hroom
      simp only [tex_value.bytes] at hroom ⊢
      simp only [tex_value_write]
      rw [write_step_emit 0 output _ (by decide) hroom, Nat.zero_add]
    | RAW_STRING data =>
      intro output hroom
      simp only [tex_value.bytes] at hroom ⊢
      simp only [tex_value_write, buffer_writen_emit output data hroom]
    | STRING data =>
      intro output hroom
      have hb : (tex_value.STRING data).bytes
          = [92, 116, 101, 120, 116, 123] ++ (data ++ [125]) := by
        simp [tex_value.bytes]
      rw [hb] at hroom ⊢
      simp only [List.length_append] at hroom
      obtain ⟨r1, r2, r3⟩ := output_room_append output [92, 116, 101, 120, 116, 123] _ hroom
      obtain ⟨q1, q2, q3⟩ := output_room_append
        (output.map (fun b => b.append [92, 116, 101, 120, 116, 123])) data _ r2
      simp only [tex_value_write]
      rw [write_step_emit 0 output _ (by decide) r1]
      simp only []
      rw [buffer_writen_emit _ data q1]
      simp only []
      rw [write_step_emit _ _ [125] (by decide) q2, q3, r3]
      simp only [List.length_append]
      congr 2
    | MATRIX w h d vs =>
      obtain ⟨hd, hlen, hcells⟩ := well_formed_matrix w h d vs hwf
      apply tex_value_write_matrix_emit w h d vs hd hlen
      intro x hx
      have hsz : sizeOf x < sizeOf vs := List.sizeOf_lt_of_mem hx
      apply ih x _ (hcells x hx)
      simp only [tex_value.MATRIX.sizeOf_spec] at hv
      omega

/-- For every well-formed value, `tex_value_write` emits the markup of the value. -/
theorem tex_value_write_bytes (v : tex_value) (h : v.well_formed = true) : emits v v.bytes :=
  tex_value_write_bytes_sized (sizeOf v) v (le_refl _) h

/-- Measuring a value and writing it into a buffer of exactly the measured capacity: the
write returns the same count, stores exactly the markup and leaves the buffer full. -/
theorem emits_exact (v : tex_value) (s : List Nat) (h : emits v s) (data : List Nat)
    (hdata : data.length = s.length) :
    tex_value_write v none = .ok (s.length, none) ∧
    tex_value_write v (some ⟨data, s.length, 0⟩) = .ok (s.length, some ⟨s, s.length, s.length⟩) := by
  refine ⟨h none (by intro b hb; cases hb), ?_⟩
  rw [h (some ⟨data, s.length, 0⟩) (by intro b hb; cases hb; exact ⟨by simp, by simp [hdata]⟩)]
  simp only [Option.map_some', qm_buffer.append, store_bytes, List.take_zero, List.nil_append,
    Nat.zero_add]
  rw [List.drop_of_length_le (by omega), List.append_nil]

/-- The output `main` prints for an expression statement whose value is emitted as `s`. -/
theorem main_statement_output_emits (fuel : Nat) (e : qm_expression) (env : tex_environment)
    (x : tex_value) (s : List Nat) (he : tex_eval_expression fuel e none env = .ok x)
    (hs : emits x s) : main_statement_output fuel (.EXPRESSION e) env = .ok (s, env) := by
  apply main_statement_output_of fuel e env x s he (hs none (by intro b hb; cases hb))
  rw [hs (some ⟨List.replicate (s.length + 1) 0, s.length, 0⟩)
    (by intro b hb; cases hb; exact ⟨by simp, by simp⟩)]
  simp [qm_buffer.append, store_bytes, List.drop_replicate]

/-- The `else` branch of `tex_eval_call`: the markup of the callee followed by the markup of
the argument. -/
theorem concat_values_emits (c a : tex_value) (s1 s2 : List Nat) (h1 : emits c s1)
    (h2 : emits a s2) : concat_values c a = .ok (.RAW_STRING (s1 ++ s2)) := by
  have m1 := h1 none (by intro b hb; cases hb)
  have m2 := h2 none (by intro b hb; cases hb)
  have hroom : ∀ b, some (⟨List.replicate (s1.length + s2.length) 0, s1.length + s2.length, 0⟩
      : qm_buffer) = some b → b.has_room (s1.length + s2.length) := by
    intro b hb
    cases hb
    exact ⟨by simp, by simp⟩
  obtain ⟨r1, r2, r3⟩ := output_room_append _ s1 s2.length hroom
  have w1 := h1 _ r1
  have w2 := h2 _ r2
  rw [r3] at w2
  simp only [Option.map_some', Option.map_none'] at m1 m2 w1 w2
  have hdata : (qm_buffer.append ⟨List.replicate (s1.length + s2.length) 0,
      s1.length + s2.length, 0⟩ (s1 ++ s2)).data = s1 ++ s2 := by
    simp only [qm_buffer.append, store_bytes, List.take_zero, List.nil_append, Nat.zero_add]
    rw [List.drop_of_length_le (by simp), List.append_nil]
  simp only [concat_values, m1, m2, w1, w2, Option.map_some', Option.getD_some, hdata]
  rw [List.take_of_length_le (by simp)]

theorem tex_eval_call_concat (ev : evaluator) (callee arg : qm_expression)
    (v : Option tex_value) (env : tex_environment) (c a : tex_value)
    (hu : ∀ name, callee = .VARIABLE name → string_equals (some name) (some unwrap_name) = false)
    (hc : ev callee none env = .ok c) (ha : ev arg none env = .ok a)
    (hnf : ∀ ps body, c ≠ .FUNCTION ps body) :
    tex_eval_call ev callee arg v env = concat_values c a := by
  cases callee with
  | VARIABLE name =>
    have h1 := hu name rfl
    simp only [unwrap_name] at h1
    cases c with
    | FUNCTION ps body => exact absurd rfl (hnf ps body)
    | _ => simp [tex_eval_call, h1, hc, ha]
  | _ =>
    cases c with
    | FUNCTION ps body => exact absurd rfl (hnf ps body)
    | _ => simp [tex_eval_call, hc, ha]

/-! ## The builtin `__unwrap__` -/

theorem complete_cells_mem (vs : List tex_value) (h : complete_cells vs = true) :
    ∀ v ∈ vs, v.complete = true := by
  induction vs with
  | nil => intro v hv; simp at hv
  | cons x xs ih =>
    simp only [complete_cells, Bool.and_eq_true] at h
    intro v hv
    rcases List.mem_cons.1 hv with rfl | hv
    · exact h.1
    · exact ih h.2 v hv

theorem tex_builtin_unwrap_other (v : tex_value) (h : ∀ d cells, v ≠ .MATRIX 1 1 d cells) :
    tex_builtin_unwrap v = v := by
  cases v with
  | MATRIX w ht d cells =>
    have hne : ¬ (w = 1 ∧ ht = 1) := by
      rintro ⟨rfl, rfl⟩
      exact h d cells rfl
    unfold tex_builtin_unwrap
    simp [hne]
  | _ => rfl

theorem tex_builtin_unwrap_cell (d : Nat) (c : tex_value) (rest : List tex_value) :
    tex_builtin_unwrap (.MATRIX 1 1 d (c :: rest)) = tex_builtin_unwrap c := by
  simp [tex_builtin_unwrap]

theorem tex_builtin_unwrap_sized (n : Nat) :
    ∀ v : tex_value, sizeOf v ≤ n → v.complete = true →
      ∀ d cells, tex_builtin_unwrap v ≠ .MATRIX 1 1 d cells := by
  induction n with
  | zero =>
    intro v hv
    cases v <;> simp at hv
  | succ n ih =>
    intro v hv hc d cells
    cases v with
    | MATRIX w ht d0 vs =>
      simp only [tex_value.complete, Bool.and_eq_true, decide_eq_true_eq] at hc
      by_cases h11 : w = 1 ∧ ht = 1
      · obtain ⟨rfl, rfl⟩ := h11
        cases vs with
        | nil => simp at hc
        | cons c rest =>
          rw [tex_builtin_unwrap_cell]
          have hmem : c ∈ c :: rest := List.mem_cons_self _ _
          have hsz : sizeOf c < sizeOf (c :: rest) := List.sizeOf_lt_of_mem hmem
          apply ih c _ (complete_cells_mem _ hc.2 c hmem)
          simp only [tex_value.MATRIX.sizeOf_spec] at hv
          omega
      · rw [tex_builtin_unwrap_other _ (by
          intro d1 c1 he
          simp only [tex_value.MATRIX.injEq] at he
          exact h11 ⟨he.1, he.2.1⟩)]
        intro he
        simp only [tex_value.MATRIX.injEq] at he
        exact h11 ⟨he.1, he.2.1⟩
    | NONE => simp [tex_builtin_unwrap]
    | NUMBER x => simp [tex_builtin_unwrap]
    | FUNCTION ps b => simp [tex_builtin_unwrap]
    | STRING s => simp [tex_builtin_unwrap]
    | RAW_STRING s => simp [tex_builtin_unwrap]

theorem tex_builtin_unwrap_nest (delimiters : List Nat) (n : Int) :
    tex_builtin_unwrap (nest_1x1 delimiters (.NUMBER n)) = .NUMBER n := by
  induction delimiters with
  | nil => rfl
  | cons d ds ih =>
    simp only [nest_1x1, List.foldr_cons] at ih ⊢
    rw [tex_builtin_unwrap_cell, ih]

theorem tex_eval_call_unwrap (ev : evaluator) (arg : qm_expression) (out : Option tex_value)
    (env : tex_environment) (v : tex_value) (ha : ev arg none env = .ok v) :
    tex_eval_call ev (.VARIABLE unwrap_name) arg out env = .ok (tex_builtin_unwrap v) := by
  have h : string_equals (some unwrap_name)
      (some [95, 95, 117, 110, 119, 114, 97, 112, 95, 95]) = true := by decide
  simp [tex_eval_call, h, ha]

/-! ## Reachable maps -/

theorem tex_table_built_inv (t : tex_table) (h : tex_table_built t) :
    t = tex_table.zero ∨ (t.size = 1024 ∧ t.count ≤ t.used ∧ t.used ≤ 1024) := by
  induction h with
  | zero => exact Or.inl rfl
  | define t name value _ ih =>
    right
    rcases ih with rfl | ⟨hs, hc, hu⟩
    · rw [tex_table_zero_define_fresh]
      obtain ⟨_, h2, h3, h4⟩ := tex_table_define_room tex_table.fresh rfl
        (by simp [tex_table.count, tex_table.fresh]) (by decide) name value
      exact ⟨h2, h4, by rw [h3]; decide⟩
    · by_cases hfull : t.used = 1024
      · have hd : t.define name value = (false, t) := by
          simp [tex_table.define, hs, hfull]
        rw [hd]
        exact ⟨hs, hc, hu⟩
      · obtain ⟨_, h2, h3, h4⟩ := tex_table_define_room t hs hc (by omega) name value
        exact ⟨h2, h4, by omega⟩

/-- In a reachable map that is below capacity (`used < 1024`), `tex_env_define` succeeds. -/
theorem tex_table_built_define (t : tex_table) (h : tex_table_built t) (hu : t.used < 1024)
    (name : cstring) (value : tex_value) : (t.define name value).1 = true := by
  rcases tex_table_built_inv t h with rfl | ⟨hs, hc, _⟩
  · exact tex_table_zero_define name value
  · exact (tex_table_define_room t hs hc hu name value).1

theorem tex_env_define_built (env : tex_environment) (h : tex_table_built env.table)
    (hu : env.table.used < 1024) (s : List Nat) (value : tex_value) :
    tex_env_find (tex_env_define env (some s) value).2 (some s) = some value ∧
      tex_table_built (tex_env_define env (some s) value).2.table := by
  refine ⟨tex_env_define_find env s value (tex_table_built_define _ h hu _ _), ?_⟩
  have : (tex_env_define env (some s) value).2.table = (env.table.define (some s) value).2 := by
    cases env <;> rfl
  rw [this]
  exact tex_table_built.define _ _ _ h

/-! ## Canonical decimal numerals -/

theorem digitChar_toNat (m : Nat) (h : m < 10) : (Nat.digitChar m).toNat = 48 + m := by
  interval_cases m <;> rfl

theorem toDigitsCore_spec :
    ∀ fuel n ds, n < fuel →
      ∃ X : List Char, Nat.toDigitsCore 10 fuel n ds = X ++ ds ∧
        (∀ c ∈ X, is_digit c.toNat = true) ∧
        (X.map Char.toNat).foldl (fun a c => a * 10 + (c - 48)) 0 = n ∧
        (0 < n → ∃ c rest, X = c :: rest ∧ c.toNat ≠ 48) ∧ (n = 0 → X = ['0']) := by
  intro fuel
  induction fuel with
  | zero => intro n ds h; omega
  | succ fuel ih =>
    intro n ds hn
    have hm : n % 10 < 10 := Nat.mod_lt n (by decide)
    have hd := digitChar_toNat (n % 10) hm
    have hdig : is_digit (Nat.digitChar (n % 10)).toNat = true := by
      rw [hd]
      simp [is_digit]
      omega
    simp only [Nat.toDigitsCore]
    by_cases h0 : n / 10 = 0
    · simp only [h0, if_true]
      have hlt : n < 10 := by omega
      refine ⟨[Nat.digitChar (n % 10)], rfl, ?_, ?_, ?_, ?_⟩
      · intro c hc
        simp only [List.mem_singleton] at hc
        rw [hc]
        exact hdig
      · simp only [List.map_cons, List.map_nil, List.foldl_cons, List.foldl_nil, hd]
        omega
      · intro hpos
        exact ⟨_, [], rfl, by rw [hd]; omega⟩
      · intro hz
        subst hz
        rfl
    · simp only [h0, if_false]
      obtain ⟨X, hX, hall, hval, hhead, _⟩ := ih (n / 10) (Nat.digitChar (n % 10) :: ds)
        (by omega)
      refine ⟨X ++ [Nat.digitChar (n % 10)], by rw [hX]; simp, ?_, ?_, ?_, ?_⟩
      · intro c hc
        rcases List.mem_append.1 hc with hc | hc
        · exact hall c hc
        · simp only [List.mem_singleton] at hc
          rw [hc]
          exact hdig
      · simp only [List.map_append, List.map_cons, List.map_nil, List.foldl_append,
          List.foldl_cons, List.foldl_nil, hval, hd]
        omega
      · intro _
        obtain ⟨c, rest, hc, hne⟩ := hhead (by omega)
        exact ⟨c, rest ++ [Nat.digitChar (n % 10)], by rw [hc]; rfl, hne⟩
      · intro hz
        omega

/-- The canonical decimal representation: digits only, of the right value, `0` for zero and
otherwise without a leading zero. -/
theorem decimal_canonical (n : Nat) :
    (∀ c ∈ decimal n, is_digit c = true) ∧ digits_value (decimal n) = n ∧
      (n = 0 → decimal n = [48]) ∧ (0 < n → ∃ c rest, decimal n = c :: rest ∧ c ≠ 48) := by
  obtain ⟨X, hX, hall, hval, hhead, hzero⟩ := toDigitsCore_spec (n + 1) n [] (by omega)
  have hdec : decimal n = X.map Char.toNat := by
    simp only [decimal, Nat.repr, Nat.toDigits, hX, List.append_nil]
    rfl
  rw [hdec]
  refine ⟨?_, hval, ?_, ?_⟩
  · intro c hc
    obtain ⟨x, hx, rfl⟩ := List.mem_map.1 hc
    exact hall x hx
  · intro hz
    rw [hzero hz]
    rfl
  · intro hpos
    obtain ⟨c, rest, hc, hne⟩ := hhead hpos
    exact ⟨c.toNat, rest.map Char.toNat, by rw [hc]; rfl, hne⟩

/-! ## Digit strings are number tokens -/

theorem token_kind_digit (c : Nat) (h : is_digit c = true) : token_kind c = .NUMBER := by
  simp only [is_digit, Bool.and_eq_true, decide_eq_true_eq] at h
  have hd : is_digit c = true := by simp [is_digit, h]
  unfold token_kind
  iterate 11 rw [if_neg (by omega)]
  rw [if_pos hd]

theorem run_length_digits (d : List Nat) (hd : ∀ c ∈ d, is_digit c = true) :
    run_length is_digit d = d.length := by
  induction d with
  | nil => rfl
  | cons c cs ih =>
    have hc := hd c (List.mem_cons_self _ _)
    have hc0 : c ≠ 0 := by
      simp only [is_digit, Bool.and_eq_true, decide_eq_true_eq] at hc
      omega
    simp [run_length, hc, hc0, ih (fun x hx => hd x (List.mem_cons_of_mem _ hx))]

/-- A non-empty string of decimal digits is read by the lexer as one number token. -/
theorem lexes_as_of_digits (d : List Nat) (hne : d ≠ []) (hd : ∀ c ∈ d, is_digit c = true) :
    lexes_as .NUMBER d = true := by
  cases d with
  | nil => exact absurd rfl hne
  | cons c cs =>
    have hc := hd c (List.mem_cons_self _ _)
    have hcs : ∀ x ∈ cs, is_digit x = true := fun x hx => hd x (List.mem_cons_of_mem _ hx)
    have hc' := hc
    simp only [is_digit, Bool.and_eq_true, decide_eq_true_eq] at hc'
    have hws : is_whitespace c = false := by
      simp [is_whitespace]
      omega
    have hrun : run_length is_whitespace (c :: cs) = 0 := by simp [run_length, hws]
    have hkw : keyword_kind .NUMBER (1 + cs.length) (c :: cs) = .NUMBER := by
      unfold keyword_kind
      split
      · rw [if_neg, if_neg]
        · intro h
          simp only [List.cons.injEq] at h
          omega
        · intro h
          simp only [List.cons.injEq] at h
          omega
      · split
        · rw [if_neg, if_neg, if_neg]
          · intro h
            simp only [List.cons.injEq] at h
            omega
          · intro h
            simp only [List.cons.injEq] at h
            omega
          · intro h
            simp only [List.cons.injEq] at h
            omega
        · rfl
    have hbytes : (⟨c :: cs, (c :: cs).length, 0⟩ : qm_buffer).bytes 0 (1 + cs.length)
        = c :: cs := by
      have := bytes_in_context [] (c :: cs) [] (c :: cs).length 0
      simpa [Nat.add_comm] using this
    simp only [lexes_as, decide_eq_true_eq, tokenize, List.drop_zero, hrun, Nat.add_zero]
    rw [if_neg (by simp)]
    simp only [qm_buffer.byte, List.getD_cons_zero, token_kind_digit c hc, token_length,
      Nat.zero_add, List.drop_one, List.tail_cons, run_length_digits cs hcs]
    rw [hbytes, hkw]
    simp [Nat.add_comm]

/-! ## Punctuation tokens and bracketed rows -/

theorem token_length_punctuation (ty : qm_token_type) (h : is_punctuation ty = true)
    (start : Nat) (b : qm_buffer) : token_length { type := ty, start := start } b = 1 := by
  cases ty <;> first | rfl | exact absurd h (by decide)

theorem keyword_kind_one (ty : qm_token_type) (text : List Nat) :
    keyword_kind ty 1 text = ty := by
  simp [keyword_kind]

/-- A punctuation byte lexes as its one-byte token inside a longer text, after any run of
spaces and tabs. -/
theorem tokenize_punctuation (ty : qm_token_type) (hty : is_punctuation ty = true) (c : Nat)
    (hk : token_kind c = ty) (hc : is_whitespace c = false) (pre ws post : List Nat)
    (hws : ∀ x ∈ ws, is_whitespace x = true) (n : Nat)
    (hsize : n = (pre ++ ws ++ [c] ++ post).length) :
    tokenize ⟨pre ++ ws ++ [c] ++ post, n, pre.length⟩
      = (true, ⟨pre ++ ws ++ [c] ++ post, n, pre.length + ws.length + 1⟩,
          { type := ty, start := pre.length + ws.length }) := by
  have hdrop : (pre ++ ws ++ [c] ++ post).drop pre.length = ws ++ c :: post := by
    simp [List.append_assoc]
  have hbyte : (⟨pre ++ ws ++ [c] ++ post, n, pre.length + ws.length⟩ : qm_buffer).byte
      (pre.length + ws.length) = c := by
    have e1 : pre ++ ws ++ [c] ++ post = (pre ++ ws) ++ (c :: post) := by simp
    simp only [qm_buffer.byte, e1]
    simpa using getD_append_mid (pre ++ ws) (c :: post) 0
  simp only [tokenize, hdrop, run_length_whitespace_prefix ws c post hws hc]
  rw [if_neg (by rw [hsize]; simp)]
  simp only [hbyte, hk, token_length_punctuation ty hty, keyword_kind_one]

theorem advance_at_punctuation (p : qm_parser_state) (ty0 : qm_token_type) (ts0 : Nat)
    (ty : qm_token_type) (hty : is_punctuation ty = true) (c : Nat) (hk : token_kind c = ty)
    (hc : is_whitespace c = false) (pre ws post : List Nat)
    (hws : ∀ x ∈ ws, is_whitespace x = true) :
    (p.at_token (pre ++ ws ++ [c] ++ post) ty0 ts0 pre.length).advance
      = p.at_token (pre ++ ws ++ [c] ++ post) ty (pre.length + ws.length)
          (pre.length + ws.length + 1) := by
  simp only [qm_parser_state.advance, qm_parser_state.at_token]
  rw [tokenize_punctuation ty hty c hk hc pre ws post hws _ rfl]

/-- At a token that starts no unary expression nothing parses and nothing is consumed. -/
theorem parse_unary_stop (k : Nat) (p : qm_parser_state) (e : qm_expression)
    (hi : p.is_initialized = true) (hr : p.result = 0)
    (ht : starts_no_expression p.token.type = true) :
    parse_unary_expression (k + 2) p e = some (false, p, e) := by
  have h1 : p.token.type ≠ .LPAREN := by intro h; rw [h] at ht; exact absurd ht (by decide)
  have h2 : p.token.type ≠ .LBRACKET := by intro h; rw [h] at ht; exact absurd ht (by decide)
  have h3 : p.token.type ≠ .LBRACE := by intro h; rw [h] at ht; exact absurd ht (by decide)
  have h4 : p.token.type ≠ .IDENTIFIER := by intro h; rw [h] at ht; exact absurd ht (by decide)
  have h5 : p.token.type ≠ .NUMBER := by intro h; rw [h] at ht; exact absurd ht (by decide)
  have h6 : p.token.type ≠ .STRING := by intro h; rw [h] at ht; exact absurd ht (by decide)
  have h7 : p.token.type ≠ .RAW_STRING := by
    intro h; rw [h] at ht; exact absurd ht (by decide)
  have hm := parse_matrix_miss k p hi hr h1 h2 h3
  simp [parse_unary_expression, hm, parse_identifier, peek_identifier, h4, h5, h6, h7,
    parse_number, parse_string, parse_raw_string]

/-- The expression loop stops at a token that starts no unary expression. -/
theorem parse_expression_loop_stop (k : Nat) (p : qm_parser_state) (lhs : qm_expression)
    (bp : Int) (hi : p.is_initialized = true) (hr : p.result = 0)
    (ht : starts_no_expression p.token.type = true) :
    parse_expression_loop (k + 3) p lhs bp = some (p, lhs) := by
  have h4 : p.token.type ≠ .IDENTIFIER := by intro h; rw [h] at ht; exact absurd ht (by decide)
  simp [parse_expression_loop, hr, peek_identifier, h4, parse_unary_stop k p .NONE hi hr ht]

/-- A number literal followed by a token that starts no unary expression is a whole
expression. -/
theorem parse_expression_number_stop (k : Nat) (p : qm_parser_state) (e : qm_expression)
    (bp : Int) (hi : p.is_initialized = true) (hr : p.result = 0)
    (ht : p.token.type = .NUMBER) (hn : starts_no_expression p.advance.token.type = true) :
    parse_expression_ (k + 4) p e bp
      = some (true, p.advance,
          .NUMBER (parse_number_loop 0 (p.buffer.data.drop p.token.start))) := by
  have hstop := parse_expression_loop_stop k p.advance
    (.NUMBER (parse_number_loop 0 (p.buffer.data.drop p.token.start))) bp
    (by simpa using hi) (by simpa using hr) hn
  exact parse_expression_number (k + 1) p e bp hi hr ht hstop

theorem intercalate_singleton (sep d : List Nat) : sep.intercalate [d] = d := by
  simp [List.intercalate, List.intersperse]

theorem intercalate_cons_cons (sep d d1 : List Nat) (ds : List (List Nat)) :
    sep.intercalate (d :: d1 :: ds) = d ++ sep ++ sep.intercalate (d1 :: ds) := by
  simp [List.intercalate, List.intersperse]

theorem ends_token_row_rest (ds : List (List Nat)) (post : List Nat) :
    ends_token ((match ds with
      | [] => []
      | d1 :: ds1 => [44, 32] ++ [44, 32].intercalate (d1 :: ds1)) ++ [93] ++ post) = true := by
  cases ds <;> simp [ends_token, is_separator]

theorem intercalate_cons (sep d : List Nat) (ds : List (List Nat)) :
    sep.intercalate (d :: ds) = d ++ (match ds with
      | [] => []
      | d1 :: ds1 => sep ++ sep.intercalate (d1 :: ds1)) := by
  cases ds with
  | nil => simp [intercalate_singleton]
  | cons d1 ds1 => simp [intercalate_cons_cons]

theorem parse_matrix_loop_comma (f : Nat) (p p1 p2 : qm_parser_state)
    (cells : List qm_expression) (e : qm_expression) (hr : p.result = 0)
    (hexp : parse_expression_ f p .NONE 0 = some (true, p1, e))
    (hacc : accept p1 .COMMA = (true, p2)) :
    parse_matrix_loop (f + 1) p cells = parse_matrix_loop f p2 (cells ++ [e]) := by
  simp only [parse_matrix_loop, hr, ne_eq, not_true_eq_false, if_false, hexp, hacc]

theorem parse_matrix_loop_last (f : Nat) (p p1 p2 : qm_parser_state)
    (cells : List qm_expression) (e : qm_expression) (hr : p.result = 0)
    (hexp : parse_expression_ f p .NONE 0 = some (true, p1, e))
    (hacc : accept p1 .COMMA = (false, p2)) :
    parse_matrix_loop (f + 1) p cells = some (p2, cells ++ [e]) := by
  simp only [parse_matrix_loop, hr, ne_eq, not_true_eq_false, if_false, hexp, hacc]

/-- The loop of `parse_matrix` over the literals of a row, from the first literal to the
closing bracket. -/
theorem parse_matrix_loop_row (p : qm_parser_state) (hi : p.is_initialized = true)
    (hr : p.result = 0) (post : List Nat) :
    ∀ (ds : List (List Nat)) (d pre : List Nat) (cells : List qm_expression) (k : Nat)
      (T : List Nat), T = pre ++ [44, 32].intercalate (d :: ds) ++ [93] ++ post →
      (∀ x ∈ d :: ds, lexes_as .NUMBER x = true) →
      parse_matrix_loop (k + ds.length + 5)
          (p.at_token T .NUMBER pre.length (pre.length + d.length)) cells
        = some (p.at_token T .RBRACKET (pre.length + ([44, 32].intercalate (d :: ds)).length)
              (pre.length + ([44, 32].intercalate (d :: ds)).length + 1),
            cells ++ (d :: ds).map (fun x => .NUMBER (parse_number_loop 0 x))) := by
  intro ds
  induction ds with
  | nil =>
    intro d pre cells k T hT hlex
    have hd := hlex d (List.mem_cons_self _ _)
    rw [intercalate_singleton] at hT ⊢
    have hadv : (p.at_token T .NUMBER pre.length (pre.length + d.length)).advance
        = p.at_token T .RBRACKET (pre.length + d.length) (pre.length + d.length + 1) := by
      have := advance_at_punctuation p .NUMBER pre.length .RBRACKET rfl 93 (by decide)
        (by decide) (pre ++ d) [] post (by simp)
      simp only [List.append_nil, List.length_append, List.length_nil, Nat.add_zero] at this
      rw [hT]
      exact this
    have hnum : parse_number_loop 0 (T.drop pre.length) = parse_number_loop 0 d := by
      have := number_at_token pre d ([93] ++ post) hd (by simp [ends_token, is_separator])
      rw [hT]
      simpa [List.append_assoc] using this
    have hexp := parse_expression_number_stop k
      (p.at_token T .NUMBER pre.length (pre.length + d.length)) .NONE 0 hi hr rfl
      (by rw [hadv]; rfl)
    rw [hadv] at hexp
    have hmiss : accept (p.at_token T .RBRACKET (pre.length + d.length)
        (pre.length + d.length + 1)) .COMMA
        = (false, p.at_token T .RBRACKET (pre.length + d.length) (pre.length + d.length + 1)) :=
      accept_miss _ _ hi hr (by simp [qm_parser_state.at_token])
    have hres : (p.at_token T .NUMBER pre.length (pre.length + d.length)).result = 0 := hr
    have e1 : (p.at_token T .NUMBER pre.length (pre.length + d.length)).buffer.data = T := rfl
    have e2 : (p.at_token T .NUMBER pre.length (pre.length + d.length)).token.start
        = pre.length := rfl
    rw [e1, e2, hnum] at hexp
    simp only [List.length_nil, Nat.add_zero]
    rw [parse_matrix_loop_last (k + 4) _ _ _ cells _ hres hexp hmiss]
    simp only [List.map_cons, List.map_nil]
  | cons d1 ds1 ih =>
    intro d pre cells k T hT hlex
    have hd := hlex d (List.mem_cons_self _ _)
    have hd1 := hlex d1 (List.mem_cons_of_mem _ (List.mem_cons_self _ _))
    have hT1 : T = pre ++ d ++ [44] ++ [32] ++ d1
        ++ ((match ds1 with
            | [] => []
            | d2 :: ds2 => [44, 32] ++ [44, 32].intercalate (d2 :: ds2)) ++ [93] ++ post) := by
      rw [hT, intercalate_cons_cons, intercalate_cons [44, 32] d1 ds1]
      simp [List.append_assoc]
    have hadv : (p.at_token T .NUMBER pre.length (pre.length + d.length)).advance
        = p.at_token T .COMMA (pre.length + d.length) (pre.length + d.length + 1) := by
      have := advance_at_punctuation p .NUMBER pre.length .COMMA rfl 44 (by decide)
        (by decide) (pre ++ d) []
        ([32] ++ d1 ++ ((match ds1 with
            | [] => []
            | d2 :: ds2 => [44, 32] ++ [44, 32].intercalate (d2 :: ds2)) ++ [93] ++ post))
        (by simp)
      simp only [List.append_nil, List.length_append, List.length_nil, Nat.add_zero] at this
      have e : T = pre ++ d ++ [44] ++ ([32] ++ d1 ++ ((match ds1 with
            | [] => []
            | d2 :: ds2 => [44, 32] ++ [44, 32].intercalate (d2 :: ds2)) ++ [93] ++ post)) := by
        rw [hT1]; simp [List.append_assoc]
      rw [e]
      exact this
    have hadv2 : (p.at_token T .COMMA (pre.length + d.length) (pre.length + d.length + 1)).advance
        = p.at_token T .NUMBER (pre.length + d.length + 1 + 1)
            (pre.length + d.length + 1 + 1 + d1.length) := by
      have := advance_at_token p .COMMA (pre.length + d.length) .NUMBER (Or.inr rfl)
        (pre ++ d ++ [44]) [32] d1 _ hd1 (by simp [is_whitespace])
        (ends_token_row_rest ds1 post)
      simp only [List.length_append, List.length_singleton] at this
      rw [hT1]
      exact this
    have hnum : parse_number_loop 0 (T.drop pre.length) = parse_number_loop 0 d := by
      have := number_at_token pre d ([44] ++ [32] ++ d1
        ++ ((match ds1 with
            | [] => []
            | d2 :: ds2 => [44, 32] ++ [44, 32].intercalate (d2 :: ds2)) ++ [93] ++ post)) hd
        (by simp [ends_token, is_separator])
      rw [hT1]
      simpa [List.append_assoc] using this
    have hexp := parse_expression_number_stop (k + ds1.length + 1)
      (p.at_token T .NUMBER pre.length (pre.length + d.length)) .NONE 0 hi hr rfl
      (by rw [hadv]; rfl)
    rw [hadv] at hexp
    have hhit : accept (p.at_token T .COMMA (pre.length + d.length)
        (pre.length + d.length + 1)) .COMMA
        = (true, (p.at_token T .COMMA (pre.length + d.length)
            (pre.length + d.length + 1)).advance) :=
      accept_hit _ _ hi rfl
    have hres : (p.at_token T .NUMBER pre.length (pre.length + d.length)).result = 0 := hr
    have hih := ih d1 (pre ++ d ++ [44, 32]) (cells ++ [.NUMBER (parse_number_loop 0 d)]) k T
      (by rw [hT, intercalate_cons_cons]; simp [List.append_assoc])
      (fun x hx => hlex x (List.mem_cons_of_mem _ hx))
    simp only [List.length_append, List.length_cons, List.length_nil] at hih
    have e1 : (p.at_token T .NUMBER pre.length (pre.length + d.length)).buffer.data = T := rfl
    have e2 : (p.at_token T .NUMBER pre.length (pre.length + d.length)).token.start
        = pre.length := rfl
    rw [e1, e2, hnum] at hexp
    rw [hadv2] at hhit
    have hfuel : k + (d1 :: ds1).length + 5 = (k + ds1.length + 1 + 4) + 1 := by
      simp only [List.length_cons]; omega
    rw [hfuel, parse_matrix_loop_comma (k + ds1.length + 1 + 4) _ _ _ cells _ hres hexp hhit]
    have hf2 : k + ds1.length + 1 + 4 = k + ds1.length + 5 := by omega
    have hpos : pre.length + d.length + 1 + 1 = pre.length + d.length + (0 + 1 + 1) := by omega
    rw [hf2, hpos, hih, intercalate_cons_cons]
    simp only [List.length_append, List.length_cons, List.length_nil, List.map_cons,
      List.append_assoc, List.singleton_append, Option.some.injEq, Prod.mk.injEq, and_true]
    congr 1 <;> omega

/-- The text `[d1, ..., dN]` of number literals parses as the 1 x N bracket matrix of the
numbers, for every fuel of at least `N + 7`. -/
theorem parse_row_source (p : qm_parser_state) (hi : p.is_initialized = true)
    (hr : p.result = 0) (d : List Nat) (ds : List (List Nat))
    (hlex : ∀ x ∈ d :: ds, lexes_as .NUMBER x = true) (fuel : Nat)
    (hfuel : (d :: ds).length + 7 ≤ fuel) (e : qm_expression) :
    parse_expression fuel (p.load (row_source (d :: ds))) e
      = some (true,
          p.at_token (row_source (d :: ds)) .EOF (row_source (d :: ds)).length
            (row_source (d :: ds)).length,
          .MATRIX (d :: ds).length 1 4
            ((d :: ds).map (fun x => .NUMBER (parse_number_loop 0 x)))) := by
  obtain ⟨k, rfl⟩ : ∃ k, fuel = k + ds.length + 5 + 1 + 1 + 1 :=
    ⟨fuel - (d :: ds).length - 7, by simp only [List.length_cons] at hfuel ⊢; omega⟩
  have hd := hlex d (List.mem_cons_self _ _)
  have hT : row_source (d :: ds)
      = [91] ++ [44, 32].intercalate (d :: ds) ++ [93] ++ [] := by
    simp [row_source]
  -- the token chain: `[`, the first literal, and after the closing bracket the end
  have h0 : p.load (row_source (d :: ds)) = p.at_token (row_source (d :: ds)) .LBRACKET 0 1 := by
    have := advance_at_punctuation p .INVALID 0 .LBRACKET rfl 91 (by decide) (by decide) [] []
      ([44, 32].intercalate (d :: ds) ++ [93]) (by simp)
    simp only [List.nil_append, List.length_nil, Nat.zero_add] at this
    rw [load_eq, row_source]
    simpa [List.append_assoc] using this
  have h1 : (p.at_token (row_source (d :: ds)) .LBRACKET 0 1).advance
      = p.at_token (row_source (d :: ds)) .NUMBER 1 (1 + d.length) := by
    have := advance_at_token p .LBRACKET 0 .NUMBER (Or.inr rfl) [91] [] d _ hd (by simp)
      (ends_token_row_rest ds [])
    simp only [List.length_singleton, List.length_nil, Nat.add_zero, List.append_nil] at this
    have e1 : row_source (d :: ds) = [91] ++ d ++ ((match ds with
        | [] => []
        | d1 :: ds1 => [44, 32] ++ [44, 32].intercalate (d1 :: ds1)) ++ [93]) := by
      rw [row_source, intercalate_cons [44, 32] d ds]
      simp [List.append_assoc]
    rw [e1]
    exact this
  have hloop := parse_matrix_loop_row p hi hr [] ds d [91] [] k (row_source (d :: ds)) hT hlex
  simp only [List.length_singleton, List.nil_append] at hloop
  have hlen : 1 + ([44, 32].intercalate (d :: ds)).length + 1 = (row_source (d :: ds)).length := by
    simp only [row_source, List.length_append, List.length_singleton]
  have h2 : (p.at_token (row_source (d :: ds)) .RBRACKET
        (1 + ([44, 32].intercalate (d :: ds)).length)
        (1 + ([44, 32].intercalate (d :: ds)).length + 1)).advance
      = p.at_token (row_source (d :: ds)) .EOF (row_source (d :: ds)).length
          (row_source (d :: ds)).length := by
    rw [hlen]
    exact advance_at_end p _ _ _
  have hopen : parse_matrix_open (p.at_token (row_source (d :: ds)) .LBRACKET 0 1)
      = (p.at_token (row_source (d :: ds)) .NUMBER 1 (1 + d.length),
          some (qm_token_type.LBRACKET.code, .RBRACKET)) := by
    simp only [parse_matrix_open]
    rw [accept_miss (p.at_token (row_source (d :: ds)) .LBRACKET 0 1) .LPAREN hi hr
      (by simp [qm_parser_state.at_token])]
    simp only []
    rw [accept_hit (p.at_token (row_source (d :: ds)) .LBRACKET 0 1) .LBRACKET hi rfl, h1]
  have hexpect : expect (p.at_token (row_source (d :: ds)) .RBRACKET
        (1 + ([44, 32].intercalate (d :: ds)).length)
        (1 + ([44, 32].intercalate (d :: ds)).length + 1)) .RBRACKET
      = p.at_token (row_source (d :: ds)) .EOF (row_source (d :: ds)).length
          (row_source (d :: ds)).length := by
    simp only [expect]
    rw [accept_hit (p.at_token (row_source (d :: ds)) .RBRACKET
        (1 + ([44, 32].intercalate (d :: ds)).length)
        (1 + ([44, 32].intercalate (d :: ds)).length + 1)) .RBRACKET hi rfl, h2]
  have hmatrix : parse_matrix (k + ds.length + 5 + 1) (p.load (row_source (d :: ds)))
      = some (p.at_token (row_source (d :: ds)) .EOF (row_source (d :: ds)).length
            (row_source (d :: ds)).length,
          some ((d :: ds).length, 1, 4,
            (d :: ds).map (fun x => .NUMBER (parse_number_loop 0 x)))) := by
    rw [h0]
    simp only [parse_matrix, hopen, hloop, hexpect]
    simp [qm_token_type.code]
  have hunary : parse_unary_expression (k + ds.length + 5 + 1 + 1)
      (p.load (row_source (d :: ds))) e
      = some (true, p.at_token (row_source (d :: ds)) .EOF (row_source (d :: ds)).length
            (row_source (d :: ds)).length,
          .MATRIX (d :: ds).length 1 4
            ((d :: ds).map (fun x => .NUMBER (parse_number_loop 0 x)))) := by
    simp only [parse_unary_expression, hmatrix]
  have hstop := parse_expression_loop_eof (k + ds.length + 4)
    (p.at_token (row_source (d :: ds)) .EOF (row_source (d :: ds)).length
      (row_source (d :: ds)).length)
    (.MATRIX (d :: ds).length 1 4 ((d :: ds).map (fun x => .NUMBER (parse_number_loop 0 x))))
    0 hi hr rfl
  have hf : k + ds.length + 4 + 3 = k + ds.length + 5 + 1 + 1 := by omega
  rw [hf] at hstop
  simp only [parse_expression, parse_expression_, hunary, hstop]

/-! ## Evaluating and serialising a row of numbers -/

theorem tex_eval_cells_numbers (k : Nat) (env : tex_environment) (ns : List Int) :
    tex_eval_cells (tex_eval_expression (k + 1)) env ns.length
        (ns.map (fun n => qm_expression.NUMBER n))
      = .ok (ns.map (fun n => tex_value.NUMBER n)) := by
  induction ns with
  | nil => rfl
  | cons n ns ih =>
    simp only [List.length_cons, List.map_cons, tex_eval_cells, List.headD_cons,
      List.tail_cons, tex_eval_number, ih]

theorem tex_eval_row (k : Nat) (env : tex_environment) (ns : List Int) (d : Nat)
    (out : Option tex_value) :
    tex_eval_expression (k + 2) (.MATRIX ns.length 1 d (ns.map (fun n => .NUMBER n))) out env
      = .ok (.MATRIX ns.length 1 d (ns.map (fun n => .NUMBER n))) := by
  apply tex_eval_matrix_ok
  rw [Nat.mul_one]
  exact tex_eval_cells_numbers k env ns

theorem well_formed_cells_numbers (ns : List Int) :
    well_formed_cells (ns.map (fun n => tex_value.NUMBER n)) = true := by
  induction ns with
  | nil => rfl
  | cons n ns ih => simp [well_formed_cells, tex_value.well_formed, ih]

theorem intercalate_flatten (sep l : List Nat) (ls : List (List Nat)) :
    sep.intercalate (l :: ls) = l ++ (ls.map (fun x => sep ++ x)).flatten := by
  induction ls generalizing l with
  | nil => simp [intercalate_singleton]
  | cons l1 ls ih =>
    rw [intercalate_cons_cons, ih l1]
    simp [List.append_assoc]

theorem cells_bytes_row_tail (width : Nat) (ns : List Int) :
    ∀ k, 0 < k → k + ns.length = width →
      cells_bytes width 1 k (ns.map (fun n => tex_value.NUMBER n))
        = (ns.map (fun n => [44, 32] ++ number_str n)).flatten := by
  induction ns with
  | nil => intro k _ _; rfl
  | cons n ns ih =>
    intro k hk hlen
    simp only [List.length_cons] at hlen
    have hlt : k < width * 1 := by omega
    have hmod : k % width = k := Nat.mod_eq_of_lt (by omega)
    have hsep : cell_separator width 1 k = [44, 32] := by
      simp [cell_separator, hmod]
      omega
    simp only [List.map_cons, cells_bytes, hlt, if_true, hsep, tex_value.bytes,
      List.flatten_cons]
    rw [ih (k + 1) (by omega) (by omega)]

/-- The markup of a bracketed row of numbers: `_{`, the decimal renderings joined by a comma
and a space, `}`. -/
theorem row_bytes (n : Int) (ns : List Int) :
    (tex_value.MATRIX (n :: ns).length 1 4 ((n :: ns).map (fun x => .NUMBER x))).bytes
      = [95, 123] ++ [44, 32].intercalate ((n :: ns).map number_str) ++ [125] := by
  have hsep : cell_separator (ns.length + 1) 1 0 = [] := by simp [cell_separator]
  have htail := cells_bytes_row_tail (ns.length + 1) ns 1 (by omega) (by omega)
  simp only [tex_value.bytes, List.length_cons, open_delimiters, closing_delimiters]
  simp only [List.map_cons, cells_bytes, intercalate_flatten, hsep, htail, tex_value.bytes]
  simp
  rfl

/-- Parsing, evaluating and printing the statement `[d1, ..., dN]` of number literals. -/
theorem row_statement_output (p : qm_parser_state) (hi : p.is_initialized = true)
    (hr : p.result = 0) (d : List Nat) (ds : List (List Nat))
    (hdig : ∀ x ∈ d :: ds, x ≠ [] ∧ ∀ c ∈ x, is_digit c = true)
    (hv : ∀ x ∈ d :: ds, digits_value x ≤ 2147483647) (env : tex_environment) (fuel : Nat)
    (hfuel : (d :: ds).length + 7 ≤ fuel) (e : qm_expression) :
    parse_expression fuel (p.load (row_source (d :: ds))) e
      = some (true,
          p.at_token (row_source (d :: ds)) .EOF (row_source (d :: ds)).length
            (row_source (d :: ds)).length,
          .MATRIX (d :: ds).length 1 4
            ((d :: ds).map (fun x => .NUMBER (digits_value x)))) ∧
    tex_eval_expression fuel
        (.MATRIX (d :: ds).length 1 4 ((d :: ds).map (fun x => .NUMBER (digits_value x))))
        none env
      = .ok (.MATRIX (d :: ds).length 1 4 ((d :: ds).map (fun x => .NUMBER (digits_value x)))) ∧
    main_statement_output fuel
        (.EXPRESSION (.MATRIX (d :: ds).length 1 4
          ((d :: ds).map (fun x => .NUMBER (digits_value x))))) env
      = .ok ([95, 123]
          ++ [44, 32].intercalate ((d :: ds).map (fun x => decimal (digits_value x)))
          ++ [125], env) := by
  have hlex : ∀ x ∈ d :: ds, lexes_as .NUMBER x = true :=
    fun x hx => lexes_as_of_digits x (hdig x hx).1 (hdig x hx).2
  have hparse := parse_row_source p hi hr d ds hlex fuel hfuel e
  have hmap : (d :: ds).map (fun x => qm_expression.NUMBER (parse_number_loop 0 x))
      = (d :: ds).map (fun x => qm_expression.NUMBER (digits_value x)) := by
    apply List.map_congr_left
    intro x hx
    rw [parse_number_loop_value x (hlex x hx) (by have := hv x hx; omega)]
  rw [hmap] at hparse
  obtain ⟨k, rfl⟩ : ∃ k, fuel = k + 2 := ⟨fuel - 2, by simp only [List.length_cons] at hfuel; omega⟩
  have hE : (d :: ds).map (fun x => qm_expression.NUMBER (digits_value x))
      = ((d :: ds).map (fun x => (digits_value x : Int))).map (fun n => .NUMBER n) := by
    simp [List.map_map]
  have hV : (d :: ds).map (fun x => tex_value.NUMBER (digits_value x))
      = ((d :: ds).map (fun x => (digits_value x : Int))).map (fun n => .NUMBER n) := by
    simp [List.map_map]
  have hN : (d :: ds).length = ((d :: ds).map (fun x => (digits_value x : Int))).length := by
    simp
  have heval : tex_eval_expression (k + 2)
      (.MATRIX (d :: ds).length 1 4 ((d :: ds).map (fun x => .NUMBER (digits_value x))))
      none env
      = .ok (.MATRIX (d :: ds).length 1 4
          ((d :: ds).map (fun x => .NUMBER (digits_value x)))) := by
    rw [hE, hV, hN]
    exact tex_eval_row k env _ 4 none
  refine ⟨hparse, heval, ?_⟩
  apply main_statement_output_emits _ _ _ _ _ heval
  have hwf : (tex_value.MATRIX (d :: ds).length 1 4
      ((d :: ds).map (fun x => .NUMBER (digits_value x)))).well_formed = true := by
    rw [hV]
    simp only [tex_value.well_formed, well_formed_cells_numbers, List.length_map]
    simp
  have hb := tex_value_write_bytes _ hwf
  have hbytes : (tex_value.MATRIX (d :: ds).length 1 4
      ((d :: ds).map (fun x => .NUMBER (digits_value x)))).bytes
      = [95, 123] ++ [44, 32].intercalate ((d :: ds).map (fun x => decimal (digits_value x)))
          ++ [125] := by
    have := row_bytes (digits_value d : Int) (ds.map (fun x => (digits_value x : Int)))
    simp only [List.length_cons, List.length_map, List.map_cons, List.map_map,
      Function.comp_def] at this ⊢
    rw [this]
    simp only [number_str_of_nat]
  rw [hbytes] at hb
  exact hb

/-! ## Prefix operator definitions and precedence overrides -/

theorem accept_identifier_hit (p : qm_parser_state) (s : List Nat)
    (hi : p.is_initialized = true) (ht : p.token.type = .IDENTIFIER) (h0 : 0 ∉ s)
    (hn : peek_identifier p = some s) :
    expect_identifier p (some s) = p.advance := by
  have hpk : p.buffer.bytes p.token.start (token_length p.token p.buffer) = s := by
    simpa [peek_identifier, ht] using hn
  have hlen : token_length p.token p.buffer = s.length := by
    have := congrArg List.length hpk
    simpa [qm_buffer.bytes] using this
  have hsl : string_length (some s) = s.length := string_length_loop_of_nonzero s h0
  rw [hlen] at hpk
  simp [expect_identifier, accept_identifier, ht, hpk, hlen, hsl,
    accept_hit p .IDENTIFIER hi ht]

/-- The prefix form `opp name parameter = body`: `parse_definition` returns as soon as the
parse of the body does; it has advanced the counter by one and called `operator_define` for
`name` with the pair `(0, counter)`. -/
theorem parse_definition_opp (fuel : Nat) (p : qm_parser_state) (definition : qm_definition)
    (s x : List Nat) (hi : p.is_initialized = true) (hr : p.result = 0)
    (t0 : p.token.type = .OPP)
    (t1 : p.advance.bump.token.type = .IDENTIFIER)
    (n1 : peek_identifier p.advance.bump = some s)
    (t2 : p.advance.bump.advance.token.type = .IDENTIFIER)
    (n2 : peek_identifier p.advance.bump.advance = some x)
    (r : Bool × qm_parser_state × qm_expression)
    (hbody : parse_expression fuel
      (expect_identifier p.advance.bump.advance.advance (some [61]))
        definition.expression = some r) :
    parse_definition fuel p definition
      = .ok (true,
          expect { (if r.1 = true then r.2.1 else parser_error r.2.1) with
            operators := p.operators.define s 0 (p.bp + 1) } .NEWLINE,
          { name := some s, parameters := [some x], expression := r.2.2 }) := by
  have hvar : accept p .VAR = (false, p) := accept_miss p _ hi hr (by rw [t0]; decide)
  have hfn : accept p .FN = (false, p) := accept_miss p _ hi hr (by rw [t0]; decide)
  have hopp : accept p .OPP = (true, p.advance) := accept_hit p _ hi t0
  have hb : p.advance.bump = { p.advance with bp := p.advance.bp + 1 } := rfl
  have hbi : p.advance.bump.is_initialized = true := hi
  have hp1 := parse_identifier_hit p.advance.bump s hbi t1 n1
  have hp2 := parse_identifier_hit p.advance.bump.advance x hbi t2 n2
  obtain ⟨ok, p4, e⟩ := r
  have hframe := same_tables_parse_expression _ _ _ _ hbody
  have hframe2 : same_tables p.advance.bump p4 :=
    same_tables_trans (same_tables_advance _) (same_tables_trans (same_tables_advance _)
      (same_tables_trans (same_tables_expect_identifier _ _) hframe))
  have hops : (if ok = true then p4 else parser_error p4).operators = p.operators := by
    cases ok <;> exact hframe2.1
  simp only [parse_definition, hvar, hfn, hopp, ← hb, hp1, hp2, hbody, Option.orElse]
  rw [hops, operator_define_some]
  rfl

theorem accept_hit_initialized (p : qm_parser_state) (ty : qm_token_type)
    (hi : p.is_initialized = true) (ht : p.token.type = ty) :
    expect p ty = p.advance := by
  simp [expect, accept_hit p ty hi ht]

/-- The override `[X]` for an operator `X` of the table: the pair of `X`, whatever the
defaults were. -/
theorem parse_override_operator (q : qm_parser_state) (X : List Nat) (l r L R : Int)
    (hi : q.is_initialized = true) (t1 : q.token.type = .IDENTIFIER)
    (n1 : peek_identifier q = some X) (hf : operator_find q.operators X = some (l, r))
    (t2 : q.advance.token.type = .RBRACKET) :
    parse_override q L R = (q.advance.advance, l, r) := by
  have hacc : accept q .IDENTIFIER = (true, q.advance) := accept_hit q _ hi t1
  have hf1 : operator_find q.advance.operators X = some (l, r) := hf
  simp only [parse_override, parse_identifier, n1, hacc, hf1]
  rw [accept_hit_initialized q.advance .RBRACKET hi t2]

/-- The override `[l, r]` of two number literals: their values, whatever the defaults
were. -/
theorem parse_override_numbers (q : qm_parser_state) (L R : Int)
    (hi : q.is_initialized = true) (t1 : q.token.type = .NUMBER)
    (t2 : q.advance.token.type = .COMMA) (t3 : q.advance.advance.token.type = .NUMBER)
    (t4 : q.advance.advance.advance.token.type = .RBRACKET) :
    parse_override q L R
      = (q.advance.advance.advance.advance,
          parse_number_loop 0 (q.buffer.data.drop q.token.start),
          parse_number_loop 0
            (q.advance.advance.buffer.data.drop q.advance.advance.token.start)) := by
  have hpk : peek_identifier q = none := by simp [peek_identifier, t1]
  have hn1 : parse_number q
      = (some (parse_number_loop 0 (q.buffer.data.drop q.token.start)), q.advance) := by
    simp [parse_number, t1, accept_hit q .NUMBER hi t1]
  have hn2 : parse_number q.advance.advance
      = (some (parse_number_loop 0
          (q.advance.advance.buffer.data.drop q.advance.advance.token.start)),
          q.advance.advance.advance) := by
    simp [parse_number, t3, accept_hit q.advance.advance .NUMBER hi t3]
  simp only [parse_override, parse_identifier, hpk, hn1]
  rw [accept_hit_initialized q.advance .COMMA hi t2]
  simp only [hn2]
  rw [accept_hit_initialized q.advance.advance.advance .RBRACKET hi t4]

/-- The generic operator form with a bracketed override that resolves to the pair `(l, r)`
and leaves the parser at `q`: `parse_definition` returns as soon as the parse of the body
does; it has advanced the counter by one and called `operator_define` for the operator with
`(l, r)`. -/
theorem parse_definition_override (fuel : Nat) (p : qm_parser_state)
    (definition : qm_definition) (s : List Nat) (right : Bool) (l r : Int)
    (q : qm_parser_state) (hi : p.is_initialized = true) (hr : p.result = 0)
    (t0 : p.token.type = cond right .OPR .OP)
    (tb : p.bump.advance.token.type = .LBRACKET)
    (hov : ∀ L R, parse_override p.bump.advance.advance L R = (q, l, r))
    (hq : same_tables p.bump q) (hqi : q.is_initialized = true)
    (t1 : q.token.type = .IDENTIFIER)
    (t2 : q.advance.token.type = .IDENTIFIER)
    (n2 : peek_identifier q.advance = some s)
    (t3 : q.advance.advance.token.type = .IDENTIFIER)
    (res : Bool × qm_parser_state × qm_expression)
    (hbody : parse_expression fuel
      (expect_identifier q.advance.advance.advance (some [61])) definition.expression
        = some res) :
    ∃ p1 d, parse_definition fuel p definition = .ok (true, p1, d) ∧ p1.bp = p.bp + 1 ∧
      d.name = some s ∧ d.parameters.length = 2 ∧ d.expression = res.2.2 ∧
      p1.operators = p.operators.define s l r := by
  obtain ⟨a, ha⟩ := peek_identifier_some _ t1
  obtain ⟨b, hb⟩ := peek_identifier_some _ t3
  have hvar : accept p .VAR = (false, p) :=
    accept_miss p _ hi hr (by rw [t0]; cases right <;> decide)
  have hfn : accept p .FN = (false, p) :=
    accept_miss p _ hi hr (by rw [t0]; cases right <;> decide)
  have hopp : accept p .OPP = (false, p) :=
    accept_miss p _ hi hr (by rw [t0]; cases right <;> decide)
  obtain ⟨ok, p7, e⟩ := res
  have hframe := same_tables_parse_expression _ _ _ _ hbody
  have hframe2 : same_tables p.bump p7 := by
    refine same_tables_trans hq (same_tables_trans ?_
      (same_tables_trans (same_tables_expect_identifier _ _) hframe))
    exact same_tables_trans (same_tables_advance _) (same_tables_trans (same_tables_advance _)
      (same_tables_advance _))
  have hbi : p.bump.is_initialized = true := hi
  have hbr : p.bump.result = 0 := hr
  have hbt : p.bump.token.type = cond right .OPR .OP := t0
  have hq1 : accept p.bump.advance .LBRACKET = (true, p.bump.advance.advance) :=
    accept_hit _ _ hbi tb
  have hp0 := parse_identifier_hit q a hqi t1 ha
  have hp1 := parse_identifier_hit q.advance s hqi t2 n2
  have hp2 := parse_identifier_hit q.advance.advance b hqi t3 hb
  have hdef : p.bump = { p with bp := p.bp + 1 } := rfl
  have h1 : same_tables p7 (expect (if ok = true then p7 else parser_error p7) .NEWLINE) := by
    cases ok with
    | true => exact same_tables_expect _ _
    | false => exact same_tables_trans (same_tables_error _) (same_tables_expect _ _)
  have hops : (expect (if ok = true then p7 else parser_error p7) .NEWLINE).operators
      = p.operators := (same_tables_trans hframe2 h1).1
  have hbp : (expect (if ok = true then p7 else parser_error p7) .NEWLINE).bp = p.bp + 1 :=
    (same_tables_trans hframe2 h1).2.1
  cases right with
  | false =>
    have hop : accept p.bump .OP = (true, p.bump.advance) := accept_hit _ _ hbi hbt
    simp only [parse_definition, hvar, hfn, hopp, ← hdef, hop, hq1, hov, hp0, hp1, hp2, hbody]
    rw [hops, operator_define_some]
    exact ⟨_, _, rfl, hbp, rfl, rfl, rfl, rfl⟩
  | true =>
    have hop : accept p.bump .OP = (false, p.bump) :=
      accept_miss _ _ hbi hbr (by rw [hbt]; decide)
    have hopr : accept p.bump .OPR = (true, p.bump.advance) := accept_hit _ _ hbi hbt
    simp only [parse_definition, hvar, hfn, hopp, ← hdef, hop, hopr, hq1, hov, hp0, hp1, hp2,
      hbody]
    rw [hops, operator_define_some]
    exact ⟨_, _, rfl, hbp, rfl, rfl, rfl, rfl⟩

theorem operator_define_lookup (t : qm_operator_table) (hb : operator_table_built t)
    (hc : operator_count t < 1024) (s : List Nat) (hs : operator_find t s = none) (l r : Int) :
    operator_find (t.define s l r) s = some (l, r) := by
  obtain ⟨t1, hd, hf, _⟩ := operator_define_fresh t hb hc s hs l r
  simp only [qm_operator_table.define, hd, Option.getD_some]
  exact hf

theorem bump_measure (p : qm_parser_state) : p.bump.measure = p.measure := rfl

theorem advance_chain_measure (p : qm_parser_state) (hi : p.is_initialized = true) :
    p.advance.is_initialized = true ∧ p.advance.measure ≤ p.measure :=
  ⟨hi, advance_measure_le p hi⟩

theorem advance_initialized (p : qm_parser_state) (h : p.is_initialized = true) :
    p.advance.is_initialized = true := h

/-! ## The priority counter never decreases -/

theorem same_tables_identifier_or_error (p : qm_parser_state) :
    same_tables p (parse_identifier_or_error p).2 := by
  have h := same_tables_parse_identifier p
  unfold parse_identifier_or_error
  cases hid : parse_identifier p with
  | mk o p1 =>
    rw [hid] at h
    cases o with
    | some s => exact h
    | none => exact same_tables_trans h (same_tables_error _)

theorem same_tables_definition_body (fuel : Nat) (p : qm_parser_state) (e : qm_expression)
    (r : qm_parser_state × qm_expression) (h : parse_definition_body fuel p e = some r) :
    same_tables p r.1 := by
  unfold parse_definition_body at h
  cases hb : parse_expression fuel (expect_identifier p (some [61])) e with
  | none => rw [hb] at h; simp at h
  | some res =>
    obtain ⟨ok, p1, e1⟩ := res
    have hf := same_tables_trans (same_tables_expect_identifier p (some [61]))
      (same_tables_parse_expression _ _ _ _ hb)
    rw [hb] at h
    cases ok with
    | true =>
      simp only [Option.some.injEq] at h
      rw [← h]
      exact same_tables_trans hf (same_tables_expect _ _)
    | false =>
      simp only [Option.some.injEq] at h
      rw [← h]
      exact same_tables_trans hf (same_tables_trans (same_tables_error _)
        (same_tables_expect _ _))

theorem same_tables_parameters_loop (fuel : Nat) :
    ∀ (p : qm_parser_state) (parameters : List cstring)
      (r : qm_parser_state × List cstring),
      parse_parameters_loop fuel p parameters = some r → same_tables p r.1 := by
  induction fuel with
  | zero => intro p parameters r h; simp [parse_parameters_loop] at h
  | succ k ih =>
    intro p parameters r h
    unfold parse_parameters_loop at h
    split at h
    · simp only [Option.some.injEq] at h
      rw [← h]
      exact same_tables_refl p
    · have ha := same_tables_accept p .RPAREN
      cases hacc : accept p .RPAREN with
      | mk b p1 =>
        rw [hacc] at ha h
        cases b with
        | true =>
          simp only [Option.some.injEq] at h
          rw [← h]
          exact ha
        | false =>
          simp only [] at h
          have hid := same_tables_parse_identifier p1
          have key : ∀ (o : cstring) (p3 : qm_parser_state), same_tables p1 p3 →
              (match accept p3 .COMMA with
                | (true, p4) => parse_parameters_loop k p4 (parameters ++ [o])
                | (false, p4) => some (expect p4 .RPAREN, parameters ++ [o])) = some r →
              same_tables p r.1 := by
            intro o p3 h3 h
            have hc := same_tables_accept p3 .COMMA
            cases hcomma : accept p3 .COMMA with
            | mk b2 p4 =>
              rw [hcomma] at hc h
              cases b2 with
              | true =>
                simp only [] at h
                exact same_tables_trans ha (same_tables_trans h3
                  (same_tables_trans hc (ih _ _ _ h)))
              | false =>
                simp only [Option.some.injEq] at h
                rw [← h]
                exact same_tables_trans ha (same_tables_trans h3
                  (same_tables_trans hc (same_tables_expect _ _)))
          cases hpi : parse_identifier p1 with
          | mk o p2 =>
            rw [hpi] at hid h
            cases o with
            | some s1 => exact key (some s1) p2 hid h
            | none =>
              exact key none (parser_error p2) (same_tables_trans hid (same_tables_error _)) h

theorem same_tables_override (p : qm_parser_state) (L R : Int) :
    same_tables p (parse_override p L R).1 := by
  unfold parse_override
  have hid := same_tables_parse_identifier p
  cases hpi : parse_identifier p with
  | mk o p1 =>
    rw [hpi] at hid
    cases o with
    | some X =>
      simp only []
      cases operator_find p1.operators X with
      | some pr => exact same_tables_trans hid (same_tables_expect _ _)
      | none =>
        exact same_tables_trans hid (same_tables_trans (same_tables_error _)
          (same_tables_expect _ _))
    | none =>
      simp only []
      have hn := same_tables_parse_number p1
      cases hpn : parse_number p1 with
      | mk o1 p2 =>
        rw [hpn] at hn
        cases o1 with
        | none =>
          exact same_tables_trans hid (same_tables_trans hn
            (same_tables_trans (same_tables_error _) (same_tables_expect _ _)))
        | some l =>
          simp only []
          have he := same_tables_expect p2 .COMMA
          have hn2 := same_tables_parse_number (expect p2 .COMMA)
          cases hpn2 : parse_number (expect p2 .COMMA) with
          | mk o2 p3 =>
            rw [hpn2] at hn2
            have hc := same_tables_trans hid (same_tables_trans hn (same_tables_trans he hn2))
            cases o2 with
            | some r => exact same_tables_trans hc (same_tables_expect _ _)
            | none =>
              exact same_tables_trans hc (same_tables_trans (same_tables_error _)
                (same_tables_expect _ _))

theorem definition_tail_bp (fuel : Nat) (q : qm_parser_state) (e : qm_expression)
    (res : Bool × qm_parser_state × qm_expression)
    (h : parse_expression fuel
      (expect_identifier
        (parse_identifier_or_error
          (parse_identifier_or_error (parse_identifier_or_error q).2).2).2 (some [61])) e
      = some res) :
    (expect (if res.1 = true then res.2.1 else parser_error res.2.1) .NEWLINE).bp = q.bp := by
  have i1 := same_tables_identifier_or_error q
  have i2 := same_tables_identifier_or_error (parse_identifier_or_error q).2
  have i3 := same_tables_identifier_or_error
    (parse_identifier_or_error (parse_identifier_or_error q).2).2
  have i4 := same_tables_expect_identifier
    (parse_identifier_or_error
      (parse_identifier_or_error (parse_identifier_or_error q).2).2).2 (some [61])
  have hf := same_tables_parse_expression _ _ _ _ h
  have hx := (same_tables_expect (if res.1 = true then res.2.1 else parser_error res.2.1)
    .NEWLINE).2.1
  have hy : (if res.1 = true then res.2.1 else parser_error res.2.1).bp = res.2.1.bp := by
    cases res.1 <;> rfl
  have := (same_tables_trans i1 (same_tables_trans i2
    (same_tables_trans i3 (same_tables_trans i4 hf)))).2.1
  omega

theorem parse_definition_bp (fuel : Nat) (p : qm_parser_state) (definition : qm_definition)
    (r : Bool × qm_parser_state × qm_definition)
    (h : parse_definition fuel p definition = .ok r) :
    p.bp ≤ r.2.1.bp ∧ r.2.1.bp ≤ p.bp + 1 := by
  unfold parse_definition at h
  have a1 := same_tables_accept p .VAR
  cases h1 : accept p .VAR with
  | mk b1 p1 =>
    rw [h1] at a1 h
    cases b1 with
    | true =>
      simp only [] at h
      have hid := same_tables_identifier_or_error p1
      cases hb : parse_definition_body fuel (parse_identifier_or_error p1).2
          definition.expression with
      | none => rw [hb] at h; simp at h
      | some res =>
        have hf := same_tables_definition_body _ _ _ _ hb
        rw [hb] at h
        simp only [Outcome.ok.injEq] at h
        rw [← h]
        have := (same_tables_trans a1 (same_tables_trans hid hf)).2.1
        simp only [] at this ⊢
        omega
    | false =>
      simp only [] at h
      have a2 := same_tables_accept p1 .FN
      cases h2 : accept p1 .FN with
      | mk b2 p2 =>
        rw [h2] at a2 h
        cases b2 with
        | true =>
          simp only [] at h
          have hid := same_tables_identifier_or_error p2
          have he := same_tables_expect (parse_identifier_or_error p2).2 .LPAREN
          cases hl : parse_parameters_loop fuel
              (expect (parse_identifier_or_error p2).2 .LPAREN) [] with
          | none => rw [hl] at h; simp at h
          | some lr =>
            have hlf := same_tables_parameters_loop _ _ _ _ hl
            rw [hl] at h
            simp only [] at h
            cases hb : parse_definition_body fuel lr.1 definition.expression with
            | none => rw [hb] at h; simp at h
            | some res =>
              have hf := same_tables_definition_body _ _ _ _ hb
              rw [hb] at h
              simp only [Outcome.ok.injEq] at h
              rw [← h]
              have := (same_tables_trans a1 (same_tables_trans a2 (same_tables_trans hid
                (same_tables_trans he (same_tables_trans hlf hf))))).2.1
              simp only [] at this ⊢
              omega
        | false =>
          simp only [] at h
          have a3 := same_tables_accept p2 .OPP
          cases h3 : accept p2 .OPP with
          | mk b3 p3 =>
            rw [h3] at a3 h
            have hp3 : p3.bp = p.bp := (same_tables_trans a1 (same_tables_trans a2 a3)).2.1
            cases b3 with
            | true =>
              simp only [] at h
              split at h
              · simp at h
              · rename_i ok p4 e hb
                have hf := same_tables_parse_expression _ _ _ _ hb
                have i1 := same_tables_identifier_or_error { p3 with bp := p3.bp + 1 }
                have i2 := same_tables_identifier_or_error
                  (parse_identifier_or_error { p3 with bp := p3.bp + 1 }).2
                have i3 := same_tables_expect_identifier
                  (parse_identifier_or_error
                    (parse_identifier_or_error { p3 with bp := p3.bp + 1 }).2).2 (some [61])
                have hp4 := (same_tables_trans i1 (same_tables_trans i2
                  (same_tables_trans i3 hf))).2.1
                have hy : (if ok = true then p4 else parser_error p4).bp = p4.bp := by
                  cases ok <;> rfl
                split at h
                · simp at h
                · rename_i dr0 operators hd
                  have hx := (same_tables_expect
                    { (if ok = true then p4 else parser_error p4) with
                      operators := operators } .NEWLINE).2.1
                  simp only [Outcome.ok.injEq] at h
                  rw [← h]
                  simp only [] at hx hp4 ⊢
                  omega
            | false =>
              simp only [] at h
              have a4 := same_tables_accept { p3 with bp := p3.bp + 1 } .OP
              cases h4 : accept { p3 with bp := p3.bp + 1 } .OP with
              | mk b4 p5 =>
                rw [h4] at a4 h
                have hp5 : p5.bp = p.bp + 1 := by
                  have := a4.2.1
                  simp only [] at this
                  omega
                cases b4 with
                | true =>
                  simp only [] at h
                  have ab := same_tables_accept p5 .LBRACKET
                  cases hbr : accept p5 .LBRACKET with
                  | mk b6 p6 =>
                    rw [hbr] at ab h
                    have hp6 : p6.bp = p.bp + 1 := by
                      have := ab.2.1
                      simp only [] at this
                      omega
                    cases b6 with
                    | true =>
                      simp only [] at h
                      have ho := (same_tables_override p6 (p3.bp + 1) (p3.bp + 1 + 1)).2.1
                      split at h
                      · simp at h
                      · rename_i ok p7 e hb
                        have ht := definition_tail_bp _ _ _ _ hb
                        split at h
                        · simp at h
                        · simp only [Outcome.ok.injEq] at h
                          rw [← h]
                          simp only [] at ht ⊢
                          omega
                    | false =>
                      simp only [] at h
                      split at h
                      · simp at h
                      · rename_i ok p7 e hb
                        have ht := definition_tail_bp _ _ _ _ hb
                        split at h
                        · simp at h
                        · simp only [Outcome.ok.injEq] at h
                          rw [← h]
                          simp only [] at ht ⊢
                          omega
                | false =>
                  simp only [] at h
                  have a5 := same_tables_accept p5 .OPR
                  cases h5 : accept p5 .OPR with
                  | mk b5 p8 =>
                    rw [h5] at a5 h
                    have hp8 : p8.bp = p.bp + 1 := by
                      have := a5.2.1
                      simp only [] at this
                      omega
                    cases b5 with
                    | true =>
                      simp only [] at h
                      have ab := same_tables_accept p8 .LBRACKET
                      cases hbr : accept p8 .LBRACKET with
                      | mk b6 p6 =>
                        rw [hbr] at ab h
                        have hp6 : p6.bp = p.bp + 1 := by
                          have := ab.2.1
                          simp only [] at this
                          omega
                        cases b6 with
                        | true =>
                          simp only [] at h
                          have ho := (same_tables_override p6 (p3.bp + 1 + 1) (p3.bp + 1)).2.1
                          split at h
                          · simp at h
                          · rename_i ok p7 e hb
                            have ht := definition_tail_bp _ _ _ _ hb
                            split at h
                            · simp at h
                            · simp only [Outcome.ok.injEq] at h
                              rw [← h]
                              simp only [] at ht ⊢
                              omega
                        | false =>
                          simp only [] at h
                          split at h
                          · simp at h
                          · rename_i ok p7 e hb
                            have ht := definition_tail_bp _ _ _ _ hb
                            split at h
                            · simp at h
                            · simp only [Outcome.ok.injEq] at h
                              rw [← h]
                              simp only [] at ht ⊢
                              omega
                    | false =>
                      simp only [Outcome.ok.injEq] at h
                      rw [← h]
                      simp only []
                      omega

/-- One round of the statement loop never lowers the priority counter. -/
theorem parse_statement_bp (fuel : Nat) (p : qm_parser_state) (stmt : qm_statement)
    (r : Bool × qm_parser_state × qm_statement)
    (h : parse_statement fuel p stmt = .ok r) : p.bp ≤ r.2.1.bp := by
  unfold parse_statement at h
  have a1 := (same_tables_accept p .NEWLINE).2.1
  cases h1 : accept p .NEWLINE with
  | mk b1 p1 =>
    rw [h1] at a1 h
    cases b1 with
    | true =>
      simp only [Outcome.ok.injEq] at h
      rw [← h]
      simp only [] at a1 ⊢
      omega
    | false =>
      simp only [] at h
      split at h
      · simp at h
      · rename_i p2 e hb
        have hf := (same_tables_parse_expression _ _ _ _ hb).2.1
        have ha := (same_tables_accept p2 .NEWLINE).2.1
        simp only [Outcome.ok.injEq] at h
        rw [← h]
        simp only [] at a1 hf ⊢
        omega
      · rename_i p2 e hb
        have hf := (same_tables_parse_expression _ _ _ _ hb).2.1
        split at h
        · simp at h
        · simp at h
        · rename_i p3 d hd
          have hbp := (parse_definition_bp _ _ _ _ hd).1
          simp only [Outcome.ok.injEq] at h
          rw [← h]
          simp only [] at a1 hf hbp ⊢
          omega
        · rename_i p3 d hd
          have hbp := (parse_definition_bp _ _ _ _ hd).1
          simp only [Outcome.ok.injEq] at h
          rw [← h]
          simp only [] at a1 hf hbp ⊢
          omega

/-- The statement loop never lowers the priority counter. -/
theorem parse_statements_bp (fuel : Nat) :
    ∀ (n : Nat) (p : qm_parser_state), p.bp ≤ (parse_statements fuel n p).bp
  | 0, p => le_refl _
  | n + 1, p => by
    unfold parse_statements
    split
    · rename_i p1 s h
      have h1 := parse_statement_bp _ _ _ _ h
      have h2 := parse_statements_bp fuel n p1
      simp only [] at h1
      omega
    · exact le_refl _

/-! ## The markup of a matrix with several rows -/

/-- C11. Definition statements install bindings. Let the map of the environment `E` be
reachable and below capacity (`used < 1024`). After `tex_eval` of a definition of `name`
with parameters `params` and body `body`, looking `name` up in `E` yields
`Function(params, body)` when `params` is not empty, and otherwise the value that evaluating
`body` in `E` yields (for every fuel that suffices for that evaluation). Nothing is assumed
about an earlier binding of `name`: a previous binding is replaced. -/
theorem definition_installs_binding (env : tex_environment) (name : List Nat)
    (params : List cstring) (body : qm_expression) (output : Option qm_buffer)
    (hb : tex_table_built env.table) (hcap : env.table.used < 1024) :
    (params ≠ [] → ∀ fuel, ∃ env1,
      tex_eval fuel (.DEFINITION ⟨some name, params, body⟩) output env = .ok (0, output, env1) ∧
      tex_env_find env1 (some name) = some (.FUNCTION params body)) ∧
    (params = [] → ∀ k v, tex_eval_expression k body none env = .ok v →
      ∀ fuel, k ≤ fuel → ∃ env1,
        tex_eval fuel (.DEFINITION ⟨some name, params, body⟩) output env
          = .ok (0, output, env1) ∧
        tex_env_find env1 (some name) = some v) := by
  constructor
  · intro hp fuel
    have hlen : params.length ≠ 0 := by
      intro h
      exact hp (List.length_eq_zero.1 h)
    exact ⟨_, by simp [tex_eval, hlen], (tex_env_define_built env hb hcap name _).1⟩
  · intro hp k v hv fuel hfuel
    subst hp
    have hv1 := tex_eval_expression_mono k fuel hfuel body none env v hv
    exact ⟨_, by simp [tex_eval, hv1], (tex_env_define_built env hb hcap name _).1⟩

theorem definition_installs_binding_witness :
    (([] : List cstring) ≠ [] → ∀ fuel, ∃ env1,
      tex_eval fuel (.DEFINITION ⟨some [112, 105], [], .NUMBER 3⟩) none
          (.root tex_table.zero) = .ok (0, none, env1) ∧
      tex_env_find env1 (some [112, 105]) = some (.FUNCTION [] (.NUMBER 3))) ∧
    (([] : List cstring) = [] → ∀ k v,
      tex_eval_expression k (.NUMBER 3) none (.root tex_table.zero) = .ok v →
      ∀ fuel, k ≤ fuel → ∃ env1,
        tex_eval fuel (.DEFINITION ⟨some [112, 105], [], .NUMBER 3⟩) none
            (.root tex_table.zero) = .ok (0, none, env1) ∧
        tex_env_find env1 (some [112, 105]) = some v) :=
  definition_installs_binding (.root tex_table.zero) [112, 105] [] (.NUMBER 3) none
    tex_table_built.zero (by decide)

/-- C12. Non-function application degrades to juxtaposed markup. When the callee of a call
is not the variable `__unwrap__` and evaluates to a value `c` that is not a function, and
the argument evaluates to `a`, where `tex_value_write` serialises `c` as the bytes `s1` and
`a` as the bytes `s2`, the call yields the raw string `s1 ++ s2`, for every fuel that
exceeds the fuel of the two evaluations. The two markups together stay below `2^32` bytes,
the range of the `u32` size of the buffer the code allocates for them. -/
theorem non_function_application (env : tex_environment) (callee arg : qm_expression)
    (c a : tex_value) (s1 s2 : List Nat) (k : Nat) (out : Option tex_value)
    (hu : ∀ name, callee = .VARIABLE name → string_equals (some name) (some unwrap_name) = false)
    (hc : tex_eval_expression k callee none env = .ok c)
    (ha : tex_eval_expression k arg none env = .ok a)
    (hnf : ∀ ps body, c ≠ .FUNCTION ps body) (h1 : emits c s1) (h2 : emits a s2)
    (_hsize : s1.length + s2.length < 4294967296) :
    ∀ fuel, k + 1 ≤ fuel →
      tex_eval_expression fuel (.CALL callee arg) out env = .ok (.RAW_STRING (s1 ++ s2)) := by
  intro fuel hfuel
  obtain ⟨m, rfl⟩ : ∃ m, fuel = m + 1 := ⟨fuel - 1, by omega⟩
  have hc1 := tex_eval_expression_mono k m (by omega) callee none env c hc
  have ha1 := tex_eval_expression_mono k m (by omega) arg none env a ha
  rw [tex_eval_call_eq, tex_eval_call_concat _ _ _ _ _ c a hu hc1 ha1 hnf]
  exact concat_values_emits c a s1 s2 h1 h2

theorem non_function_application_witness :
    tex_eval_expression 2 (.CALL (.VARIABLE [97]) (.VARIABLE [98])) none
      (.root tex_table.zero) = .ok (.RAW_STRING ([97] ++ [98])) :=
  non_function_application (.root tex_table.zero) (.VARIABLE [97]) (.VARIABLE [98])
    (.RAW_STRING [97]) (.RAW_STRING [98]) [97] [98] 1 none
    (fun name hname => by cases hname; decide)
    (tex_eval_variable_unbound 0 [97] none _ (tex_table_find_size_zero _ _ rfl))
    (tex_eval_variable_unbound 0 [98] none _ (tex_table_find_size_zero _ _ rfl))
    (fun ps body h => by cases h)
    (tex_value_write_bytes (.RAW_STRING [97]) rfl)
    (tex_value_write_bytes (.RAW_STRING [98]) rfl) (by decide) 2 (le_refl _)

/-- C13. Unwrap builtin. A call whose callee is the variable `__unwrap__` and whose
argument evaluates to `v` yields `tex_builtin_unwrap v`: this is `v` itself when `v` is not
a 1x1 matrix, and the unwrapping of the first cell when it is one. When every matrix in `v`
has its `width * height` cells, the result is not a 1x1 matrix; and a number inside any
nesting of 1x1 matrices yields that number. -/
theorem unwrap_builtin (env : tex_environment) (arg : qm_expression) (v : tex_value)
    (k : Nat) (out : Option tex_value) (ha : tex_eval_expression k arg none env = .ok v) :
    (∀ fuel, k + 1 ≤ fuel →
      tex_eval_expression fuel (.CALL (.VARIABLE unwrap_name) arg) out env
        = .ok (tex_builtin_unwrap v)) ∧
    ((∀ d cells, v ≠ .MATRIX 1 1 d cells) → tex_builtin_unwrap v = v) ∧
    (∀ d cell rest, v = .MATRIX 1 1 d (cell :: rest) →
      tex_builtin_unwrap v = tex_builtin_unwrap cell) ∧
    (v.complete = true → ∀ d cells, tex_builtin_unwrap v ≠ .MATRIX 1 1 d cells) ∧
    (∀ delimiters n, v = nest_1x1 delimiters (.NUMBER n) →
      tex_builtin_unwrap v = .NUMBER n) := by
  refine ⟨?_, tex_builtin_unwrap_other v, ?_, ?_, ?_⟩
  · intro fuel hfuel
    obtain ⟨m, rfl⟩ : ∃ m, fuel = m + 1 := ⟨fuel - 1, by omega⟩
    have ha1 := tex_eval_expression_mono k m (by omega) arg none env v ha
    rw [tex_eval_call_eq]
    exact tex_eval_call_unwrap _ arg out env v ha1
  · intro d cell rest hv
    rw [hv]
    exact tex_builtin_unwrap_cell d cell rest
  · intro hc
    exact tex_builtin_unwrap_sized (sizeOf v) v (le_refl _) hc
  · intro delimiters n hv
    rw [hv]
    exact tex_builtin_unwrap_nest delimiters n

theorem unwrap_builtin_witness :
    (∀ fuel, 2 + 1 ≤ fuel →
      tex_eval_expression fuel
          (.CALL (.VARIABLE unwrap_name) (.MATRIX 1 1 2 [.NUMBER 7])) none
          (.root tex_table.zero)
        = .ok (tex_builtin_unwrap (.MATRIX 1 1 2 [.NUMBER 7]))) ∧
    ((∀ d cells, tex_value.MATRIX 1 1 2 [.NUMBER 7] ≠ .MATRIX 1 1 d cells) →
      tex_builtin_unwrap (.MATRIX 1 1 2 [.NUMBER 7]) = .MATRIX 1 1 2 [.NUMBER 7]) ∧
    (∀ d cell rest, tex_value.MATRIX 1 1 2 [.NUMBER 7] = .MATRIX 1 1 d (cell :: rest) →
      tex_builtin_unwrap (.MATRIX 1 1 2 [.NUMBER 7]) = tex_builtin_unwrap cell) ∧
    ((tex_value.MATRIX 1 1 2 [.NUMBER 7]).complete = true →
      ∀ d cells, tex_builtin_unwrap (.MATRIX 1 1 2 [.NUMBER 7]) ≠ .MATRIX 1 1 d cells) ∧
    (∀ delimiters n, tex_value.MATRIX 1 1 2 [.NUMBER 7] = nest_1x1 delimiters (.NUMBER n) →
      tex_builtin_unwrap (.MATRIX 1 1 2 [.NUMBER 7]) = .NUMBER n) :=
  unwrap_builtin (.root tex_table.zero) (.MATRIX 1 1 2 [.NUMBER 7])
    (.MATRIX 1 1 2 [.NUMBER 7]) 2 none
    (tex_eval_matrix_ok 1 1 1 2 _ none _ _ (by simp [tex_eval_cells, tex_eval_expression]))

/-- C14. Number literals. For every non-empty string `d` of decimal digits whose value `n`
is at most `2^31 - 1`, leading zeros allowed: `parse_number` at the token `d` yields `n`,
evaluating `Number n` yields the value `Number n`, and `tex_value_write` serialises that
value as the canonical decimal representation of `n`: digits only, of value `n`, `0` for
zero and otherwise without a leading zero. -/
theorem number_literals (p : qm_parser_state) (d : List Nat) (hne : d ≠ [])
    (hd : ∀ c ∈ d, is_digit c = true) (hv : digits_value d ≤ 2147483647) :
    (parse_number (p.load d)).1 = some (digits_value d : Int) ∧
    (∀ k out env, tex_eval_expression (k + 1) (.NUMBER (digits_value d)) out env
      = .ok (.NUMBER (digits_value d))) ∧
    emits (.NUMBER (digits_value d)) (decimal (digits_value d)) ∧
    (∀ c ∈ decimal (digits_value d), is_digit c = true) ∧
    digits_value (decimal (digits_value d)) = digits_value d ∧
    (digits_value d = 0 → decimal (digits_value d) = [48]) ∧
    (0 < digits_value d → ∃ c rest, decimal (digits_value d) = c :: rest ∧ c ≠ 48) := by
  have hs := lexes_as_of_digits d hne hd
  obtain ⟨c1, c2, c3, c4⟩ := decimal_canonical (digits_value d)
  refine ⟨?_, fun k out env => tex_eval_number k _ out env, ?_, c1, c2, c3, c4⟩
  · have hload : p.load d = p.at_token d .NUMBER 0 d.length := by
      have := advance_at_token p .INVALID 0 .NUMBER (Or.inr rfl) [] [] d [] hs (by simp) rfl
      simp only [List.nil_append, List.append_nil, List.length_nil, Nat.zero_add] at this
      rw [load_eq]
      exact this
    rw [hload]
    simp only [parse_number, qm_parser_state.at_token, if_true, List.drop_zero]
    rw [parse_number_loop_value d hs (by omega)]
  · have := tex_value_write_bytes (.NUMBER (digits_value d)) rfl
    simp only [tex_value.bytes, number_str_of_nat] at this
    exact this

theorem number_literals_witness :
    (parse_number ((main_parser_state []).load [48, 48, 55])).1
      = some (digits_value [48, 48, 55] : Int) ∧
    (∀ k out env, tex_eval_expression (k + 1) (.NUMBER (digits_value [48, 48, 55])) out env
      = .ok (.NUMBER (digits_value [48, 48, 55]))) ∧
    emits (.NUMBER (digits_value [48, 48, 55])) (decimal (digits_value [48, 48, 55])) ∧
    (∀ c ∈ decimal (digits_value [48, 48, 55]), is_digit c = true) ∧
    digits_value (decimal (digits_value [48, 48, 55])) = digits_value [48, 48, 55] ∧
    (digits_value [48, 48, 55] = 0 → decimal (digits_value [48, 48, 55]) = [48]) ∧
    (0 < digits_value [48, 48, 55] →
      ∃ c rest, decimal (digits_value [48, 48, 55]) = c :: rest ∧ c ≠ 48) :=
  number_literals (main_parser_state []) [48, 48, 55] (by decide) (by decide) (by decide)

/-- C15. Matrix row round trip, as the code performs it. Parsing, evaluating and
serialising a bracketed list of `N ≥ 1` number literals `[d1, ..., dN]` (each a non-empty
digit string of value at most `2^31 - 1`) yields the subscript group `_{`, the decimal
renderings of the cells joined by a comma and a space, then `}`; for every fuel of at least
`N + 7`. E.g. `[1, 2, 3]` yields `_{1, 2, 3}`. -/
theorem matrix_row_round_trip (p : qm_parser_state) (hi : p.is_initialized = true)
    (hr : p.result = 0) (literals : List (List Nat)) (hne : literals ≠ [])
    (hdig : ∀ x ∈ literals, x ≠ [] ∧ ∀ c ∈ x, is_digit c = true)
    (hv : ∀ x ∈ literals, digits_value x ≤ 2147483647) (env : tex_environment) (fuel : Nat)
    (hfuel : literals.length + 7 ≤ fuel) (e : qm_expression) :
    ∃ p1 parsed, parse_expression fuel (p.load (row_source literals)) e
        = some (true, p1, parsed) ∧
      parsed = .MATRIX literals.length 1 4 (literals.map (fun x => .NUMBER (digits_value x))) ∧
      main_statement_output fuel (.EXPRESSION parsed) env
        = .ok ([95, 123]
            ++ [44, 32].intercalate (literals.map (fun x => decimal (digits_value x)))
            ++ [125], env) := by
  cases literals with
  | nil => exact absurd rfl hne
  | cons d ds =>
    obtain ⟨h1, _, h3⟩ := row_statement_output p hi hr d ds hdig hv env fuel hfuel e
    exact ⟨_, _, h1, rfl, h3⟩

theorem matrix_row_round_trip_witness :
    ∃ p1 parsed, parse_expression 10 (plus_times_state.load (row_source [[49], [50], [51]]))
        .NONE = some (true, p1, parsed) ∧
      parsed = .MATRIX [[49], [50], [51]].length 1 4
        ([[49], [50], [51]].map (fun x => .NUMBER (digits_value x))) ∧
      main_statement_output 10 (.EXPRESSION parsed) (.root tex_table.zero)
        = .ok ([95, 123]
            ++ [44, 32].intercalate ([[49], [50], [51]].map (fun x => decimal (digits_value x)))
            ++ [125], .root tex_table.zero) :=
  matrix_row_round_trip plus_times_state (by decide!) (by decide!) [[49], [50], [51]]
    (by decide) (by decide) (by decide) (.root tex_table.zero) 10 (by decide) .NONE

/-- The statement `[1, 2, 3]` is printed as `_{1, 2, 3}`, which is not the text
`[1, 2, 3]` with plain bracket characters. -/
theorem matrix_row_plain_brackets_counterexample :
    main_statement_output 10
        (.EXPRESSION (.MATRIX 3 1 4 [.NUMBER 1, .NUMBER 2, .NUMBER 3])) (.root tex_table.zero)
      = .ok ([95, 123, 49, 44, 32, 50, 44, 32, 51, 125], .root tex_table.zero) ∧
    parse_expression 10 (plus_times_state.load [91, 49, 44, 32, 50, 44, 32, 51, 93]) .NONE
      = some (true,
          plus_times_state.at_token [91, 49, 44, 32, 50, 44, 32, 51, 93] .EOF 9 9,
          .MATRIX 3 1 4 [.NUMBER 1, .NUMBER 2, .NUMBER 3]) ∧
    [95, 123, 49, 44, 32, 50, 44, 32, 51, 125] ≠ [91, 49, 44, 32, 50, 44, 32, 51, 93] :=
  ⟨(row_statement_output plus_times_state (by decide!) (by decide!) [49] [[50], [51]]
      (by decide) (by decide) (.root tex_table.zero) 10 (by decide) .NONE).2.2,
    (row_statement_output plus_times_state (by decide!) (by decide!) [49] [[50], [51]]
      (by decide) (by decide) (.root tex_table.zero) 10 (by decide) .NONE).1,
    by decide⟩

/-- C17. Measure pass agrees with write pass. For every well-formed value `v` whose markup
stays below `2^32` bytes (the range of the `u32` counters of the code), `tex_value_write`
without a buffer returns the length `n` of the markup of `v` (and there is
no buffer it could write to), and `tex_value_write` into an empty buffer of capacity `n`,
whatever its `n` bytes held, also returns `n`, leaves exactly the `n` bytes of the markup in
the buffer and the write position at the capacity. -/
theorem measure_agrees_with_write (v : tex_value) (h : v.well_formed = true)
    (_hsize : v.bytes.length < 4294967296) :
    tex_value_write v none = .ok (v.bytes.length, none) ∧
    ∀ data : List Nat, data.length = v.bytes.length →
      tex_value_write v (some ⟨data, v.bytes.length, 0⟩)
        = .ok (v.bytes.length, some ⟨v.bytes, v.bytes.length, v.bytes.length⟩) := by
  have he := tex_value_write_bytes v h
  exact ⟨(emits_exact v _ he _ rfl).1, fun data hdata => (emits_exact v _ he data hdata).2⟩

theorem measure_agrees_with_write_witness :
    tex_value_write (.MATRIX 2 1 2 [.NUMBER 1, .STRING [97]]) none
      = .ok ((tex_value.MATRIX 2 1 2 [.NUMBER 1, .STRING [97]]).bytes.length, none) ∧
    ∀ data : List Nat,
      data.length = (tex_value.MATRIX 2 1 2 [.NUMBER 1, .STRING [97]]).bytes.length →
      tex_value_write (.MATRIX 2 1 2 [.NUMBER 1, .STRING [97]])
          (some ⟨data, (tex_value.MATRIX 2 1 2 [.NUMBER 1, .STRING [97]]).bytes.length, 0⟩)
        = .ok ((tex_value.MATRIX 2 1 2 [.NUMBER 1, .STRING [97]]).bytes.length,
            some ⟨(tex_value.MATRIX 2 1 2 [.NUMBER 1, .STRING [97]]).bytes,
              (tex_value.MATRIX 2 1 2 [.NUMBER 1, .STRING [97]]).bytes.length,
              (tex_value.MATRIX 2 1 2 [.NUMBER 1, .STRING [97]]).bytes.length⟩) :=
  measure_agrees_with_write (.MATRIX 2 1 2 [.NUMBER 1, .STRING [97]]) rfl (by decide)

/-- C18. Priority monotonicity, as the code has it. The operator `A` is defined at the
parser `p` by `op` (`rightA = false`) or `opr` (`rightA = true`) without override, and the
operator `B` in the same way at a parser `q` that has the operator table and the counter of
the parser `k` rounds of the statement loop after the definition of `A`. Both calls of
`parse_definition` return true and register the pair of their keyword at their counter;
in a reachable table with a free slot in which the spelling was not yet found, the spelling
is afterwards found with that pair. Neither binding power of `B` is less than the
corresponding one of `A`, and at least one is strictly greater; both are strictly greater
when `A` and `B` are defined with the same keyword, or when the counter has advanced
between the two definitions. -/
theorem priority_monotonicity (fuel : Nat) (p q : qm_parser_state) (dA dB : qm_definition)
    (A B : List Nat) (rightA rightB : Bool) (k : Nat)
    (hi : p.is_initialized = true) (hr : p.result = 0)
    (t0 : p.token.type = cond rightA .OPR .OP)
    (t1 : p.bump.advance.token.type = .IDENTIFIER)
    (t2 : p.bump.advance.advance.token.type = .IDENTIFIER)
    (n2 : peek_identifier p.bump.advance.advance = some A)
    (t3 : p.bump.advance.advance.advance.token.type = .IDENTIFIER)
    (hq : same_tables (parse_statements fuel k (definition_state fuel p dA)) q)
    (hqi : q.is_initialized = true) (hqr : q.result = 0)
    (u0 : q.token.type = cond rightB .OPR .OP)
    (u1 : q.bump.advance.token.type = .IDENTIFIER)
    (u2 : q.bump.advance.advance.token.type = .IDENTIFIER)
    (m2 : peek_identifier q.bump.advance.advance = some B)
    (u3 : q.bump.advance.advance.advance.token.type = .IDENTIFIER)
    (hfuel : 5 * p.measure + 5 ≤ fuel) (hfuelq : 5 * q.measure + 5 ≤ fuel) :
    ∃ pA dA1 pB dB1,
      parse_definition fuel p dA = .ok (true, pA, dA1) ∧
      parse_definition fuel q dB = .ok (true, pB, dB1) ∧
      pA.operators = p.operators.define A (keyword_pair rightA (p.bp + 1)).1
        (keyword_pair rightA (p.bp + 1)).2 ∧
      pB.operators = q.operators.define B (keyword_pair rightB (q.bp + 1)).1
        (keyword_pair rightB (q.bp + 1)).2 ∧
      (operator_table_built p.operators → operator_count p.operators < 1024 →
        operator_find p.operators A = none →
        operator_find pA.operators A = some (keyword_pair rightA (p.bp + 1))) ∧
      (operator_table_built q.operators → operator_count q.operators < 1024 →
        operator_find q.operators B = none →
        operator_find pB.operators B = some (keyword_pair rightB (q.bp + 1))) ∧
      (keyword_pair rightA (p.bp + 1)).1 ≤ (keyword_pair rightB (q.bp + 1)).1 ∧
      (keyword_pair rightA (p.bp + 1)).2 ≤ (keyword_pair rightB (q.bp + 1)).2 ∧
      ((keyword_pair rightA (p.bp + 1)).1 < (keyword_pair rightB (q.bp + 1)).1 ∨
        (keyword_pair rightA (p.bp + 1)).2 < (keyword_pair rightB (q.bp + 1)).2) ∧
      (rightA = rightB ∨ p.bp + 1 < q.bp →
        (keyword_pair rightA (p.bp + 1)).1 < (keyword_pair rightB (q.bp + 1)).1 ∧
        (keyword_pair rightA (p.bp + 1)).2 < (keyword_pair rightB (q.bp + 1)).2) := by
  obtain ⟨rA, hbodyA, _⟩ := parse_expression_total
    (expect_identifier p.bump.advance.advance.advance.advance (some [61]))
    dA.expression fuel (by have := operator_body_measure p hi; omega)
  obtain ⟨pA, dA1, a1, a2, _, _, _, a6⟩ :=
    parse_definition_operator fuel p dA A rightA hi hr t0 t1 t2 n2 t3 rA hbodyA
  obtain ⟨rB, hbodyB, _⟩ := parse_expression_total
    (expect_identifier q.bump.advance.advance.advance.advance (some [61]))
    dB.expression fuel (by have := operator_body_measure q hqi; omega)
  obtain ⟨pB, dB1, b1, _, _, _, _, b6⟩ :=
    parse_definition_operator fuel q dB B rightB hqi hqr u0 u1 u2 m2 u3 rB hbodyB
  have hds : definition_state fuel p dA = pA := by
    unfold definition_state
    rw [a1]
  have hbp : p.bp + 1 ≤ q.bp := by
    have h1 := parse_statements_bp fuel k pA
    have h2 := hq.2.1
    rw [hds] at h2
    omega
  have eA : keyword_pair rightA (p.bp + 1)
      = (cond rightA (p.bp + 1 + 1) (p.bp + 1), cond rightA (p.bp + 1) (p.bp + 1 + 1)) := by
    cases rightA <;> rfl
  have eB : keyword_pair rightB (q.bp + 1)
      = (cond rightB (q.bp + 1 + 1) (q.bp + 1), cond rightB (q.bp + 1) (q.bp + 1 + 1)) := by
    cases rightB <;> rfl
  refine ⟨pA, dA1, pB, dB1, a1, b1, by rw [eA]; exact a6, by rw [eB]; exact b6, ?_, ?_, ?_⟩
  · intro hb hc hn
    rw [a6, eA]
    exact operator_define_lookup p.operators hb hc A hn _ _
  · intro hb hc hn
    rw [b6, eB]
    exact operator_define_lookup q.operators hb hc B hn _ _
  · rw [eA, eB]
    cases rightA <;> cases rightB <;> simp only [cond_true, cond_false] <;>
      refine ⟨by omega, by omega, by omega, ?_⟩ <;> intro h <;>
      rcases h with h | h <;> first | exact absurd h (by decide) | (constructor <;> omega)

set_option maxRecDepth 100000 in
theorem priority_monotonicity_witness :
    ∃ pA dA1 pB dB1,
      parse_definition (5 * power_plus_definition_state.measure + 5)
        power_plus_definition_state { name := none, parameters := [], expression := .NONE }
        = .ok (true, pA, dA1) ∧
      parse_definition (5 * power_plus_definition_state.measure + 5)
        (definition_state (5 * power_plus_definition_state.measure + 5)
          power_plus_definition_state { name := none, parameters := [], expression := .NONE })
        { name := none, parameters := [], expression := .NONE } = .ok (true, pB, dB1) ∧
      pA.operators = power_plus_definition_state.operators.define [94]
        (keyword_pair true (power_plus_definition_state.bp + 1)).1
        (keyword_pair true (power_plus_definition_state.bp + 1)).2 ∧
      pB.operators = (definition_state (5 * power_plus_definition_state.measure + 5)
          power_plus_definition_state
          { name := none, parameters := [], expression := .NONE }).operators.define [43]
        (keyword_pair false ((definition_state (5 * power_plus_definition_state.measure + 5)
          power_plus_definition_state
          { name := none, parameters := [], expression := .NONE }).bp + 1)).1
        (keyword_pair false ((definition_state (5 * power_plus_definition_state.measure + 5)
          power_plus_definition_state
          { name := none, parameters := [], expression := .NONE }).bp + 1)).2 ∧
      (operator_table_built power_plus_definition_state.operators →
        operator_count power_plus_definition_state.operators < 1024 →
        operator_find power_plus_definition_state.operators [94] = none →
        operator_find pA.operators [94]
          = some (keyword_pair true (power_plus_definition_state.bp + 1))) ∧
      (operator_table_built (definition_state (5 * power_plus_definition_state.measure + 5)
          power_plus_definition_state
          { name := none, parameters := [], expression := .NONE }).operators →
        operator_count (definition_state (5 * power_plus_definition_state.measure + 5)
          power_plus_definition_state
          { name := none, parameters := [], expression := .NONE }).operators < 1024 →
        operator_find (definition_state (5 * power_plus_definition_state.measure + 5)
          power_plus_definition_state
          { name := none, parameters := [], expression := .NONE }).operators [43] = none →
        operator_find pB.operators [43]
          = some (keyword_pair false ((definition_state
            (5 * power_plus_definition_state.measure + 5) power_plus_definition_state
            { name := none, parameters := [], expression := .NONE }).bp + 1))) ∧
      (keyword_pair true (power_plus_definition_state.bp + 1)).1
        ≤ (keyword_pair false ((definition_state (5 * power_plus_definition_state.measure + 5)
          power_plus_definition_state
          { name := none, parameters := [], expression := .NONE }).bp + 1)).1 ∧
      (keyword_pair true (power_plus_definition_state.bp + 1)).2
        ≤ (keyword_pair false ((definition_state (5 * power_plus_definition_state.measure + 5)
          power_plus_definition_state
          { name := none, parameters := [], expression := .NONE }).bp + 1)).2 ∧
      ((keyword_pair true (power_plus_definition_state.bp + 1)).1
          < (keyword_pair false ((definition_state
            (5 * power_plus_definition_state.measure + 5) power_plus_definition_state
            { name := none, parameters := [], expression := .NONE }).bp + 1)).1 ∨
        (keyword_pair true (power_plus_definition_state.bp + 1)).2
          < (keyword_pair false ((definition_state
            (5 * power_plus_definition_state.measure + 5) power_plus_definition_state
            { name := none, parameters := [], expression := .NONE }).bp + 1)).2) ∧
      (true = false ∨ power_plus_definition_state.bp + 1
          < (definition_state (5 * power_plus_definition_state.measure + 5)
            power_plus_definition_state
            { name := none, parameters := [], expression := .NONE }).bp →
        (keyword_pair true (power_plus_definition_state.bp + 1)).1
          < (keyword_pair false ((definition_state
            (5 * power_plus_definition_state.measure + 5) power_plus_definition_state
            { name := none, parameters := [], expression := .NONE }).bp + 1)).1 ∧
        (keyword_pair true (power_plus_definition_state.bp + 1)).2
          < (keyword_pair false ((definition_state
            (5 * power_plus_definition_state.measure + 5) power_plus_definition_state
            { name := none, parameters := [], expression := .NONE }).bp + 1)).2) :=
  priority_monotonicity (5 * power_plus_definition_state.measure + 5)
    power_plus_definition_state
    (definition_state (5 * power_plus_definition_state.measure + 5)
      power_plus_definition_state { name := none, parameters := [], expression := .NONE })
    { name := none, parameters := [], expression := .NONE }
    { name := none, parameters := [], expression := .NONE } [94] [43] true false 0
    (by decide!) (by decide!) (by decide!) (by decide!) (by decide!) (by decide!) (by decide!)
    (same_tables_refl _)
    (by decide!) (by decide!) (by decide!) (by decide!) (by decide!) (by decide!) (by decide!)
    (le_refl _) (by decide!)

set_option maxRecDepth 100000 in
/-- After the prelude `opr a ^ b = a`, `op a + b = a`, which defines `^` before `+` and
overrides neither, `^` is found with `(2, 1)` and `+` with `(2, 3)`: the left binding power
of the later operator is not greater than that of the earlier one. -/
theorem priority_left_tie_counterexample :
    ∃ a b : Int × Int, operator_find power_plus_state.operators [94] = some a ∧
      operator_find power_plus_state.operators [43] = some b ∧
      a = (2, 1) ∧ b = (2, 3) ∧ ¬ (a.1 < b.1 ∧ a.2 < b.2) :=
  ⟨(2, 1), (2, 3), by decide!, by decide!, rfl, rfl, by decide⟩

/-- C19. Prefix operator definition, as the code reads it. The parser, with its priority
counter at `c`, reads `opp`, the operator name `name`, one parameter `parameter`, the
identifier `=` and the body. Then, for every fuel of at least five times the measure of the
parser plus five, `parse_definition` returns true with a definition of that name and exactly
the one parameter, leaves the counter at `c + 1` and has called `operator_define` for `name`
with `(0, c + 1)`: in a reachable table with a free slot in which `name` was not yet found,
`name` is afterwards found with `(0, c + 1)`. When the body parses as `e` without error and
a newline follows it, the definition has the body `e` and the error flag is still clear. -/
theorem prefix_operator_definition (fuel : Nat) (p : qm_parser_state)
    (definition : qm_definition) (name parameter : List Nat) (c : Int)
    (hi : p.is_initialized = true) (hr : p.result = 0) (hc : p.bp = c)
    (t0 : p.token.type = .OPP)
    (t1 : p.advance.bump.token.type = .IDENTIFIER)
    (n1 : peek_identifier p.advance.bump = some name)
    (t2 : p.advance.bump.advance.token.type = .IDENTIFIER)
    (n2 : peek_identifier p.advance.bump.advance = some parameter)
    (t3 : p.advance.bump.advance.advance.token.type = .IDENTIFIER)
    (n3 : peek_identifier p.advance.bump.advance.advance = some [61])
    (hfuel : 5 * p.measure + 5 ≤ fuel) :
    ∃ p1 d, parse_definition fuel p definition = .ok (true, p1, d) ∧
      d.name = some name ∧ d.parameters = [some parameter] ∧ p1.bp = c + 1 ∧
      p1.operators = p.operators.define name 0 (c + 1) ∧
      (operator_table_built p.operators → operator_count p.operators < 1024 →
        operator_find p.operators name = none →
        operator_find p1.operators name = some (0, c + 1)) ∧
      (∀ p4 e, parse_expression fuel p.advance.bump.advance.advance.advance
          definition.expression = some (true, p4, e) →
        p4.result = 0 → p4.token.type = .NEWLINE → d.expression = e ∧ p1.result = 0) := by
  have hbi : p.advance.bump.is_initialized = true := hi
  have hexp : expect_identifier p.advance.bump.advance.advance (some [61])
      = p.advance.bump.advance.advance.advance :=
    accept_identifier_hit _ [61] hbi t3 (by decide) n3
  have hm : p.advance.bump.advance.advance.advance.measure ≤ p.measure := by
    have h1 := advance_measure_le p hi
    have h2 := advance_measure_le p.advance.bump hbi
    have h3 := advance_measure_le p.advance.bump.advance hbi
    have h4 := advance_measure_le p.advance.bump.advance.advance hbi
    have h0 : p.advance.bump.measure = p.advance.measure := rfl
    omega
  obtain ⟨res, hbody, _⟩ := parse_expression_total p.advance.bump.advance.advance.advance
    definition.expression fuel (by omega)
  have hdef := parse_definition_opp fuel p definition name parameter hi hr t0 t1 n1 t2 n2 res
    (by rw [hexp]; exact hbody)
  obtain ⟨ok, p4, e⟩ := res
  have hframe : same_tables p.advance.bump p4 :=
    same_tables_trans (same_tables_advance _) (same_tables_trans (same_tables_advance _)
      (same_tables_trans (same_tables_advance _)
        (same_tables_parse_expression _ _ _ _ hbody)))
  have hp5 : same_tables p.advance.bump (if ok = true then p4 else parser_error p4) := by
    cases ok
    · exact same_tables_trans hframe (same_tables_error _)
    · exact hframe
  have hlast := same_tables_expect
    { (if ok = true then p4 else parser_error p4) with
      operators := p.operators.define name 0 (p.bp + 1) } .NEWLINE
  subst hc
  refine ⟨_, _, hdef, rfl, rfl, ?_, ?_, ?_, ?_⟩
  · rw [hlast.2.1]
    exact hp5.2.1
  · rw [hlast.1]
  · intro hb hcount hnone
    rw [hlast.1]
    exact operator_define_lookup p.operators hb hcount name hnone 0 (p.bp + 1)
  · intro p4' e' hbody' hres htok
    rw [hbody] at hbody'
    simp only [Option.some.injEq, Prod.mk.injEq] at hbody'
    obtain ⟨rfl, rfl, rfl⟩ := hbody'
    refine ⟨rfl, ?_⟩
    have hx := accept_hit_initialized
      { p4 with operators := p.operators.define name 0 (p.bp + 1) } .NEWLINE
      (hframe.2.2 hbi) htok
    simp only [if_true]
    rw [hx]
    exact hres

theorem prefix_operator_definition_witness :
    ∃ p1 d, parse_definition (5 * negate_definition_state.measure + 5) negate_definition_state
        { name := none, parameters := [], expression := .NONE } = .ok (true, p1, d) ∧
      d.name = some [45] ∧ d.parameters = [some [120]] ∧ p1.bp = 0 + 1 ∧
      p1.operators = negate_definition_state.operators.define [45] 0 (0 + 1) ∧
      (operator_table_built negate_definition_state.operators →
        operator_count negate_definition_state.operators < 1024 →
        operator_find negate_definition_state.operators [45] = none →
        operator_find p1.operators [45] = some (0, 0 + 1)) ∧
      (∀ p4 e, parse_expression (5 * negate_definition_state.measure + 5)
          negate_definition_state.advance.bump.advance.advance.advance
          qm_expression.NONE = some (true, p4, e) →
        p4.result = 0 → p4.token.type = .NEWLINE → d.expression = e ∧ p1.result = 0) :=
  prefix_operator_definition (5 * negate_definition_state.measure + 5)
    negate_definition_state { name := none, parameters := [], expression := .NONE } [45] [120]
    0 (by decide!) (by decide!) (by decide!) (by decide!) (by decide!) (by decide!)
    (by decide!) (by decide!) (by decide!) (by decide!) (le_refl _)

set_option maxRecDepth 100000 in
/-- The statement `opp neg = x`, which names no parameter: `parse_definition` takes `=` for
the parameter and sets the error flag. -/
theorem prefix_operator_implicit_parameter_counterexample :
    ∃ p1 d, parse_definition 100 implicit_parameter_state
        { name := none, parameters := [], expression := .NONE } = .ok (true, p1, d) ∧
      p1.result ≠ 0 ∧ d.name = some [110, 101, 103] ∧ d.parameters = [some [61]] :=
  ⟨_, _,
    parse_definition_opp 100 implicit_parameter_state
      { name := none, parameters := [], expression := .NONE } [110, 101, 103] [61]
      (by decide!) (by decide!) (by decide!) (by decide!) (by decide!) (by decide!)
      (by decide!)
      ((parse_expression 100
        (expect_identifier implicit_parameter_state.advance.bump.advance.advance (some [61]))
        .NONE).get (by decide!))
      (Option.some_get _).symm,
    by decide!, rfl, rfl⟩

/-- C20. Precedence override. The parser reads `op` (`right = false`) or `opr`
(`right = true`), an opening bracket, an override, and then a parameter, the operator
spelling `s` and a parameter. The override is either the spelling `X` of an operator that
the table holds with the pair `(l, r)`, followed by the closing bracket, or two number
literals of the values `l` and `r`, separated by a comma and followed by the closing
bracket. Then, for every fuel of at least five times the measure of the parser plus five,
`parse_definition` returns true and has called `operator_define` for `s` with exactly
`(l, r)`, not with the default pair of the keyword: in a reachable table with a free slot in
which `s` was not yet found, `s` is afterwards found with `(l, r)`. -/
theorem precedence_override (fuel : Nat) (p : qm_parser_state) (definition : qm_definition)
    (s X : List Nat) (right : Bool) (l r : Int) (q : qm_parser_state)
    (hi : p.is_initialized = true) (hr : p.result = 0)
    (t0 : p.token.type = cond right .OPR .OP)
    (tb : p.bump.advance.token.type = .LBRACKET)
    (hform :
      (p.bump.advance.advance.token.type = .IDENTIFIER ∧
        peek_identifier p.bump.advance.advance = some X ∧
        operator_find p.operators X = some (l, r) ∧
        p.bump.advance.advance.advance.token.type = .RBRACKET ∧
        q = p.bump.advance.advance.advance.advance) ∨
      (p.bump.advance.advance.token.type = .NUMBER ∧
        parse_number_loop 0 (p.bump.advance.advance.buffer.data.drop
          p.bump.advance.advance.token.start) = l ∧
        p.bump.advance.advance.advance.token.type = .COMMA ∧
        p.bump.advance.advance.advance.advance.token.type = .NUMBER ∧
        parse_number_loop 0 (p.bump.advance.advance.advance.advance.buffer.data.drop
          p.bump.advance.advance.advance.advance.token.start) = r ∧
        p.bump.advance.advance.advance.advance.advance.token.type = .RBRACKET ∧
        q = p.bump.advance.advance.advance.advance.advance.advance))
    (t1 : q.token.type = .IDENTIFIER)
    (t2 : q.advance.token.type = .IDENTIFIER)
    (n2 : peek_identifier q.advance = some s)
    (t3 : q.advance.advance.token.type = .IDENTIFIER)
    (hfuel : 5 * p.measure + 5 ≤ fuel) :
    ∃ p1 d, parse_definition fuel p definition = .ok (true, p1, d) ∧ d.name = some s ∧
      p1.bp = p.bp + 1 ∧ p1.operators = p.operators.define s l r ∧
      (operator_table_built p.operators → operator_count p.operators < 1024 →
        operator_find p.operators s = none → operator_find p1.operators s = some (l, r)) := by
  have i0 : p.bump.is_initialized = true := hi
  have i1 := advance_initialized _ i0
  have i2 := advance_initialized _ i1
  have i3 := advance_initialized _ i2
  have i4 := advance_initialized _ i3
  have i5 := advance_initialized _ i4
  have i6 := advance_initialized _ i5
  have m0 : p.bump.measure = p.measure := rfl
  have m1 := advance_measure_le _ i0
  have m2 := advance_measure_le _ i1
  have m3 := advance_measure_le _ i2
  have m4 := advance_measure_le _ i3
  have m5 := advance_measure_le _ i4
  have m6 := advance_measure_le _ i5
  -- both forms leave the parser at `q` with the pair `(l, r)`
  have hq : (∀ L R, parse_override p.bump.advance.advance L R = (q, l, r)) ∧
      same_tables p.bump q ∧ q.is_initialized = true ∧ q.measure ≤ p.measure := by
    rcases hform with ⟨f1, f2, f3, f4, rfl⟩ | ⟨f1, f2, f3, f4, f5, f6, rfl⟩
    · refine ⟨fun L R => parse_override_operator _ X l r L R i2 f1 f2 f3 f4, ?_, i4, by omega⟩
      exact same_tables_trans (same_tables_advance _) (same_tables_trans (same_tables_advance _)
        (same_tables_trans (same_tables_advance _) (same_tables_advance _)))
    · refine ⟨fun L R => ?_, ?_, i6, by omega⟩
      · rw [parse_override_numbers _ L R i2 f1 f3 f4 f6, f2, f5]
      · exact same_tables_trans (same_tables_advance _)
          (same_tables_trans (same_tables_advance _) (same_tables_trans (same_tables_advance _)
            (same_tables_trans (same_tables_advance _)
              (same_tables_trans (same_tables_advance _) (same_tables_advance _)))))
  obtain ⟨hov, hsame, hqi, hqm⟩ := hq
  have hm : (expect_identifier q.advance.advance.advance (some [61])).measure ≤ p.measure := by
    have j1 := advance_initialized _ hqi
    have j2 := advance_initialized _ j1
    have h1 := advance_measure_le _ hqi
    have h2 := advance_measure_le _ j1
    have h3 := advance_measure_le _ j2
    have h4 := expect_identifier_measure_le q.advance.advance.advance (some [61])
    omega
  obtain ⟨res, hbody, _⟩ := parse_expression_total
    (expect_identifier q.advance.advance.advance (some [61])) definition.expression fuel
    (by omega)
  obtain ⟨p1, d, h1, h2, h3, _, _, h6⟩ := parse_definition_override fuel p definition s right
    l r q hi hr t0 tb hov hsame hqi t1 t2 n2 t3 res hbody
  refine ⟨p1, d, h1, h3, h2, h6, ?_⟩
  intro hb hcount hnone
  rw [h6]
  exact operator_define_lookup p.operators hb hcount s hnone l r

set_option maxRecDepth 100000 in
theorem precedence_override_witness :
    (∃ p1 d, parse_definition (5 * operator_override_state.measure + 5)
        operator_override_state { name := none, parameters := [], expression := .NONE }
        = .ok (true, p1, d) ∧ d.name = some [37] ∧
      p1.bp = operator_override_state.bp + 1 ∧
      p1.operators = operator_override_state.operators.define [37] 0 100 ∧
      (operator_table_built operator_override_state.operators →
        operator_count operator_override_state.operators < 1024 →
        operator_find operator_override_state.operators [37] = none →
        operator_find p1.operators [37] = some (0, 100))) ∧
    (∃ p1 d, parse_definition (5 * number_override_state.measure + 5)
        number_override_state { name := none, parameters := [], expression := .NONE }
        = .ok (true, p1, d) ∧ d.name = some [37] ∧
      p1.bp = number_override_state.bp + 1 ∧
      p1.operators = number_override_state.operators.define [37] 5 6 ∧
      (operator_table_built number_override_state.operators →
        operator_count number_override_state.operators < 1024 →
        operator_find number_override_state.operators [37] = none →
        operator_find p1.operators [37] = some (5, 6))) :=
  ⟨precedence_override (5 * operator_override_state.measure + 5) operator_override_state
      { name := none, parameters := [], expression := .NONE } [37]
      [95, 95, 117, 110, 119, 114, 97, 112, 95, 95] true 0 100
      operator_override_state.bump.advance.advance.advance.advance
      (by decide!) (by decide!) (by decide!) (by decide!)
      (Or.inl ⟨by decide!, by decide!, by decide!, by decide!, rfl⟩)
      (by decide!) (by decide!) (by decide!) (by decide!) (le_refl _),
    precedence_override (5 * number_override_state.measure + 5) number_override_state
      { name := none, parameters := [], expression := .NONE } [37] [] false 5 6
      number_override_state.bump.advance.advance.advance.advance.advance.advance
      (by decide!) (by decide!) (by decide!) (by decide!)
      (Or.inr ⟨by decide!, by decide!, by decide!, by decide!, by decide!, by decide!, rfl⟩)
      (by decide!) (by decide!) (by decide!) (by decide!) (le_refl _)⟩

/-! ## Rebinding one name -/

theorem tex_env_define_loop_same (t : tex_table) (x : List Nat) (value : tex_value)
    (mask : Nat) (n i : Nat) (hn : 0 < n) (h : t.keys i = some x) :
    tex_env_define_loop t (some x) value mask n i
      = (true, { t with keys := Function.update t.keys i (some x),
                        values := Function.update t.values i value,
                        used := t.used + 1 }) := by
  cases n with
  | zero => omega
  | succ n => simp [tex_env_define_loop, h, string_equals_refl]

/-- Rebinding the name stored in the first probed slot overwrites that slot and counts as one
more use. -/
theorem tex_table_define_rebind (t : tex_table) (x : List Nat) (value : tex_value)
    (hs : t.size = 1024) (hu : t.used < 1024)
    (hk : t.keys (hash (some x) &&& 1023) = some x) :
    t.define (some x) value
      = (true, { t with values := Function.update t.values (hash (some x) &&& 1023) value,
                        used := t.used + 1 }) := by
  have hne : t.used ≠ 1024 := by omega
  have hupd : Function.update t.keys (hash (some x) &&& 1023) (some x) = t.keys := by
    have := Function.update_eq_self (hash (some x) &&& 1023) t.keys
    rw [hk] at this
    exact this
  unfold tex_table.define
  simp only [hs, if_neg (show (1024 : Nat) ≠ 0 by decide), probe_mask_1024, if_neg hne]
  rw [tex_env_define_loop_same t x value 1023 1024 _ (by decide) hk, hupd, hs]

/-- After `n` definitions of the same name on the zeroed map, with `0 < n ≤ 1024`: one slot
holds the name and the use counter stands at `n`. -/
theorem define_times_shape (x : List Nat) (value : tex_value) :
    ∀ n, 0 < n → n ≤ 1024 →
      tex_table.zero.define_times (some x) value n
        = { keys := Function.update (fun _ => none) (hash (some x) &&& 1023) (some x),
            values := Function.update (fun _ => .NONE) (hash (some x) &&& 1023) value,
            used := n, size := 1024 } := by
  intro n
  induction n with
  | zero => intro h; omega
  | succ n ih =>
    intro _ hn
    cases n with
    | zero =>
      have h := tex_env_define_loop_first
        { keys := fun _ => none, values := fun _ => .NONE, used := 0, size := 1024 } (some x)
        value (probe_mask 1024) 1024 (hash (some x) &&& probe_mask 1024) (by decide) rfl
      simp only [tex_table.define_times, tex_table.define, tex_table.zero, if_true]
      rw [if_neg (by decide), h, probe_mask_1024]
    | succ m =>
      rw [tex_table.define_times, ih (by omega) (by omega)]
      rw [tex_table_define_rebind _ x value rfl (by simp only []; omega)
        (by simp only [Function.update_same])]
      simp only [Function.update_idem]

/-- A map with one occupied slot holds one binding. -/
theorem tex_table_count_single (x : List Nat) (values : Nat → tex_value) (used i : Nat)
    (hi : i < 1024) :
    tex_table.count { keys := Function.update (fun _ => none) i (some x), values := values,
                      used := used, size := 1024 } = 1 := by
  have hp : (fun j => (Function.update (fun _ => (none : cstring)) i (some x) j).isSome)
      = (fun j => j == i) := by
    funext j
    by_cases h : j = i
    · subst h; simp
    · simp [Function.update_noteq h, h]
  unfold tex_table.count
  simp only [hp]
  rw [← List.countP_eq_length_filter]
  exact List.count_eq_one_of_mem (List.nodup_range 1024) (List.mem_range.2 hi)

theorem tex_env_define_root (t : tex_table) (name : cstring) (value : tex_value) :
    tex_env_define (.root t) name value
      = ((t.define name value).1, .root (t.define name value).2) := rfl

/-- The map after 1024 definitions of `x`. -/
theorem rebound_table_shape :
    rebound_table
      = { keys := Function.update (fun _ => none) (hash (some [120]) &&& 1023) (some [120]),
          values := Function.update (fun _ => .NONE) (hash (some [120]) &&& 1023) (.NUMBER 1),
          used := 1024, size := 1024 } := by
  unfold rebound_table
  exact define_times_shape [120] (.NUMBER 1) 1024 (by decide) (by decide)

theorem rebound_table_define (name : cstring) (value : tex_value) :
    rebound_table.define name value = (false, rebound_table) := by
  rw [rebound_table_shape]
  simp [tex_table.define]

/-! ## Comparing parsed trees -/

mutual

theorem same_sound : (a b : qm_expression) → a.same b = true → a = b
  | .NONE, b, h => by cases b <;> simp [qm_expression.same] at h ⊢
  | .MATRIX w1 h1 d1 es1, b, h => by
    cases b <;> simp [qm_expression.same] at h
    obtain ⟨⟨⟨rfl, rfl⟩, rfl⟩, hes⟩ := h
    rw [same_cells_sound es1 _ hes]
  | .CALL c1 a1, b, h => by
    cases b <;> simp [qm_expression.same] at h
    rw [same_sound c1 _ h.1, same_sound a1 _ h.2]
  | .VARIABLE n1, b, h => by cases b <;> simp [qm_expression.same] at h ⊢; exact h
  | .NUMBER n1, b, h => by cases b <;> simp [qm_expression.same] at h ⊢; exact h
  | .STRING s1, b, h => by cases b <;> simp [qm_expression.same] at h ⊢; exact h
  | .RAW_STRING s1, b, h => by cases b <;> simp [qm_expression.same] at h ⊢; exact h

theorem same_cells_sound : (as bs : List qm_expression) → same_cells as bs = true → as = bs
  | [], bs, h => by cases bs <;> simp [same_cells] at h ⊢
  | a :: as, bs, h => by
    cases bs <;> simp [same_cells] at h
    rw [same_sound a _ h.1, same_cells_sound as _ h.2]

end

/-- A parse result, read off its components. -/
theorem parse_result_eq (o : Option (Bool × qm_parser_state × qm_expression))
    (h : o.isSome = true) (ok : Bool) (e : qm_expression) (h1 : (o.get h).1 = ok)
    (h2 : (o.get h).2.2.same e = true) : o = some (ok, (o.get h).2.1, e) := by
  rw [← h1, ← same_sound _ _ h2]
  exact (Option.some_get h).symm

/-! ## The lexer at a token -/

theorem getD_of_drop (l : List Nat) (n : Nat) (pre : List Nat) (c : Nat) (rest : List Nat)
    (h : l.drop n = pre ++ c :: rest) : l.getD (n + pre.length) 0 = c := by
  have h1 : (l.drop n).getD pre.length 0 = c := by
    rw [h]
    have := getD_append_mid pre (c :: rest) 0
    simpa using this
  rw [← h1]
  simp [List.getD_eq_getElem?_getD, List.getElem?_drop]

theorem drop_of_drop (l : List Nat) (n : Nat) (pre : List Nat) (c : Nat) (rest : List Nat)
    (h : l.drop n = pre ++ c :: rest) : l.drop (n + pre.length + 1) = rest := by
  have h1 : (l.drop n).drop (pre.length + 1) = rest := by
    rw [h]
    simp
  rw [← h1, List.drop_drop, Nat.add_assoc]

theorem bytes_of_drop (b : qm_buffer) (i : Nat) (s post : List Nat)
    (h : b.data.drop i = s ++ post) : b.bytes i s.length = s := by
  apply List.ext_getElem
  · simp [qm_buffer.bytes]
  · intro k h1 h2
    simp only [qm_buffer.bytes, qm_buffer.byte, List.getElem_map, List.getElem_range]
    have h3 : (b.data.drop i).getD k 0 = s[k] := by
      rw [h, List.getD_eq_getElem?_getD, List.getElem?_append_left h2,
        List.getElem?_eq_getElem h2]
      rfl
    rw [← h3]
    simp [List.getD_eq_getElem?_getD, List.getElem?_drop]

/-- `tokenize` at a buffer whose unread bytes are the blanks `ws` and then the byte `c`,
which is not a blank and lies before the end of the buffer: the token starts at `c`, its kind
and length are chosen from `c`, and the buffer position moves past it. -/
theorem tokenize_at (b : qm_buffer) (ws : List Nat) (c : Nat) (rest : List Nat)
    (hdata : b.data.drop b.start = ws ++ c :: rest)
    (hws : ∀ x ∈ ws, is_whitespace x = true) (hc : is_whitespace c = false)
    (hin : b.start + ws.length ≠ b.size) :
    tokenize b
      = (true,
          { b with start := b.start + ws.length
              + token_length { type := token_kind c, start := b.start + ws.length } b },
          { type := keyword_kind (token_kind c)
              (token_length { type := token_kind c, start := b.start + ws.length } b)
              (b.bytes (b.start + ws.length)
                (token_length { type := token_kind c, start := b.start + ws.length } b)),
            start := b.start + ws.length }) := by
  have hrun : run_length is_whitespace (b.data.drop b.start) = ws.length := by
    rw [hdata]
    exact run_length_whitespace_prefix ws c rest hws hc
  have hbyte : b.byte (b.start + ws.length) = c := getD_of_drop _ _ _ _ _ hdata
  have hlen : ∀ ty, token_length { type := ty, start := b.start + ws.length }
      { b with start := b.start + ws.length }
      = token_length { type := ty, start := b.start + ws.length } b := fun _ => rfl
  have hbyte2 : qm_buffer.byte { b with start := b.start + ws.length } (b.start + ws.length)
      = c := hbyte
  have hbytes : ∀ n, qm_buffer.bytes { b with start := b.start + ws.length }
      (b.start + ws.length) n = b.bytes (b.start + ws.length) n := fun _ => rfl
  unfold tokenize
  simp only [hrun, if_neg hin, hbyte2, hlen, hbytes]

theorem token_kind_identifier (c : Nat) (h0 : c ≠ 0) (hd : is_digit c = false)
    (hs : is_listed_separator c = false) : token_kind c = .IDENTIFIER := by
  simp only [is_listed_separator, Bool.or_eq_false_iff, decide_eq_false_iff_not] at hs
  obtain ⟨⟨⟨⟨⟨⟨⟨⟨⟨h1, h2⟩, h3⟩, h4⟩, h5⟩, h6⟩, h7⟩, h8⟩, h9⟩, h10⟩ := hs
  unfold token_kind
  rw [if_neg h1, if_neg h3, if_neg h5, if_neg h2, if_neg h4, if_neg h6, if_neg h7, if_neg h8,
    if_neg h0, if_neg h9, if_neg h10, hd]
  rfl

theorem word_start_facts (c : Nat) (h : is_alpha c = true ∨ c = 95) :
    c ≠ 0 ∧ is_digit c = false ∧ is_listed_separator c = false ∧ is_whitespace c = false := by
  rcases h with h | rfl
  · simp only [is_alpha, Bool.or_eq_true, Bool.and_eq_true, decide_eq_true_eq] at h
    refine ⟨by omega, ?_, ?_, ?_⟩
    · simp only [is_digit, Bool.and_eq_false_iff, decide_eq_false_iff_not]
      omega
    · simp only [is_listed_separator, Bool.or_eq_false_iff, decide_eq_false_iff_not]
      omega
    · simp only [is_whitespace, Bool.or_eq_false_iff, decide_eq_false_iff_not]
      omega
  · decide

/-- A text whose first byte is none of `o`, `f`, `v` is no keyword. -/
theorem keyword_kind_other (type : qm_token_type) (n : Nat) (c : Nat) (text : List Nat)
    (h1 : c ≠ 111) (h2 : c ≠ 102) (h3 : c ≠ 118) : keyword_kind type n (c :: text) = type := by
  unfold keyword_kind
  simp [h1, h2, h3]

/-- The keyword reclassification of a word is the kind the specification gives it. -/
theorem keyword_kind_word (word : List Nat) :
    keyword_kind .IDENTIFIER word.length word = word_kind word := by
  unfold keyword_kind word_kind
  by_cases h1 : word = [118, 97, 114]
  · subst h1; rfl
  by_cases h2 : word = [102, 110]
  · subst h2; rfl
  by_cases h3 : word = [111, 112]
  · subst h3; rfl
  by_cases h4 : word = [111, 112, 114]
  · subst h4; rfl
  by_cases h5 : word = [111, 112, 112]
  · subst h5; rfl
  simp [h1, h2, h3, h4, h5]

/-- The word tokens: blanks, then a letter or underscore `c`, then the letters, digits and
underscores `body`, then a byte that is none of these or the end of the data. -/
theorem tokenize_word (b : qm_buffer) (ws body post : List Nat) (c : Nat)
    (hdata : b.data.drop b.start = ws ++ c :: body ++ post)
    (hsize : b.size = b.data.length)
    (hws : ∀ x ∈ ws, is_whitespace x = true)
    (hc : is_alpha c = true ∨ c = 95)
    (hbody : ∀ x ∈ body, is_digit x = true ∨ is_alpha x = true ∨ x = 95)
    (hpost : ∀ x rest, post = x :: rest → is_digit x = false ∧ is_alpha x = false ∧ x ≠ 95) :
    tokenize b
      = (true, { b with start := b.start + ws.length + (c :: body).length },
          { type := word_kind (c :: body), start := b.start + ws.length }) := by
  obtain ⟨h0, hd, hs, hw⟩ := word_start_facts c hc
  have hdata1 : b.data.drop b.start = ws ++ c :: (body ++ post) := by
    rw [hdata]; simp
  have hin : b.start + ws.length ≠ b.size := by
    have := congrArg List.length hdata1
    simp only [List.length_drop, List.length_append, List.length_cons] at this
    omega
  have hbyte : b.byte (b.start + ws.length) = c := getD_of_drop _ _ _ _ _ hdata1
  have hrest : b.data.drop (b.start + ws.length + 1) = body ++ post :=
    drop_of_drop _ _ _ _ _ hdata1
  have hfirst : (is_alpha c || decide (c = 95)) = true := by
    rcases hc with h | h
    · simp [h]
    · simp [h]
  have hlen : token_length { type := .IDENTIFIER, start := b.start + ws.length } b
      = (c :: body).length := by
    simp only [token_length, hbyte, hfirst, if_true, hrest]
    rw [run_length_append _ _ _ (fun x hx => ?_), run_length_stop _ _ (fun x rest hx => ?_)]
    · simp only [List.length_cons]; omega
    · obtain ⟨p1, p2, p3⟩ := hpost x rest hx
      simp [p1, p2, p3]
    · have hx1 := hbody x hx
      refine ⟨?_, ?_⟩
      · rintro rfl
        rcases hx1 with h | h | h
        · exact absurd h (by decide)
        · exact absurd h (by decide)
        · exact absurd h (by decide)
      · rcases hx1 with h | h | h
        · simp [h]
        · simp [h]
        · simp [h]
  have hdrop : b.data.drop (b.start + ws.length) = (c :: body) ++ post := by
    have h1 : (b.data.drop b.start).drop ws.length = (c :: body) ++ post := by
      rw [hdata1]; simp
    rw [← h1, List.drop_drop]
  rw [tokenize_at b ws c (body ++ post) hdata1 hws hw hin, token_kind_identifier c h0 hd hs,
    hlen, bytes_of_drop b _ (c :: body) post hdrop, keyword_kind_word]

theorem run_length_stop_or (p : Nat → Bool) (post : List Nat)
    (h : ∀ c rest, post = c :: rest → c = 0 ∨ p c = false) : run_length p post = 0 := by
  cases post with
  | nil => rfl
  | cons c rest =>
    rcases h c rest rfl with h1 | h1
    · simp [run_length, h1]
    · simp [run_length, h1]

theorem separator_of_listed (c : Nat) (h : is_separator c = false) :
    is_listed_separator c = false ∧ is_whitespace c = false := by
  simp only [is_separator, Bool.or_eq_false_iff, decide_eq_false_iff_not] at h
  simp only [is_listed_separator, is_whitespace, Bool.or_eq_false_iff, decide_eq_false_iff_not]
  omega

/-- The symbol tokens: blanks, then a byte `c` that is no NUL, letter, underscore, digit or
separator, then the bytes `body` that are no NUL, digit, letter or separator, then a byte
that is one of these or the end of the data. -/
theorem tokenize_symbols (b : qm_buffer) (ws body post : List Nat) (c : Nat)
    (hdata : b.data.drop b.start = ws ++ c :: body ++ post)
    (hsize : b.size = b.data.length)
    (hws : ∀ x ∈ ws, is_whitespace x = true)
    (hc : c ≠ 0 ∧ is_alpha c = false ∧ c ≠ 95 ∧ is_digit c = false ∧ is_separator c = false)
    (hbody : ∀ x ∈ body,
      x ≠ 0 ∧ is_digit x = false ∧ is_alpha x = false ∧ is_separator x = false)
    (hpost : ∀ x rest, post = x :: rest →
      x = 0 ∨ is_digit x = true ∨ is_alpha x = true ∨ is_separator x = true) :
    tokenize b
      = (true, { b with start := b.start + ws.length + (c :: body).length },
          { type := .IDENTIFIER, start := b.start + ws.length }) := by
  obtain ⟨h0, ha, hu, hd, hsep⟩ := hc
  obtain ⟨hs, hw⟩ := separator_of_listed c hsep
  have hdata1 : b.data.drop b.start = ws ++ c :: (body ++ post) := by
    rw [hdata]; simp
  have hin : b.start + ws.length ≠ b.size := by
    have := congrArg List.length hdata1
    simp only [List.length_drop, List.length_append, List.length_cons] at this
    omega
  have hbyte : b.byte (b.start + ws.length) = c := getD_of_drop _ _ _ _ _ hdata1
  have hrest : b.data.drop (b.start + ws.length + 1) = body ++ post :=
    drop_of_drop _ _ _ _ _ hdata1
  have hfirst : (is_alpha c || decide (c = 95)) = false := by simp [ha, hu]
  have hlen : token_length { type := .IDENTIFIER, start := b.start + ws.length } b
      = (c :: body).length := by
    simp only [token_length, hbyte, hfirst, Bool.false_eq_true, if_false, hrest]
    rw [run_length_append _ _ _ (fun x hx => ?_), run_length_stop_or _ _ (fun x rest hx => ?_)]
    · simp only [List.length_cons]; omega
    · rcases hpost x rest hx with h | h | h | h
      · exact Or.inl h
      · exact Or.inr (by simp [h])
      · exact Or.inr (by simp [h])
      · exact Or.inr (by simp [h])
    · obtain ⟨p0, p1, p2, p3⟩ := hbody x hx
      exact ⟨p0, by simp [p1, p2, p3]⟩
  have hdrop : b.data.drop (b.start + ws.length) = (c :: body) ++ post := by
    have h1 : (b.data.drop b.start).drop ws.length = (c :: body) ++ post := by
      rw [hdata1]; simp
    rw [← h1, List.drop_drop]
  have h111 : c ≠ 111 := by rintro rfl; exact absurd ha (by decide)
  have h102 : c ≠ 102 := by rintro rfl; exact absurd ha (by decide)
  have h118 : c ≠ 118 := by rintro rfl; exact absurd ha (by decide)
  rw [tokenize_at b ws c (body ++ post) hdata1 hws hw hin, token_kind_identifier c h0 hd hs,
    hlen, bytes_of_drop b _ (c :: body) post hdrop, keyword_kind_other _ _ c body h111 h102 h118]

/-- The string tokens: blanks, then the quote `q` (a double quote or a backtick), then the
bytes `body` that are neither NUL nor `q`, then `q` again. -/
theorem tokenize_string (b : qm_buffer) (ws body post : List Nat) (q : Nat)
    (hq : q = 34 ∨ q = 96)
    (hdata : b.data.drop b.start = ws ++ q :: body ++ q :: post)
    (hsize : b.size = b.data.length)
    (hws : ∀ x ∈ ws, is_whitespace x = true)
    (hbody : ∀ x ∈ body, x ≠ 0 ∧ x ≠ q) :
    tokenize b
      = (true, { b with start := b.start + ws.length + (body.length + 2) },
          { type := if q = 34 then .STRING else .RAW_STRING, start := b.start + ws.length }) := by
  have hw : is_whitespace q = false := by rcases hq with rfl | rfl <;> decide
  have hdata1 : b.data.drop b.start = ws ++ q :: (body ++ q :: post) := by
    rw [hdata]; simp
  have hin : b.start + ws.length ≠ b.size := by
    have := congrArg List.length hdata1
    simp only [List.length_drop, List.length_append, List.length_cons] at this
    omega
  have hrest : b.data.drop (b.start + ws.length + 1) = body ++ q :: post :=
    drop_of_drop _ _ _ _ _ hdata1
  have hrun : run_length (fun c => decide (c ≠ q)) (body ++ q :: post) = body.length := by
    rw [run_length_append _ _ _ (fun x hx => ?_), run_length_stop _ _ (fun x rest hx => ?_)]
    · rfl
    · simp only [List.cons.injEq] at hx
      simp [hx.1]
    · obtain ⟨p0, p1⟩ := hbody x hx
      exact ⟨p0, by simp [p1]⟩
  have hdrop : b.data.drop (b.start + ws.length) = (q :: (body ++ [q])) ++ post := by
    have h1 : (b.data.drop b.start).drop ws.length = (q :: (body ++ [q])) ++ post := by
      rw [hdata1]; simp
    rw [← h1, List.drop_drop]
  have hbytes := bytes_of_drop b _ (q :: (body ++ [q])) post hdrop
  have hl : (q :: (body ++ [q])).length = 1 + body.length + 1 := by
    simp only [List.length_cons, List.length_append, List.length_nil]; omega
  rw [hl] at hbytes
  rw [tokenize_at b ws q (body ++ q :: post) hdata1 hws hw hin]
  rcases hq with rfl | rfl
  · have hk : token_kind 34 = .STRING := by decide
    have hlen : token_length { type := .STRING, start := b.start + ws.length } b
        = 1 + body.length + 1 := by
      simp only [token_length, hrest, hrun]
    rw [hk, hlen, hbytes, keyword_kind_other _ _ 34 _ (by decide) (by decide) (by decide)]
    simp only [if_true]
    rw [show 1 + body.length + 1 = body.length + 2 by omega]
  · have hk : token_kind 96 = .RAW_STRING := by decide
    have hlen : token_length { type := .RAW_STRING, start := b.start + ws.length } b
        = 1 + body.length + 1 := by
      simp only [token_length, hrest, hrun]
    rw [hk, hlen, hbytes, keyword_kind_other _ _ 96 _ (by decide) (by decide) (by decide)]
    simp only [if_neg (show (96 : Nat) ≠ 34 by decide)]
    rw [show 1 + body.length + 1 = body.length + 2 by omega]

/-- The kind of a word is a keyword kind exactly for the five keywords. -/
theorem word_kind_cases (w : List Nat) :
    (word_kind w = .VAR ↔ w = [118, 97, 114]) ∧ (word_kind w = .FN ↔ w = [102, 110]) ∧
    (word_kind w = .OP ↔ w = [111, 112]) ∧ (word_kind w = .OPR ↔ w = [111, 112, 114]) ∧
    (word_kind w = .OPP ↔ w = [111, 112, 112]) ∧
    (word_kind w = .IDENTIFIER ↔
      w ≠ [118, 97, 114] ∧ w ≠ [102, 110] ∧ w ≠ [111, 112] ∧ w ≠ [111, 112, 114] ∧
        w ≠ [111, 112, 112]) := by
  by_cases h1 : w = [118, 97, 114]
  · subst h1; decide
  by_cases h2 : w = [102, 110]
  · subst h2; decide
  by_cases h3 : w = [111, 112]
  · subst h3; decide
  by_cases h4 : w = [111, 112, 114]
  · subst h4; decide
  by_cases h5 : w = [111, 112, 112]
  · subst h5; decide
  simp [word_kind, h1, h2, h3, h4, h5]

/-! ## Identifiers in unary position -/

/-- An identifier with an operator-table entry that is not a prefix entry: the unary parse
returns false, after the identifier has been read. -/
theorem parse_unary_other_entry (k : Nat) (p : qm_parser_state) (e : qm_expression)
    (name : List Nat) (l r : Int) (hi : p.is_initialized = true) (hr : p.result = 0)
    (ht : p.token.type = .IDENTIFIER) (hn : peek_identifier p = some name)
    (hf : operator_find p.operators name = some (l, r)) (hlr : l ≠ 0 ∨ r = 0) :
    parse_unary_expression (k + 2) p e = some (false, p.advance, .VARIABLE name) := by
  have hm := parse_matrix_miss k p hi hr (by rw [ht]; decide) (by rw [ht]; decide)
    (by rw [ht]; decide)
  rcases hlr with h | h
  · simp [parse_unary_expression, hm, parse_identifier, hn, accept_hit p .IDENTIFIER hi ht, hf,
      h]
  · simp [parse_unary_expression, hm, parse_identifier, hn, accept_hit p .IDENTIFIER hi ht, hf,
      h]

/-- An identifier with a prefix entry `(0, r)`: the unary parse is the call of the operator
to the argument that `parse_expression_` reads at the binding power `r`. -/
theorem parse_unary_prefix_call (k : Nat) (p : qm_parser_state) (e : qm_expression)
    (name : List Nat) (r : Int) (hi : p.is_initialized = true) (hr : p.result = 0)
    (ht : p.token.type = .IDENTIFIER) (hn : peek_identifier p = some name)
    (hf : operator_find p.operators name = some (0, r)) (hr0 : r ≠ 0)
    (ok : Bool) (p1 : qm_parser_state) (arg : qm_expression)
    (harg : parse_expression_ (k + 1) p.advance .NONE r = some (ok, p1, arg)) :
    parse_unary_expression (k + 2) p e
      = some (true, if ok = true then p1 else parser_error p1, .CALL (.VARIABLE name) arg) := by
  have hm := parse_matrix_miss k p hi hr (by rw [ht]; decide) (by rw [ht]; decide)
    (by rw [ht]; decide)
  cases ok with
  | true =>
    simp [parse_unary_expression, hm, parse_identifier, hn, accept_hit p .IDENTIFIER hi ht, hf,
      hr0, harg]
  | false =>
    simp [parse_unary_expression, hm, parse_identifier, hn, accept_hit p .IDENTIFIER hi ht, hf,
      hr0, harg]

/-! ## The error flag is never cleared -/

theorem keeps_error_refl (p : qm_parser_state) : keeps_error p p := id

theorem keeps_error_trans {p q r : qm_parser_state} (h1 : keeps_error p q)
    (h2 : keeps_error q r) : keeps_error p r :=
  fun h => h2 (h1 h)

theorem keeps_error_advance (p : qm_parser_state) : keeps_error p p.advance := id

theorem keeps_error_error (p : qm_parser_state) : keeps_error p (parser_error p) :=
  fun _ => by simp [parser_error]

theorem keeps_error_accept (p : qm_parser_state) (ty : qm_token_type) :
    keeps_error p (accept p ty).2 := by
  unfold accept keeps_error
  cases hi : p.is_initialized with
  | true =>
    by_cases hc : p.result ≠ 0 ∨ p.token.type = ty
    · simp only [if_true, hc]
      exact id
    · simp only [if_true, hc, if_false]
      exact id
  | false =>
    simp only [Bool.false_eq_true, if_false]
    split
    · exact id
    · exact id

theorem keeps_error_expect (p : qm_parser_state) (ty : qm_token_type) :
    keeps_error p (expect p ty) := by
  unfold expect
  have h := keeps_error_accept p ty
  split
  · rename_i p1 heq
    rw [heq] at h
    exact h
  · rename_i p1 heq
    rw [heq] at h
    exact keeps_error_trans h (keeps_error_error _)

theorem keeps_error_accept_identifier (p : qm_parser_state) (s : cstring) :
    keeps_error p (accept_identifier p s).2 := by
  unfold accept_identifier
  split
  · simp only []
    split
    · exact keeps_error_accept p _
    · exact keeps_error_refl p
  · exact keeps_error_refl p

theorem keeps_error_expect_identifier (p : qm_parser_state) (s : cstring) :
    keeps_error p (expect_identifier p s) := by
  unfold expect_identifier
  have h := keeps_error_accept_identifier p s
  split
  · rename_i p1 heq
    rw [heq] at h
    exact h
  · rename_i p1 heq
    rw [heq] at h
    exact keeps_error_trans h (keeps_error_error _)

theorem keeps_error_parse_identifier (p : qm_parser_state) :
    keeps_error p (parse_identifier p).2 := by
  unfold parse_identifier
  split
  · exact keeps_error_accept p _
  · exact keeps_error_refl p

theorem keeps_error_parse_number (p : qm_parser_state) : keeps_error p (parse_number p).2 := by
  unfold parse_number
  split
  · exact keeps_error_accept p _
  · exact keeps_error_refl p

theorem keeps_error_parse_string (p : qm_parser_state) : keeps_error p (parse_string p).2 := by
  unfold parse_string
  split
  · exact keeps_error_accept p _
  · exact keeps_error_refl p

theorem keeps_error_parse_raw_string (p : qm_parser_state) :
    keeps_error p (parse_raw_string p).2 := by
  unfold parse_raw_string
  split
  · exact keeps_error_accept p _
  · exact keeps_error_refl p

theorem keeps_error_matrix_open (p : qm_parser_state) :
    keeps_error p (parse_matrix_open p).1 := by
  unfold parse_matrix_open
  have h1 := keeps_error_accept p .LPAREN
  split
  · rename_i p1 heq; rw [heq] at h1; exact h1
  · rename_i p1 heq
    rw [heq] at h1
    have h2 := keeps_error_accept p1 .LBRACKET
    split
    · rename_i p2 heq2; rw [heq2] at h2; exact keeps_error_trans h1 h2
    · rename_i p2 heq2
      rw [heq2] at h2
      have h3 := keeps_error_accept p2 .LBRACE
      split
      · rename_i p3 heq3; rw [heq3] at h3
        exact keeps_error_trans h1 (keeps_error_trans h2 h3)
      · rename_i p3 heq3; rw [heq3] at h3
        exact keeps_error_trans h1 (keeps_error_trans h2 h3)

theorem keeps_error_matrix_loop_step (k : Nat)
    (ih1 : ∀ p cells r, parse_matrix_loop k p cells = some r → keeps_error p r.1)
    (ih5 : ∀ p lhs bp r, parse_expression_ k p lhs bp = some r → keeps_error p r.2.1) :
    ∀ p cells r, parse_matrix_loop (k + 1) p cells = some r → keeps_error p r.1 := by
  intro p cells r h
  simp only [parse_matrix_loop] at h
  split at h
  · cases h; exact keeps_error_refl p
  · cases hres : parse_expression_ k p .NONE 0 with
    | none => simp [hres] at h
    | some v =>
      obtain ⟨b, p1, e⟩ := v
      have h5 := ih5 _ _ _ _ hres
      cases b with
      | false =>
        simp only [hres] at h
        cases h
        exact keeps_error_trans h5 (keeps_error_error _)
      | true =>
        simp only [hres] at h
        have ha := keeps_error_accept p1 .COMMA
        cases hacc : accept p1 .COMMA with
        | mk b2 p2 =>
          rw [hacc] at h ha
          cases b2 with
          | true => exact keeps_error_trans h5 (keeps_error_trans ha (ih1 _ _ _ h))
          | false =>
            simp only [Option.some.injEq] at h
            cases h
            exact keeps_error_trans h5 ha

theorem keeps_error_matrix_step (k : Nat)
    (ih1 : ∀ p cells r, parse_matrix_loop k p cells = some r → keeps_error p r.1) :
    ∀ p r, parse_matrix (k + 1) p = some r → keeps_error p r.1 := by
  intro p r h
  simp only [parse_matrix] at h
  have ho := keeps_error_matrix_open p
  cases hopen : parse_matrix_open p with
  | mk p1 o =>
    rw [hopen] at h ho
    cases o with
    | none =>
      simp only [Option.some.injEq] at h
      cases h
      exact ho
    | some dc =>
      obtain ⟨d, c⟩ := dc
      simp only at h
      cases hloop : parse_matrix_loop k p1 [] with
      | none => simp [hloop] at h
      | some v =>
        obtain ⟨p2, cells⟩ := v
        simp only [hloop, Option.some.injEq] at h
        cases h
        exact keeps_error_trans ho
          (keeps_error_trans (ih1 _ _ _ hloop) (keeps_error_expect _ _))

theorem keeps_error_unary_step (k : Nat)
    (ih2 : ∀ p r, parse_matrix k p = some r → keeps_error p r.1)
    (ih5 : ∀ p lhs bp r, parse_expression_ k p lhs bp = some r → keeps_error p r.2.1) :
    ∀ p e r, parse_unary_expression (k + 1) p e = some r → keeps_error p r.2.1 := by
  intro p e r h
  simp only [parse_unary_expression] at h
  cases hm : parse_matrix k p with
  | none => simp [hm] at h
  | some v =>
    obtain ⟨p1, m⟩ := v
    have h2 := ih2 _ _ hm
    cases m with
    | some w =>
      obtain ⟨a, b, c, d⟩ := w
      simp only [hm, Option.some.injEq] at h
      cases h
      exact h2
    | none =>
      simp only [hm] at h
      have hid := keeps_error_parse_identifier p1
      cases hpi : parse_identifier p1 with
      | mk name p2 =>
        rw [hpi] at h hid
        cases name with
        | some name =>
          simp only at h
          split at h
          · split at h
            · simp at h
            · rename_i p3 arg heq
              have h5 := ih5 _ _ _ _ heq
              simp only [Option.some.injEq] at h
              cases h
              exact keeps_error_trans h2 (keeps_error_trans hid h5)
            · rename_i p3 arg heq
              have h5 := ih5 _ _ _ _ heq
              simp only [Option.some.injEq] at h
              cases h
              exact keeps_error_trans h2
                (keeps_error_trans hid (keeps_error_trans h5 (keeps_error_error _)))
          · split at h
            · simp only [Option.some.injEq] at h
              cases h
              exact keeps_error_trans h2 hid
            · simp only [Option.some.injEq] at h
              cases h
              exact keeps_error_trans h2 hid
        | none =>
          simp only at h
          have hn := keeps_error_parse_number p2
          cases hpn : parse_number p2 with
          | mk n p3 =>
            rw [hpn] at h hn
            cases n with
            | some n =>
              simp only [Option.some.injEq] at h
              cases h
              exact keeps_error_trans h2 (keeps_error_trans hid hn)
            | none =>
              simp only at h
              have hs := keeps_error_parse_string p3
              cases hps : parse_string p3 with
              | mk s p4 =>
                rw [hps] at h hs
                cases s with
                | some s =>
                  simp only [Option.some.injEq] at h
                  cases h
                  exact keeps_error_trans h2 (keeps_error_trans hid (keeps_error_trans hn hs))
                | none =>
                  simp only at h
                  have hr := keeps_error_parse_raw_string p4
                  cases hpr : parse_raw_string p4 with
                  | mk s p5 =>
                    rw [hpr] at h hr
                    cases s with
                    | some s =>
                      simp only [Option.some.injEq] at h
                      cases h
                      exact keeps_error_trans h2 (keeps_error_trans hid
                        (keeps_error_trans hn (keeps_error_trans hs hr)))
                    | none =>
                      simp only [Option.some.injEq] at h
                      cases h
                      exact keeps_error_trans h2 (keeps_error_trans hid
                        (keeps_error_trans hn (keeps_error_trans hs hr)))

theorem keeps_error_expression_loop_step (k : Nat)
    (ih3 : ∀ p e r, parse_unary_expression k p e = some r → keeps_error p r.2.1)
    (ih4 : ∀ p lhs bp r, parse_expression_loop k p lhs bp = some r → keeps_error p r.1)
    (ih5 : ∀ p lhs bp r, parse_expression_ k p lhs bp = some r → keeps_error p r.2.1) :
    ∀ p lhs bp r, parse_expression_loop (k + 1) p lhs bp = some r → keeps_error p r.1 := by
  intro p lhs bp r h
  simp only [parse_expression_loop] at h
  split at h
  · cases h; exact keeps_error_refl p
  · split at h
    · split at h
      · cases h; exact keeps_error_refl p
      · exact keeps_error_trans (keeps_error_accept p _) (ih4 _ _ _ _ h)
    · split at h
      · cases h; exact keeps_error_refl p
      · split at h
        · simp at h
        · rename_i ok p2 rhs heq
          have h5 := ih5 _ _ _ _ heq
          have h4 := ih4 _ _ _ _ h
          refine keeps_error_trans (keeps_error_accept p _) (keeps_error_trans h5 ?_)
          cases ok with
          | true => exact h4
          | false => exact keeps_error_trans (keeps_error_error _) h4
    · split at h
      · simp at h
      · rename_i p1 rhs heq
        exact keeps_error_trans (ih3 _ _ _ heq) (ih4 _ _ _ _ h)
      · rename_i p1 rhs heq
        simp only [Option.some.injEq] at h
        cases h
        exact ih3 _ _ _ heq

theorem keeps_error_expression_step (k : Nat)
    (ih3 : ∀ p e r, parse_unary_expression k p e = some r → keeps_error p r.2.1)
    (ih4 : ∀ p lhs bp r, parse_expression_loop k p lhs bp = some r → keeps_error p r.1) :
    ∀ p lhs bp r, parse_expression_ (k + 1) p lhs bp = some r → keeps_error p r.2.1 := by
  intro p lhs bp r h
  simp only [parse_expression_] at h
  split at h
  · simp at h
  · rename_i p1 lhs1 heq
    simp only [Option.some.injEq] at h
    cases h
    exact ih3 _ _ _ heq
  · rename_i p1 lhs1 heq
    split at h
    · simp at h
    · rename_i p2 lhs2 heq2
      simp only [Option.some.injEq] at h
      cases h
      exact keeps_error_trans (ih3 _ _ _ heq) (ih4 _ _ _ _ heq2)

/-- Expression parsing, at every fuel, never clears the error flag. -/
theorem keeps_error_parse (k : Nat) :
    (∀ p cells r, parse_matrix_loop k p cells = some r → keeps_error p r.1) ∧
    (∀ p r, parse_matrix k p = some r → keeps_error p r.1) ∧
    (∀ p e r, parse_unary_expression k p e = some r → keeps_error p r.2.1) ∧
    (∀ p lhs bp r, parse_expression_loop k p lhs bp = some r → keeps_error p r.1) ∧
    (∀ p lhs bp r, parse_expression_ k p lhs bp = some r → keeps_error p r.2.1) := by
  induction k with
  | zero =>
    refine ⟨?_, ?_, ?_, ?_, ?_⟩
    · intro p cells r h; simp [parse_matrix_loop] at h
    · intro p r h; simp [parse_matrix] at h
    · intro p e r h; simp [parse_unary_expression] at h
    · intro p lhs bp r h; simp [parse_expression_loop] at h
    · intro p lhs bp r h; simp [parse_expression_] at h
  | succ k ih =>
    obtain ⟨ih1, ih2, ih3, ih4, ih5⟩ := ih
    exact ⟨keeps_error_matrix_loop_step k ih1 ih5, keeps_error_matrix_step k ih1,
      keeps_error_unary_step k ih2 ih5, keeps_error_expression_loop_step k ih3 ih4 ih5,
      keeps_error_expression_step k ih3 ih4⟩

theorem keeps_error_parse_expression (fuel : Nat) (p : qm_parser_state) (e : qm_expression)
    (r : Bool × qm_parser_state × qm_expression) (h : parse_expression fuel p e = some r) :
    keeps_error p r.2.1 :=
  (keeps_error_parse fuel).2.2.2.2 p e 0 r h

theorem keeps_error_identifier_or_error (p : qm_parser_state) :
    keeps_error p (parse_identifier_or_error p).2 := by
  have h := keeps_error_parse_identifier p
  unfold parse_identifier_or_error
  cases hid : parse_identifier p with
  | mk o p1 =>
    rw [hid] at h
    cases o with
    | some s => exact h
    | none => exact keeps_error_trans h (keeps_error_error _)

theorem keeps_error_definition_body (fuel : Nat) (p : qm_parser_state) (e : qm_expression)
    (r : qm_parser_state × qm_expression) (h : parse_definition_body fuel p e = some r) :
    keeps_error p r.1 := by
  unfold parse_definition_body at h
  cases hb : parse_expression fuel (expect_identifier p (some [61])) e with
  | none => rw [hb] at h; simp at h
  | some res =>
    obtain ⟨ok, p1, e1⟩ := res
    have hf := keeps_error_trans (keeps_error_expect_identifier p (some [61]))
      (keeps_error_parse_expression _ _ _ _ hb)
    rw [hb] at h
    cases ok with
    | true =>
      simp only [Option.some.injEq] at h
      rw [← h]
      exact keeps_error_trans hf (keeps_error_expect _ _)
    | false =>
      simp only [Option.some.injEq] at h
      rw [← h]
      exact keeps_error_trans hf (keeps_error_trans (keeps_error_error _)
        (keeps_error_expect _ _))

theorem keeps_error_parameters_loop (fuel : Nat) :
    ∀ (p : qm_parser_state) (parameters : List cstring)
      (r : qm_parser_state × List cstring),
      parse_parameters_loop fuel p parameters = some r → keeps_error p r.1 := by
  induction fuel with
  | zero => intro p parameters r h; simp [parse_parameters_loop] at h
  | succ k ih =>
    intro p parameters r h
    unfold parse_parameters_loop at h
    split at h
    · simp only [Option.some.injEq] at h
      rw [← h]
      exact keeps_error_refl p
    · have ha := keeps_error_accept p .RPAREN
      cases hacc : accept p .RPAREN with
      | mk b p1 =>
        rw [hacc] at ha h
        cases b with
        | true =>
          simp only [Option.some.injEq] at h
          rw [← h]
          exact ha
        | false =>
          simp only [] at h
          have hid := keeps_error_parse_identifier p1
          have key : ∀ (o : cstring) (p3 : qm_parser_state), keeps_error p1 p3 →
              (match accept p3 .COMMA with
                | (true, p4) => parse_parameters_loop k p4 (parameters ++ [o])
                | (false, p4) => some (expect p4 .RPAREN, parameters ++ [o])) = some r →
              keeps_error p r.1 := by
            intro o p3 h3 h
            have hc := keeps_error_accept p3 .COMMA
            cases hcomma : accept p3 .COMMA with
            | mk b2 p4 =>
              rw [hcomma] at hc h
              cases b2 with
              | true =>
                simp only [] at h
                exact keeps_error_trans ha (keeps_error_trans h3
                  (keeps_error_trans hc (ih _ _ _ h)))
              | false =>
                simp only [Option.some.injEq] at h
                rw [← h]
                exact keeps_error_trans ha (keeps_error_trans h3
                  (keeps_error_trans hc (keeps_error_expect _ _)))
          cases hpi : parse_identifier p1 with
          | mk o p2 =>
            rw [hpi] at hid h
            cases o with
            | some s1 => exact key (some s1) p2 hid h
            | none =>
              exact key none (parser_error p2) (keeps_error_trans hid (keeps_error_error _)) h

theorem keeps_error_override (p : qm_parser_state) (L R : Int) :
    keeps_error p (parse_override p L R).1 := by
  unfold parse_override
  have hid := keeps_error_parse_identifier p
  cases hpi : parse_identifier p with
  | mk o p1 =>
    rw [hpi] at hid
    cases o with
    | some X =>
      simp only []
      cases operator_find p1.operators X with
      | some pr => exact keeps_error_trans hid (keeps_error_expect _ _)
      | none =>
        exact keeps_error_trans hid (keeps_error_trans (keeps_error_error _)
          (keeps_error_expect _ _))
    | none =>
      simp only []
      have hn := keeps_error_parse_number p1
      cases hpn : parse_number p1 with
      | mk o1 p2 =>
        rw [hpn] at hn
        cases o1 with
        | none =>
          exact keeps_error_trans hid (keeps_error_trans hn
            (keeps_error_trans (keeps_error_error _) (keeps_error_expect _ _)))
        | some l =>
          simp only []
          have he := keeps_error_expect p2 .COMMA
          have hn2 := keeps_error_parse_number (expect p2 .COMMA)
          cases hpn2 : parse_number (expect p2 .COMMA) with
          | mk o2 p3 =>
            rw [hpn2] at hn2
            have hc := keeps_error_trans hid (keeps_error_trans hn (keeps_error_trans he hn2))
            cases o2 with
            | some r => exact keeps_error_trans hc (keeps_error_expect _ _)
            | none =>
              exact keeps_error_trans hc (keeps_error_trans (keeps_error_error _)
                (keeps_error_expect _ _))

/-! ## Error mode -/

/-- In error mode `accept` succeeds for every token kind and reads the next token. -/
theorem accept_sticky (p : qm_parser_state) (ty : qm_token_type)
    (hi : p.is_initialized = true) (herr : p.result ≠ 0) : accept p ty = (true, p.advance) := by
  simp [accept, hi, herr]

/-- In error mode `accept` returns true, also when it first has to read the first token. -/
theorem accept_true_of_error (p : qm_parser_state) (ty : qm_token_type) (herr : p.result ≠ 0) :
    (accept p ty).1 = true := by
  unfold accept
  by_cases hi : p.is_initialized = true
  · simp [hi, herr]
  · have h2 : qm_parser_state.result { p.advance with is_initialized := true } ≠ 0 := herr
    simp only [hi, Bool.false_eq_true, if_false, h2, ne_eq, not_false_eq_true, true_or, if_true]

theorem expect_sticky (p : qm_parser_state) (ty : qm_token_type)
    (hi : p.is_initialized = true) (herr : p.result ≠ 0) : expect p ty = p.advance := by
  simp [expect, accept_sticky p ty hi herr]

/-- `expect_identifier` never looks at the error flag: it reads the next token when
`accept_identifier` finds the spelling, and reports an error at the same token otherwise. -/
theorem expect_identifier_cases (p : qm_parser_state) (s : cstring) :
    ((accept_identifier p s).1 = true → expect_identifier p s = (accept p .IDENTIFIER).2) ∧
    ((accept_identifier p s).1 = false → expect_identifier p s = parser_error p) := by
  unfold expect_identifier accept_identifier
  split
  · simp only []
    split
    · simp
    · simp
  · simp

theorem accept_identifier_other (p : qm_parser_state) (s : cstring)
    (ht : p.token.type ≠ .IDENTIFIER) : accept_identifier p s = (false, p) := by
  simp [accept_identifier, ht]

theorem parse_definition_keeps_error (fuel : Nat) (p : qm_parser_state)
    (definition : qm_definition) (r : Bool × qm_parser_state × qm_definition)
    (herr : p.result ≠ 0) (h : parse_definition fuel p definition = .ok r) :
    r.2.1.result ≠ 0 := by
  unfold parse_definition at h
  have a1 := keeps_error_accept p .VAR
  have hb1 : (accept p .VAR).1 = true := accept_true_of_error p .VAR herr
  cases h1 : accept p .VAR with
  | mk b1 p1 =>
    rw [h1] at a1 h hb1
    simp only [] at hb1
    subst hb1
    simp only [] at h
    have hid := keeps_error_identifier_or_error p1
    cases hb : parse_definition_body fuel (parse_identifier_or_error p1).2
        definition.expression with
    | none => rw [hb] at h; simp at h
    | some res =>
      have hf := keeps_error_definition_body _ _ _ _ hb
      rw [hb] at h
      simp only [Outcome.ok.injEq] at h
      rw [← h]
      exact keeps_error_trans a1 (keeps_error_trans hid hf) herr

/-- In error mode `parse_statement` returns true at once, whatever the current token is. -/
theorem parse_statement_sticky (fuel : Nat) (p : qm_parser_state) (stmt : qm_statement)
    (hi : p.is_initialized = true) (herr : p.result ≠ 0) :
    parse_statement fuel p stmt = .ok (true, p.advance, .NONE) := by
  unfold parse_statement
  rw [accept_sticky p .NEWLINE hi herr]

theorem parse_statement_keeps_error (fuel : Nat) (p : qm_parser_state) (stmt : qm_statement)
    (r : Bool × qm_parser_state × qm_statement)
    (herr : p.result ≠ 0) (h : parse_statement fuel p stmt = .ok r) : r.2.1.result ≠ 0 := by
  unfold parse_statement at h
  have a1 := keeps_error_accept p .NEWLINE
  have hb1 : (accept p .NEWLINE).1 = true := accept_true_of_error p .NEWLINE herr
  cases h1 : accept p .NEWLINE with
  | mk b1 p1 =>
    rw [h1] at a1 h hb1
    simp only [] at hb1
    subst hb1
    simp only [Outcome.ok.injEq] at h
    rw [← h]
    exact a1 herr

/-! ## The statement loop at the end of the input -/

/-- With the error flag clear, `parse_statement` returns false at the end of the input. -/
theorem parse_statement_eof (k : Nat) (p : qm_parser_state) (stmt : qm_statement)
    (hi : p.is_initialized = true) (hr : p.result = 0) (ht : p.token.type = .EOF) :
    parse_statement (k + 3) p stmt = .ok (false, p.bump, .NONE) := by
  have hu : ∀ e, parse_expression (k + 3) p e = some (false, p, e) := by
    intro e
    simp [parse_expression, parse_expression_, parse_unary_eof k p e hi hr ht]
  have hb : p.bump.token.type = .EOF := ht
  have hbi : p.bump.is_initialized = true := hi
  have hbr : p.bump.result = 0 := hr
  have hd : ∀ d, parse_definition (k + 3) p d = .ok (false, p.bump, d) := by
    intro d
    unfold parse_definition
    rw [accept_miss p .VAR hi hr (by rw [ht]; decide)]
    simp only []
    rw [accept_miss p .FN hi hr (by rw [ht]; decide)]
    simp only []
    rw [accept_miss p .OPP hi hr (by rw [ht]; decide)]
    simp only []
    rw [show ({ p with bp := p.bp + 1 } : qm_parser_state) = p.bump from rfl,
      accept_miss p.bump .OP hbi hbr (by rw [hb]; decide)]
    simp only []
    rw [accept_miss p.bump .OPR hbi hbr (by rw [hb]; decide)]
  unfold parse_statement
  rw [accept_miss p .NEWLINE hi hr (by rw [ht]; decide)]
  simp only [hu, hd]

/-- A parser at the end of its buffer whose token is the end of the input reads the same
token again. -/
theorem advance_fixed (p : qm_parser_state) (h1 : (tokenize p.buffer).2.1 = p.buffer)
    (h2 : (tokenize p.buffer).2.2 = p.token) : p.advance = p := by
  unfold qm_parser_state.advance
  rw [h1, h2]

/-- In error mode, at a parser that reads the same token again, the statement loop never
leaves its state. -/
theorem parse_statements_fixed (fuel : Nat) (p : qm_parser_state)
    (hi : p.is_initialized = true) (herr : p.result ≠ 0) (hadv : p.advance = p) :
    ∀ n, parse_statements fuel n p = p
  | 0 => rfl
  | n + 1 => by
    unfold parse_statements
    rw [parse_statement_sticky fuel p .NONE hi herr, hadv]
    exact parse_statements_fixed fuel p hi herr hadv n

/-! ## Claims C21 to C30 -/

/-- C21. Role queries, as the code has them. For every operator table and spelling `s`,
whatever the out-parameters held: `operator_find_prefix` returns true exactly when `s` is
bound with left power 0, `operator_find_postfix` exactly when `s` is bound with right power
0, and `operator_find_infix` exactly when `s` is bound with both powers nonzero. So for a
bound pair other than `(0, 0)` exactly one of the three queries holds, and for the pair
`(0, 0)` the prefix and the postfix query both hold and the infix query does not. -/
theorem role_queries (t : qm_operator_table) (s : List Nat) (l0 r0 : Int) :
    (( operator_find_prefix t s r0).1 = true ↔ ∃ r, operator_find t s = some (0, r)) ∧
    (( operator_find_postfix t s l0).1 = true ↔ ∃ l, operator_find t s = some (l, 0)) ∧
    (( operator_find_infix t s l0 r0).1 = true ↔
      ∃ l r, operator_find t s = some (l, r) ∧ l ≠ 0 ∧ r ≠ 0) ∧
    (∀ l r, operator_find t s = some (l, r) → (l, r) ≠ (0, 0) →
      (( operator_find_prefix t s r0).1 = true ∧ ( operator_find_postfix t s l0).1 = false ∧
          ( operator_find_infix t s l0 r0).1 = false) ∨
      (( operator_find_prefix t s r0).1 = false ∧ ( operator_find_postfix t s l0).1 = true ∧
          ( operator_find_infix t s l0 r0).1 = false) ∨
      (( operator_find_prefix t s r0).1 = false ∧ ( operator_find_postfix t s l0).1 = false ∧
          ( operator_find_infix t s l0 r0).1 = true)) ∧
    (operator_find t s = some (0, 0) →
      ( operator_find_prefix t s r0).1 = true ∧ ( operator_find_postfix t s l0).1 = true ∧
        ( operator_find_infix t s l0 r0).1 = false) := by
  cases h : operator_find t s with
  | none => simp [ operator_find_prefix, operator_find_postfix, operator_find_infix, h]
  | some pr =>
    obtain ⟨l, r⟩ := pr
    refine ⟨?_, ?_, ?_, ?_, ?_⟩
    · simp only [ operator_find_prefix, h, decide_eq_true_eq, Option.some.injEq, Prod.mk.injEq]
      constructor
      · intro hl; exact ⟨r, hl, rfl⟩
      · rintro ⟨_, hl, _⟩; exact hl
    · simp only [ operator_find_postfix, h, decide_eq_true_eq, Option.some.injEq, Prod.mk.injEq]
      constructor
      · intro hr; exact ⟨l, rfl, hr⟩
      · rintro ⟨_, _, hr⟩; exact hr
    · simp only [ operator_find_infix, h, Bool.and_eq_true, decide_eq_true_eq,
        Option.some.injEq, Prod.mk.injEq]
      constructor
      · intro hlr; exact ⟨l, r, ⟨rfl, rfl⟩, hlr.1, hlr.2⟩
      · rintro ⟨_, _, ⟨rfl, rfl⟩, h1, h2⟩; exact ⟨h1, h2⟩
    · intro l1 r1 heq hne
      simp only [Option.some.injEq, Prod.mk.injEq] at heq
      obtain ⟨rfl, rfl⟩ := heq
      simp only [ operator_find_prefix, operator_find_postfix, operator_find_infix, h]
      by_cases hl : l = 0 <;> by_cases hr : r = 0 <;> simp_all
    · intro heq
      simp only [Option.some.injEq, Prod.mk.injEq] at heq
      obtain ⟨rfl, rfl⟩ := heq
      simp [ operator_find_prefix, operator_find_postfix, operator_find_infix, h]

set_option maxRecDepth 100000 in
/-- After the prelude `op [0, 0] a % b = a`, which parses without error, `%` is bound with
the pair `(0, 0)`: `operator_find_prefix` returns true although the right power is 0,
`operator_find_postfix` returns true although the left power is 0, and two of the three role
queries hold at once. -/
theorem role_queries_zero_pair_counterexample :
    zero_override_state.result = 0 ∧
    operator_find zero_override_state.operators [37] = some (0, 0) ∧
    ( operator_find_prefix zero_override_state.operators [37] 0).1 = true ∧
    ( operator_find_postfix zero_override_state.operators [37] 0).1 = true :=
  ⟨by decide!, by decide!, by decide!, by decide!⟩

/-- C22. Environment capacity, at an environment that has seen 1024 definitions of the one
name `x`: a single slot is occupied, so the environment binds one name, yet the use counter
stands at 1024 and `tex_env_define` returns false for every name and value, `x` itself
included, leaving the map as it was. -/
theorem rebinding_exhausts_capacity (name : cstring) (value : tex_value) :
    rebound_table.count = 1 ∧ rebound_table.size = 1024 ∧ rebound_table.used = 1024 ∧
    (tex_env_define (.root rebound_table) name value).1 = false ∧
    (tex_env_define (.root rebound_table) name value).2 = .root rebound_table := by
  refine ⟨?_, by rw [rebound_table_shape], by rw [rebound_table_shape], ?_, ?_⟩
  · rw [rebound_table_shape]
    exact tex_table_count_single [120] _ 1024 _ (hash_slot_lt (some [120]))
  · rw [tex_env_define_root, rebound_table_define]
  · rw [tex_env_define_root, rebound_table_define]

set_option maxRecDepth 100000 in
/-- C23. Matrix literal, at the brace literal `{1, 2}`: it parses without error to the
matrix of width 2 and height 1 with the cells 1 and 2 in source order, and its recorded
delimiter is `QM_TOKEN_LBRACKET`, the kind of an opening bracket, not `QM_TOKEN_LBRACE`. -/
theorem brace_literal_records_bracket :
    ∃ p1, parse_expression 10 brace_literal_state .NONE
        = some (true, p1, .MATRIX 2 1 qm_token_type.LBRACKET.code [.NUMBER 1, .NUMBER 2]) ∧
      p1.result = 0 ∧ p1.token.type = .EOF ∧
      qm_token_type.LBRACKET.code ≠ qm_token_type.LBRACE.code :=
  ⟨_, parse_result_eq (parse_expression 10 brace_literal_state .NONE) (by decide!) true
      (.MATRIX 2 1 qm_token_type.LBRACKET.code [.NUMBER 1, .NUMBER 2]) (by decide!)
      (by decide!),
    by decide!, by decide!, by decide⟩

/-- C24. Word tokens and keywords. The buffer holds `size` bytes; from the current position
on it reads the spaces and tabs `ws`, then a letter or underscore `c`, then the letters,
digits and underscores `body`, and the run is maximal: what follows is no letter, digit or
underscore, or the data ends. Then `tokenize` returns true with one token that starts at `c`
and moves the buffer position just past `body`; the kind of the token is `VAR`, `FN`, `OP`,
`OPR` or `OPP` exactly when the run is `var`, `fn`, `op`, `opr` or `opp`, and `IDENTIFIER`
for every other run. -/
theorem word_tokens (b : qm_buffer) (ws body post : List Nat) (c : Nat)
    (hdata : b.data.drop b.start = ws ++ c :: body ++ post)
    (hsize : b.size = b.data.length)
    (hws : ∀ x ∈ ws, is_whitespace x = true)
    (hc : is_alpha c = true ∨ c = 95)
    (hbody : ∀ x ∈ body, is_digit x = true ∨ is_alpha x = true ∨ x = 95)
    (hpost : ∀ x rest, post = x :: rest → is_digit x = false ∧ is_alpha x = false ∧ x ≠ 95) :
    ∃ type, tokenize b
        = (true, { b with start := b.start + ws.length + (c :: body).length },
            { type := type, start := b.start + ws.length }) ∧
      (type = .VAR ↔ c :: body = [118, 97, 114]) ∧ (type = .FN ↔ c :: body = [102, 110]) ∧
      (type = .OP ↔ c :: body = [111, 112]) ∧ (type = .OPR ↔ c :: body = [111, 112, 114]) ∧
      (type = .OPP ↔ c :: body = [111, 112, 112]) ∧
      (type = .IDENTIFIER ↔
        c :: body ≠ [118, 97, 114] ∧ c :: body ≠ [102, 110] ∧ c :: body ≠ [111, 112] ∧
          c :: body ≠ [111, 112, 114] ∧ c :: body ≠ [111, 112, 112]) :=
  ⟨word_kind (c :: body), tokenize_word b ws body post c hdata hsize hws hc hbody hpost,
    word_kind_cases (c :: body)⟩

theorem word_tokens_witness :
    (∃ type, tokenize ⟨[32, 32, 111, 112, 120, 32], 6, 0⟩
        = (true, ⟨[32, 32, 111, 112, 120, 32], 6, 0 + [32, 32].length + [111, 112, 120].length⟩,
            { type := type, start := 0 + [32, 32].length }) ∧
      (type = .VAR ↔ [111, 112, 120] = [118, 97, 114]) ∧
      (type = .FN ↔ [111, 112, 120] = [102, 110]) ∧
      (type = .OP ↔ [111, 112, 120] = [111, 112]) ∧
      (type = .OPR ↔ [111, 112, 120] = [111, 112, 114]) ∧
      (type = .OPP ↔ [111, 112, 120] = [111, 112, 112]) ∧
      (type = .IDENTIFIER ↔
        [111, 112, 120] ≠ [118, 97, 114] ∧ [111, 112, 120] ≠ [102, 110] ∧
          [111, 112, 120] ≠ [111, 112] ∧ [111, 112, 120] ≠ [111, 112, 114] ∧
          [111, 112, 120] ≠ [111, 112, 112])) ∧
    tokenize ⟨[32, 32, 111, 112, 120, 32], 6, 0⟩
      = (true, ⟨[32, 32, 111, 112, 120, 32], 6, 5⟩, ⟨.IDENTIFIER, 2⟩) :=
  ⟨word_tokens ⟨[32, 32, 111, 112, 120, 32], 6, 0⟩ [32, 32] [112, 120] [32] 111 rfl rfl
    (by decide) (by decide) (by decide)
    (fun x rest h => by
      simp only [List.cons.injEq] at h
      obtain ⟨rfl, _⟩ := h
      decide),
   by decide⟩

/-- C25. Symbol-run identifiers, as the code reads them. The buffer holds `size` bytes; from
the current position on it reads the spaces and tabs `ws`, then a byte `c` that is no NUL,
letter, underscore, digit or separator byte, then the bytes `body`, none of which is a NUL, a
digit, a letter or a separator byte, and the run is maximal: what follows is a NUL, a digit,
a letter or a separator byte, or the data ends. The separator bytes are the ten bytes
`( ) [ ] { } ,` newline, double quote, backtick, and the space and the tab. Then `tokenize`
returns true with one `IDENTIFIER` token that starts at `c` and moves the buffer position
just past `body`. -/
theorem symbol_run_tokens (b : qm_buffer) (ws body post : List Nat) (c : Nat)
    (hdata : b.data.drop b.start = ws ++ c :: body ++ post)
    (hsize : b.size = b.data.length)
    (hws : ∀ x ∈ ws, is_whitespace x = true)
    (hc : c ≠ 0 ∧ is_alpha c = false ∧ c ≠ 95 ∧ is_digit c = false ∧
      is_listed_separator c = false ∧ c ≠ 32 ∧ c ≠ 9)
    (hbody : ∀ x ∈ body, x ≠ 0 ∧ is_digit x = false ∧ is_alpha x = false ∧
      is_listed_separator x = false ∧ x ≠ 32 ∧ x ≠ 9)
    (hpost : ∀ x rest, post = x :: rest →
      x = 0 ∨ is_digit x = true ∨ is_alpha x = true ∨ is_listed_separator x = true ∨
        x = 32 ∨ x = 9) :
    tokenize b
      = (true, { b with start := b.start + ws.length + (c :: body).length },
          { type := .IDENTIFIER, start := b.start + ws.length }) := by
  have hsep : ∀ x, is_separator x = (is_listed_separator x || decide (x = 32) || decide (x = 9)) := by
    intro x
    simp only [is_separator, is_listed_separator]
    by_cases h1 : x = 40 <;> by_cases h2 : x = 41 <;> by_cases h3 : x = 91 <;>
      by_cases h4 : x = 93 <;> simp [h1, h2, h3, h4]
  refine tokenize_symbols b ws body post c hdata hsize hws ?_ ?_ ?_
  · obtain ⟨h0, h1, h2, h3, h4, h5, h6⟩ := hc
    exact ⟨h0, h1, h2, h3, by rw [hsep]; simp [h4, h5, h6]⟩
  · intro x hx
    obtain ⟨h0, h1, h2, h3, h4, h5⟩ := hbody x hx
    exact ⟨h0, h1, h2, by rw [hsep]; simp [h3, h4, h5]⟩
  · intro x rest hx
    rcases hpost x rest hx with h | h | h | h | h | h
    · exact Or.inl h
    · exact Or.inr (Or.inl h)
    · exact Or.inr (Or.inr (Or.inl h))
    · exact Or.inr (Or.inr (Or.inr (by rw [hsep]; simp [h])))
    · exact Or.inr (Or.inr (Or.inr (by rw [hsep]; simp [h])))
    · exact Or.inr (Or.inr (Or.inr (by rw [hsep]; simp [h])))

theorem symbol_run_tokens_witness :
    tokenize ⟨[60, 61, 32, 120], 4, 0⟩
      = (true, ⟨[60, 61, 32, 120], 4, 0 + ([] : List Nat).length + [60, 61].length⟩,
          { type := .IDENTIFIER, start := 0 + ([] : List Nat).length }) :=
  symbol_run_tokens ⟨[60, 61, 32, 120], 4, 0⟩ [] [61] [32, 120] 60 rfl rfl
    (by decide) (by decide) (by decide)
    (fun x rest h => by
      simp only [List.cons.injEq] at h
      obtain ⟨rfl, _⟩ := h
      decide)

/-- In the source `<= x` the first byte is no letter, underscore, digit or listed separator
byte, and the longest run of bytes that are no digit, no letter and none of the ten listed
separator bytes is the three bytes `<= ` (with the space); `tokenize` ends the identifier
after the two bytes `<=`. -/
theorem symbol_run_space_counterexample :
    is_alpha 60 = false ∧ is_digit 60 = false ∧ is_listed_separator 60 = false ∧
    listed_symbol_run [60, 61, 32, 120] = 3 ∧
    tokenize ⟨[60, 61, 32, 120], 4, 0⟩
      = (true, ⟨[60, 61, 32, 120], 4, 2⟩, ⟨.IDENTIFIER, 0⟩) := by
  decide

/-- C26. String tokens, as the code reads them. The buffer holds `size` bytes; from the
current position on it reads the spaces and tabs `ws`, then the quote `q` (a double quote or
a backtick), then the bytes `body`, none of which is a NUL or `q`, then `q` again. Then
`tokenize` returns true with one token, `STRING` for a double quote and `RAW_STRING` for a
backtick, that starts at the first `q` and extends through the second one: a backslash in
`body` has no effect on where the token ends. -/
theorem string_tokens (b : qm_buffer) (ws body post : List Nat) (q : Nat)
    (hq : q = 34 ∨ q = 96)
    (hdata : b.data.drop b.start = ws ++ q :: body ++ q :: post)
    (hsize : b.size = b.data.length)
    (hws : ∀ x ∈ ws, is_whitespace x = true)
    (hbody : ∀ x ∈ body, x ≠ 0 ∧ x ≠ q) :
    tokenize b
      = (true, { b with start := b.start + ws.length + (body.length + 2) },
          { type := if q = 34 then .STRING else .RAW_STRING, start := b.start + ws.length }) :=
  tokenize_string b ws body post q hq hdata hsize hws hbody

theorem string_tokens_witness :
    tokenize ⟨[34, 97, 92, 34, 98, 34], 6, 0⟩
      = (true, ⟨[34, 97, 92, 34, 98, 34], 6, 0 + ([] : List Nat).length + ([97, 92].length + 2)⟩,
          { type := if 34 = 34 then .STRING else .RAW_STRING,
            start := 0 + ([] : List Nat).length }) :=
  string_tokens ⟨[34, 97, 92, 34, 98, 34], 6, 0⟩ [] [97, 92] [98, 34] 34 (Or.inl rfl) rfl rfl
    (by decide) (by decide)

/-- For the source `"a\"b"` of six bytes the token ends after the fourth byte, the quote
that follows the backslash: it does not cover all six bytes. -/
theorem string_escape_counterexample :
    tokenize ⟨[34, 97, 92, 34, 98, 34], 6, 0⟩
      = (true, ⟨[34, 97, 92, 34, 98, 34], 6, 4⟩, ⟨.STRING, 0⟩) ∧ 4 ≠ 6 := by
  decide

/-- C27. Tie-break in unary parsing. The parser has read its first token, the error flag is
clear and the current token is the identifier `name`. When the operator table holds `name`
with a pair `(l, r)` that is not a prefix entry (`l ≠ 0` or `r = 0`), `parse_unary_expression`
returns false. When the table has no entry for `name`, it returns true with the variable
`name`. When the table holds `name` with a prefix entry `(0, r)`, `r ≠ 0`, it returns true
with the call of the variable `name` to the argument that `parse_expression_` reads after the
identifier at the binding power `r` (setting the error flag when that parse fails), for every
fuel of at least five times the measure of the parser plus six. -/
theorem unary_tie_break (p : qm_parser_state) (name : List Nat) (e : qm_expression)
    (hi : p.is_initialized = true) (hr : p.result = 0)
    (ht : p.token.type = .IDENTIFIER) (hn : peek_identifier p = some name) :
    (∀ l r, operator_find p.operators name = some (l, r) → l ≠ 0 ∨ r = 0 →
      ∀ k, parse_unary_expression (k + 2) p e = some (false, p.advance, .VARIABLE name)) ∧
    (operator_find p.operators name = none →
      ∀ k, parse_unary_expression (k + 2) p e = some (true, p.advance, .VARIABLE name)) ∧
    (∀ r, operator_find p.operators name = some (0, r) → r ≠ 0 →
      ∀ k, 5 * p.measure + 4 ≤ k →
        ∃ ok p1 arg, parse_expression_ (k + 1) p.advance .NONE r = some (ok, p1, arg) ∧
          parse_unary_expression (k + 2) p e
            = some (true, if ok = true then p1 else parser_error p1,
                .CALL (.VARIABLE name) arg)) := by
  refine ⟨?_, ?_, ?_⟩
  · intro l r hf hlr k
    exact parse_unary_other_entry k p e name l r hi hr ht hn hf hlr
  · intro hf k
    exact parse_unary_variable k p e name hi hr ht hn hf
  · intro r hf hr0 k hk
    have hm := advance_measure_le p hi
    obtain ⟨res, h1, _⟩ := (parser_returns p.measure).2.2.2.2 p.advance .NONE r (k + 1) hm
      (by omega)
    obtain ⟨ok, p1, arg⟩ := res
    exact ⟨ok, p1, arg, h1, parse_unary_prefix_call k p e name r hi hr ht hn hf hr0 ok p1 arg h1⟩

set_option maxRecDepth 100000 in
theorem unary_tie_break_witness :
    (∀ l r, operator_find (plus_times_state.load [43]).operators [43] = some (l, r) →
      l ≠ 0 ∨ r = 0 →
      ∀ k, parse_unary_expression (k + 2) (plus_times_state.load [43]) .NONE
        = some (false, (plus_times_state.load [43]).advance, .VARIABLE [43])) ∧
    (operator_find (plus_times_state.load [43]).operators [43] = none →
      ∀ k, parse_unary_expression (k + 2) (plus_times_state.load [43]) .NONE
        = some (true, (plus_times_state.load [43]).advance, .VARIABLE [43])) ∧
    (∀ r, operator_find (plus_times_state.load [43]).operators [43] = some (0, r) → r ≠ 0 →
      ∀ k, 5 * (plus_times_state.load [43]).measure + 4 ≤ k →
        ∃ ok p1 arg,
          parse_expression_ (k + 1) (plus_times_state.load [43]).advance .NONE r
            = some (ok, p1, arg) ∧
          parse_unary_expression (k + 2) (plus_times_state.load [43]) .NONE
            = some (true, if ok = true then p1 else parser_error p1,
                .CALL (.VARIABLE [43]) arg)) :=
  unary_tie_break (plus_times_state.load [43]) [43] .NONE (by decide!) (by decide!)
    (by decide!) (by decide!)

/-- C28. Sticky error mode, as the code has it. The parser has read its first token and its
error flag is set. Then the flag is still set after `expect`, `expect_identifier`,
`parse_expression`, `parse_definition` and `parse_statement`, whenever they return. Every
`expect(kind)` succeeds whatever the current token is: `accept` returns true, the parser has
read the next token and no diagnostic has been added. `expect_identifier(spelling)` does not
look at the flag: it reads the next token only when the current token is an identifier with
that spelling, and otherwise, in particular at every token that is no identifier, it leaves
the token and the buffer where they were and reports one more diagnostic. -/
theorem sticky_error_mode (p : qm_parser_state) (hi : p.is_initialized = true)
    (herr : p.result ≠ 0) :
    (∀ ty, (expect p ty).result ≠ 0) ∧ (∀ s, (expect_identifier p s).result ≠ 0) ∧
    (∀ fuel e r, parse_expression fuel p e = some r → r.2.1.result ≠ 0) ∧
    (∀ fuel d r, parse_definition fuel p d = .ok r → r.2.1.result ≠ 0) ∧
    (∀ fuel stmt r, parse_statement fuel p stmt = .ok r → r.2.1.result ≠ 0) ∧
    (∀ ty, accept p ty = (true, p.advance) ∧ expect p ty = p.advance ∧
      (expect p ty).diagnostics = p.diagnostics) ∧
    (∀ s, ((accept_identifier p s).1 = true → expect_identifier p s = p.advance) ∧
      ((accept_identifier p s).1 = false →
        expect_identifier p s = parser_error p ∧ (expect_identifier p s).token = p.token ∧
          (expect_identifier p s).buffer = p.buffer ∧
          (expect_identifier p s).diagnostics = p.diagnostics + 1)) ∧
    (p.token.type ≠ .IDENTIFIER → ∀ s, (accept_identifier p s).1 = false) := by
  refine ⟨fun ty => keeps_error_expect p ty herr,
    fun s => keeps_error_expect_identifier p s herr,
    fun fuel e r h => keeps_error_parse_expression fuel p e r h herr,
    fun fuel d r h => parse_definition_keeps_error fuel p d r herr h,
    fun fuel stmt r h => parse_statement_keeps_error fuel p stmt r herr h, ?_, ?_, ?_⟩
  · intro ty
    refine ⟨accept_sticky p ty hi herr, expect_sticky p ty hi herr, ?_⟩
    rw [expect_sticky p ty hi herr]
    rfl
  · intro s
    obtain ⟨h1, h2⟩ := expect_identifier_cases p s
    refine ⟨fun h => ?_, fun h => ?_⟩
    · rw [h1 h, accept_sticky p .IDENTIFIER hi herr]
    · rw [h2 h]
      exact ⟨rfl, rfl, rfl, rfl⟩
  · intro ht s
    rw [accept_identifier_other p s ht]

set_option maxRecDepth 100000 in
theorem sticky_error_mode_witness :
    (∀ ty, (expect sticky_state ty).result ≠ 0) ∧
    (∀ s, (expect_identifier sticky_state s).result ≠ 0) ∧
    (∀ fuel e r, parse_expression fuel sticky_state e = some r → r.2.1.result ≠ 0) ∧
    (∀ fuel d r, parse_definition fuel sticky_state d = .ok r → r.2.1.result ≠ 0) ∧
    (∀ fuel stmt r, parse_statement fuel sticky_state stmt = .ok r → r.2.1.result ≠ 0) ∧
    (∀ ty, accept sticky_state ty = (true, sticky_state.advance) ∧
      expect sticky_state ty = sticky_state.advance ∧
      (expect sticky_state ty).diagnostics = sticky_state.diagnostics) ∧
    (∀ s, ((accept_identifier sticky_state s).1 = true →
        expect_identifier sticky_state s = sticky_state.advance) ∧
      ((accept_identifier sticky_state s).1 = false →
        expect_identifier sticky_state s = parser_error sticky_state ∧
          (expect_identifier sticky_state s).token = sticky_state.token ∧
          (expect_identifier sticky_state s).buffer = sticky_state.buffer ∧
          (expect_identifier sticky_state s).diagnostics = sticky_state.diagnostics + 1)) ∧
    (sticky_state.token.type ≠ .IDENTIFIER → ∀ s, (accept_identifier sticky_state s).1 = false) :=
  sticky_error_mode sticky_state (by decide!) (by decide!)

set_option maxRecDepth 100000 in
/-- Inside `var 1 = 2`, after the missing name has been reported, the error flag is set and
the current token is the number `1`: `expect_identifier("=")` does not read the next token
and reports a second diagnostic. -/
theorem sticky_expect_identifier_counterexample :
    sticky_state.result ≠ 0 ∧ sticky_state.diagnostics = 1 ∧
    sticky_state.token = ⟨.NUMBER, 4⟩ ∧
    (expect_identifier sticky_state (some [61])).token = ⟨.NUMBER, 4⟩ ∧
    (expect_identifier sticky_state (some [61])).buffer = sticky_state.buffer ∧
    (expect_identifier sticky_state (some [61])).diagnostics = 2 :=
  ⟨by decide!, by decide!, by decide!, by decide!, by decide!, by decide!⟩

set_option maxRecDepth 100000 in
/-- C29. The statement loop at the end of the input, after the malformed statement `(` on a
line of its own: the first round has set the error flag and reached the end of the input;
from there `parse_statement` returns true, with the statement kind `NONE` and the parser
unchanged, at every call, so the loop of `main` never sees it return false. -/
theorem statement_loop_spins (fuel n : Nat) (stmt : qm_statement) :
    malformed_statement_state.token.type = .EOF ∧
    malformed_statement_state.buffer.start = malformed_statement_state.buffer.size ∧
    malformed_statement_state.result ≠ 0 ∧
    parse_statement fuel malformed_statement_state stmt
      = .ok (true, malformed_statement_state, .NONE) ∧
    parse_statements fuel n malformed_statement_state = malformed_statement_state := by
  have hi : malformed_statement_state.is_initialized = true := by decide!
  have herr : malformed_statement_state.result ≠ 0 := by decide!
  have hadv : malformed_statement_state.advance = malformed_statement_state :=
    advance_fixed _ (by decide!) (by decide!)
  refine ⟨by decide!, by decide!, herr, ?_, parse_statements_fixed fuel _ hi herr hadv n⟩
  rw [parse_statement_sticky fuel _ stmt hi herr, hadv]

/-- C30. The lexer and the end of the buffer, at the buffer that holds the two bytes `"a`, a
string whose closing quote is missing: `tokenize` returns a `STRING` token and leaves the
buffer position at 3, past the size 2 of the buffer; the next call does not find the position
equal to the size, reads the byte at index 3 and returns true again, with the position still
at 3. The same happens for the raw string of the two bytes of a backtick and `a`. -/
theorem unterminated_string_overruns :
    tokenize ⟨[34, 97], 2, 0⟩ = (true, ⟨[34, 97], 2, 3⟩, ⟨.STRING, 0⟩) ∧
    tokenize ⟨[34, 97], 2, 3⟩ = (true, ⟨[34, 97], 2, 3⟩, ⟨.EOF, 3⟩) ∧
    tokenize ⟨[96, 97], 2, 0⟩ = (true, ⟨[96, 97], 2, 3⟩, ⟨.RAW_STRING, 0⟩) ∧
    ¬ (3 ≤ 2) := by
  decide

/-! ## What a failed unary parse has consumed -/

theorem outcome_result_eq {α : Type} (o : Outcome α) (a : α) (h : o.result = some a) :
    o = .ok a := by
  cases o with
  | ok b =>
    simp only [Outcome.result, Option.some.injEq] at h
    rw [h]
  | abort => simp [Outcome.result] at h
  | fuel => simp [Outcome.result] at h

theorem as_definition_eq (s : qm_statement) (d : qm_definition)
    (h : s.as_definition = some d) : s = .DEFINITION d := by
  cases s with
  | DEFINITION d1 =>
    simp only [qm_statement.as_definition, Option.some.injEq] at h
    rw [h]
  | NONE => simp [qm_statement.as_definition] at h
  | EXPRESSION e => simp [qm_statement.as_definition] at h

/-- When none of the three opening delimiters is accepted, the parser is where it was, its
error flag is clear and the current token is no opening delimiter. -/
theorem parse_matrix_open_none (p p1 : qm_parser_state) (hi : p.is_initialized = true)
    (h : parse_matrix_open p = (p1, none)) :
    p1 = p ∧ p.result = 0 ∧ p.token.type ≠ .LPAREN ∧ p.token.type ≠ .LBRACKET ∧
      p.token.type ≠ .LBRACE := by
  unfold parse_matrix_open at h
  rw [accept_of_initialized p .LPAREN hi] at h
  by_cases c1 : p.result ≠ 0 ∨ p.token.type = .LPAREN
  · rw [if_pos c1] at h
    simp at h
  · rw [if_neg c1] at h
    simp only [] at h
    rw [accept_of_initialized p .LBRACKET hi] at h
    by_cases c2 : p.result ≠ 0 ∨ p.token.type = .LBRACKET
    · rw [if_pos c2] at h
      simp at h
    · rw [if_neg c2] at h
      simp only [] at h
      rw [accept_of_initialized p .LBRACE hi] at h
      by_cases c3 : p.result ≠ 0 ∨ p.token.type = .LBRACE
      · rw [if_pos c3] at h
        simp at h
      · rw [if_neg c3] at h
        simp only [Prod.mk.injEq, and_true] at h
        simp only [not_or, ne_eq, not_not] at c1 c2 c3
        exact ⟨h.symm, c1.1, c1.2, c2.2, c3.2⟩

/-- The two ways in which `parse_unary_expression` returns false, on a parser that has read
its first token: the error flag is clear, and either nothing begins an expression at the
current token, and then the parser and the out-parameter are untouched, or the current token
is an identifier with an operator-table entry that is no prefix entry, and then the
identifier has been consumed. -/
theorem parse_unary_false_cases (k : Nat) (p q : qm_parser_state) (e e1 : qm_expression)
    (hi : p.is_initialized = true)
    (h : parse_unary_expression k p e = some (false, q, e1)) :
    p.result = 0 ∧
    ((q = p ∧ e1 = e ∧ p.token.type ≠ .IDENTIFIER) ∨
      (∃ name l r, p.token.type = .IDENTIFIER ∧ peek_identifier p = some name ∧
        operator_find p.operators name = some (l, r) ∧ (l ≠ 0 ∨ r = 0) ∧
        q = p.advance ∧ e1 = .VARIABLE name)) := by
  cases k with
  | zero => simp [parse_unary_expression] at h
  | succ k =>
    cases k with
    | zero => simp [parse_unary_expression, parse_matrix] at h
    | succ k =>
      unfold parse_unary_expression at h
      unfold parse_matrix at h
      cases hopen : parse_matrix_open p with
      | mk p1 o =>
        rw [hopen] at h
        cases o with
        | some dc =>
          exfalso
          simp only [] at h
          split at h
          · simp at h
          · simp at h
          · rename_i heq
            split at heq <;> simp at heq
        | none =>
          obtain ⟨rfl, hr, _, _, _⟩ := parse_matrix_open_none p p1 hi hopen
          refine ⟨hr, ?_⟩
          simp only [] at h
          unfold parse_identifier at h
          cases hpk : peek_identifier p1 with
          | some name =>
            have ht : p1.token.type = .IDENTIFIER := by
              by_contra hne
              simp [peek_identifier, hne] at hpk
            rw [hpk] at h
            simp only [] at h
            rw [accept_hit p1 .IDENTIFIER hi ht] at h
            simp only [] at h
            have hops : p1.advance.operators = p1.operators := rfl
            rw [hops] at h
            cases hf : operator_find p1.operators name with
            | none => simp [hf] at h
            | some pr =>
              obtain ⟨l, r⟩ := pr
              rw [hf] at h
              simp only [Option.getD_some, Option.isSome_some, Bool.true_and] at h
              by_cases hpre : (decide (l = 0) && decide (r ≠ 0)) = true
              · rw [if_pos hpre] at h
                exfalso
                split at h
                · simp at h
                · simp at h
                · simp at h
              · rw [if_neg hpre] at h
                simp only [if_true, Option.some.injEq, Prod.mk.injEq, true_and] at h
                refine Or.inr ⟨name, l, r, ht, rfl, hf, ?_, h.1.symm, h.2.symm⟩
                simp only [Bool.and_eq_true, decide_eq_true_eq, ne_eq, not_and, not_not] at hpre
                by_cases hl : l = 0
                · exact Or.inr (hpre hl)
                · exact Or.inl hl
          | none =>
            have ht : p1.token.type ≠ .IDENTIFIER := by
              intro heq
              simp [peek_identifier, heq] at hpk
            rw [hpk] at h
            simp only [] at h
            unfold parse_number parse_string parse_raw_string at h
            by_cases hn : p1.token.type = .NUMBER
            · simp [hn] at h
            · by_cases hs : p1.token.type = .STRING
              · simp [hn, hs] at h
              · by_cases hrs : p1.token.type = .RAW_STRING
                · simp [hn, hs, hrs] at h
                · simp only [hn, hs, hrs, if_false, Option.some.injEq, Prod.mk.injEq,
                    true_and] at h
                  exact Or.inl ⟨h.1.symm, h.2.symm, ht⟩

/-- `parse_expression_` returns false exactly when its first unary parse does, and hands
back what that parse left. -/
theorem parse_expression_false (k : Nat) (p q : qm_parser_state) (lhs e1 : qm_expression)
    (bp : Int) (h : parse_expression_ (k + 1) p lhs bp = some (false, q, e1)) :
    parse_unary_expression k p lhs = some (false, q, e1) := by
  unfold parse_expression_ at h
  split at h
  · simp at h
  · rename_i heq
    rw [heq, h]
  · split at h
    · simp at h
    · simp at h

theorem parse_expression_of_unary_false (k : Nat) (p q : qm_parser_state)
    (lhs e1 : qm_expression) (bp : Int)
    (h : parse_unary_expression k p lhs = some (false, q, e1)) :
    parse_expression_ (k + 1) p lhs bp = some (false, q, e1) := by
  unfold parse_expression_
  rw [h]

/-- A statement result that is a definition, read off its components. -/
theorem statement_result_eq (o : Outcome (Bool × qm_parser_state × qm_statement))
    (h : o.result.isSome = true) (h1 : (o.result.get h).1 = true)
    (h2 : (o.result.get h).2.2.as_definition.isSome = true) :
    o = .ok (true, (o.result.get h).2.1,
      .DEFINITION ((o.result.get h).2.2.as_definition.get h2)) := by
  have e1 := outcome_result_eq o _ (Option.some_get h).symm
  have e2 := as_definition_eq _ _ (Option.some_get h2).symm
  rw [← e2, ← h1]
  exact e1

/-! ## Claim C31 -/

set_option maxRecDepth 100000 in
/-- C31. Failed unary parsing, at the second line of the prelude `op a + b = a`,
`+ var x = 1`: the current token is the identifier `+`, which the table holds as an infix
operator, and the error flag is clear. `parse_unary_expression` and `parse_expression` return
false and leave the parser at the next token `var`, with the buffer position behind it and no
diagnostic: the `+` has been consumed. `parse_statement` then falls back to
`parse_definition` at `var` and returns true with the definition of `x`, without error and
without diagnostic, so the `+` is skipped silently. -/
theorem failed_unary_consumes_operator :
    leading_operator_state.is_initialized = true ∧ leading_operator_state.result = 0 ∧
    leading_operator_state.token = ⟨.IDENTIFIER, 13⟩ ∧
    leading_operator_state.buffer.start = 14 ∧
    operator_find leading_operator_state.operators [43] = some (1, 2) ∧
    (∃ q, parse_unary_expression 9 leading_operator_state .NONE
        = some (false, q, .VARIABLE [43]) ∧
      parse_expression 10 leading_operator_state .NONE = some (false, q, .VARIABLE [43]) ∧
      q.token = ⟨.VAR, 15⟩ ∧ q.buffer.start = 18 ∧ q.result = 0 ∧ q.diagnostics = 0) ∧
    (∃ q d, parse_statement 10 leading_operator_state .NONE = .ok (true, q, .DEFINITION d) ∧
      d.name = some [120] ∧ d.parameters = [] ∧ q.token.type = .EOF ∧ q.result = 0 ∧
      q.diagnostics = 0) :=
  ⟨by decide!, by decide!, by decide!, by decide!, by decide!,
    ⟨_, parse_result_eq (parse_unary_expression 9 leading_operator_state .NONE) (by decide!)
        false (.VARIABLE [43]) (by decide!) (by decide!),
      parse_expression_of_unary_false 9 leading_operator_state _ .NONE (.VARIABLE [43]) 0
        (parse_result_eq (parse_unary_expression 9 leading_operator_state .NONE) (by decide!)
          false (.VARIABLE [43]) (by decide!) (by decide!)),
      by decide!, by decide!, by decide!, by decide!⟩,
    ⟨_, _, statement_result_eq (parse_statement 10 leading_operator_state .NONE) (by decide!)
        (by decide!) (by decide!),
      by decide!, by decide!, by decide!, by decide!, by decide!⟩⟩

end Qm
